import Mathlib

/-!
# BTree_Lab: a disk-resident B-tree index over a block store

A shallow embedding of `src/btree.cc` (class `BTreeIndex`).  The types `SIZE_T`, `KEY_T`
and `VALUE_T` of the source are all rendered as `Nat`: a key stands for a fixed-width byte
string, ordered the way `KEY_T::operator<` orders them, a value for a fixed-width byte
string, and a block number is an index into the block store.

Conventions of the embedding

* A C++ function with reference parameters returns the new values of those parameters
  next to its return code.
* A return code of type `Option ERROR_T` is `none` when control reaches the closing brace
  of a function that is declared to return `ERROR_T` without passing a `return` statement
  (`insert_Not_Full`, `split_Leaf`, `split_Internal`, `Insert`, ... end that way on their
  normal path).
* Every operation runs in `Except Fault`: a `Fault` is a failed `assert`, the use of an
  object that was never given a value (an ignored failing read, `back()` of an empty vector),
  or the exhaustion of the recursion budget of a traversal that follows on-disk pointers.
-/

namespace BTreeLab

/-- Error codes used by `btree.cc`; `ERROR_GENERAL` stands for any error reported by the
block store itself. -/
inductive ERROR_T where
  | ERROR_NOERROR
  | ERROR_NOSPACE
  | ERROR_NONEXISTENT
  | ERROR_INSANE
  | ERROR_INSERT
  | ERROR_UNIMPL
  | ERROR_GENERAL
  deriving DecidableEq

/-- Node type tags. -/
inductive NodeType where
  | BTREE_UNALLOCATED_BLOCK
  | BTREE_SUPERBLOCK
  | BTREE_ROOT_NODE
  | BTREE_INTERIOR_NODE
  | BTREE_LEAF_NODE
  deriving DecidableEq

inductive BTreeOp where
  | BTREE_OP_LOOKUP
  | BTREE_OP_UPDATE
  deriving DecidableEq

inductive BTreeDisplayType where
  | BTREE_DEPTH
  | BTREE_DEPTH_DOT
  | BTREE_SORTED_KEYVAL
  deriving DecidableEq

/-- Ways an operation can end without returning to its caller in a defined state. -/
inductive Fault where
  | assertion
  | undefined
  | fuel
  deriving DecidableEq

/-- Header of a block (`b.info` in the source). -/
structure NodeMetadata where
  nodetype : NodeType
  keysize : Nat
  valuesize : Nat
  blocksize : Nat
  rootnode : Nat
  freelist : Nat
  numkeys : Nat
  deriving DecidableEq

/-- Modelled from the spec: the slot-count functions of the node codec
(`GetNumSlotsAsLeaf`, `GetNumSlotsAsInterior`), which are declared outside `btree.cc`.
They compute the number of slots of a node from its header. -/
structure SlotGeometry where
  GetNumSlotsAsLeaf : NodeMetadata → Nat
  GetNumSlotsAsInterior : NodeMetadata → Nat

/-- Modelled from the spec: the structured contents of one block, a header and the slots.
A leaf has key/value slots and the pointer slot 0; an interior or root node has key slots
and one pointer slot more than key slots; the other types are header only. -/
structure BTreeNode where
  info : NodeMetadata
  keys : List Nat
  vals : List Nat
  ptrs : List Nat
  deriving DecidableEq

/-- Events the block store sees, in order. -/
inductive CacheEvent where
  | write (n : Nat)
  | notifyAllocate (n : Nat)
  | notifyDeallocate (n : Nat)
  deriving DecidableEq

/-- Modelled from the spec: the block store (`BufferCache`), an array of blocks of one
size together with the record of the writes and notifications it received. -/
structure BufferCache where
  blocksize : Nat
  blocks : List BTreeNode
  log : List CacheEvent
  deriving DecidableEq

def BufferCache.GetBlockSize (b : BufferCache) : Nat := b.blocksize

def BufferCache.GetNumBlocks (b : BufferCache) : Nat := b.blocks.length

def BufferCache.NotifyAllocateBlock (b : BufferCache) (n : Nat) : BufferCache :=
  { b with log := b.log ++ [CacheEvent.notifyAllocate n] }

def BufferCache.NotifyDeallocateBlock (b : BufferCache) (n : Nat) : BufferCache :=
  { b with log := b.log ++ [CacheEvent.notifyDeallocate n] }

/-- Modelled from the spec: the constructor `BTreeNode(type, keysize, valuesize, blocksize)`:
an empty node of the given type whose slots are zero-filled. -/
def BTreeNode.new (G : SlotGeometry) (ty : NodeType) (keysize valuesize blocksize : Nat) :
    BTreeNode :=
  let info : NodeMetadata :=
    { nodetype := ty, keysize := keysize, valuesize := valuesize, blocksize := blocksize,
      rootnode := 0, freelist := 0, numkeys := 0 }
  match ty with
  | NodeType.BTREE_LEAF_NODE =>
    { info := info
      keys := List.replicate (G.GetNumSlotsAsLeaf info) 0
      vals := List.replicate (G.GetNumSlotsAsLeaf info) 0
      ptrs := [0] }
  | NodeType.BTREE_ROOT_NODE | NodeType.BTREE_INTERIOR_NODE =>
    { info := info
      keys := List.replicate (G.GetNumSlotsAsInterior info) 0
      vals := []
      ptrs := List.replicate (G.GetNumSlotsAsInterior info + 1) 0 }
  | _ => { info := info, keys := [], vals := [], ptrs := [] }

/-- What `Serialize` stores: header and slots, or the header alone for the types that have
no slots. -/
def BTreeNode.stored (node : BTreeNode) : BTreeNode :=
  match node.info.nodetype with
  | NodeType.BTREE_UNALLOCATED_BLOCK | NodeType.BTREE_SUPERBLOCK =>
    { info := node.info, keys := [], vals := [], ptrs := [] }
  | _ => node

/-- Modelled from the spec: `Serialize(store, blockNumber)` writes the node into the
addressed block; it fails, writing nothing, when the store has no such block. -/
def BTreeNode.Serialize (node : BTreeNode) (b : BufferCache) (blocknum : Nat) :
    ERROR_T × BufferCache :=
  if blocknum < b.blocks.length then
    (ERROR_T.ERROR_NOERROR,
      { b with blocks := b.blocks.set blocknum node.stored
               log := b.log ++ [CacheEvent.write blocknum] })
  else (ERROR_T.ERROR_GENERAL, b)

/-- Modelled from the spec: `Unserialize(store, blockNumber)` reads the addressed block;
it fails when the store has no such block. -/
def BTreeNode.Unserialize (b : BufferCache) (blocknum : Nat) : Except ERROR_T BTreeNode :=
  match b.blocks[blocknum]? with
  | some node => Except.ok node
  | none => Except.error ERROR_T.ERROR_GENERAL

def NodeType.isInterior : NodeType → Bool
  | NodeType.BTREE_ROOT_NODE | NodeType.BTREE_INTERIOR_NODE => true
  | _ => false

def NodeType.isLeaf : NodeType → Bool
  | NodeType.BTREE_LEAF_NODE => true
  | _ => false

/-- Modelled from the spec: key slots exist on root, interior and leaf nodes and are
bounds-checked by `offset < numkeys`. -/
def BTreeNode.keyOk (b : BTreeNode) (offset : Nat) : Bool :=
  (b.info.nodetype.isInterior || b.info.nodetype.isLeaf) && decide (offset < b.info.numkeys)

/-- Modelled from the spec: value slots exist on leaves, `offset < numkeys`. -/
def BTreeNode.valOk (b : BTreeNode) (offset : Nat) : Bool :=
  b.info.nodetype.isLeaf && decide (offset < b.info.numkeys)

/-- Modelled from the spec: pointer slots `offset ≤ numkeys` on interior nodes; a leaf has
the single pointer slot 0 (the one `PrintNode` reads). -/
def BTreeNode.ptrOk (b : BTreeNode) (offset : Nat) : Bool :=
  (b.info.nodetype.isInterior && decide (offset ≤ b.info.numkeys)) ||
    (b.info.nodetype.isLeaf && decide (offset = 0))

/-- Modelled from the spec: `GetKey`, out of range is the internal/insane error. -/
def BTreeNode.GetKey (b : BTreeNode) (offset : Nat) : Except ERROR_T Nat :=
  if b.keyOk offset then Except.ok (b.keys.getD offset 0) else Except.error ERROR_T.ERROR_INSANE

/-- Modelled from the spec: `GetVal`. -/
def BTreeNode.GetVal (b : BTreeNode) (offset : Nat) : Except ERROR_T Nat :=
  if b.valOk offset then Except.ok (b.vals.getD offset 0) else Except.error ERROR_T.ERROR_INSANE

/-- Modelled from the spec: `GetPtr`. -/
def BTreeNode.GetPtr (b : BTreeNode) (offset : Nat) : Except ERROR_T Nat :=
  if b.ptrOk offset then Except.ok (b.ptrs.getD offset 0) else Except.error ERROR_T.ERROR_INSANE

/-- Modelled from the spec: `SetKey`; the node is returned unchanged together with the
error when the offset is out of range. -/
def BTreeNode.SetKey (b : BTreeNode) (offset : Nat) (k : Nat) : ERROR_T × BTreeNode :=
  if b.keyOk offset then (ERROR_T.ERROR_NOERROR, { b with keys := b.keys.set offset k })
  else (ERROR_T.ERROR_INSANE, b)

/-- Modelled from the spec: `SetVal`. -/
def BTreeNode.SetVal (b : BTreeNode) (offset : Nat) (v : Nat) : ERROR_T × BTreeNode :=
  if b.valOk offset then (ERROR_T.ERROR_NOERROR, { b with vals := b.vals.set offset v })
  else (ERROR_T.ERROR_INSANE, b)

/-- Modelled from the spec: `SetPtr`. -/
def BTreeNode.SetPtr (b : BTreeNode) (offset : Nat) (p : Nat) : ERROR_T × BTreeNode :=
  if b.ptrOk offset then (ERROR_T.ERROR_NOERROR, { b with ptrs := b.ptrs.set offset p })
  else (ERROR_T.ERROR_INSANE, b)

def BTreeNode.incNumkeys (b : BTreeNode) : BTreeNode :=
  { b with info := { b.info with numkeys := b.info.numkeys + 1 } }

/-- The index object: the store it is attached to, the block number of its superblock and
the in-memory copy of the superblock. -/
structure BTreeIndex where
  buffercache : BufferCache
  superblock_index : Nat
  superblock : BTreeNode
  deriving DecidableEq

/-- A getter whose return code the source ignores: when it fails the variable it was meant
to fill has no value. -/
def orUndefined {α : Type} : Except ERROR_T α → Except Fault α
  | Except.ok a => Except.ok a
  | Except.error _ => Except.error Fault.undefined

/-- `BTreeIndex::AllocateNode(n)`: returns the code, `n` and the index. -/
def AllocateNode (t : BTreeIndex) : Except Fault (ERROR_T × Nat × BTreeIndex) :=
  let n := t.superblock.info.freelist
  if n = 0 then
    Except.ok (ERROR_T.ERROR_NOSPACE, n, t)
  else
    match BTreeNode.Unserialize t.buffercache n with
    | Except.error _ => Except.error Fault.undefined
    | Except.ok node =>
      if node.info.nodetype ≠ NodeType.BTREE_UNALLOCATED_BLOCK then
        Except.error Fault.assertion
      else
        let superblock : BTreeNode :=
          { t.superblock with info := { t.superblock.info with freelist := node.info.freelist } }
        let bc := (superblock.Serialize t.buffercache t.superblock_index).2
        let bc := bc.NotifyAllocateBlock n
        Except.ok (ERROR_T.ERROR_NOERROR, n, { t with buffercache := bc, superblock := superblock })

/-- `BTreeIndex::DeallocateNode(n)`. -/
def DeallocateNode (t : BTreeIndex) (n : Nat) : Except Fault (ERROR_T × BTreeIndex) :=
  match BTreeNode.Unserialize t.buffercache n with
  | Except.error _ => Except.error Fault.undefined
  | Except.ok node =>
    if node.info.nodetype = NodeType.BTREE_UNALLOCATED_BLOCK then
      Except.error Fault.assertion
    else
      let node : BTreeNode :=
        { node with info := { node.info with nodetype := NodeType.BTREE_UNALLOCATED_BLOCK
                                             freelist := t.superblock.info.freelist } }
      let bc := (node.Serialize t.buffercache n).2
      let superblock : BTreeNode :=
        { t.superblock with info := { t.superblock.info with freelist := n } }
      let bc := (superblock.Serialize bc t.superblock_index).2
      let bc := bc.NotifyDeallocateBlock n
      Except.ok (ERROR_T.ERROR_NOERROR, { t with buffercache := bc, superblock := superblock })

/-- Modelled from the spec: the constructor `BTreeIndex(keysize, valuesize, cache)`; it
records the two widths in the in-memory superblock and the store.  The fields it leaves
unset are taken as zero. -/
def BTreeIndex.new (keysize valuesize : Nat) (cache : BufferCache) : BTreeIndex :=
  { buffercache := cache
    superblock_index := 0
    superblock :=
      { info := { nodetype := NodeType.BTREE_UNALLOCATED_BLOCK, keysize := keysize,
                  valuesize := valuesize, blocksize := 0, rootnode := 0, freelist := 0,
                  numkeys := 0 }
        keys := [], vals := [], ptrs := [] } }

/-- The loop of `Attach` that threads the blocks `i, i+1, ...` into the freelist: `count`
iterations are left.  It stops with the error of the first failing write. -/
def attachFreeLoop (G : SlotGeometry) (keysize valuesize : Nat) (superblock_index : Nat) :
    Nat → Nat → BufferCache → ERROR_T × BufferCache
  | 0, _, bc => (ERROR_T.ERROR_NOERROR, bc)
  | count + 1, i, bc =>
    let newfreenode :=
      BTreeNode.new G NodeType.BTREE_UNALLOCATED_BLOCK keysize valuesize bc.GetBlockSize
    let newfreenode : BTreeNode :=
      { newfreenode with
        info := { newfreenode.info with
                  rootnode := superblock_index + 1
                  freelist := if i + 1 = bc.GetNumBlocks then 0 else i + 1 } }
    let r := newfreenode.Serialize bc i
    if r.1 ≠ ERROR_T.ERROR_NOERROR then (r.1, r.2)
    else attachFreeLoop G keysize valuesize superblock_index count (i + 1) r.2

/-- The last statement of `Attach`: read the superblock from `initblock`. -/
def attachMount (t : BTreeIndex) (initblock : Nat) : ERROR_T × BTreeIndex :=
  match BTreeNode.Unserialize t.buffercache initblock with
  | Except.ok sb => (ERROR_T.ERROR_NOERROR, { t with superblock := sb })
  | Except.error rc => (rc, t)

/-- `BTreeIndex::Attach(initblock, create)`. -/
def Attach (G : SlotGeometry) (t : BTreeIndex) (initblock : Nat) (create : Bool) :
    Except Fault (ERROR_T × BTreeIndex) :=
  let t : BTreeIndex := { t with superblock_index := initblock }
  if t.superblock_index ≠ 0 then Except.error Fault.assertion
  else if create then
    let newsuperblock := BTreeNode.new G NodeType.BTREE_SUPERBLOCK t.superblock.info.keysize
      t.superblock.info.valuesize t.buffercache.GetBlockSize
    let newsuperblock : BTreeNode :=
      { newsuperblock with
        info := { newsuperblock.info with
                  rootnode := t.superblock_index + 1
                  freelist := t.superblock_index + 2
                  numkeys := 0 } }
    let bc := t.buffercache.NotifyAllocateBlock t.superblock_index
    let r := newsuperblock.Serialize bc t.superblock_index
    if r.1 ≠ ERROR_T.ERROR_NOERROR then Except.ok (r.1, { t with buffercache := r.2 })
    else
      let newrootnode := BTreeNode.new G NodeType.BTREE_ROOT_NODE t.superblock.info.keysize
        t.superblock.info.valuesize t.buffercache.GetBlockSize
      let newrootnode : BTreeNode :=
        { newrootnode with
          info := { newrootnode.info with
                    rootnode := t.superblock_index + 1
                    freelist := t.superblock_index + 2
                    numkeys := 0 } }
      let bc := r.2.NotifyAllocateBlock (t.superblock_index + 1)
      let r := newrootnode.Serialize bc (t.superblock_index + 1)
      if r.1 ≠ ERROR_T.ERROR_NOERROR then Except.ok (r.1, { t with buffercache := r.2 })
      else
        let r := attachFreeLoop G t.superblock.info.keysize t.superblock.info.valuesize
          t.superblock_index (r.2.GetNumBlocks - (t.superblock_index + 2))
          (t.superblock_index + 2) r.2
        if r.1 ≠ ERROR_T.ERROR_NOERROR then Except.ok (r.1, { t with buffercache := r.2 })
        else Except.ok (attachMount { t with buffercache := r.2 } initblock)
  else Except.ok (attachMount t initblock)

/-- `BTreeIndex::Detach`. -/
def Detach (t : BTreeIndex) : ERROR_T × BTreeIndex :=
  let r := t.superblock.Serialize t.buffercache t.superblock_index
  (r.1, { t with buffercache := r.2 })

/-- The scan of an interior node in `LookupOrUpdateInternal`: the offset of the first key
that is strictly greater than the search key, `none` when the loop runs to its end, or the
error of a failing `GetKey`.  `count` iterations are left, the next one at `offset`. -/
def interiorScan (b : BTreeNode) (key : Nat) : Nat → Nat → Except ERROR_T (Option Nat)
  | 0, _ => Except.ok none
  | count + 1, offset =>
    match b.GetKey offset with
    | Except.error rc => Except.error rc
    | Except.ok testkey =>
      if key < testkey then Except.ok (some offset)
      else interiorScan b key count (offset + 1)

/-- The scan of a leaf in `LookupOrUpdateInternal`: the offset of the first key equal to
the search key. -/
def leafScan (b : BTreeNode) (key : Nat) : Nat → Nat → Except ERROR_T (Option Nat)
  | 0, _ => Except.ok none
  | count + 1, offset =>
    match b.GetKey offset with
    | Except.error rc => Except.error rc
    | Except.ok testkey =>
      if testkey = key then Except.ok (some offset)
      else leafScan b key count (offset + 1)

/-- `BTreeIndex::LookupOrUpdateInternal(node, op, key, value, pointer)`; the result holds the
return code, `value`, `pointer` and the index.  The first argument bounds the depth of the
recursion. -/
def LookupOrUpdateInternal (t : BTreeIndex) (op : BTreeOp) (key : Nat) :
    Nat → Nat → Nat → List Nat →
      Except Fault (ERROR_T × Nat × List Nat × BTreeIndex)
  | 0, _, _, _ => Except.error Fault.fuel
  | fuel + 1, node, value, pointer =>
    let rd := BTreeNode.Unserialize t.buffercache node
    let rootPtr := t.superblock.info.rootnode
    let pointer := if node = t.superblock.info.rootnode then pointer ++ [rootPtr] else pointer
    match rd with
    | Except.error rc => Except.ok (rc, value, pointer, t)
    | Except.ok b =>
      match b.info.nodetype with
      | NodeType.BTREE_ROOT_NODE | NodeType.BTREE_INTERIOR_NODE =>
        match interiorScan b key b.info.numkeys 0 with
        | Except.error rc => Except.ok (rc, value, pointer, t)
        | Except.ok (some offset) =>
          match b.GetPtr offset with
          | Except.error _ => Except.error Fault.undefined
          | Except.ok ptr =>
            LookupOrUpdateInternal t op key fuel ptr value (pointer ++ [ptr])
        | Except.ok none =>
          if b.info.numkeys > 0 then
            match b.GetPtr b.info.numkeys with
            | Except.error _ => Except.error Fault.undefined
            | Except.ok ptr =>
              LookupOrUpdateInternal t op key fuel ptr value (pointer ++ [ptr])
          else Except.ok (ERROR_T.ERROR_NONEXISTENT, value, pointer, t)
      | NodeType.BTREE_LEAF_NODE =>
        match leafScan b key b.info.numkeys 0 with
        | Except.error rc => Except.ok (rc, value, pointer, t)
        | Except.ok (some offset) =>
          if op = BTreeOp.BTREE_OP_LOOKUP then
            match b.GetVal offset with
            | Except.ok v => Except.ok (ERROR_T.ERROR_NOERROR, v, pointer, t)
            | Except.error rc => Except.ok (rc, value, pointer, t)
          else
            let r := b.SetVal offset value
            if r.1 ≠ ERROR_T.ERROR_NOERROR then Except.ok (r.1, value, pointer, t)
            else
              let w := r.2.Serialize t.buffercache node
              Except.ok (w.1, value, pointer, { t with buffercache := w.2 })
        | Except.ok none => Except.ok (ERROR_T.ERROR_NONEXISTENT, value, pointer, t)
      | _ => Except.ok (ERROR_T.ERROR_INSANE, value, pointer, t)

/-- `BTreeIndex::Lookup(key, value)`: the return code and `value`. -/
def Lookup (fuel : Nat) (t : BTreeIndex) (key : Nat) (value : Nat) :
    Except Fault (ERROR_T × Nat) :=
  match LookupOrUpdateInternal t BTreeOp.BTREE_OP_LOOKUP key fuel t.superblock.info.rootnode
      value [] with
  | Except.ok r => Except.ok (r.1, r.2.1)
  | Except.error f => Except.error f

/-- `BTreeIndex::Update(key, value)`: the return code and the index. -/
def Update (fuel : Nat) (t : BTreeIndex) (key : Nat) (value : Nat) :
    Except Fault (ERROR_T × BTreeIndex) :=
  match LookupOrUpdateInternal t BTreeOp.BTREE_OP_UPDATE key fuel t.superblock.info.rootnode
      value [] with
  | Except.ok r => Except.ok (r.1, r.2.2.2)
  | Except.error f => Except.error f

/-- `BTreeIndex::Delete(key)`. -/
def Delete (t : BTreeIndex) (_key : Nat) : ERROR_T × BTreeIndex :=
  (ERROR_T.ERROR_UNIMPL, t)

/-- The inner loop of `insert_Not_Full`, `for (i = numkeys-1; i > offset; i--)`: slot `i-1`
is copied to slot `i`.  `count` iterations are left, the next one at `i`. -/
def shiftLeaf : Nat → Nat → BTreeNode → Except Fault BTreeNode
  | 0, _, node => Except.ok node
  | count + 1, i, node => do
    let Temp_Key ← orUndefined (node.GetKey (i - 1))
    let Temp_Val ← orUndefined (node.GetVal (i - 1))
    let node := (node.SetKey i Temp_Key).2
    let node := (node.SetVal i Temp_Val).2
    shiftLeaf count (i - 1) node

/-- The outer loop of `insert_Not_Full`, `for (offset = 0; offset < times-1; offset++)`. -/
def insertLeafLoop (t : BTreeIndex) (Address : Nat) (key : Nat) (value : Nat) :
    Nat → Nat → Nat → BTreeNode → Except Fault (Option ERROR_T × BTreeNode × BTreeIndex)
  | 0, _, _, node => Except.ok (none, node, t)
  | count + 1, offset, counter, node => do
    let testkey ← orUndefined (node.GetKey offset)
    if key < testkey then
      let node ← shiftLeaf (node.info.numkeys - 1 - offset) (node.info.numkeys - 1) node
      let node := (node.SetKey offset key).2
      let node := (node.SetVal offset value).2
      let w := node.Serialize t.buffercache Address
      if w.1 ≠ ERROR_T.ERROR_NOERROR then
        Except.ok (some w.1, node, { t with buffercache := w.2 })
      else Except.ok (none, node, { t with buffercache := w.2 })
    else if key = testkey then
      Except.ok (none, node, t)
    else
      let counter := counter + 1
      if counter = node.info.numkeys - 1 then
        let node := (node.SetKey (node.info.numkeys - 1) key).2
        let node := (node.SetVal (node.info.numkeys - 1) value).2
        let w := node.Serialize t.buffercache Address
        if w.1 ≠ ERROR_T.ERROR_NOERROR then
          Except.ok (some w.1, node, { t with buffercache := w.2 })
        else Except.ok (none, node, { t with buffercache := w.2 })
      else insertLeafLoop t Address key value count (offset + 1) counter node

/-- `BTreeIndex::insert_Not_Full(Address, Temp_Node, key, value)`: the return code,
`Temp_Node` and the index. -/
def insert_Not_Full (t : BTreeIndex) (Address : Nat) (Temp_Node : BTreeNode) (key : Nat)
    (value : Nat) : Except Fault (Option ERROR_T × BTreeNode × BTreeIndex) :=
  let Temp_Node := Temp_Node.incNumkeys
  let times := Temp_Node.info.numkeys
  insertLeafLoop t Address key value (times - 1) 0 0 Temp_Node

/-- The inner loop of `insert_Not_Full_Internal`: key `i-1` is copied to key `i` and
pointer `i` to pointer `i+1`. -/
def shiftInterior : Nat → Nat → BTreeNode → Except Fault BTreeNode
  | 0, _, node => Except.ok node
  | count + 1, i, node => do
    let Temp_Key ← orUndefined (node.GetKey (i - 1))
    let node := (node.SetKey i Temp_Key).2
    let pointer_temp ← orUndefined (node.GetPtr i)
    let node := (node.SetPtr (i + 1) pointer_temp).2
    shiftInterior count (i - 1) node

/-- The outer loop of `insert_Not_Full_Internal`. -/
def insertInteriorLoop (t : BTreeIndex) (Address : Nat) (new_blockptr_leftleaf
    new_blockptr_rightleaf : Nat) (key : Nat) :
    Nat → Nat → Nat → BTreeNode → Except Fault (Option ERROR_T × BTreeNode × BTreeIndex)
  | 0, _, _, node => Except.ok (none, node, t)
  | count + 1, offset, counter, node => do
    let testkey ← orUndefined (node.GetKey offset)
    if key < testkey then
      let node ← shiftInterior (node.info.numkeys - 1 - offset) (node.info.numkeys - 1) node
      let node := (node.SetKey offset key).2
      let node := (node.SetPtr offset new_blockptr_leftleaf).2
      let node := (node.SetPtr (offset + 1) new_blockptr_rightleaf).2
      let w := node.Serialize t.buffercache Address
      if w.1 ≠ ERROR_T.ERROR_NOERROR then
        Except.ok (some w.1, node, { t with buffercache := w.2 })
      else Except.ok (none, node, { t with buffercache := w.2 })
    else if key = testkey then
      Except.ok (none, node, t)
    else
      let counter := counter + 1
      if counter = node.info.numkeys - 1 then
        let node := (node.SetKey (node.info.numkeys - 1) key).2
        let node := (node.SetPtr (node.info.numkeys - 1) new_blockptr_leftleaf).2
        let node := (node.SetPtr node.info.numkeys new_blockptr_rightleaf).2
        let w := node.Serialize t.buffercache Address
        if w.1 ≠ ERROR_T.ERROR_NOERROR then
          Except.ok (some w.1, node, { t with buffercache := w.2 })
        else Except.ok (none, node, { t with buffercache := w.2 })
      else
        insertInteriorLoop t Address new_blockptr_leftleaf new_blockptr_rightleaf key count
          (offset + 1) counter node

/-- `BTreeIndex::insert_Not_Full_Internal(Address, Temp_Node, left, right, key)`. -/
def insert_Not_Full_Internal (t : BTreeIndex) (Address : Nat) (Temp_Node : BTreeNode)
    (new_blockptr_leftleaf new_blockptr_rightleaf : Nat) (key : Nat) :
    Except Fault (Option ERROR_T × BTreeNode × BTreeIndex) :=
  let Temp_Node := Temp_Node.incNumkeys
  let times := Temp_Node.info.numkeys
  insertInteriorLoop t Address new_blockptr_leftleaf new_blockptr_rightleaf key (times - 1) 0 0
    Temp_Node

/-- The copy loops of `split_Leaf`: entry `offset` of `Node` goes to slot `offset - base` of
the new leaf, for `count` consecutive offsets.  The error is the code the source returns
from inside the loop. -/
def splitLeafLoop (Node : BTreeNode) (base : Nat) :
    Nat → Nat → BTreeNode → Except ERROR_T BTreeNode
  | 0, _, dst => Except.ok dst
  | count + 1, offset, dst =>
    match Node.GetKey offset with
    | Except.error rc => Except.error rc
    | Except.ok Temp_Key =>
      match Node.GetVal offset with
      | Except.error rc => Except.error rc
      | Except.ok Temp_Value =>
        let dst := dst.incNumkeys
        let r := dst.SetKey (offset - base) Temp_Key
        if r.1 ≠ ERROR_T.ERROR_NOERROR then Except.error r.1
        else
          let r := r.2.SetVal (offset - base) Temp_Value
          if r.1 ≠ ERROR_T.ERROR_NOERROR then Except.error r.1
          else splitLeafLoop Node base count (offset + 1) r.2

/-- Results of `split_Leaf` and `split_Internal_Full`: the return code, the two block
numbers, the promoted key and value when they were assigned, and the index. -/
structure SplitResult where
  rc : Option ERROR_T
  left : Nat
  right : Nat
  Key : Option Nat
  Val : Option Nat
  index : BTreeIndex
  deriving DecidableEq

def exceptToOption {α : Type} : Except ERROR_T α → Option α
  | Except.ok a => some a
  | Except.error _ => none

/-- `BTreeIndex::split_Leaf(Node, left, right, Key, Val)`.  The return codes of both
`AllocateNode` calls are dropped, as in the source. -/
def split_Leaf (G : SlotGeometry) (t : BTreeIndex) (Node : BTreeNode) : Except Fault SplitResult := do
  let a ← AllocateNode t
  let new_blockptr_leftleaf := a.2.1
  let t := a.2.2
  let Left_Leaf := BTreeNode.new G NodeType.BTREE_LEAF_NODE t.superblock.info.keysize
    t.superblock.info.valuesize t.superblock.info.blocksize
  let t : BTreeIndex :=
    { t with buffercache := (Left_Leaf.Serialize t.buffercache new_blockptr_leftleaf).2 }
  match BTreeNode.Unserialize t.buffercache new_blockptr_leftleaf with
  | Except.error rc =>
    Except.ok { rc := some rc, left := new_blockptr_leftleaf, right := 0, Key := none,
                Val := none, index := t }
  | Except.ok Left_Leaf =>
    let a ← AllocateNode t
    let new_blockptr_rightleaf := a.2.1
    let t := a.2.2
    let Right_Leaf := BTreeNode.new G NodeType.BTREE_LEAF_NODE t.superblock.info.keysize
      t.superblock.info.valuesize t.superblock.info.blocksize
    let t : BTreeIndex :=
      { t with buffercache := (Right_Leaf.Serialize t.buffercache new_blockptr_rightleaf).2 }
    match BTreeNode.Unserialize t.buffercache new_blockptr_rightleaf with
    | Except.error rc =>
      Except.ok { rc := some rc, left := new_blockptr_leftleaf, right := new_blockptr_rightleaf,
                  Key := none, Val := none, index := t }
    | Except.ok Right_Leaf =>
      let S := G.GetNumSlotsAsLeaf Node.info
      match splitLeafLoop Node 0 (S / 2) 0 Left_Leaf with
      | Except.error rc =>
        Except.ok { rc := some rc, left := new_blockptr_leftleaf,
                    right := new_blockptr_rightleaf, Key := none, Val := none, index := t }
      | Except.ok Left_Leaf =>
        let t : BTreeIndex :=
          { t with buffercache := (Left_Leaf.Serialize t.buffercache new_blockptr_leftleaf).2 }
        match splitLeafLoop Node (S / 2) (S - S / 2) (S / 2) Right_Leaf with
        | Except.error rc =>
          Except.ok { rc := some rc, left := new_blockptr_leftleaf,
                      right := new_blockptr_rightleaf, Key := none, Val := none, index := t }
        | Except.ok Right_Leaf =>
          let t : BTreeIndex :=
            { t with
              buffercache := (Right_Leaf.Serialize t.buffercache new_blockptr_rightleaf).2 }
          Except.ok { rc := none, left := new_blockptr_leftleaf,
                      right := new_blockptr_rightleaf,
                      Key := exceptToOption (Node.GetKey (S / 2)),
                      Val := exceptToOption (Node.GetVal (S / 2)), index := t }

/-- The copy loops of `split_Internal_Full`: key and pointer `offset` of `Node` go to slot
`offset - base` of the new node.  The inner error is the code the source returns from inside
the loop; the return codes of `GetPtr` and `SetKey` are not looked at. -/
def splitInteriorLoop (Node : BTreeNode) (base : Nat) :
    Nat → Nat → BTreeNode → Except Fault (Except ERROR_T BTreeNode)
  | 0, _, dst => Except.ok (Except.ok dst)
  | count + 1, offset, dst =>
    match Node.GetKey offset with
    | Except.error rc => Except.ok (Except.error rc)
    | Except.ok Temp_Key =>
      match Node.GetPtr offset with
      | Except.error _ => Except.error Fault.undefined
      | Except.ok Temp_pointer =>
        let dst := dst.incNumkeys
        let dst := (dst.SetKey (offset - base) Temp_Key).2
        let r := dst.SetPtr (offset - base) Temp_pointer
        if r.1 ≠ ERROR_T.ERROR_NOERROR then Except.ok (Except.error r.1)
        else splitInteriorLoop Node base count (offset + 1) r.2

/-- `BTreeIndex::split_Internal_Full(Node, left, right, Key)`.  The last pointer of `Node`
is stored at offset `S/2 - 1` of the right node; the subtraction is unsigned, so for
`S/2 = 0` the offset is out of range and `SetPtr` refuses it. -/
def split_Internal_Full (G : SlotGeometry) (t : BTreeIndex) (Node : BTreeNode) :
    Except Fault SplitResult := do
  let a ← AllocateNode t
  let new_blockptr_leftInternal := a.2.1
  let t := a.2.2
  let Left_Internal := BTreeNode.new G NodeType.BTREE_INTERIOR_NODE t.superblock.info.keysize
    t.superblock.info.valuesize t.superblock.info.blocksize
  let t : BTreeIndex :=
    { t with buffercache := (Left_Internal.Serialize t.buffercache new_blockptr_leftInternal).2 }
  match BTreeNode.Unserialize t.buffercache new_blockptr_leftInternal with
  | Except.error rc =>
    Except.ok { rc := some rc, left := new_blockptr_leftInternal, right := 0, Key := none,
                Val := none, index := t }
  | Except.ok Left_Internal =>
    let a ← AllocateNode t
    let new_blockptr_rightInternal := a.2.1
    let t := a.2.2
    let Right_Internal := BTreeNode.new G NodeType.BTREE_INTERIOR_NODE
      t.superblock.info.keysize t.superblock.info.valuesize t.superblock.info.blocksize
    let t : BTreeIndex :=
      { t with
        buffercache := (Right_Internal.Serialize t.buffercache new_blockptr_rightInternal).2 }
    match BTreeNode.Unserialize t.buffercache new_blockptr_rightInternal with
    | Except.error rc =>
      Except.ok { rc := some rc, left := new_blockptr_leftInternal,
                  right := new_blockptr_rightInternal, Key := none, Val := none, index := t }
    | Except.ok Right_Internal =>
      let S := G.GetNumSlotsAsInterior Node.info
      match ← splitInteriorLoop Node 0 (S / 2) 0 Left_Internal with
      | Except.error rc =>
        Except.ok { rc := some rc, left := new_blockptr_leftInternal,
                    right := new_blockptr_rightInternal, Key := none, Val := none, index := t }
      | Except.ok Left_Internal =>
        let Temp_pointer ← orUndefined (Node.GetPtr (S / 2))
        let Left_Internal := (Left_Internal.SetPtr (S / 2) Temp_pointer).2
        let t : BTreeIndex :=
          { t with
            buffercache := (Left_Internal.Serialize t.buffercache new_blockptr_leftInternal).2 }
        match ← splitInteriorLoop Node (S / 2 + 1) (S - (S / 2 + 1)) (S / 2 + 1)
            Right_Internal with
        | Except.error rc =>
          Except.ok { rc := some rc, left := new_blockptr_leftInternal,
                      right := new_blockptr_rightInternal, Key := none, Val := none,
                      index := t }
        | Except.ok Right_Internal =>
          let Temp_point ← orUndefined (Node.GetPtr S)
          let Right_Internal :=
            if S / 2 = 0 then Right_Internal
            else (Right_Internal.SetPtr (S / 2 - 1) Temp_point).2
          let t : BTreeIndex :=
            { t with
              buffercache :=
                (Right_Internal.Serialize t.buffercache new_blockptr_rightInternal).2 }
          Except.ok { rc := none, left := new_blockptr_leftInternal,
                      right := new_blockptr_rightInternal,
                      Key := exceptToOption (Node.GetKey (S / 2)), Val := none, index := t }

/-- A key variable that is read after a call that was meant to assign it. -/
def assigned {α : Type} : Option α → Except Fault α
  | some a => Except.ok a
  | none => Except.error Fault.undefined

/-- `BTreeIndex::split_Internal(pointer, left, right, key, flag)`: return code, `flag` and
the index.  Every call removes the last element of `pointer`, so the recursion is bounded by
the length of `pointer`, which is what the first argument counts.  The test
`numkeys == GetNumSlotsAsInterior()-1` is unsigned and is written `numkeys + 1 = S`. -/
def split_InternalAux (G : SlotGeometry) :
    Nat → BTreeIndex → List Nat → Nat → Nat → Nat → Int →
      Except Fault (Option ERROR_T × Int × BTreeIndex)
  | 0, t, pointer, _, _, _, flag =>
    if flag = 0 then
      match pointer.getLast? with
      | none => Except.error Fault.undefined
      | some _ => Except.error Fault.fuel
    else Except.ok (none, flag, t)
  | n + 1, t, pointer, new_blockptr_leftleaf, new_blockptr_rightleaf, key, flag =>
    if flag = 0 then do
      let Address ← assigned pointer.getLast?
      let pointer := pointer.dropLast
      let Temp_Node ← orUndefined (BTreeNode.Unserialize t.buffercache Address)
      if Temp_Node.info.numkeys + 1 = G.GetNumSlotsAsInterior Temp_Node.info then
        let rootPtr := t.superblock.info.rootnode
        if Address ≠ rootPtr then
          let i ← insert_Not_Full_Internal t Address Temp_Node new_blockptr_leftleaf
            new_blockptr_rightleaf key
          let sr ← split_Internal_Full G i.2.2 i.2.1
          let Temp_Key ← assigned sr.Key
          let r ← split_InternalAux G n sr.index pointer sr.left sr.right Temp_Key flag
          Except.ok (none, r.2.1, r.2.2)
        else
          let i ← insert_Not_Full_Internal t Address Temp_Node new_blockptr_leftleaf
            new_blockptr_rightleaf key
          let sr ← split_Internal_Full G i.2.2 i.2.1
          let t := sr.index
          let New_Root := (BTreeNode.new G NodeType.BTREE_INTERIOR_NODE
            t.superblock.info.keysize t.superblock.info.valuesize
            t.superblock.info.blocksize).incNumkeys
          let Temp_Key ← assigned sr.Key
          let New_Root := (New_Root.SetKey 0 Temp_Key).2
          let New_Root := (New_Root.SetPtr 0 sr.left).2
          let New_Root := (New_Root.SetPtr 1 sr.right).2
          let w := New_Root.Serialize t.buffercache t.superblock.info.rootnode
          Except.ok (some w.1, 1, { t with buffercache := w.2 })
      else
        let i ← insert_Not_Full_Internal t Address Temp_Node new_blockptr_leftleaf
          new_blockptr_rightleaf key
        Except.ok (some ERROR_T.ERROR_NOERROR, 1, i.2.2)
    else Except.ok (none, flag, t)

def split_Internal (G : SlotGeometry) (t : BTreeIndex) (pointer : List Nat)
    (new_blockptr_leftleaf new_blockptr_rightleaf : Nat) (key : Nat) (flag : Int) :
    Except Fault (Option ERROR_T × Int × BTreeIndex) :=
  split_InternalAux G pointer.length t pointer new_blockptr_leftleaf new_blockptr_rightleaf key
    flag

/-- The block `if(initBlock) { ... }` that ends `Insert`; `initBlock` is always true when
control reaches it.  The test `numkeys == GetNumSlotsAsLeaf()-1` is unsigned and is written
`numkeys + 1 = S`. -/
def insertTail (G : SlotGeometry) (t : BTreeIndex) (pointer : List Nat) (key : Nat)
    (value : Nat) : Except Fault (Option ERROR_T × BTreeIndex) := do
  let Address ← assigned pointer.getLast?
  let pointer := pointer.dropLast
  let Temp_Node ← orUndefined (BTreeNode.Unserialize t.buffercache Address)
  if Temp_Node.info.numkeys + 1 = G.GetNumSlotsAsLeaf Temp_Node.info then
    let i ← insert_Not_Full t Address Temp_Node key value
    let Temp_Node := i.2.1
    let t := i.2.2
    let rootPtr := t.superblock.info.rootnode
    if Address = rootPtr then
      let sr ← split_Leaf G t Temp_Node
      let t := sr.index
      let New_Root := (BTreeNode.new G NodeType.BTREE_INTERIOR_NODE
        t.superblock.info.keysize t.superblock.info.valuesize
        t.superblock.info.blocksize).incNumkeys
      let Temp_Key ← assigned sr.Key
      let New_Root := (New_Root.SetKey 0 Temp_Key).2
      let New_Root := (New_Root.SetPtr 0 sr.left).2
      let New_Root := (New_Root.SetPtr 1 sr.right).2
      let w := New_Root.Serialize t.buffercache t.superblock.info.rootnode
      Except.ok (none, { t with buffercache := w.2 })
    else
      let sr ← split_Leaf G t Temp_Node
      let Temp_Key ← assigned sr.Key
      let r ← split_Internal G sr.index pointer sr.left sr.right Temp_Key 0
      Except.ok (none, r.2.2)
  else
    let i ← insert_Not_Full t Address Temp_Node key value
    Except.ok (none, i.2.2)

/-- `BTreeIndex::Insert(key, value)`: the return code and the index.  The only `return`
statements of the source are `return ERROR_INSERT` and the `return rc` after a failed write
of the first leaf; every other path reaches the end of the function. -/
def Insert (G : SlotGeometry) (fuel : Nat) (t : BTreeIndex) (key : Nat) (value : Nat) :
    Except Fault (Option ERROR_T × BTreeIndex) :=
  match LookupOrUpdateInternal t BTreeOp.BTREE_OP_LOOKUP key fuel t.superblock.info.rootnode
      0 [] with
  | Except.error f => Except.error f
  | Except.ok r =>
    let retCode := r.1
    let pointer := r.2.2.1
    let t := r.2.2.2
    match retCode with
    | ERROR_T.ERROR_NOERROR => Except.ok (some ERROR_T.ERROR_INSERT, t)
    | ERROR_T.ERROR_NONEXISTENT =>
      let rootPtr := t.superblock.info.rootnode
      match BTreeNode.Unserialize t.buffercache rootPtr with
      | Except.error _ => Except.error Fault.undefined
      | Except.ok rootNode =>
        let initBlock := decide (rootNode.info.numkeys ≠ 0)
        let t : BTreeIndex :=
          { t with buffercache := (rootNode.Serialize t.buffercache rootPtr).2 }
        if initBlock = false then
          let leafNode := (BTreeNode.new G NodeType.BTREE_LEAF_NODE t.superblock.info.keysize
            t.superblock.info.valuesize t.superblock.info.blocksize).incNumkeys
          let leafNode := (leafNode.SetKey 0 key).2
          let leafNode := (leafNode.SetVal 0 value).2
          let rootNode := leafNode
          let w := rootNode.Serialize t.buffercache t.superblock.info.rootnode
          if w.1 ≠ ERROR_T.ERROR_NOERROR then
            Except.ok (some w.1, { t with buffercache := w.2 })
          else insertTail G { t with buffercache := w.2 } pointer key value
        else insertTail G t pointer key value
    | _ => Except.ok (none, t)

/-- What is sent to an output stream: literal text, a number, the bytes of a key or of a
value, or a type tag. -/
inductive Tok where
  | str (s : String)
  | num (n : Nat)
  | key (k : Nat)
  | val (v : Nat)
  | tag (ty : NodeType)
  deriving DecidableEq

/-- The loop of `PrintNode` over an interior node. -/
def printInteriorLoop (b : BTreeNode) : Nat → Nat → List Tok → ERROR_T × List Tok
  | 0, _, os => (ERROR_T.ERROR_NOERROR, os)
  | count + 1, offset, os =>
    match b.GetPtr offset with
    | Except.error rc => (rc, os)
    | Except.ok ptr =>
      let os := os ++ [Tok.str "*", Tok.num ptr, Tok.str " "]
      if offset = b.info.numkeys then (ERROR_T.ERROR_NOERROR, os)
      else
        match b.GetKey offset with
        | Except.error rc => (rc, os)
        | Except.ok key => printInteriorLoop b count (offset + 1) (os ++ [Tok.key key, Tok.str " "])

/-- The loop of `PrintNode` over a leaf. -/
def printLeafLoop (b : BTreeNode) (dt : BTreeDisplayType) :
    Nat → Nat → List Tok → ERROR_T × List Tok
  | 0, _, os => (ERROR_T.ERROR_NOERROR, os)
  | count + 1, offset, os =>
    let first : ERROR_T × List Tok :=
      if offset = 0 then
        match b.GetPtr offset with
        | Except.error rc => (rc, os)
        | Except.ok ptr =>
          if dt ≠ BTreeDisplayType.BTREE_SORTED_KEYVAL then
            (ERROR_T.ERROR_NOERROR, os ++ [Tok.str "*", Tok.num ptr, Tok.str " "])
          else (ERROR_T.ERROR_NOERROR, os)
      else (ERROR_T.ERROR_NOERROR, os)
    if first.1 ≠ ERROR_T.ERROR_NOERROR then first
    else
      let os := first.2
      let os := if dt = BTreeDisplayType.BTREE_SORTED_KEYVAL then os ++ [Tok.str "("] else os
      match b.GetKey offset with
      | Except.error rc => (rc, os)
      | Except.ok key =>
        let os := os ++ [Tok.key key]
        let os :=
          if dt = BTreeDisplayType.BTREE_SORTED_KEYVAL then os ++ [Tok.str ","]
          else os ++ [Tok.str " "]
        match b.GetVal offset with
        | Except.error rc => (rc, os)
        | Except.ok value =>
          let os := os ++ [Tok.val value]
          let os :=
            if dt = BTreeDisplayType.BTREE_SORTED_KEYVAL then os ++ [Tok.str ")\n"]
            else os ++ [Tok.str " "]
          printLeafLoop b dt count (offset + 1) os

/-- `PrintNode(os, nodenum, b, dt)`. -/
def PrintNode (os : List Tok) (nodenum : Nat) (b : BTreeNode) (dt : BTreeDisplayType) :
    ERROR_T × List Tok :=
  let os :=
    if dt = BTreeDisplayType.BTREE_DEPTH_DOT then
      os ++ [Tok.num nodenum, Tok.str " [ label=\"", Tok.num nodenum, Tok.str ": "]
    else if dt = BTreeDisplayType.BTREE_DEPTH then os ++ [Tok.num nodenum, Tok.str ": "]
    else os
  let body : ERROR_T × List Tok :=
    match b.info.nodetype with
    | NodeType.BTREE_ROOT_NODE | NodeType.BTREE_INTERIOR_NODE =>
      if dt = BTreeDisplayType.BTREE_SORTED_KEYVAL then (ERROR_T.ERROR_NOERROR, os)
      else
        let os := if dt = BTreeDisplayType.BTREE_DEPTH_DOT then os else os ++ [Tok.str "Interior: "]
        printInteriorLoop b (b.info.numkeys + 1) 0 os
    | NodeType.BTREE_LEAF_NODE =>
      let os :=
        if dt = BTreeDisplayType.BTREE_DEPTH_DOT ∨ dt = BTreeDisplayType.BTREE_SORTED_KEYVAL
        then os else os ++ [Tok.str "Leaf: "]
      printLeafLoop b dt b.info.numkeys 0 os
    | ty =>
      if dt = BTreeDisplayType.BTREE_DEPTH_DOT then
        (ERROR_T.ERROR_NOERROR, os ++ [Tok.str "Unknown(", Tok.tag ty, Tok.str ")"])
      else (ERROR_T.ERROR_NOERROR, os ++ [Tok.str "Unsupported Node Type ", Tok.tag ty])
  if body.1 ≠ ERROR_T.ERROR_NOERROR then body
  else if dt = BTreeDisplayType.BTREE_DEPTH_DOT then
    (ERROR_T.ERROR_NOERROR, body.2 ++ [Tok.str "\" ]"])
  else (ERROR_T.ERROR_NOERROR, body.2)

/-- The loop of `DisplayInternal` over the children of an interior node; `recur` is the
recursive call. -/
def displayChildren (recur : Nat → List Tok → Except Fault (ERROR_T × List Tok))
    (b : BTreeNode) (node : Nat) (dt : BTreeDisplayType) :
    Nat → Nat → List Tok → Except Fault (ERROR_T × List Tok)
  | 0, _, o => Except.ok (ERROR_T.ERROR_NOERROR, o)
  | count + 1, offset, o =>
    match b.GetPtr offset with
    | Except.error rc => Except.ok (rc, o)
    | Except.ok ptr =>
      let o :=
        if dt = BTreeDisplayType.BTREE_DEPTH_DOT then
          o ++ [Tok.num node, Tok.str " -> ", Tok.num ptr, Tok.str ";\n"]
        else o
      match recur ptr o with
      | Except.error f => Except.error f
      | Except.ok r =>
        if r.1 ≠ ERROR_T.ERROR_NOERROR then Except.ok r
        else displayChildren recur b node dt count (offset + 1) r.2

/-- `BTreeIndex::DisplayInternal(node, o, display_type)`; the first argument bounds the
depth of the recursion. -/
def DisplayInternal (t : BTreeIndex) (display_type : BTreeDisplayType) :
    Nat → Nat → List Tok → Except Fault (ERROR_T × List Tok)
  | 0, _, _ => Except.error Fault.fuel
  | fuel + 1, node, o =>
    match BTreeNode.Unserialize t.buffercache node with
    | Except.error rc => Except.ok (rc, o)
    | Except.ok b =>
      let p := PrintNode o node b display_type
      if p.1 ≠ ERROR_T.ERROR_NOERROR then Except.ok p
      else
        let o := p.2
        let o := if display_type = BTreeDisplayType.BTREE_DEPTH_DOT then o ++ [Tok.str ";"] else o
        let o :=
          if display_type ≠ BTreeDisplayType.BTREE_SORTED_KEYVAL then o ++ [Tok.str "\n"] else o
        match b.info.nodetype with
        | NodeType.BTREE_ROOT_NODE | NodeType.BTREE_INTERIOR_NODE =>
          if b.info.numkeys > 0 then
            match displayChildren (DisplayInternal t display_type fuel) b node display_type
                (b.info.numkeys + 1) 0 o with
            | Except.error f => Except.error f
            | Except.ok r =>
              if r.1 ≠ ERROR_T.ERROR_NOERROR then Except.ok r
              else Except.ok (ERROR_T.ERROR_NOERROR, r.2)
          else Except.ok (ERROR_T.ERROR_NOERROR, o)
        | NodeType.BTREE_LEAF_NODE => Except.ok (ERROR_T.ERROR_NOERROR, o)
        | ty =>
          if display_type = BTreeDisplayType.BTREE_DEPTH_DOT then
            Except.ok (ERROR_T.ERROR_INSANE, o)
          else Except.ok (ERROR_T.ERROR_INSANE, o ++ [Tok.str "Unsupported Node Type ", Tok.tag ty])

/-- `BTreeIndex::Display(o, display_type)`: it returns `ERROR_NOERROR` whatever the
traversal returned. -/
def Display (fuel : Nat) (t : BTreeIndex) (o : List Tok) (display_type : BTreeDisplayType) :
    Except Fault (ERROR_T × List Tok) :=
  let o :=
    if display_type = BTreeDisplayType.BTREE_DEPTH_DOT then o ++ [Tok.str "digraph tree \x7b \n"]
    else o
  match DisplayInternal t display_type fuel t.superblock.info.rootnode o with
  | Except.error f => Except.error f
  | Except.ok r =>
    let o := r.2
    let o := if display_type = BTreeDisplayType.BTREE_DEPTH_DOT then o ++ [Tok.str "\x7d\n"] else o
    Except.ok (ERROR_T.ERROR_NOERROR, o)

/-- The loop of `SanityWalk` over the keys of an interior node.  Its body ends with
`return SanityWalk(ptr)`, so the loop never reaches a second iteration; `none` is the loop
running to its end, which happens for a node without keys.  `recur` is the recursive call and
`out` collects the lines written to `std::cout`. -/
def sanityInteriorLoop (recur : Nat → List String → Except Fault (ERROR_T × List String))
    (b : BTreeNode) : Nat → Nat → List String →
      Except Fault (Option (ERROR_T × List String))
  | 0, _, _ => Except.ok none
  | _ + 1, offset, out =>
    match b.GetKey offset with
    | Except.error rc => Except.ok (some (rc, out))
    | Except.ok testkey =>
      let checked : Except Fault (List String) :=
        if offset + 1 < b.info.numkeys - 1 then
          match b.GetKey (offset + 1) with
          | Except.error _ => Except.error Fault.undefined
          | Except.ok tempkey =>
            if tempkey < testkey then
              Except.ok (out ++ ["The keys are not properly sorted!"])
            else Except.ok out
        else Except.ok out
      match checked with
      | Except.error f => Except.error f
      | Except.ok out =>
        match b.GetPtr offset with
        | Except.error rc => Except.ok (some (rc, out))
        | Except.ok ptr =>
          match recur ptr out with
          | Except.error f => Except.error f
          | Except.ok r => Except.ok (some r)

/-- The loop of `SanityWalk` over the entries of a leaf: the error of an early return, or
the output after the last entry. -/
def sanityLeafLoop (b : BTreeNode) : Nat → Nat → List String →
    Except Fault (Option ERROR_T × List String)
  | 0, _, out => Except.ok (none, out)
  | count + 1, offset, out =>
    match b.GetKey offset with
    | Except.error rc => Except.ok (some rc, out ++ ["Leaf Node is missing key"])
    | Except.ok testkey =>
      match b.GetVal offset with
      | Except.error rc =>
        Except.ok (some rc, out ++ ["leaf node key is missing associated value"])
      | Except.ok _ =>
        if offset + 1 < b.info.numkeys then
          match b.GetKey (offset + 1) with
          | Except.error _ => Except.error Fault.undefined
          | Except.ok tempkey =>
            if tempkey < testkey then
              sanityLeafLoop b count (offset + 1) (out ++ ["The keys are not properly sorted!"])
            else sanityLeafLoop b count (offset + 1) out
        else sanityLeafLoop b count (offset + 1) out

/-- `BTreeIndex::SanityWalk(node)`: the return code and the lines written to `std::cout`;
the first argument bounds the depth of the recursion. -/
def SanityWalk (t : BTreeIndex) : Nat → Nat → List String →
    Except Fault (ERROR_T × List String)
  | 0, _, _ => Except.error Fault.fuel
  | fuel + 1, node, out =>
    match BTreeNode.Unserialize t.buffercache node with
    | Except.error rc => Except.ok (rc, out)
    | Except.ok b =>
      match b.info.nodetype with
      | NodeType.BTREE_ROOT_NODE | NodeType.BTREE_INTERIOR_NODE =>
        match sanityInteriorLoop (SanityWalk t fuel) b b.info.numkeys 0 out with
        | Except.error f => Except.error f
        | Except.ok (some r) => Except.ok r
        | Except.ok none =>
          if b.info.numkeys > 0 then
            match b.GetPtr b.info.numkeys with
            | Except.error rc => Except.ok (rc, out)
            | Except.ok ptr => SanityWalk t fuel ptr out
          else
            Except.ok (ERROR_T.ERROR_NONEXISTENT,
              out ++ ["The keys on this interior node are nonexistent."])
      | NodeType.BTREE_LEAF_NODE =>
        match sanityLeafLoop b b.info.numkeys 0 out with
        | Except.error f => Except.error f
        | Except.ok (some rc, out) => Except.ok (rc, out)
        | Except.ok (none, out) => Except.ok (ERROR_T.ERROR_NOERROR, out)
      | _ => Except.ok (ERROR_T.ERROR_INSANE, out)

/-- `BTreeIndex::SanityCheck()`. -/
def SanityCheck (fuel : Nat) (t : BTreeIndex) : Except Fault (ERROR_T × List String) :=
  SanityWalk t fuel t.superblock.info.rootnode []

/-! ## Where a traversal ends -/

/-- The leaf and slot at which the traversal for `key` from `node` ends, or the code it
returns without a hit. -/
def locate (t : BTreeIndex) (key : Nat) : Nat → Nat → Except Fault (ERROR_T ⊕ (Nat × Nat))
  | 0, _ => Except.error Fault.fuel
  | fuel + 1, node =>
    match BTreeNode.Unserialize t.buffercache node with
    | Except.error rc => Except.ok (Sum.inl rc)
    | Except.ok b =>
      match b.info.nodetype with
      | NodeType.BTREE_ROOT_NODE | NodeType.BTREE_INTERIOR_NODE =>
        match interiorScan b key b.info.numkeys 0 with
        | Except.error rc => Except.ok (Sum.inl rc)
        | Except.ok (some offset) =>
          match b.GetPtr offset with
          | Except.error _ => Except.error Fault.undefined
          | Except.ok ptr => locate t key fuel ptr
        | Except.ok none =>
          if b.info.numkeys > 0 then
            match b.GetPtr b.info.numkeys with
            | Except.error _ => Except.error Fault.undefined
            | Except.ok ptr => locate t key fuel ptr
          else Except.ok (Sum.inl ERROR_T.ERROR_NONEXISTENT)
      | NodeType.BTREE_LEAF_NODE =>
        match leafScan b key b.info.numkeys 0 with
        | Except.error rc => Except.ok (Sum.inl rc)
        | Except.ok (some offset) => Except.ok (Sum.inr (node, offset))
        | Except.ok none => Except.ok (Sum.inl ERROR_T.ERROR_NONEXISTENT)
      | _ => Except.ok (Sum.inl ERROR_T.ERROR_INSANE)

/-- The value the traversal in lookup mode reports, as a function of where it ends. -/
def lookupOutcome (t : BTreeIndex) (value : Nat) :
    ERROR_T ⊕ (Nat × Nat) → ERROR_T × Nat
  | Sum.inl rc => (rc, value)
  | Sum.inr (n, offset) =>
    match t.buffercache.blocks[n]? with
    | some b => (ERROR_T.ERROR_NOERROR, b.vals.getD offset 0)
    | none => (ERROR_T.ERROR_GENERAL, value)

/-- The index after the traversal in update mode, as a function of where it ends. -/
def updateOutcome (t : BTreeIndex) (value : Nat) : ERROR_T ⊕ (Nat × Nat) → ERROR_T × BTreeIndex
  | Sum.inl rc => (rc, t)
  | Sum.inr (n, offset) =>
    match t.buffercache.blocks[n]? with
    | some b =>
      (ERROR_T.ERROR_NOERROR,
        { t with
          buffercache :=
            { t.buffercache with
              blocks := t.buffercache.blocks.set n { b with vals := b.vals.set offset value }
              log := t.buffercache.log ++ [CacheEvent.write n] } })
    | none => (ERROR_T.ERROR_GENERAL, t)

/-- The part of a node the traversal steers by: header, keys and pointers. -/
def BTreeNode.shape (b : BTreeNode) : NodeMetadata × List Nat × List Nat :=
  (b.info, b.keys, b.ptrs)

/-! ## Concrete inputs -/

/-- A geometry in which every leaf has `leaf` slots and every interior node `interior`. -/
def geometry (leaf interior : Nat) : SlotGeometry :=
  { GetNumSlotsAsLeaf := fun _ => leaf, GetNumSlotsAsInterior := fun _ => interior }

/-- A block that has never been written. -/
def blankBlock : BTreeNode :=
  { info := { nodetype := NodeType.BTREE_UNALLOCATED_BLOCK, keysize := 0, valuesize := 0,
              blocksize := 0, rootnode := 0, freelist := 0, numkeys := 0 }
    keys := [], vals := [], ptrs := [] }

/-- A store of `n` blank blocks of 64 bytes. -/
def blankStore (n : Nat) : BufferCache :=
  { blocksize := 64, blocks := List.replicate n blankBlock, log := [] }

/-- The index after `Attach(0, create = true)` on a blank store of `n` blocks, with 4-byte
keys and values. -/
def created (G : SlotGeometry) (n : Nat) : Except Fault BTreeIndex :=
  match Attach G (BTreeIndex.new 4 4 (blankStore n)) 0 true with
  | Except.ok r => Except.ok r.2
  | Except.error f => Except.error f

/-- The index after inserting the given key/value pairs one after the other. -/
def insertAll (G : SlotGeometry) (fuel : Nat) :
    Except Fault BTreeIndex → List (Nat × Nat) → Except Fault BTreeIndex
  | t, [] => t
  | Except.ok t, kv :: rest =>
    match Insert G fuel t kv.1 kv.2 with
    | Except.ok r => insertAll G fuel (Except.ok r.2) rest
    | Except.error f => Except.error f
  | Except.error f, _ => Except.error f

/-- The index a run ended with (a blank index when the run faulted). -/
def indexOf : Except Fault BTreeIndex → BTreeIndex
  | Except.ok t => t
  | Except.error _ => BTreeIndex.new 0 0 (blankStore 0)

/-- Leaves and interior nodes of 3 slots, 12 blocks, after inserting 10, 20, 30, 40, 25. -/
def oddTree : BTreeIndex :=
  indexOf (insertAll (geometry 3 3) 8 (created (geometry 3 3) 12)
    [(10, 100), (20, 200), (30, 300), (40, 400), (25, 250)])

/-- Leaves of 3 slots, interior nodes of 4, a store of 4 blocks, after inserting 1, 2, 3:
the split of the root leaf has used both free blocks. -/
def fullTree : BTreeIndex :=
  indexOf (insertAll (geometry 3 4) 8 (created (geometry 3 4) 4) [(1, 10), (2, 20), (3, 30)])

/-- Leaves of 3 slots, interior nodes of 4, a store of 8 blocks, after inserting 1, 2, 3. -/
def smallTree : BTreeIndex :=
  indexOf (insertAll (geometry 3 4) 8 (created (geometry 3 4) 8) [(1, 10), (2, 20), (3, 30)])

/-- The index `oddTree` after the further insertion of 27. -/
def oddTreeAfter : BTreeIndex :=
  indexOf (insertAll (geometry 3 3) 8 (created (geometry 3 3) 12)
    [(10, 100), (20, 200), (30, 300), (40, 400), (25, 250), (27, 270)])

/-- Leaves and interior nodes of 3 slots, 12 blocks, after inserting 1, 2, 3, 4, 5. -/
def ascendingTree : BTreeIndex :=
  indexOf (insertAll (geometry 3 3) 8 (created (geometry 3 3) 12)
    [(1, 10), (2, 20), (3, 30), (4, 40), (5, 50)])

/-! ## Well-formed trees -/

/-- The test `lo ≤ k < hi`; a missing bound is no constraint. -/
def within (lo hi : Option Nat) (k : Nat) : Bool :=
  (match lo with
    | none => true
    | some l => decide (l ≤ k)) &&
  (match hi with
    | none => true
    | some u => decide (k < u))

/-- The keys in use are strictly ascending. -/
def keysAscending (b : BTreeNode) : Bool :=
  decide (∀ j < b.info.numkeys, ∀ i < j, b.keys.getD i 0 < b.keys.getD j 0)

/-- The keys in use lie between the bounds. -/
def keysWithin (b : BTreeNode) (lo hi : Option Nat) : Bool :=
  decide (∀ i < b.info.numkeys, within lo hi (b.keys.getD i 0) = true)

/-- Lower bound of the keys below pointer `i`: the key before it, or the node's own bound. -/
def lowerBound (b : BTreeNode) (lo : Option Nat) (i : Nat) : Option Nat :=
  if i = 0 then lo else some (b.keys.getD (i - 1) 0)

/-- Upper bound of the keys below pointer `i`: the key after it, or the node's own bound. -/
def upperBound (b : BTreeNode) (hi : Option Nat) (i : Nat) : Option Nat :=
  if i = b.info.numkeys then hi else some (b.keys.getD i 0)

/-- Search-tree order of the subtree of at most `h` levels rooted at block `n`: every node
is a leaf or an interior node, its keys in use are strictly ascending and lie in `[lo, hi)`,
an interior node has at least one key and the subtree under pointer `i` holds keys that are
`< key[i]` and `≥ key[i-1]`; a leaf has a value slot for each key. -/
def wellFormedFrom (blocks : List BTreeNode) : Nat → Nat → Option Nat → Option Nat → Bool
  | 0, _, _, _ => false
  | h + 1, n, lo, hi =>
    match blocks[n]? with
    | none => false
    | some b =>
      if b.info.nodetype.isLeaf then
        keysAscending b && keysWithin b lo hi && decide (b.info.numkeys ≤ b.vals.length)
      else if b.info.nodetype.isInterior then
        decide (0 < b.info.numkeys) && keysAscending b && keysWithin b lo hi &&
          (List.range (b.info.numkeys + 1)).all fun i =>
            wellFormedFrom blocks h (b.ptrs.getD i 0) (lowerBound b lo i) (upperBound b hi i)
      else false

/-- Some leaf of the subtree of at most `h` levels rooted at block `n` holds `k`. -/
def containsFrom (blocks : List BTreeNode) (k : Nat) : Nat → Nat → Bool
  | 0, _ => false
  | h + 1, n =>
    match blocks[n]? with
    | none => false
    | some b =>
      if b.info.nodetype.isLeaf then
        decide (∃ i < b.info.numkeys, b.keys.getD i 0 = k)
      else if b.info.nodetype.isInterior then
        (List.range (b.info.numkeys + 1)).any fun i => containsFrom blocks k h (b.ptrs.getD i 0)
      else false

/-- The root of a tree that holds no key yet: the node `Attach` creates. -/
def emptyRoot (t : BTreeIndex) : Bool :=
  match t.buffercache.blocks[t.superblock.info.rootnode]? with
  | some b => b.info.nodetype.isInterior && decide (b.info.numkeys = 0)
  | none => false

/-- A well-formed tree of at most `h` levels: empty, or in search-tree order from the root. -/
def wellFormed (t : BTreeIndex) (h : Nat) : Bool :=
  emptyRoot t || wellFormedFrom t.buffercache.blocks h t.superblock.info.rootnode none none

/-- The tree contains `k`: a leaf reachable from the root within `h` levels holds it. -/
def containsKey (t : BTreeIndex) (h : Nat) (k : Nat) : Bool :=
  !emptyRoot t && containsFrom t.buffercache.blocks k h t.superblock.info.rootnode

/-! ## The freelist as a chain -/

/-- The blocks `l` are the freelist that starts at block number `head`: each is a block of
the store other than 0, tagged unallocated, whose next-pointer is the block after it, and
the last next-pointer is the null sentinel 0. -/
def isChain (blocks : List BTreeNode) : Nat → List Nat → Bool
  | head, [] => decide (head = 0)
  | head, x :: l =>
    decide (head = x) && decide (x ≠ 0) &&
      match blocks[x]? with
      | some b =>
        decide (b.info.nodetype = NodeType.BTREE_UNALLOCATED_BLOCK) && isChain blocks b.info.freelist l
      | none => false

/-- A call of the allocator, or the owner of an allocated block writing a node into it. -/
inductive AllocOp where
  | allocate
  | deallocate (n : Nat)
  | use (n : Nat) (node : BTreeNode)

/-- The index together with the blocks that are currently allocated: handed out by
`AllocateNode`, or in use from the start, and not given back since. -/
structure AllocState where
  index : BTreeIndex
  live : List Nat

/-- One step of a client of the allocator.  `none` marks a step the client may not take: it
deallocates or writes a block that is not currently allocated. -/
def allocStep (s : AllocState) : AllocOp → Except Fault (Option AllocState)
  | AllocOp.allocate =>
    match AllocateNode s.index with
    | Except.error f => Except.error f
    | Except.ok r =>
      if r.1 = ERROR_T.ERROR_NOERROR then Except.ok (some { index := r.2.2, live := r.2.1 :: s.live })
      else Except.ok (some { index := r.2.2, live := s.live })
  | AllocOp.deallocate n =>
    if n ∈ s.live then
      match DeallocateNode s.index n with
      | Except.error f => Except.error f
      | Except.ok r => Except.ok (some { index := r.2, live := s.live.erase n })
    else Except.ok none
  | AllocOp.use n node =>
    if n ∈ s.live then
      Except.ok (some { index := { s.index with
                                   buffercache := (node.Serialize s.index.buffercache n).2 }
                        live := s.live })
    else Except.ok none

/-- A sequence of steps, stopping at the first fault or forbidden step. -/
def allocRun : AllocState → List AllocOp → Except Fault (Option AllocState)
  | s, [] => Except.ok (some s)
  | s, op :: ops =>
    match allocStep s op with
    | Except.error f => Except.error f
    | Except.ok none => Except.ok none
    | Except.ok (some s') => allocRun s' ops

/-- The allocator invariant: the superblock lives in block 0, the freelist is the chain `l`
without duplicates, and the allocated blocks are distinct blocks of the store, none of them
block 0 and none of them free. -/
def AllocInv (s : AllocState) (l : List Nat) : Prop :=
  s.index.superblock_index = 0 ∧
    isChain s.index.buffercache.blocks s.index.superblock.info.freelist l = true ∧
    l.Nodup ∧ s.live.Nodup ∧
    ∀ n ∈ s.live, n ∉ l ∧ n ≠ 0 ∧ n < s.index.buffercache.blocks.length

/-! ## Depth -/

/-- The depth of the subtree rooted at block `n`, within `h` levels: the number of nodes on
each path from `n` down to a leaf, when all these paths have the same length.  It is `none`
when two paths differ in length, when a path leaves the tree and when a path does not reach
a leaf within `h` levels.  An interior node without keys, the root that `Attach` creates,
counts as a single node. -/
def depthFrom (blocks : List BTreeNode) : Nat → Nat → Option Nat
  | 0, _ => none
  | h + 1, n =>
    match blocks[n]? with
    | none => none
    | some b =>
      if b.info.nodetype.isLeaf then some 1
      else if b.info.nodetype.isInterior then
        if b.info.numkeys = 0 then some 1
        else
          match depthFrom blocks h (b.ptrs.getD 0 0) with
          | none => none
          | some d =>
            if (List.range (b.info.numkeys + 1)).all fun i =>
                depthFrom blocks h (b.ptrs.getD i 0) == some d
            then some (d + 1)
            else none
      else none

/-- The depth of the tree, within `h` levels. -/
def depth (t : BTreeIndex) (h : Nat) : Option Nat :=
  depthFrom t.buffercache.blocks h t.superblock.info.rootnode

/-- Leaves and interior nodes of 3 slots and a store of 3 blocks, after inserting 10, 20,
30, 40: the one free block went to the first split. -/
def crampedTree : BTreeIndex :=
  indexOf (insertAll (geometry 3 3) 8 (created (geometry 3 3) 3)
    [(10, 100), (20, 200), (30, 300), (40, 400)])

/-! ## Free and reachable blocks -/

/-- Block `m` is reached from block `n` in at most `h` steps along the pointers in use: the
slots `0 .. numkeys` of an interior node that has a key. -/
def reachableFrom (blocks : List BTreeNode) : Nat → Nat → Nat → Bool
  | 0, n, m => decide (n = m)
  | h + 1, n, m =>
    decide (n = m) ||
      match blocks[n]? with
      | some b =>
        b.info.nodetype.isInterior && decide (0 < b.info.numkeys) &&
          (List.range (b.info.numkeys + 1)).any fun i =>
            reachableFrom blocks h (b.ptrs.getD i 0) m
      | none => false

/-- Block `m` is reached from the root in at most `h` steps. -/
def reachable (t : BTreeIndex) (h : Nat) (m : Nat) : Bool :=
  reachableFrom t.buffercache.blocks h t.superblock.info.rootnode m

/-- No pointer slot of the node holds a block of `l`. -/
def Clean (l : List Nat) (b : BTreeNode) : Prop := ∀ p ∈ b.ptrs, p ∉ l

/-- The state of the allocator as the tree code leaves it: the superblock is block 0, the
freelist is the chain `l` without duplicates, the root is not on it and no pointer slot of
the in-memory superblock or of any block of the store holds a block of `l`. -/
def FreeInv (t : BTreeIndex) (l : List Nat) : Prop :=
  t.superblock_index = 0 ∧
    isChain t.buffercache.blocks t.superblock.info.freelist l = true ∧
    l.Nodup ∧ t.superblock.info.rootnode ∉ l ∧ Clean l t.superblock ∧
    ∀ b ∈ t.buffercache.blocks, Clean l b

/-- The set `S` of blocks contains every block that the pointers in use of its members
refer to. -/
def closedSet (blocks : List BTreeNode) (S : List Nat) : Bool :=
  S.all fun n =>
    match blocks[n]? with
    | some b =>
      !(b.info.nodetype.isInterior && decide (0 < b.info.numkeys)) ||
        (List.range (b.info.numkeys + 1)).all fun i => decide (b.ptrs.getD i 0 ∈ S)
    | none => true

/-! ## More concrete inputs -/

/-- The tree holding 1, 2, 3 with the keys of its second leaf, in block 3, out of order. -/
def unsortedTree : BTreeIndex :=
  { smallTree with
    buffercache :=
      (({ info := { nodetype := NodeType.BTREE_LEAF_NODE, keysize := 4, valuesize := 4,
                    blocksize := 64, rootnode := 0, freelist := 0, numkeys := 2 }
          keys := [3, 2, 0], vals := [30, 20, 0], ptrs := [0] } : BTreeNode).Serialize
        smallTree.buffercache 3).2 }

/-- An interior node of 3 slots that holds 3 keys and 4 child pointers. -/
def fullInterior : BTreeNode :=
  { info := { nodetype := NodeType.BTREE_INTERIOR_NODE, keysize := 4, valuesize := 4,
              blocksize := 64, rootnode := 0, freelist := 0, numkeys := 3 }
    keys := [20, 30, 50], vals := [], ptrs := [2, 4, 5, 3] }

/-- Leaves and interior nodes of 3 slots and a store of 8 blocks, after inserting 38, 8, 13,
15, 1, 27: the freelist is used up and the last split has put an interior node into
block 0. -/
def spentTree : BTreeIndex :=
  indexOf (insertAll (geometry 3 3) 8 (created (geometry 3 3) 8)
    [(38, 380), (8, 80), (13, 130), (15, 150), (1, 10), (27, 270)])

/-- The entries a node holds: its keys in use, each with its value, in slot order. -/
def entries (b : BTreeNode) : List (Nat × Nat) :=
  (List.range b.info.numkeys).map fun i => (b.keys.getD i 0, b.vals.getD i 0)

/-- A leaf of 3 slots holding 5, 6 and 7. -/
def fullLeaf : BTreeNode :=
  { info := { nodetype := NodeType.BTREE_LEAF_NODE, keysize := 4, valuesize := 4,
              blocksize := 64, rootnode := 0, freelist := 0, numkeys := 3 }
    keys := [5, 6, 7], vals := [50, 60, 70], ptrs := [0] }

/-- The keys a node holds, in slot order. -/
def keyList (b : BTreeNode) : List Nat :=
  (List.range b.info.numkeys).map fun i => b.keys.getD i 0

/-- The child pointers an interior node holds, in slot order: one more than it has keys. -/
def pointerList (b : BTreeNode) : List Nat :=
  (List.range (b.info.numkeys + 1)).map fun i => b.ptrs.getD i 0

/-- An interior node of 4 key slots holding the keys 20 and 40 over the children 2, 3, 4. -/
def roomyInterior : BTreeNode :=
  { info := { nodetype := NodeType.BTREE_INTERIOR_NODE, keysize := 4, valuesize := 4,
              blocksize := 64, rootnode := 0, freelist := 0, numkeys := 2 }
    keys := [20, 40, 0, 0], vals := [], ptrs := [2, 3, 4, 0, 0] }

/-! ## The path of a traversal -/

/-- The blocks the traversal for `key` visits from `node` on, in the order it visits them:
the node itself and then, as long as the node is an interior node with a pointer to follow,
the blocks visited from the child it descends to. -/
def descentPath (t : BTreeIndex) (key : Nat) : Nat → Nat → List Nat
  | 0, node => [node]
  | fuel + 1, node =>
    match BTreeNode.Unserialize t.buffercache node with
    | Except.error _ => [node]
    | Except.ok b =>
      match b.info.nodetype with
      | NodeType.BTREE_ROOT_NODE | NodeType.BTREE_INTERIOR_NODE =>
        match interiorScan b key b.info.numkeys 0 with
        | Except.error _ => [node]
        | Except.ok (some offset) =>
          match b.GetPtr offset with
          | Except.error _ => [node]
          | Except.ok ptr => node :: descentPath t key fuel ptr
        | Except.ok none =>
          if b.info.numkeys > 0 then
            match b.GetPtr b.info.numkeys with
            | Except.error _ => [node]
            | Except.ok ptr => node :: descentPath t key fuel ptr
          else [node]
      | _ => [node]

/-- Block `child` is one of the child pointers in use of the interior node in block
`parent`. -/
def isChildOf (blocks : List BTreeNode) (parent child : Nat) : Bool :=
  match blocks[parent]? with
  | some b =>
    b.info.nodetype.isInterior &&
      (List.range (b.info.numkeys + 1)).any fun i => b.ptrs.getD i 0 == child
  | none => false

/-- A chain of blocks in which each block is a child of the one before it and the last
block is a leaf. -/
def rootToLeaf (blocks : List BTreeNode) : List Nat → Bool
  | [] => false
  | [x] =>
    match blocks[x]? with
    | some b => b.info.nodetype.isLeaf
    | none => false
  | x :: y :: rest => isChildOf blocks x y && rootToLeaf blocks (y :: rest)

/-! ## The activations of `split_Internal` -/

/-- One activation of `split_Internal` that is entered with `flag == 0`: either it returns
(left, with its result) or it goes on to the recursive call (right, with the index and the
arguments `pointer`, left, right and key of that call). -/
def split_InternalStep (G : SlotGeometry) (t : BTreeIndex) (pointer : List Nat)
    (new_blockptr_leftleaf new_blockptr_rightleaf : Nat) (key : Nat) :
    Except Fault
      ((Option ERROR_T × Int × BTreeIndex) ⊕ (BTreeIndex × List Nat × Nat × Nat × Nat)) := do
  let Address ← assigned pointer.getLast?
  let pointer := pointer.dropLast
  let Temp_Node ← orUndefined (BTreeNode.Unserialize t.buffercache Address)
  if Temp_Node.info.numkeys + 1 = G.GetNumSlotsAsInterior Temp_Node.info then
    let rootPtr := t.superblock.info.rootnode
    if Address ≠ rootPtr then
      let i ← insert_Not_Full_Internal t Address Temp_Node new_blockptr_leftleaf
        new_blockptr_rightleaf key
      let sr ← split_Internal_Full G i.2.2 i.2.1
      let Temp_Key ← assigned sr.Key
      Except.ok (Sum.inr (sr.index, pointer, sr.left, sr.right, Temp_Key))
    else
      let i ← insert_Not_Full_Internal t Address Temp_Node new_blockptr_leftleaf
        new_blockptr_rightleaf key
      let sr ← split_Internal_Full G i.2.2 i.2.1
      let t := sr.index
      let New_Root := (BTreeNode.new G NodeType.BTREE_INTERIOR_NODE
        t.superblock.info.keysize t.superblock.info.valuesize
        t.superblock.info.blocksize).incNumkeys
      let Temp_Key ← assigned sr.Key
      let New_Root := (New_Root.SetKey 0 Temp_Key).2
      let New_Root := (New_Root.SetPtr 0 sr.left).2
      let New_Root := (New_Root.SetPtr 1 sr.right).2
      let w := New_Root.Serialize t.buffercache t.superblock.info.rootnode
      Except.ok (Sum.inl (some w.1, 1, { t with buffercache := w.2 }))
  else
    let i ← insert_Not_Full_Internal t Address Temp_Node new_blockptr_leftleaf
      new_blockptr_rightleaf key
    Except.ok (Sum.inl (some ERROR_T.ERROR_NOERROR, 1, i.2.2))

/-- The `pointer` arguments of the activations of `split_Internal` that a call with
`flag == 0` leads to, the call itself first; the first argument bounds their number. -/
def split_InternalCalls (G : SlotGeometry) :
    Nat → BTreeIndex → List Nat → Nat → Nat → Nat → List (List Nat)
  | 0, _, pointer, _, _, _ => [pointer]
  | n + 1, t, pointer, new_blockptr_leftleaf, new_blockptr_rightleaf, key =>
    pointer ::
      match split_InternalStep G t pointer new_blockptr_leftleaf new_blockptr_rightleaf key with
      | Except.ok (Sum.inr next) =>
        split_InternalCalls G n next.1 next.2.1 next.2.2.1 next.2.2.2.1 next.2.2.2.2
      | _ => []

/-- Leaves of 3 slots, interior nodes of 4, a store of 24 blocks, after inserting 1, ..., 8:
a tree of three levels in which the traversal for a key above 7 goes through the blocks 1,
11 and 15. -/
def tallTree : BTreeIndex :=
  indexOf (insertAll (geometry 3 4) 8 (created (geometry 3 4) 24)
    [(1, 10), (2, 20), (3, 30), (4, 40), (5, 50), (6, 60), (7, 70), (8, 80)])

/-! ## The slot accesses of a run

The accessor calls an operation makes, in call order.  Each entry holds the node the call
is made on as it is at that moment, the kind of slot and the offset.  A list follows its
function of the source call by call and ends where the function returns, or where it would
go on with a value that a refused getter has not delivered (`Fault.undefined` above); the
nodes and the index of the later calls are those the functions above compute. -/

/-- The three kinds of slot of a node. -/
inductive Slot where
  | key
  | val
  | ptr
  deriving DecidableEq

/-- One call of a slot accessor (`GetKey`/`SetKey`, `GetVal`/`SetVal`, `GetPtr`/`SetPtr`): the
node it is called on, as it is at that moment, the kind of slot and the offset. -/
structure Access where
  node : BTreeNode
  slot : Slot
  offset : Nat
  deriving DecidableEq

/-- The offset of the call is within the bounds of its node: below `numkeys` for a key or a
value slot, at most `numkeys` for a pointer slot of a root or interior node. -/
def Access.inRange (a : Access) : Bool :=
  match a.slot with
  | Slot.key => decide (a.offset < a.node.info.numkeys)
  | Slot.val => decide (a.offset < a.node.info.numkeys)
  | Slot.ptr => !a.node.info.nodetype.isInterior || decide (a.offset ≤ a.node.info.numkeys)

/-- The node of the call has the kind of slot that is asked for. -/
def Access.typed (a : Access) : Bool :=
  match a.slot with
  | Slot.key => a.node.info.nodetype.isInterior || a.node.info.nodetype.isLeaf
  | Slot.val => a.node.info.nodetype.isLeaf
  | Slot.ptr => a.node.info.nodetype.isInterior

/-- The accessor does not take its error branch. -/
def Access.accepted (a : Access) : Bool :=
  match a.slot with
  | Slot.key => a.node.keyOk a.offset
  | Slot.val => a.node.valOk a.offset
  | Slot.ptr => a.node.ptrOk a.offset

/-- The accessor calls of `interiorScan`, in order. -/
def interiorScanAccesses (b : BTreeNode) (key : Nat) : Nat → Nat → List Access
  | 0, _ => []
  | count + 1, offset =>
    Access.mk b Slot.key offset ::
      match b.GetKey offset with
      | Except.error _ => []
      | Except.ok testkey =>
        if key < testkey then []
        else interiorScanAccesses b key count (offset + 1)

/-- The accessor calls of `leafScan`, in order. -/
def leafScanAccesses (b : BTreeNode) (key : Nat) : Nat → Nat → List Access
  | 0, _ => []
  | count + 1, offset =>
    Access.mk b Slot.key offset ::
      match b.GetKey offset with
      | Except.error _ => []
      | Except.ok testkey =>
        if testkey = key then []
        else leafScanAccesses b key count (offset + 1)

/-- The accessor calls of `LookupOrUpdateInternal(node, op, key, value, pointer)`, in order,
up to the point where the call returns or faults.  On the leaf that holds the key a lookup
calls `GetVal` and an update calls `SetVal`, both at the offset of the key. -/
def LookupOrUpdateInternalAccesses (t : BTreeIndex) (key : Nat) : Nat → Nat → List Access
  | 0, _ => []
  | fuel + 1, node =>
    match BTreeNode.Unserialize t.buffercache node with
    | Except.error _ => []
    | Except.ok b =>
      match b.info.nodetype with
      | NodeType.BTREE_ROOT_NODE | NodeType.BTREE_INTERIOR_NODE =>
        interiorScanAccesses b key b.info.numkeys 0 ++
          match interiorScan b key b.info.numkeys 0 with
          | Except.error _ => []
          | Except.ok (some offset) =>
            Access.mk b Slot.ptr offset ::
              match b.GetPtr offset with
              | Except.error _ => []
              | Except.ok ptr => LookupOrUpdateInternalAccesses t key fuel ptr
          | Except.ok none =>
            if b.info.numkeys > 0 then
              Access.mk b Slot.ptr b.info.numkeys ::
                match b.GetPtr b.info.numkeys with
                | Except.error _ => []
                | Except.ok ptr => LookupOrUpdateInternalAccesses t key fuel ptr
            else []
      | NodeType.BTREE_LEAF_NODE =>
        leafScanAccesses b key b.info.numkeys 0 ++
          match leafScan b key b.info.numkeys 0 with
          | Except.error _ => []
          | Except.ok (some offset) => [Access.mk b Slot.val offset]
          | Except.ok none => []
      | _ => []

/-- The accessor calls of the inner loop of `insert_Not_Full`. -/
def shiftLeafAccesses : Nat → Nat → BTreeNode → List Access
  | 0, _, _ => []
  | count + 1, i, node =>
    Access.mk node Slot.key (i - 1) ::
      match node.GetKey (i - 1) with
      | Except.error _ => []
      | Except.ok Temp_Key =>
        Access.mk node Slot.val (i - 1) ::
          match node.GetVal (i - 1) with
          | Except.error _ => []
          | Except.ok Temp_Val =>
            Access.mk node Slot.key i ::
              Access.mk (node.SetKey i Temp_Key).2 Slot.val i ::
                shiftLeafAccesses count (i - 1)
                  (((node.SetKey i Temp_Key).2).SetVal i Temp_Val).2

/-- The accessor calls of the outer loop of `insert_Not_Full`. -/
def insertLeafLoopAccesses (key : Nat) (value : Nat) :
    Nat → Nat → Nat → BTreeNode → List Access
  | 0, _, _, _ => []
  | count + 1, offset, counter, node =>
    Access.mk node Slot.key offset ::
      match node.GetKey offset with
      | Except.error _ => []
      | Except.ok testkey =>
        if key < testkey then
          shiftLeafAccesses (node.info.numkeys - 1 - offset) (node.info.numkeys - 1) node ++
            match shiftLeaf (node.info.numkeys - 1 - offset) (node.info.numkeys - 1) node with
            | Except.error _ => []
            | Except.ok node =>
              [Access.mk node Slot.key offset,
               Access.mk (node.SetKey offset key).2 Slot.val offset]
        else if key = testkey then []
        else
          let counter := counter + 1
          if counter = node.info.numkeys - 1 then
            [Access.mk node Slot.key (node.info.numkeys - 1),
             Access.mk (node.SetKey (node.info.numkeys - 1) key).2 Slot.val
               (node.info.numkeys - 1)]
          else insertLeafLoopAccesses key value count (offset + 1) counter node

/-- The accessor calls of `insert_Not_Full(Address, Temp_Node, key, value)`. -/
def insert_Not_FullAccesses (Temp_Node : BTreeNode) (key : Nat) (value : Nat) : List Access :=
  let Temp_Node := Temp_Node.incNumkeys
  let times := Temp_Node.info.numkeys
  insertLeafLoopAccesses key value (times - 1) 0 0 Temp_Node

/-- The accessor calls of the inner loop of `insert_Not_Full_Internal`. -/
def shiftInteriorAccesses : Nat → Nat → BTreeNode → List Access
  | 0, _, _ => []
  | count + 1, i, node =>
    Access.mk node Slot.key (i - 1) ::
      match node.GetKey (i - 1) with
      | Except.error _ => []
      | Except.ok Temp_Key =>
        Access.mk node Slot.key i ::
          Access.mk (node.SetKey i Temp_Key).2 Slot.ptr i ::
            match ((node.SetKey i Temp_Key).2).GetPtr i with
            | Except.error _ => []
            | Except.ok pointer_temp =>
              Access.mk (node.SetKey i Temp_Key).2 Slot.ptr (i + 1) ::
                shiftInteriorAccesses count (i - 1)
                  (((node.SetKey i Temp_Key).2).SetPtr (i + 1) pointer_temp).2

/-- The accessor calls of the outer loop of `insert_Not_Full_Internal`. -/
def insertInteriorLoopAccesses (new_blockptr_leftleaf new_blockptr_rightleaf : Nat)
    (key : Nat) : Nat → Nat → Nat → BTreeNode → List Access
  | 0, _, _, _ => []
  | count + 1, offset, counter, node =>
    Access.mk node Slot.key offset ::
      match node.GetKey offset with
      | Except.error _ => []
      | Except.ok testkey =>
        if key < testkey then
          shiftInteriorAccesses (node.info.numkeys - 1 - offset) (node.info.numkeys - 1)
              node ++
            match shiftInterior (node.info.numkeys - 1 - offset) (node.info.numkeys - 1)
                node with
            | Except.error _ => []
            | Except.ok node =>
              [Access.mk node Slot.key offset,
               Access.mk (node.SetKey offset key).2 Slot.ptr offset,
               Access.mk (((node.SetKey offset key).2).SetPtr offset new_blockptr_leftleaf).2
                 Slot.ptr (offset + 1)]
        else if key = testkey then []
        else
          let counter := counter + 1
          if counter = node.info.numkeys - 1 then
            [Access.mk node Slot.key (node.info.numkeys - 1),
             Access.mk (node.SetKey (node.info.numkeys - 1) key).2 Slot.ptr
               (node.info.numkeys - 1),
             Access.mk
               (((node.SetKey (node.info.numkeys - 1) key).2).SetPtr (node.info.numkeys - 1)
                 new_blockptr_leftleaf).2
               Slot.ptr node.info.numkeys]
          else
            insertInteriorLoopAccesses new_blockptr_leftleaf new_blockptr_rightleaf key count
              (offset + 1) counter node

/-- The accessor calls of `insert_Not_Full_Internal(Address, Temp_Node, left, right, key)`. -/
def insert_Not_Full_InternalAccesses (Temp_Node : BTreeNode)
    (new_blockptr_leftleaf new_blockptr_rightleaf : Nat) (key : Nat) : List Access :=
  let Temp_Node := Temp_Node.incNumkeys
  let times := Temp_Node.info.numkeys
  insertInteriorLoopAccesses new_blockptr_leftleaf new_blockptr_rightleaf key (times - 1) 0 0
    Temp_Node

/-- The accessor calls of a copy loop of `split_Leaf`. -/
def splitLeafLoopAccesses (Node : BTreeNode) (base : Nat) :
    Nat → Nat → BTreeNode → List Access
  | 0, _, _ => []
  | count + 1, offset, dst =>
    Access.mk Node Slot.key offset ::
      match Node.GetKey offset with
      | Except.error _ => []
      | Except.ok Temp_Key =>
        Access.mk Node Slot.val offset ::
          match Node.GetVal offset with
          | Except.error _ => []
          | Except.ok Temp_Value =>
            let dst := dst.incNumkeys
            Access.mk dst Slot.key (offset - base) ::
              let r := dst.SetKey (offset - base) Temp_Key
              if r.1 ≠ ERROR_T.ERROR_NOERROR then []
              else
                Access.mk r.2 Slot.val (offset - base) ::
                  let r := r.2.SetVal (offset - base) Temp_Value
                  if r.1 ≠ ERROR_T.ERROR_NOERROR then []
                  else splitLeafLoopAccesses Node base count (offset + 1) r.2

/-- The accessor calls of `split_Leaf(Node, left, right, Key, Val)`. -/
def split_LeafAccesses (G : SlotGeometry) (t : BTreeIndex) (Node : BTreeNode) : List Access :=
  match AllocateNode t with
  | Except.error _ => []
  | Except.ok a =>
    let new_blockptr_leftleaf := a.2.1
    let t := a.2.2
    let Left_Leaf := BTreeNode.new G NodeType.BTREE_LEAF_NODE t.superblock.info.keysize
      t.superblock.info.valuesize t.superblock.info.blocksize
    let t : BTreeIndex :=
      { t with buffercache := (Left_Leaf.Serialize t.buffercache new_blockptr_leftleaf).2 }
    match BTreeNode.Unserialize t.buffercache new_blockptr_leftleaf with
    | Except.error _ => []
    | Except.ok Left_Leaf =>
      match AllocateNode t with
      | Except.error _ => []
      | Except.ok a =>
        let new_blockptr_rightleaf := a.2.1
        let t := a.2.2
        let Right_Leaf := BTreeNode.new G NodeType.BTREE_LEAF_NODE t.superblock.info.keysize
          t.superblock.info.valuesize t.superblock.info.blocksize
        let t : BTreeIndex :=
          { t with
            buffercache := (Right_Leaf.Serialize t.buffercache new_blockptr_rightleaf).2 }
        match BTreeNode.Unserialize t.buffercache new_blockptr_rightleaf with
        | Except.error _ => []
        | Except.ok Right_Leaf =>
          let S := G.GetNumSlotsAsLeaf Node.info
          splitLeafLoopAccesses Node 0 (S / 2) 0 Left_Leaf ++
            match splitLeafLoop Node 0 (S / 2) 0 Left_Leaf with
            | Except.error _ => []
            | Except.ok _ =>
              splitLeafLoopAccesses Node (S / 2) (S - S / 2) (S / 2) Right_Leaf ++
                match splitLeafLoop Node (S / 2) (S - S / 2) (S / 2) Right_Leaf with
                | Except.error _ => []
                | Except.ok _ => [Access.mk Node Slot.key (S / 2), Access.mk Node Slot.val (S / 2)]

/-- The accessor calls of a copy loop of `split_Internal_Full`. -/
def splitInteriorLoopAccesses (Node : BTreeNode) (base : Nat) :
    Nat → Nat → BTreeNode → List Access
  | 0, _, _ => []
  | count + 1, offset, dst =>
    Access.mk Node Slot.key offset ::
      match Node.GetKey offset with
      | Except.error _ => []
      | Except.ok Temp_Key =>
        Access.mk Node Slot.ptr offset ::
          match Node.GetPtr offset with
          | Except.error _ => []
          | Except.ok Temp_pointer =>
            let dst := dst.incNumkeys
            Access.mk dst Slot.key (offset - base) ::
              Access.mk (dst.SetKey (offset - base) Temp_Key).2 Slot.ptr (offset - base) ::
                let r := ((dst.SetKey (offset - base) Temp_Key).2).SetPtr (offset - base)
                  Temp_pointer
                if r.1 ≠ ERROR_T.ERROR_NOERROR then []
                else splitInteriorLoopAccesses Node base count (offset + 1) r.2

/-- The accessor calls of `split_Internal_Full(Node, left, right, Key)`.  The offset
`S/2 - 1` of the last `SetPtr` is computed in unsigned arithmetic: for `S/2 = 0` it wraps
around to the largest value of the type, taken here to be of 32 bits. -/
def split_Internal_FullAccesses (G : SlotGeometry) (t : BTreeIndex) (Node : BTreeNode) :
    List Access :=
  match AllocateNode t with
  | Except.error _ => []
  | Except.ok a =>
    let new_blockptr_leftInternal := a.2.1
    let t := a.2.2
    let Left_Internal := BTreeNode.new G NodeType.BTREE_INTERIOR_NODE
      t.superblock.info.keysize t.superblock.info.valuesize t.superblock.info.blocksize
    let t : BTreeIndex :=
      { t with
        buffercache := (Left_Internal.Serialize t.buffercache new_blockptr_leftInternal).2 }
    match BTreeNode.Unserialize t.buffercache new_blockptr_leftInternal with
    | Except.error _ => []
    | Except.ok Left_Internal =>
      match AllocateNode t with
      | Except.error _ => []
      | Except.ok a =>
        let new_blockptr_rightInternal := a.2.1
        let t := a.2.2
        let Right_Internal := BTreeNode.new G NodeType.BTREE_INTERIOR_NODE
          t.superblock.info.keysize t.superblock.info.valuesize t.superblock.info.blocksize
        let t : BTreeIndex :=
          { t with
            buffercache :=
              (Right_Internal.Serialize t.buffercache new_blockptr_rightInternal).2 }
        match BTreeNode.Unserialize t.buffercache new_blockptr_rightInternal with
        | Except.error _ => []
        | Except.ok Right_Internal =>
          let S := G.GetNumSlotsAsInterior Node.info
          splitInteriorLoopAccesses Node 0 (S / 2) 0 Left_Internal ++
            match splitInteriorLoop Node 0 (S / 2) 0 Left_Internal with
            | Except.error _ => []
            | Except.ok (Except.error _) => []
            | Except.ok (Except.ok Left_Internal) =>
              Access.mk Node Slot.ptr (S / 2) ::
                match Node.GetPtr (S / 2) with
                | Except.error _ => []
                | Except.ok _ =>
                  Access.mk Left_Internal Slot.ptr (S / 2) ::
                    (splitInteriorLoopAccesses Node (S / 2 + 1) (S - (S / 2 + 1)) (S / 2 + 1)
                        Right_Internal ++
                      match splitInteriorLoop Node (S / 2 + 1) (S - (S / 2 + 1)) (S / 2 + 1)
                          Right_Internal with
                      | Except.error _ => []
                      | Except.ok (Except.error _) => []
                      | Except.ok (Except.ok Right_Internal) =>
                        Access.mk Node Slot.ptr S ::
                          match Node.GetPtr S with
                          | Except.error _ => []
                          | Except.ok _ =>
                            [Access.mk Right_Internal Slot.ptr
                               (if S / 2 = 0 then 2 ^ 32 - 1 else S / 2 - 1),
                             Access.mk Node Slot.key (S / 2)])

/-- The accessor calls on the node a root split builds: `SetKey(0)`, `SetPtr(0)` and
`SetPtr(1)` on a fresh interior node whose `numkeys` was raised to 1. -/
def newRootAccesses (G : SlotGeometry) (t : BTreeIndex) (Temp_Key left : Nat) :
    List Access :=
  let New_Root := (BTreeNode.new G NodeType.BTREE_INTERIOR_NODE
    t.superblock.info.keysize t.superblock.info.valuesize
    t.superblock.info.blocksize).incNumkeys
  [Access.mk New_Root Slot.key 0,
   Access.mk (New_Root.SetKey 0 Temp_Key).2 Slot.ptr 0,
   Access.mk (((New_Root.SetKey 0 Temp_Key).2).SetPtr 0 left).2 Slot.ptr 1]

/-- The accessor calls of `split_Internal(pointer, left, right, key, flag)`.  Both branches
of the test on `Address` begin with the same two calls, which are written once here. -/
def split_InternalAuxAccesses (G : SlotGeometry) :
    Nat → BTreeIndex → List Nat → Nat → Nat → Nat → Int → List Access
  | 0, _, _, _, _, _, _ => []
  | n + 1, t, pointer, new_blockptr_leftleaf, new_blockptr_rightleaf, key, flag =>
    if flag = 0 then
      match pointer.getLast? with
      | none => []
      | some Address =>
        let pointer := pointer.dropLast
        match BTreeNode.Unserialize t.buffercache Address with
        | Except.error _ => []
        | Except.ok Temp_Node =>
          if Temp_Node.info.numkeys + 1 = G.GetNumSlotsAsInterior Temp_Node.info then
            let rootPtr := t.superblock.info.rootnode
            insert_Not_Full_InternalAccesses Temp_Node new_blockptr_leftleaf
                new_blockptr_rightleaf key ++
              match insert_Not_Full_Internal t Address Temp_Node new_blockptr_leftleaf
                  new_blockptr_rightleaf key with
              | Except.error _ => []
              | Except.ok i =>
                split_Internal_FullAccesses G i.2.2 i.2.1 ++
                  match split_Internal_Full G i.2.2 i.2.1 with
                  | Except.error _ => []
                  | Except.ok sr =>
                    match sr.Key with
                    | none => []
                    | some Temp_Key =>
                      if Address ≠ rootPtr then
                        split_InternalAuxAccesses G n sr.index pointer sr.left sr.right
                          Temp_Key flag
                      else newRootAccesses G sr.index Temp_Key sr.left
          else
            insert_Not_Full_InternalAccesses Temp_Node new_blockptr_leftleaf
              new_blockptr_rightleaf key
    else []

/-- The accessor calls of the block `if(initBlock)` that ends `Insert`. -/
def insertTailAccesses (G : SlotGeometry) (t : BTreeIndex) (pointer : List Nat) (key : Nat)
    (value : Nat) : List Access :=
  match pointer.getLast? with
  | none => []
  | some Address =>
    let pointer := pointer.dropLast
    match BTreeNode.Unserialize t.buffercache Address with
    | Except.error _ => []
    | Except.ok Temp_Node =>
      if Temp_Node.info.numkeys + 1 = G.GetNumSlotsAsLeaf Temp_Node.info then
        insert_Not_FullAccesses Temp_Node key value ++
          match insert_Not_Full t Address Temp_Node key value with
          | Except.error _ => []
          | Except.ok i =>
            let Temp_Node := i.2.1
            let t := i.2.2
            let rootPtr := t.superblock.info.rootnode
            split_LeafAccesses G t Temp_Node ++
              match split_Leaf G t Temp_Node with
              | Except.error _ => []
              | Except.ok sr =>
                match sr.Key with
                | none => []
                | some Temp_Key =>
                  if Address = rootPtr then newRootAccesses G sr.index Temp_Key sr.left
                  else
                    split_InternalAuxAccesses G pointer.length sr.index pointer sr.left
                      sr.right Temp_Key 0
      else insert_Not_FullAccesses Temp_Node key value

/-- The accessor calls of `Insert(key, value)`: those of the traversal, `SetKey(0)` and
`SetVal(0)` on the first leaf when the root has no key, and those of the closing block. -/
def InsertAccesses (G : SlotGeometry) (fuel : Nat) (t : BTreeIndex) (key : Nat)
    (value : Nat) : List Access :=
  LookupOrUpdateInternalAccesses t key fuel t.superblock.info.rootnode ++
    match LookupOrUpdateInternal t BTreeOp.BTREE_OP_LOOKUP key fuel t.superblock.info.rootnode
        0 [] with
    | Except.error _ => []
    | Except.ok r =>
      let pointer := r.2.2.1
      let t := r.2.2.2
      match r.1 with
      | ERROR_T.ERROR_NONEXISTENT =>
        let rootPtr := t.superblock.info.rootnode
        match BTreeNode.Unserialize t.buffercache rootPtr with
        | Except.error _ => []
        | Except.ok rootNode =>
          let t : BTreeIndex :=
            { t with buffercache := (rootNode.Serialize t.buffercache rootPtr).2 }
          if rootNode.info.numkeys = 0 then
            let leafNode := (BTreeNode.new G NodeType.BTREE_LEAF_NODE
              t.superblock.info.keysize t.superblock.info.valuesize
              t.superblock.info.blocksize).incNumkeys
            Access.mk leafNode Slot.key 0 :: Access.mk (leafNode.SetKey 0 key).2 Slot.val 0 ::
              let rootNode := ((leafNode.SetKey 0 key).2.SetVal 0 value).2
              let w := rootNode.Serialize t.buffercache t.superblock.info.rootnode
              if w.1 ≠ ERROR_T.ERROR_NOERROR then []
              else insertTailAccesses G { t with buffercache := w.2 } pointer key value
          else insertTailAccesses G t pointer key value
      | _ => []

/-- The accessor calls of `Lookup(key, value)`. -/
def LookupAccesses (fuel : Nat) (t : BTreeIndex) (key : Nat) : List Access :=
  LookupOrUpdateInternalAccesses t key fuel t.superblock.info.rootnode

/-- The accessor calls of `Update(key, value)`. -/
def UpdateAccesses (fuel : Nat) (t : BTreeIndex) (key : Nat) : List Access :=
  LookupOrUpdateInternalAccesses t key fuel t.superblock.info.rootnode

/-- Every call of the list is within its bound, and every call on a node that has the kind
of slot asked for is accepted by the accessor. -/
def withinBounds (l : List Access) : Bool :=
  l.all fun a => a.inRange && (!a.typed || a.accepted)

/-! ## Trees whose interior nodes never split -/

/-- No block other than block 1 holds a root or interior node. -/
def interiorOnlyAtRoot (bc : BufferCache) : Prop :=
  ∀ (m : Nat) (b : BTreeNode), m ≠ 1 → bc.blocks[m]? = some b →
    b.info.nodetype.isInterior = false

/-- The superblock is block 0 and is not tagged as a tree node, the root is block 1, and no
other block holds a root or interior node. -/
def OneLevel (t : BTreeIndex) : Prop :=
  t.superblock_index = 0 ∧ t.superblock.info.rootnode = 1 ∧
    t.superblock.info.nodetype.isInterior = false ∧ interiorOnlyAtRoot t.buffercache

/-! ## The nodes on the path of a traversal -/

/-- Block `p` holds a root or interior node with at least one key: a node from which a
traversal goes on to a child. -/
def descendedAt (bc : BufferCache) (p : Nat) : Prop :=
  ∃ b : BTreeNode, bc.blocks[p]? = some b ∧ b.info.nodetype.isInterior = true ∧
    0 < b.info.numkeys

/-- Block `A` holds a node at which a traversal ends with `ERROR_NONEXISTENT`: a leaf, or a
root or interior node without a key. -/
def endsAt (bc : BufferCache) (A : Nat) : Prop :=
  ∃ b : BTreeNode, bc.blocks[A]? = some b ∧
    (b.info.nodetype.isLeaf = true ∨
      (b.info.nodetype.isInterior = true ∧ b.info.numkeys = 0))

/-! ## The traversal in terms of its end point -/

theorem leafScan_some (b : BTreeNode) (key : Nat) :
    ∀ (count offset j : Nat), leafScan b key count offset = Except.ok (some j) →
      offset ≤ j ∧ j < offset + count ∧ b.keyOk j = true ∧ b.keys.getD j 0 = key := by
  intro count
  induction count with
  | zero => intro offset j h; simp [leafScan] at h
  | succ n ih =>
    intro offset j h
    unfold leafScan at h
    unfold BTreeNode.GetKey at h
    by_cases hk : b.keyOk offset = true
    · simp only [hk, if_true] at h
      by_cases he : b.keys.getD offset 0 = key
      · simp only [he, if_true] at h
        injection h with h
        injection h with h
        subst h
        exact ⟨le_refl _, by omega, hk, he⟩
      · simp only [he, if_false] at h
        obtain ⟨h1, h2, h3, h4⟩ := ih (offset + 1) j h
        exact ⟨by omega, by omega, h3, h4⟩
    · simp [hk] at h

theorem Unserialize_ok {c : BufferCache} {n : Nat} {b : BTreeNode}
    (h : BTreeNode.Unserialize c n = Except.ok b) : c.blocks[n]? = some b := by
  unfold BTreeNode.Unserialize at h
  split at h
  · injection h with h; subst h; assumption
  · cases h

theorem lookup_locate (t : BTreeIndex) (key : Nat) :
    ∀ (fuel : Nat) (node : Nat) (value : Nat) (pointer : List Nat),
      (match LookupOrUpdateInternal t BTreeOp.BTREE_OP_LOOKUP key fuel node value pointer with
        | Except.ok r => Except.ok (r.1, r.2.1, r.2.2.2)
        | Except.error f => Except.error f) =
      (match locate t key fuel node with
        | Except.ok w => Except.ok ((lookupOutcome t value w).1, (lookupOutcome t value w).2, t)
        | Except.error f => Except.error f) := by
  intro fuel
  induction fuel with
  | zero => intro node value pointer; rfl
  | succ n ih =>
    intro node value pointer
    unfold LookupOrUpdateInternal locate
    cases hrd : BTreeNode.Unserialize t.buffercache node with
    | error rc => simp [lookupOutcome]
    | ok b =>
      simp only []
      cases hty : b.info.nodetype with
      | BTREE_UNALLOCATED_BLOCK => simp [lookupOutcome]
      | BTREE_SUPERBLOCK => simp [lookupOutcome]
      | BTREE_LEAF_NODE =>
        simp only []
        cases hs : leafScan b key b.info.numkeys 0 with
        | error rc => simp [lookupOutcome]
        | ok o =>
          cases o with
          | none => simp [lookupOutcome]
          | some offset =>
            obtain ⟨_, h2, h3, _⟩ := leafScan_some b key _ _ _ hs
            have hv : b.valOk offset = true := by
              have : offset < b.info.numkeys := by omega
              simp [BTreeNode.valOk, hty, NodeType.isLeaf, this]
            simp [lookupOutcome, BTreeNode.GetVal, hv, Unserialize_ok hrd]
      | BTREE_ROOT_NODE =>
        simp only []
        cases hs : interiorScan b key b.info.numkeys 0 with
        | error rc => simp [lookupOutcome]
        | ok o =>
          cases o with
          | none =>
            simp only []
            by_cases hn : b.info.numkeys > 0
            · simp only [hn, if_true]
              cases hp : b.GetPtr b.info.numkeys with
              | error rc => rfl
              | ok ptr => exact ih _ _ _
            · simp [hn, lookupOutcome]
          | some offset =>
            simp only []
            cases hp : b.GetPtr offset with
            | error rc => rfl
            | ok ptr => exact ih _ _ _
      | BTREE_INTERIOR_NODE =>
        simp only []
        cases hs : interiorScan b key b.info.numkeys 0 with
        | error rc => simp [lookupOutcome]
        | ok o =>
          cases o with
          | none =>
            simp only []
            by_cases hn : b.info.numkeys > 0
            · simp only [hn, if_true]
              cases hp : b.GetPtr b.info.numkeys with
              | error rc => rfl
              | ok ptr => exact ih _ _ _
            · simp [hn, lookupOutcome]
          | some offset =>
            simp only []
            cases hp : b.GetPtr offset with
            | error rc => rfl
            | ok ptr => exact ih _ _ _

theorem stored_of_leaf {b : BTreeNode} (h : b.info.nodetype = NodeType.BTREE_LEAF_NODE) :
    b.stored = b := by
  simp [BTreeNode.stored, h]

theorem update_locate (t : BTreeIndex) (key : Nat) :
    ∀ (fuel : Nat) (node : Nat) (value : Nat) (pointer : List Nat),
      (match LookupOrUpdateInternal t BTreeOp.BTREE_OP_UPDATE key fuel node value pointer with
        | Except.ok r => Except.ok (r.1, r.2.1, r.2.2.2)
        | Except.error f => Except.error f) =
      (match locate t key fuel node with
        | Except.ok w => Except.ok ((updateOutcome t value w).1, value, (updateOutcome t value w).2)
        | Except.error f => Except.error f) := by
  intro fuel
  induction fuel with
  | zero => intro node value pointer; rfl
  | succ n ih =>
    intro node value pointer
    unfold LookupOrUpdateInternal locate
    cases hrd : BTreeNode.Unserialize t.buffercache node with
    | error rc => simp [updateOutcome]
    | ok b =>
      simp only []
      cases hty : b.info.nodetype with
      | BTREE_UNALLOCATED_BLOCK => simp [updateOutcome]
      | BTREE_SUPERBLOCK => simp [updateOutcome]
      | BTREE_LEAF_NODE =>
        simp only []
        cases hs : leafScan b key b.info.numkeys 0 with
        | error rc => simp [updateOutcome]
        | ok o =>
          cases o with
          | none => simp [updateOutcome]
          | some offset =>
            obtain ⟨_, h2, h3, _⟩ := leafScan_some b key _ _ _ hs
            have hlt : offset < b.info.numkeys := by omega
            have hv : b.valOk offset = true := by
              simp [BTreeNode.valOk, hty, NodeType.isLeaf, hlt]
            have hb := Unserialize_ok hrd
            have hlen : node < t.buffercache.blocks.length := by
              by_contra hc
              rw [List.getElem?_eq_none (by omega)] at hb
              cases hb
            have hst : ({ b with vals := b.vals.set offset value } : BTreeNode).stored =
                { b with vals := b.vals.set offset value } := stored_of_leaf hty
            simp [updateOutcome, BTreeNode.SetVal, hv, hb, BTreeNode.Serialize, hlen, hst]
      | BTREE_ROOT_NODE =>
        simp only []
        cases hs : interiorScan b key b.info.numkeys 0 with
        | error rc => simp [updateOutcome]
        | ok o =>
          cases o with
          | none =>
            simp only []
            by_cases hn : b.info.numkeys > 0
            · simp only [hn, if_true]
              cases hp : b.GetPtr b.info.numkeys with
              | error rc => rfl
              | ok ptr => exact ih _ _ _
            · simp [hn, updateOutcome]
          | some offset =>
            simp only []
            cases hp : b.GetPtr offset with
            | error rc => rfl
            | ok ptr => exact ih _ _ _
      | BTREE_INTERIOR_NODE =>
        simp only []
        cases hs : interiorScan b key b.info.numkeys 0 with
        | error rc => simp [updateOutcome]
        | ok o =>
          cases o with
          | none =>
            simp only []
            by_cases hn : b.info.numkeys > 0
            · simp only [hn, if_true]
              cases hp : b.GetPtr b.info.numkeys with
              | error rc => rfl
              | ok ptr => exact ih _ _ _
            · simp [hn, updateOutcome]
          | some offset =>
            simp only []
            cases hp : b.GetPtr offset with
            | error rc => rfl
            | ok ptr => exact ih _ _ _

theorem interiorScan_error (b : BTreeNode) (key : Nat) :
    ∀ (count offset : Nat) (rc : ERROR_T), interiorScan b key count offset = Except.error rc →
      rc = ERROR_T.ERROR_INSANE := by
  intro count
  induction count with
  | zero => intro offset rc h; simp [interiorScan] at h
  | succ n ih =>
    intro offset rc h
    unfold interiorScan BTreeNode.GetKey at h
    by_cases hk : b.keyOk offset = true
    · simp only [hk, if_true] at h
      by_cases hlt : key < b.keys.getD offset 0
      · rw [if_pos hlt] at h; cases h
      · rw [if_neg hlt] at h
        exact ih _ _ h
    · simp only [hk] at h
      injection h with h
      exact h.symm

theorem leafScan_error (b : BTreeNode) (key : Nat) :
    ∀ (count offset : Nat) (rc : ERROR_T), leafScan b key count offset = Except.error rc →
      rc = ERROR_T.ERROR_INSANE := by
  intro count
  induction count with
  | zero => intro offset rc h; simp [leafScan] at h
  | succ n ih =>
    intro offset rc h
    unfold leafScan BTreeNode.GetKey at h
    by_cases hk : b.keyOk offset = true
    · simp only [hk, if_true] at h
      by_cases hlt : b.keys.getD offset 0 = key
      · rw [if_pos hlt] at h; cases h
      · rw [if_neg hlt] at h
        exact ih _ _ h
    · simp only [hk] at h
      injection h with h
      exact h.symm

theorem Unserialize_error {c : BufferCache} {n : Nat} {rc : ERROR_T}
    (h : BTreeNode.Unserialize c n = Except.error rc) : rc = ERROR_T.ERROR_GENERAL := by
  unfold BTreeNode.Unserialize at h
  split at h
  · cases h
  · injection h with h; exact h.symm

/-- What `locate` reports: a miss never carries `ERROR_NOERROR`, and a hit names a leaf of
the store and a slot of it that holds the key. -/
theorem locate_spec (t : BTreeIndex) (key : Nat) :
    ∀ (fuel node : Nat) (w : ERROR_T ⊕ (Nat × Nat)), locate t key fuel node = Except.ok w →
      match w with
      | Sum.inl rc => rc ≠ ERROR_T.ERROR_NOERROR
      | Sum.inr (n, offset) =>
        ∃ b, t.buffercache.blocks[n]? = some b ∧ b.info.nodetype = NodeType.BTREE_LEAF_NODE ∧
          offset < b.info.numkeys ∧ b.keys.getD offset 0 = key := by
  intro fuel
  induction fuel with
  | zero => intro node w h; cases h
  | succ n ih =>
    intro node w h
    unfold locate at h
    cases hrd : BTreeNode.Unserialize t.buffercache node with
    | error rc =>
      simp only [hrd] at h
      injection h with h; subst h
      simp [Unserialize_error hrd]
    | ok b =>
      simp only [hrd] at h
      cases hty : b.info.nodetype with
      | BTREE_UNALLOCATED_BLOCK => simp only [hty] at h; injection h with h; subst h; simp
      | BTREE_SUPERBLOCK => simp only [hty] at h; injection h with h; subst h; simp
      | BTREE_LEAF_NODE =>
        simp only [hty] at h
        cases hs : leafScan b key b.info.numkeys 0 with
        | error rc =>
          simp only [hs] at h; injection h with h; subst h
          simp [leafScan_error _ _ _ _ _ hs]
        | ok o =>
          cases o with
          | none => simp only [hs] at h; injection h with h; subst h; simp
          | some offset =>
            simp only [hs] at h; injection h with h; subst h
            obtain ⟨_, h2, _, h4⟩ := leafScan_some b key _ _ _ hs
            exact ⟨b, Unserialize_ok hrd, hty, by omega, h4⟩
      | BTREE_ROOT_NODE =>
        simp only [hty] at h
        cases hs : interiorScan b key b.info.numkeys 0 with
        | error rc =>
          simp only [hs] at h; injection h with h; subst h
          simp [interiorScan_error _ _ _ _ _ hs]
        | ok o =>
          cases o with
          | none =>
            simp only [hs] at h
            by_cases hn : b.info.numkeys > 0
            · simp only [hn, if_true] at h
              cases hp : b.GetPtr b.info.numkeys with
              | error rc => simp only [hp] at h; cases h
              | ok ptr => simp only [hp] at h; exact ih _ _ h
            · simp only [hn, if_false] at h; injection h with h; subst h; simp
          | some offset =>
            simp only [hs] at h
            cases hp : b.GetPtr offset with
            | error rc => simp only [hp] at h; cases h
            | ok ptr => simp only [hp] at h; exact ih _ _ h
      | BTREE_INTERIOR_NODE =>
        simp only [hty] at h
        cases hs : interiorScan b key b.info.numkeys 0 with
        | error rc =>
          simp only [hs] at h; injection h with h; subst h
          simp [interiorScan_error _ _ _ _ _ hs]
        | ok o =>
          cases o with
          | none =>
            simp only [hs] at h
            by_cases hn : b.info.numkeys > 0
            · simp only [hn, if_true] at h
              cases hp : b.GetPtr b.info.numkeys with
              | error rc => simp only [hp] at h; cases h
              | ok ptr => simp only [hp] at h; exact ih _ _ h
            · simp only [hn, if_false] at h; injection h with h; subst h; simp
          | some offset =>
            simp only [hs] at h
            cases hp : b.GetPtr offset with
            | error rc => simp only [hp] at h; cases h
            | ok ptr => simp only [hp] at h; exact ih _ _ h

theorem GetKey_congr {b c : BTreeNode} (h : c.shape = b.shape) : c.GetKey = b.GetKey := by
  funext offset
  simp only [BTreeNode.shape, Prod.mk.injEq] at h
  simp [BTreeNode.GetKey, BTreeNode.keyOk, h.1, h.2.1]

theorem GetPtr_congr {b c : BTreeNode} (h : c.shape = b.shape) : c.GetPtr = b.GetPtr := by
  funext offset
  simp only [BTreeNode.shape, Prod.mk.injEq] at h
  simp [BTreeNode.GetPtr, BTreeNode.ptrOk, h.1, h.2.2]

theorem interiorScan_congr {b c : BTreeNode} (h : c.shape = b.shape) (key : Nat) :
    ∀ count offset, interiorScan c key count offset = interiorScan b key count offset := by
  intro count
  induction count with
  | zero => intro offset; rfl
  | succ n ih => intro offset; simp only [interiorScan, GetKey_congr h, ih]

theorem leafScan_congr {b c : BTreeNode} (h : c.shape = b.shape) (key : Nat) :
    ∀ count offset, leafScan c key count offset = leafScan b key count offset := by
  intro count
  induction count with
  | zero => intro offset; rfl
  | succ n ih => intro offset; simp only [leafScan, GetKey_congr h, ih]

theorem locate_congr (t u : BTreeIndex)
    (h : ∀ m : Nat, (u.buffercache.blocks[m]?).map BTreeNode.shape =
      (t.buffercache.blocks[m]?).map BTreeNode.shape) (key : Nat) :
    ∀ fuel node, locate u key fuel node = locate t key fuel node := by
  intro fuel
  induction fuel with
  | zero => intro node; rfl
  | succ n ih =>
    intro node
    unfold locate BTreeNode.Unserialize
    have hm := h node
    cases hb : t.buffercache.blocks[node]? with
    | none =>
      rw [hb] at hm
      cases hc : u.buffercache.blocks[node]? with
      | none => rfl
      | some c => rw [hc] at hm; cases hm
    | some b =>
      rw [hb] at hm
      cases hc : u.buffercache.blocks[node]? with
      | none => rw [hc] at hm; cases hm
      | some c =>
        rw [hc] at hm
        have hs : c.shape = b.shape := by simpa using hm
        have hi : c.info = b.info := by
          simp only [BTreeNode.shape, Prod.mk.injEq] at hs; exact hs.1
        simp only [hi, interiorScan_congr hs, leafScan_congr hs, GetPtr_congr hs, ih]

theorem Lookup_eq_locate (fuel : Nat) (t : BTreeIndex) (key value : Nat) :
    Lookup fuel t key value =
      match locate t key fuel t.superblock.info.rootnode with
      | Except.ok w => Except.ok (lookupOutcome t value w)
      | Except.error f => Except.error f := by
  have h := lookup_locate t key fuel t.superblock.info.rootnode value []
  unfold Lookup
  cases h1 : LookupOrUpdateInternal t BTreeOp.BTREE_OP_LOOKUP key fuel
      t.superblock.info.rootnode value [] with
  | error f =>
    rw [h1] at h
    cases h2 : locate t key fuel t.superblock.info.rootnode with
    | error g => rw [h2] at h; injection h with h; rw [h]
    | ok w => rw [h2] at h; cases h
  | ok r =>
    rw [h1] at h
    cases h2 : locate t key fuel t.superblock.info.rootnode with
    | error g => rw [h2] at h; cases h
    | ok w =>
      rw [h2] at h
      simp only [Except.ok.injEq, Prod.mk.injEq] at h ⊢
      exact Prod.ext h.1 h.2.1

theorem Update_eq_locate (fuel : Nat) (t : BTreeIndex) (key value : Nat) :
    Update fuel t key value =
      match locate t key fuel t.superblock.info.rootnode with
      | Except.ok w => Except.ok (updateOutcome t value w)
      | Except.error f => Except.error f := by
  have h := update_locate t key fuel t.superblock.info.rootnode value []
  unfold Update
  cases h1 : LookupOrUpdateInternal t BTreeOp.BTREE_OP_UPDATE key fuel
      t.superblock.info.rootnode value [] with
  | error f =>
    rw [h1] at h
    cases h2 : locate t key fuel t.superblock.info.rootnode with
    | error g => rw [h2] at h; injection h with h; rw [h]
    | ok w => rw [h2] at h; cases h
  | ok r =>
    rw [h1] at h
    cases h2 : locate t key fuel t.superblock.info.rootnode with
    | error g => rw [h2] at h; cases h
    | ok w =>
      rw [h2] at h
      simp only [Except.ok.injEq, Prod.mk.injEq] at h ⊢
      exact Prod.ext h.1 h.2.2

theorem lookupOutcome_fst (t : BTreeIndex) (v v' : Nat) (w : ERROR_T ⊕ (Nat × Nat)) :
    (lookupOutcome t v w).1 = (lookupOutcome t v' w).1 := by
  cases w with
  | inl rc => rfl
  | inr p =>
    obtain ⟨n, offset⟩ := p
    simp only [lookupOutcome]
    cases t.buffercache.blocks[n]? <;> rfl

/-! ## Search on a well-formed tree -/

theorem within_iff (lo hi : Option Nat) (k : Nat) :
    within lo hi k = true ↔ (∀ l, lo = some l → l ≤ k) ∧ (∀ u, hi = some u → k < u) := by
  cases lo <;> cases hi <;> simp [within]

theorem keysAscending_iff (b : BTreeNode) :
    keysAscending b = true ↔
      ∀ j < b.info.numkeys, ∀ i < j, b.keys.getD i 0 < b.keys.getD j 0 := by
  simp only [keysAscending, decide_eq_true_eq]

theorem keysWithin_iff (b : BTreeNode) (lo hi : Option Nat) :
    keysWithin b lo hi = true ↔ ∀ i < b.info.numkeys, within lo hi (b.keys.getD i 0) = true := by
  simp only [keysWithin, decide_eq_true_eq]

theorem interiorScan_spec (b : BTreeNode) (key : Nat) :
    ∀ (count offset : Nat), (∀ i, offset ≤ i → i < offset + count → b.keyOk i = true) →
      (∃ i, interiorScan b key count offset = Except.ok (some i) ∧ offset ≤ i ∧
          i < offset + count ∧ key < b.keys.getD i 0 ∧
          ∀ j, offset ≤ j → j < i → ¬ key < b.keys.getD j 0) ∨
        (interiorScan b key count offset = Except.ok none ∧
          ∀ j, offset ≤ j → j < offset + count → ¬ key < b.keys.getD j 0) := by
  intro count
  induction count with
  | zero =>
    intro offset _
    right
    exact ⟨rfl, fun j h1 h2 => by omega⟩
  | succ n ih =>
    intro offset hok
    have hk : b.keyOk offset = true := hok offset (le_refl _) (by omega)
    unfold interiorScan BTreeNode.GetKey
    simp only [hk, if_true]
    by_cases hlt : key < b.keys.getD offset 0
    · left
      refine ⟨offset, by rw [if_pos hlt], le_refl _, by omega, hlt, fun j h1 h2 => by omega⟩
    · rw [if_neg hlt]
      rcases ih (offset + 1) (fun i h1 h2 => hok i (by omega) (by omega)) with
        ⟨i, h1, h2, h3, h4, h5⟩ | ⟨h1, h2⟩
      · left
        refine ⟨i, h1, by omega, by omega, h4, fun j hj1 hj2 => ?_⟩
        by_cases hj : j = offset
        · subst hj; exact hlt
        · exact h5 j (by omega) hj2
      · right
        refine ⟨h1, fun j hj1 hj2 => ?_⟩
        by_cases hj : j = offset
        · subst hj; exact hlt
        · exact h2 j (by omega) (by omega)

theorem leafScan_spec (b : BTreeNode) (key : Nat) :
    ∀ (count offset : Nat), (∀ i, offset ≤ i → i < offset + count → b.keyOk i = true) →
      (∃ i, leafScan b key count offset = Except.ok (some i) ∧ offset ≤ i ∧
          i < offset + count ∧ b.keys.getD i 0 = key) ∨
        (leafScan b key count offset = Except.ok none ∧
          ∀ j, offset ≤ j → j < offset + count → b.keys.getD j 0 ≠ key) := by
  intro count
  induction count with
  | zero =>
    intro offset _
    right
    exact ⟨rfl, fun j h1 h2 => by omega⟩
  | succ n ih =>
    intro offset hok
    have hk : b.keyOk offset = true := hok offset (le_refl _) (by omega)
    unfold leafScan BTreeNode.GetKey
    simp only [hk, if_true]
    by_cases hlt : b.keys.getD offset 0 = key
    · left
      exact ⟨offset, by rw [if_pos hlt], le_refl _, by omega, hlt⟩
    · rw [if_neg hlt]
      rcases ih (offset + 1) (fun i h1 h2 => hok i (by omega) (by omega)) with
        ⟨i, h1, h2, h3, h4⟩ | ⟨h1, h2⟩
      · left
        exact ⟨i, h1, by omega, by omega, h4⟩
      · right
        refine ⟨h1, fun j hj1 hj2 => ?_⟩
        by_cases hj : j = offset
        · subst hj; exact hlt
        · exact h2 j (by omega) (by omega)

theorem isLeaf_iff (ty : NodeType) : ty.isLeaf = true ↔ ty = NodeType.BTREE_LEAF_NODE := by
  cases ty <;> simp [NodeType.isLeaf]

theorem isLeaf_not_isInterior {ty : NodeType} (h : ty.isLeaf = true) : ty.isInterior = false := by
  cases ty <;> simp_all [NodeType.isLeaf, NodeType.isInterior]

theorem locate_succ_leaf {t : BTreeIndex} {key fuel n : Nat} {b : BTreeNode}
    (hb : t.buffercache.blocks[n]? = some b) (hty : b.info.nodetype.isLeaf = true) :
    locate t key (fuel + 1) n =
      match leafScan b key b.info.numkeys 0 with
      | Except.error rc => Except.ok (Sum.inl rc)
      | Except.ok (some offset) => Except.ok (Sum.inr (n, offset))
      | Except.ok none => Except.ok (Sum.inl ERROR_T.ERROR_NONEXISTENT) := by
  rw [isLeaf_iff] at hty
  simp only [locate, BTreeNode.Unserialize, hb, hty]

theorem locate_succ_interior {t : BTreeIndex} {key fuel n : Nat} {b : BTreeNode}
    (hb : t.buffercache.blocks[n]? = some b) (hty : b.info.nodetype.isInterior = true) :
    locate t key (fuel + 1) n =
      match interiorScan b key b.info.numkeys 0 with
      | Except.error rc => Except.ok (Sum.inl rc)
      | Except.ok (some offset) =>
        match b.GetPtr offset with
        | Except.error _ => Except.error Fault.undefined
        | Except.ok ptr => locate t key fuel ptr
      | Except.ok none =>
        if b.info.numkeys > 0 then
          match b.GetPtr b.info.numkeys with
          | Except.error _ => Except.error Fault.undefined
          | Except.ok ptr => locate t key fuel ptr
        else Except.ok (Sum.inl ERROR_T.ERROR_NONEXISTENT) := by
  cases hn : b.info.nodetype with
  | BTREE_UNALLOCATED_BLOCK => rw [hn] at hty; cases hty
  | BTREE_SUPERBLOCK => rw [hn] at hty; cases hty
  | BTREE_LEAF_NODE => rw [hn] at hty; cases hty
  | BTREE_ROOT_NODE => simp only [locate, BTreeNode.Unserialize, hb, hn]
  | BTREE_INTERIOR_NODE => simp only [locate, BTreeNode.Unserialize, hb, hn]

/-- What `wellFormedFrom` says of a node, as propositions. -/
theorem wellFormedFrom_succ {blocks : List BTreeNode} {h n : Nat} {lo hi : Option Nat}
    (hwf : wellFormedFrom blocks (h + 1) n lo hi = true) :
    ∃ b, blocks[n]? = some b ∧
      (∀ j < b.info.numkeys, ∀ i < j, b.keys.getD i 0 < b.keys.getD j 0) ∧
      (∀ i < b.info.numkeys, within lo hi (b.keys.getD i 0) = true) ∧
      ((b.info.nodetype.isLeaf = true ∧ b.info.numkeys ≤ b.vals.length) ∨
        (b.info.nodetype.isLeaf = false ∧ b.info.nodetype.isInterior = true ∧
          0 < b.info.numkeys ∧
          ∀ i ≤ b.info.numkeys,
            wellFormedFrom blocks h (b.ptrs.getD i 0) (lowerBound b lo i) (upperBound b hi i)
              = true)) := by
  unfold wellFormedFrom at hwf
  cases hb : blocks[n]? with
  | none => rw [hb] at hwf; cases hwf
  | some b =>
    rw [hb] at hwf
    simp only [] at hwf
    refine ⟨b, rfl, ?_⟩
    by_cases hl : b.info.nodetype.isLeaf = true
    · rw [if_pos hl] at hwf
      simp only [Bool.and_eq_true, decide_eq_true_eq] at hwf
      exact ⟨(keysAscending_iff b).1 hwf.1.1, (keysWithin_iff b lo hi).1 hwf.1.2,
        Or.inl ⟨hl, hwf.2⟩⟩
    · rw [if_neg hl] at hwf
      by_cases hi' : b.info.nodetype.isInterior = true
      · rw [if_pos hi'] at hwf
        simp only [Bool.and_eq_true, decide_eq_true_eq, List.all_eq_true, List.mem_range] at hwf
        refine ⟨(keysAscending_iff b).1 hwf.1.1.2, (keysWithin_iff b lo hi).1 hwf.1.2,
          Or.inr ⟨by simpa using hl, hi', hwf.1.1.1, fun i hi2 => hwf.2 i (by omega)⟩⟩
      · rw [if_neg hi'] at hwf; cases hwf

theorem containsFrom_succ_leaf {blocks : List BTreeNode} {k h n : Nat} {b : BTreeNode}
    (hb : blocks[n]? = some b) (hty : b.info.nodetype.isLeaf = true) :
    containsFrom blocks k (h + 1) n = decide (∃ i < b.info.numkeys, b.keys.getD i 0 = k) := by
  simp only [containsFrom, hb, hty, if_true]

theorem containsFrom_succ_interior {blocks : List BTreeNode} {k h n : Nat} {b : BTreeNode}
    (hb : blocks[n]? = some b) (hl : b.info.nodetype.isLeaf = false)
    (hty : b.info.nodetype.isInterior = true) :
    containsFrom blocks k (h + 1) n = true ↔
      ∃ i ≤ b.info.numkeys, containsFrom blocks k h (b.ptrs.getD i 0) = true := by
  simp only [containsFrom, hb, hl, hty, if_true, List.any_eq_true, List.mem_range,
    Bool.false_eq_true, if_false]
  constructor
  · rintro ⟨i, h1, h2⟩; exact ⟨i, by omega, h2⟩
  · rintro ⟨i, h1, h2⟩; exact ⟨i, by omega, h2⟩

/-- In a well-formed subtree every key it contains lies between the bounds of the subtree. -/
theorem contains_within {blocks : List BTreeNode} {k : Nat} :
    ∀ (h n : Nat) (lo hi : Option Nat), wellFormedFrom blocks h n lo hi = true →
      containsFrom blocks k h n = true → within lo hi k = true := by
  intro h
  induction h with
  | zero => intro n lo hi hwf; simp [wellFormedFrom] at hwf
  | succ h ih =>
    intro n lo hi hwf hc
    obtain ⟨b, hb, _, hin, hcase⟩ := wellFormedFrom_succ hwf
    rcases hcase with ⟨hl, _⟩ | ⟨hl, hty, _, hch⟩
    · rw [containsFrom_succ_leaf hb hl] at hc
      simp only [decide_eq_true_eq] at hc
      obtain ⟨i, hi1, hi2⟩ := hc
      rw [← hi2]
      exact hin i hi1
    · obtain ⟨i, hi1, hi2⟩ := (containsFrom_succ_interior hb hl hty).1 hc
      have hw := ih _ _ _ (hch i hi1) hi2
      rw [within_iff] at hw ⊢
      constructor
      · intro l hlo
        by_cases h0 : i = 0
        · exact hw.1 l (by simp [lowerBound, h0, hlo])
        · have h1 := hw.1 (b.keys.getD (i - 1) 0) (by simp [lowerBound, h0])
          have h2 := ((within_iff _ _ _).1 (hin (i - 1) (by omega))).1 l hlo
          omega
      · intro u hhi
        by_cases h0 : i = b.info.numkeys
        · exact hw.2 u (by simp [upperBound, h0, hhi])
        · have h1 := hw.2 (b.keys.getD i 0) (by simp [upperBound, h0])
          have h2 := ((within_iff _ _ _).1 (hin i (by omega))).2 u hhi
          omega

/-- The pointer the scan selects is the only one whose bounds admit the search key. -/
theorem child_unique {b : BTreeNode} {lo hi : Option Nat} {k i j : Nat}
    (hasc : ∀ j < b.info.numkeys, ∀ i < j, b.keys.getD i 0 < b.keys.getD j 0)
    (hi1 : i ≤ b.info.numkeys) (hi2 : i < b.info.numkeys → k < b.keys.getD i 0)
    (hi3 : ∀ j, j < i → ¬ k < b.keys.getD j 0) (hj : j ≤ b.info.numkeys)
    (hw : within (lowerBound b lo j) (upperBound b hi j) k = true) : j = i := by
  rw [within_iff] at hw
  by_contra hne
  rcases Nat.lt_or_gt_of_ne hne with hlt | hgt
  · have h1 := hw.2 (b.keys.getD j 0) (by simp [upperBound]; omega)
    exact hi3 j hlt h1
  · have h1 := hw.1 (b.keys.getD (j - 1) 0) (by simp [lowerBound]; omega)
    have h2 := hi2 (by omega)
    by_cases he : j - 1 = i
    · rw [he] at h1; omega
    · have h3 := hasc (j - 1) (by omega) i (by omega)
      omega

theorem keyOk_of_lt {b : BTreeNode} {i : Nat}
    (hty : (b.info.nodetype.isInterior || b.info.nodetype.isLeaf) = true)
    (h : i < b.info.numkeys) : b.keyOk i = true := by
  simp [BTreeNode.keyOk, h]
  simpa using hty

/-- Search correctness on a well-formed subtree: with a recursion budget of at least the
number of levels, the traversal ends at a leaf slot exactly when the subtree contains the
key, and otherwise returns `ERROR_NONEXISTENT`. -/
theorem locate_wellFormed (t : BTreeIndex) (k : Nat) :
    ∀ (h n : Nat) (lo hi : Option Nat) (fuel : Nat),
      wellFormedFrom t.buffercache.blocks h n lo hi = true → h ≤ fuel →
      (containsFrom t.buffercache.blocks k h n = true →
        ∃ m offset b, locate t k fuel n = Except.ok (Sum.inr (m, offset)) ∧
          t.buffercache.blocks[m]? = some b ∧ b.info.numkeys ≤ b.vals.length) ∧
      (containsFrom t.buffercache.blocks k h n = false →
        locate t k fuel n = Except.ok (Sum.inl ERROR_T.ERROR_NONEXISTENT)) := by
  intro h
  induction h with
  | zero => intro n lo hi fuel hwf; simp [wellFormedFrom] at hwf
  | succ h ih =>
    intro n lo hi fuel hwf hfuel
    obtain ⟨f, rfl⟩ : ∃ f, fuel = f + 1 := ⟨fuel - 1, by omega⟩
    obtain ⟨b, hb, hasc, hin, hcase⟩ := wellFormedFrom_succ hwf
    rcases hcase with ⟨hl, hfit⟩ | ⟨hl, hty, hpos, hch⟩
    · rw [locate_succ_leaf hb hl, containsFrom_succ_leaf hb hl]
      have hok : ∀ i, 0 ≤ i → i < 0 + b.info.numkeys → b.keyOk i = true :=
        fun i _ h2 => keyOk_of_lt (by simp [hl]) (by omega)
      rcases leafScan_spec b k b.info.numkeys 0 hok with ⟨i, h1, _, h3, h4⟩ | ⟨h1, h2⟩
      · rw [h1]
        constructor
        · intro _
          exact ⟨n, i, b, rfl, hb, hfit⟩
        · intro hc
          simp only [decide_eq_false_iff_not, not_exists, not_and] at hc
          exact absurd h4 (hc i (by omega))
      · rw [h1]
        constructor
        · intro hc
          simp only [decide_eq_true_eq] at hc
          obtain ⟨i, hi1, hi2⟩ := hc
          exact absurd hi2 (h2 i (Nat.zero_le _) (by omega))
        · intro _; rfl
    · rw [locate_succ_interior hb hty]
      have hok : ∀ i, 0 ≤ i → i < 0 + b.info.numkeys → b.keyOk i = true :=
        fun i _ h2 => keyOk_of_lt (by simp [hty]) (by omega)
      have hptr : ∀ i, i ≤ b.info.numkeys → b.GetPtr i = Except.ok (b.ptrs.getD i 0) := by
        intro i hi
        simp [BTreeNode.GetPtr, BTreeNode.ptrOk, hty, hi]
      have key : ∀ i, i ≤ b.info.numkeys → (i < b.info.numkeys → k < b.keys.getD i 0) →
          (∀ j, j < i → ¬ k < b.keys.getD j 0) →
          (containsFrom t.buffercache.blocks k (h + 1) n = true →
            ∃ m offset c, locate t k f (b.ptrs.getD i 0) = Except.ok (Sum.inr (m, offset)) ∧
              t.buffercache.blocks[m]? = some c ∧ c.info.numkeys ≤ c.vals.length) ∧
          (containsFrom t.buffercache.blocks k (h + 1) n = false →
            locate t k f (b.ptrs.getD i 0) = Except.ok (Sum.inl ERROR_T.ERROR_NONEXISTENT)) := by
        intro i hi1 hi2 hi3
        have hrec := ih (b.ptrs.getD i 0) _ _ f (hch i hi1) (by omega)
        have huniq : ∀ j, j ≤ b.info.numkeys →
            containsFrom t.buffercache.blocks k h (b.ptrs.getD j 0) = true → j = i :=
          fun j hj hc => child_unique hasc hi1 hi2 hi3 hj (contains_within _ _ _ _ (hch j hj) hc)
        constructor
        · intro hc
          obtain ⟨j, hj1, hj2⟩ := (containsFrom_succ_interior hb hl hty).1 hc
          have := huniq j hj1 hj2
          subst this
          exact hrec.1 hj2
        · intro hc
          apply hrec.2
          by_contra hne
          have hct : containsFrom t.buffercache.blocks k h (b.ptrs.getD i 0) = true := by
            simpa using hne
          have := (containsFrom_succ_interior hb hl hty).2 ⟨i, hi1, hct⟩
          rw [this] at hc
          cases hc
      rcases interiorScan_spec b k b.info.numkeys 0 hok with ⟨i, h1, _, h3, h4, h5⟩ | ⟨h1, h2⟩
      · rw [h1]
        simp only [hptr i (by omega)]
        exact key i (by omega) (fun _ => h4) (fun j hj => h5 j (Nat.zero_le _) hj)
      · rw [h1]
        simp only [hpos, if_true, hptr _ (le_refl _), gt_iff_lt]
        exact key _ (le_refl _) (fun hlt => absurd hlt (lt_irrefl _))
          (fun j hj => h2 j (Nat.zero_le _) (by omega))

/-- Search correctness on a well-formed tree, from the root. -/
theorem locate_root_wellFormed (t : BTreeIndex) (k h fuel : Nat)
    (hwf : wellFormed t h = true) (hfuel : h < fuel) :
    (containsKey t h k = true →
      ∃ m offset b, locate t k fuel t.superblock.info.rootnode = Except.ok (Sum.inr (m, offset)) ∧
        t.buffercache.blocks[m]? = some b ∧ b.info.numkeys ≤ b.vals.length) ∧
    (containsKey t h k = false →
      locate t k fuel t.superblock.info.rootnode =
        Except.ok (Sum.inl ERROR_T.ERROR_NONEXISTENT)) := by
  by_cases he : emptyRoot t = true
  · have hck : containsKey t h k = false := by simp [containsKey, he]
    obtain ⟨f, rfl⟩ : ∃ f, fuel = f + 1 := ⟨fuel - 1, by omega⟩
    refine ⟨fun hc => absurd (hck.symm.trans hc) (by decide), fun _ => ?_⟩
    unfold emptyRoot at he
    cases hb : t.buffercache.blocks[t.superblock.info.rootnode]? with
    | none => rw [hb] at he; cases he
    | some b =>
      rw [hb] at he
      simp only [Bool.and_eq_true, decide_eq_true_eq] at he
      rw [locate_succ_interior hb he.1, he.2]
      simp [interiorScan]
  · have hwf2 : wellFormedFrom t.buffercache.blocks h t.superblock.info.rootnode none none
        = true := by
      simpa [wellFormed, he] using hwf
    have hck : containsKey t h k =
        containsFrom t.buffercache.blocks k h t.superblock.info.rootnode := by
      simp [containsKey, he]
    rw [hck]
    exact locate_wellFormed t k h _ none none fuel hwf2 (by omega)

/-- On a well-formed tree `Lookup` finds every key the tree contains. -/
theorem Lookup_of_contains (t : BTreeIndex) (k h fuel v0 : Nat)
    (hwf : wellFormed t h = true) (hfuel : h < fuel) (hc : containsKey t h k = true) :
    ∃ m offset b, locate t k fuel t.superblock.info.rootnode = Except.ok (Sum.inr (m, offset)) ∧
      t.buffercache.blocks[m]? = some b ∧ b.info.numkeys ≤ b.vals.length ∧
      Lookup fuel t k v0 = Except.ok (ERROR_T.ERROR_NOERROR, b.vals.getD offset 0) := by
  obtain ⟨m, offset, b, h1, h2, h3⟩ := (locate_root_wellFormed t k h fuel hwf hfuel).1 hc
  refine ⟨m, offset, b, h1, h2, h3, ?_⟩
  rw [Lookup_eq_locate, h1]
  simp only [lookupOutcome, h2]

/-- On a well-formed tree `Lookup` of a key the tree does not contain returns
`ERROR_NONEXISTENT`. -/
theorem Lookup_of_not_contains (t : BTreeIndex) (k h fuel v0 : Nat)
    (hwf : wellFormed t h = true) (hfuel : h < fuel) (hc : containsKey t h k = false) :
    Lookup fuel t k v0 = Except.ok (ERROR_T.ERROR_NONEXISTENT, v0) := by
  rw [Lookup_eq_locate, (locate_root_wellFormed t k h fuel hwf hfuel).2 hc]
  rfl

/-! ## Insert and Update in terms of Lookup -/

/-- When `Lookup` finds the key, `Insert` returns `ERROR_INSERT` and changes nothing. -/
theorem Insert_of_Lookup_found (G : SlotGeometry) (fuel : Nat) (t : BTreeIndex)
    (k v v0 vOld : Nat)
    (h : Lookup fuel t k v0 = Except.ok (ERROR_T.ERROR_NOERROR, vOld)) :
    Insert G fuel t k v = Except.ok (some ERROR_T.ERROR_INSERT, t) := by
  rw [Lookup_eq_locate] at h
  have hl := lookup_locate t k fuel t.superblock.info.rootnode 0 []
  cases hw : locate t k fuel t.superblock.info.rootnode with
  | error f => rw [hw] at h; cases h
  | ok w =>
    rw [hw] at h hl
    simp only [Except.ok.injEq] at h
    have h1 : (lookupOutcome t 0 w).1 = ERROR_T.ERROR_NOERROR := by
      rw [lookupOutcome_fst t 0 v0 w, h]
    unfold Insert
    cases hr : LookupOrUpdateInternal t BTreeOp.BTREE_OP_LOOKUP k fuel
        t.superblock.info.rootnode 0 [] with
    | error f => rw [hr] at hl; cases hl
    | ok r =>
      rw [hr] at hl
      simp only [Except.ok.injEq, Prod.mk.injEq] at hl
      simp only [hl.1, h1, hl.2.2]


/-- When `Lookup` returns `ERROR_NONEXISTENT`, so does `Update`, and it changes nothing. -/
theorem Update_of_Lookup_missing (fuel : Nat) (t : BTreeIndex) (k v v0 vr : Nat)
    (h : Lookup fuel t k v0 = Except.ok (ERROR_T.ERROR_NONEXISTENT, vr)) :
    Update fuel t k v = Except.ok (ERROR_T.ERROR_NONEXISTENT, t) := by
  rw [Lookup_eq_locate] at h
  rw [Update_eq_locate]
  cases hw : locate t k fuel t.superblock.info.rootnode with
  | error f => rw [hw] at h; cases h
  | ok w =>
    rw [hw] at h
    simp only [Except.ok.injEq] at h
    cases w with
    | inl rc =>
      simp only [lookupOutcome, Prod.mk.injEq] at h
      simp [updateOutcome, h.1]
    | inr p =>
      obtain ⟨n, offset⟩ := p
      simp only [lookupOutcome] at h
      cases hb : t.buffercache.blocks[n]? with
      | none => rw [hb] at h; simp at h
      | some b => rw [hb] at h; simp at h


/-- When the traversal for `k` ends at slot `offset` of leaf `n`, and that leaf has a value
slot for each of its keys, `Update` overwrites that one value slot and nothing else. -/
theorem Update_of_located (fuel : Nat) (t : BTreeIndex) (k v v0 : Nat) (n offset : Nat)
    (b : BTreeNode)
    (hw : locate t k fuel t.superblock.info.rootnode = Except.ok (Sum.inr (n, offset)))
    (hb : t.buffercache.blocks[n]? = some b) (hfit : b.info.numkeys ≤ b.vals.length) :
    ∃ (u : BTreeIndex) (n offset : Nat) (b : BTreeNode),
      Update fuel t k v = Except.ok (ERROR_T.ERROR_NOERROR, u) ∧
      Lookup fuel u k v0 = Except.ok (ERROR_T.ERROR_NOERROR, v) ∧
      (∀ k' x : Nat, k' ≠ k → Lookup fuel u k' x = Lookup fuel t k' x) ∧
      t.buffercache.blocks[n]? = some b ∧ b.info.nodetype = NodeType.BTREE_LEAF_NODE ∧
      offset < b.info.numkeys ∧ b.keys.getD offset 0 = k ∧
      u.buffercache.blocks = t.buffercache.blocks.set n { b with vals := b.vals.set offset v } ∧
      u.buffercache.log = t.buffercache.log ++ [CacheEvent.write n] ∧
      u.superblock = t.superblock ∧ u.superblock_index = t.superblock_index ∧
      u.buffercache.blocks.map BTreeNode.shape = t.buffercache.blocks.map BTreeNode.shape := by
  obtain ⟨b', hb', hty, hlt, hkey⟩ := locate_spec t k _ _ _ hw
  rw [hb] at hb'
  injection hb' with hb'
  subst hb'
  have hlen : offset < b.vals.length := lt_of_lt_of_le hlt hfit
  have hn : n < t.buffercache.blocks.length := by
    by_contra hc
    rw [List.getElem?_eq_none (by omega)] at hb
    cases hb
  let c : BTreeNode := { b with vals := b.vals.set offset v }
  let u : BTreeIndex :=
    { t with
      buffercache :=
        { t.buffercache with
          blocks := t.buffercache.blocks.set n c
          log := t.buffercache.log ++ [CacheEvent.write n] } }
  have hshape : ∀ m : Nat, (u.buffercache.blocks[m]?).map BTreeNode.shape =
      (t.buffercache.blocks[m]?).map BTreeNode.shape := by
    intro m
    show ((t.buffercache.blocks.set n c)[m]?).map BTreeNode.shape = _
    rw [List.getElem?_set]
    by_cases hnm : n = m
    · subst hnm
      simp [hn, hb, c, BTreeNode.shape]
    · simp [hnm]
  have hloc := locate_congr t u hshape
  have hun : u.buffercache.blocks[n]? = some c := by
    show (t.buffercache.blocks.set n c)[n]? = some c
    exact List.getElem?_set_self hn
  refine ⟨u, n, offset, b, ?_, ?_, ?_, hb, hty, hlt, hkey, rfl, rfl, rfl, rfl, ?_⟩
  · rw [Update_eq_locate, hw]
    simp only [updateOutcome, hb]
  · rw [Lookup_eq_locate]
    show (match locate u k fuel t.superblock.info.rootnode with
      | Except.ok w => Except.ok (lookupOutcome u v0 w)
      | Except.error f => Except.error f) = _
    rw [hloc, hw]
    simp only [lookupOutcome, hun]
    simp [c, List.getD_eq_getElem?_getD, List.getElem?_set_self hlen]
  · intro k' x hk
    rw [Lookup_eq_locate, Lookup_eq_locate]
    show (match locate u k' fuel t.superblock.info.rootnode with
      | Except.ok w => Except.ok (lookupOutcome u x w)
      | Except.error f => Except.error f) = _
    rw [hloc]
    cases hw' : locate t k' fuel t.superblock.info.rootnode with
    | error f => rfl
    | ok w' =>
      have hsp' := locate_spec t k' _ _ _ hw'
      cases w' with
      | inl rc => rfl
      | inr q =>
        obtain ⟨m, j⟩ := q
        obtain ⟨b2, hb2, _, _, hkey2⟩ := hsp'
        simp only [lookupOutcome, hb2]
        by_cases hnm : n = m
        · subst hnm
          rw [hb] at hb2
          injection hb2 with hb2
          subst hb2
          have hj : offset ≠ j := by
            intro e
            subst e
            exact hk (hkey2.symm.trans hkey)
          simp [hun, c, List.getD_eq_getElem?_getD, List.getElem?_set_ne hj]
        · have : u.buffercache.blocks[m]? = some b2 := by
            show (t.buffercache.blocks.set n c)[m]? = some b2
            rw [List.getElem?_set_ne hnm, hb2]
          simp [this]
  · show (t.buffercache.blocks.set n c).map BTreeNode.shape = _
    apply List.ext_getElem?
    intro m
    rw [List.getElem?_map, List.getElem?_map]
    exact hshape m

/-! ## The allocator on a freelist chain -/

theorem Serialize_blocks (node : BTreeNode) (bc : BufferCache) (n : Nat) :
    (node.Serialize bc n).2.blocks = bc.blocks.set n node.stored := by
  unfold BTreeNode.Serialize
  by_cases h : n < bc.blocks.length
  · simp [h]
  · simp only [h, if_false]
    rw [List.set_eq_of_length_le (by omega)]

theorem isChain_cons {blocks : List BTreeNode} {head x : Nat} {l : List Nat}
    (h : isChain blocks head (x :: l) = true) :
    head = x ∧ x ≠ 0 ∧ ∃ b, blocks[x]? = some b ∧
      b.info.nodetype = NodeType.BTREE_UNALLOCATED_BLOCK ∧ isChain blocks b.info.freelist l = true := by
  unfold isChain at h
  cases hb : blocks[x]? with
  | none => rw [hb] at h; simp at h
  | some b =>
    rw [hb] at h
    simp only [Bool.and_eq_true, decide_eq_true_eq] at h
    exact ⟨h.1.1, h.1.2, b, rfl, h.2.1, h.2.2⟩

theorem isChain_nil {blocks : List BTreeNode} {head : Nat} :
    isChain blocks head [] = true ↔ head = 0 := by
  simp [isChain]

theorem isChain_zero_not_mem {blocks : List BTreeNode} :
    ∀ {l : List Nat} {head : Nat}, isChain blocks head l = true → 0 ∉ l := by
  intro l
  induction l with
  | nil => intro head _; simp
  | cons x l ih =>
    intro head h
    obtain ⟨_, hx, b, _, _, hl⟩ := isChain_cons h
    simp only [List.mem_cons, not_or]
    exact ⟨fun e => hx e.symm, ih hl⟩

theorem isChain_lt_length {blocks : List BTreeNode} :
    ∀ {l : List Nat} {head : Nat}, isChain blocks head l = true → ∀ x ∈ l, x < blocks.length := by
  intro l
  induction l with
  | nil => intro head _ x hx; cases hx
  | cons y l ih =>
    intro head h x hx
    obtain ⟨_, _, b, hb, _, hl⟩ := isChain_cons h
    rcases List.mem_cons.1 hx with rfl | hx
    · by_contra hc
      rw [List.getElem?_eq_none (by omega)] at hb
      cases hb
    · exact ih hl x hx

/-- Writing a block that is not on the chain leaves the chain as it is. -/
theorem isChain_set {blocks : List BTreeNode} {m : Nat} {node : BTreeNode} :
    ∀ {l : List Nat} {head : Nat}, isChain blocks head l = true → m ∉ l →
      isChain (blocks.set m node) head l = true := by
  intro l
  induction l with
  | nil => intro head h _; simpa [isChain] using h
  | cons x l ih =>
    intro head h hm
    obtain ⟨h1, h2, b, hb, hty, hl⟩ := isChain_cons h
    simp only [List.mem_cons, not_or] at hm
    unfold isChain
    rw [List.getElem?_set_ne hm.1, hb]
    simp [h1, h2, hty, ih hl hm.2]

theorem stored_info (node : BTreeNode) : node.stored.info = node.info := by
  unfold BTreeNode.stored
  split <;> rfl

/-- `AllocateNode` on an empty chain. -/
theorem AllocateNode_nil {t : BTreeIndex}
    (h : isChain t.buffercache.blocks t.superblock.info.freelist [] = true) :
    AllocateNode t = Except.ok (ERROR_T.ERROR_NOSPACE, 0, t) := by
  have h0 : t.superblock.info.freelist = 0 := isChain_nil.1 h
  simp [AllocateNode, h0]

/-- `AllocateNode` on a chain that starts with `x`: it returns `x` and the chain loses its
head. -/
theorem AllocateNode_cons {t : BTreeIndex} {x : Nat} {l : List Nat}
    (hidx : t.superblock_index = 0)
    (h : isChain t.buffercache.blocks t.superblock.info.freelist (x :: l) = true) :
    ∃ u, AllocateNode t = Except.ok (ERROR_T.ERROR_NOERROR, x, u) ∧
      u.superblock_index = 0 ∧
      (∃ node, u.buffercache.blocks = t.buffercache.blocks.set 0 node) ∧
      isChain u.buffercache.blocks u.superblock.info.freelist l = true := by
  obtain ⟨h1, h2, b, hb, hty, hl⟩ := isChain_cons h
  have h0 : 0 ∉ l := isChain_zero_not_mem hl
  refine ⟨{ t with
            buffercache :=
              ((({ t.superblock with
                   info := { t.superblock.info with freelist := b.info.freelist } } :
                  BTreeNode).Serialize t.buffercache t.superblock_index).2).NotifyAllocateBlock x
            superblock :=
              { t.superblock with info := { t.superblock.info with freelist := b.info.freelist } } },
    ?_, ?_, ?_, ?_⟩
  · simp only [AllocateNode, h1, h2, if_false, BTreeNode.Unserialize, hb, hty, ne_eq,
      not_true_eq_false]
  · exact hidx
  · refine ⟨({ t.superblock with
                info := { t.superblock.info with freelist := b.info.freelist } } :
               BTreeNode).stored, ?_⟩
    simp only [BufferCache.NotifyAllocateBlock, Serialize_blocks, hidx]
  · simp only [BufferCache.NotifyAllocateBlock, Serialize_blocks, hidx]
    exact isChain_set hl h0

/-- `DeallocateNode` of a block of the store that is neither block 0 nor on the chain:
it fails its assertion when the block is tagged unallocated, and otherwise puts the block in
front of the chain. -/
theorem DeallocateNode_chain {t : BTreeIndex} {n : Nat} {l : List Nat}
    (hidx : t.superblock_index = 0)
    (h : isChain t.buffercache.blocks t.superblock.info.freelist l = true)
    (hn0 : n ≠ 0) (hnl : n ∉ l) (hlen : n < t.buffercache.blocks.length) :
    DeallocateNode t n = Except.error Fault.assertion ∨
      ∃ u, DeallocateNode t n = Except.ok (ERROR_T.ERROR_NOERROR, u) ∧
        u.superblock_index = 0 ∧
        u.buffercache.blocks.length = t.buffercache.blocks.length ∧
        isChain u.buffercache.blocks u.superblock.info.freelist (n :: l) = true := by
  have h0 : 0 ∉ l := isChain_zero_not_mem h
  obtain ⟨node, hnode⟩ : ∃ node, t.buffercache.blocks[n]? = some node :=
    ⟨t.buffercache.blocks[n], by simp [hlen]⟩
  by_cases hty : node.info.nodetype = NodeType.BTREE_UNALLOCATED_BLOCK
  · left
    simp [DeallocateNode, BTreeNode.Unserialize, hnode, hty]
  · right
    refine ⟨{ t with
              buffercache :=
                ((({ t.superblock with info := { t.superblock.info with freelist := n } } :
                    BTreeNode).Serialize
                  (({ node with
                      info := { node.info with nodetype := NodeType.BTREE_UNALLOCATED_BLOCK
                                               freelist := t.superblock.info.freelist } } :
                    BTreeNode).Serialize t.buffercache n).2
                  t.superblock_index).2).NotifyDeallocateBlock n
              superblock :=
                { t.superblock with info := { t.superblock.info with freelist := n } } },
      ?_, ?_, ?_, ?_⟩
    · simp only [DeallocateNode, BTreeNode.Unserialize, hnode, hty, if_false]
    · exact hidx
    · simp [BufferCache.NotifyDeallocateBlock, Serialize_blocks]
    · simp only [BufferCache.NotifyDeallocateBlock, Serialize_blocks, hidx]
      unfold isChain
      have hget : ((t.buffercache.blocks.set n
          ({ node with
             info := { node.info with nodetype := NodeType.BTREE_UNALLOCATED_BLOCK
                                      freelist := t.superblock.info.freelist } } :
            BTreeNode).stored).set 0
          ({ t.superblock with info := { t.superblock.info with freelist := n } } :
            BTreeNode).stored)[n]? =
          some ({ node with
             info := { node.info with nodetype := NodeType.BTREE_UNALLOCATED_BLOCK
                                      freelist := t.superblock.info.freelist } } :
            BTreeNode).stored := by
        rw [List.getElem?_set_ne (Ne.symm hn0)]
        exact List.getElem?_set_self hlen
      rw [hget]
      simp only [stored_info, decide_True, Bool.true_and, ne_eq, hn0, not_false_eq_true]
      exact isChain_set (isChain_set h hnl) h0

/-- `AllocateNode` in a state that satisfies the allocator invariant: on an empty chain it
reports `ERROR_NOSPACE` and changes nothing; otherwise it hands out the head of the chain,
which is not allocated at that moment, and the invariant holds for the rest of the chain. -/
theorem allocate_step {s : AllocState} {l : List Nat} (hinv : AllocInv s l) :
    (l = [] ∧ AllocateNode s.index = Except.ok (ERROR_T.ERROR_NOSPACE, 0, s.index)) ∨
      ∃ x l' u, l = x :: l' ∧
        AllocateNode s.index = Except.ok (ERROR_T.ERROR_NOERROR, x, u) ∧ x ∉ s.live ∧
        AllocInv { index := u, live := x :: s.live } l' := by
  obtain ⟨hidx, hch, hnd, hlive, hdis⟩ := hinv
  cases l with
  | nil => exact Or.inl ⟨rfl, AllocateNode_nil hch⟩
  | cons x l' =>
    right
    obtain ⟨u, hu, huidx, ⟨node, hblocks⟩, huch⟩ := AllocateNode_cons hidx hch
    have hxl : x ∉ s.live := fun hx => (hdis x hx).1 (List.mem_cons_self _ _)
    have hx0 : x ≠ 0 := (isChain_cons hch).2.1
    have hxlen : x < s.index.buffercache.blocks.length :=
      isChain_lt_length hch x (List.mem_cons_self _ _)
    have hnd' := List.nodup_cons.1 hnd
    refine ⟨x, l', u, rfl, hu, hxl, huidx, huch, hnd'.2, List.nodup_cons.2 ⟨hxl, hlive⟩, ?_⟩
    intro n hn
    have hlen : u.buffercache.blocks.length = s.index.buffercache.blocks.length := by
      rw [hblocks, List.length_set]
    rw [hlen]
    rcases List.mem_cons.1 hn with rfl | hn
    · exact ⟨hnd'.1, hx0, hxlen⟩
    · obtain ⟨h1, h2, h3⟩ := hdis n hn
      exact ⟨fun hc => h1 (List.mem_cons_of_mem _ hc), h2, h3⟩

/-- One step of a client keeps the allocator invariant, and the only fault is the assertion
of `DeallocateNode`. -/
theorem allocStep_inv {s : AllocState} {l : List Nat} (hinv : AllocInv s l) (op : AllocOp) :
    match allocStep s op with
    | Except.error f => f = Fault.assertion
    | Except.ok none => True
    | Except.ok (some s') => ∃ l', AllocInv s' l' := by
  cases op with
  | allocate =>
    rcases allocate_step hinv with ⟨_, h⟩ | ⟨x, l', u, _, h, _, hinv'⟩
    · simp only [allocStep, h]
      exact ⟨l, hinv⟩
    · simp only [allocStep, h]
      exact ⟨l', hinv'⟩
  | deallocate n =>
    obtain ⟨hidx, hch, hnd, hlive, hdis⟩ := hinv
    by_cases hn : n ∈ s.live
    · obtain ⟨h1, h2, h3⟩ := hdis n hn
      rcases DeallocateNode_chain hidx hch h2 h1 h3 with h | ⟨u, h, huidx, hulen, huch⟩
      · simp only [allocStep, hn, if_true, h]
      · simp only [allocStep, hn, if_true, h]
        refine ⟨n :: l, huidx, huch, List.nodup_cons.2 ⟨h1, hnd⟩, hlive.erase n, ?_⟩
        intro m hm
        have hm' := (List.Nodup.mem_erase_iff hlive).1 hm
        obtain ⟨g1, g2, g3⟩ := hdis m hm'.2
        rw [hulen]
        refine ⟨?_, g2, g3⟩
        simp only [List.mem_cons, not_or]
        exact ⟨hm'.1, g1⟩
    · simp only [allocStep, hn, if_false]
  | use n node =>
    obtain ⟨hidx, hch, hnd, hlive, hdis⟩ := hinv
    by_cases hn : n ∈ s.live
    · obtain ⟨h1, h2, h3⟩ := hdis n hn
      simp only [allocStep, hn, if_true]
      refine ⟨l, hidx, ?_, hnd, hlive, ?_⟩
      · simp only [Serialize_blocks]
        exact isChain_set hch h1
      · intro m hm
        simp only [Serialize_blocks, List.length_set]
        exact hdis m hm
    · simp only [allocStep, hn, if_false]

/-- A run of a client keeps the allocator invariant, and the only fault is the assertion
of `DeallocateNode`. -/
theorem allocRun_inv (ops : List AllocOp) :
    ∀ (s : AllocState) (l : List Nat), AllocInv s l →
      match allocRun s ops with
      | Except.error f => f = Fault.assertion
      | Except.ok none => True
      | Except.ok (some s') => ∃ l', AllocInv s' l' := by
  induction ops with
  | nil => intro s l hinv; exact ⟨l, hinv⟩
  | cons op ops ih =>
    intro s l hinv
    have hstep := allocStep_inv hinv op
    unfold allocRun
    cases h : allocStep s op with
    | error f => rw [h] at hstep; exact hstep
    | ok o =>
      cases o with
      | none => trivial
      | some s' =>
        rw [h] at hstep
        obtain ⟨l', hinv'⟩ := hstep
        exact ih s' l' hinv'

/-! ## Attach with create -/

theorem Serialize_ok (node : BTreeNode) (bc : BufferCache) (n : Nat)
    (h : n < bc.blocks.length) :
    node.Serialize bc n =
      (ERROR_T.ERROR_NOERROR,
        { bc with blocks := bc.blocks.set n node.stored
                  log := bc.log ++ [CacheEvent.write n] }) := by
  unfold BTreeNode.Serialize
  rw [if_pos h]

/-- The freelist loop of `Attach`, started at block `i` with as many iterations as blocks
are left, succeeds, leaves the blocks below `i` alone and makes every block from `i` on an
unallocated block whose next-pointer is the following block, or 0 on the last block. -/
theorem attachFreeLoop_spec (G : SlotGeometry) (ks vs sbi : Nat) :
    ∀ (count i : Nat) (bc : BufferCache), i + count = bc.blocks.length →
      (attachFreeLoop G ks vs sbi count i bc).1 = ERROR_T.ERROR_NOERROR ∧
      (attachFreeLoop G ks vs sbi count i bc).2.blocks.length = bc.blocks.length ∧
      (∀ m : Nat, m < i →
        (attachFreeLoop G ks vs sbi count i bc).2.blocks[m]? = bc.blocks[m]?) ∧
      (∀ m : Nat, i ≤ m → m < bc.blocks.length →
        ∃ b : BTreeNode, (attachFreeLoop G ks vs sbi count i bc).2.blocks[m]? = some b ∧
          b.info.nodetype = NodeType.BTREE_UNALLOCATED_BLOCK ∧
          b.info.freelist = (if m + 1 = bc.blocks.length then 0 else m + 1) ∧
          b.ptrs = []) := by
  intro count
  induction count with
  | zero =>
    intro i bc h
    refine ⟨rfl, rfl, fun _ _ => rfl, ?_⟩
    intro m h1 h2
    omega
  | succ count ih =>
    intro i bc h
    have hi : i < bc.blocks.length := by omega
    simp only [attachFreeLoop, Serialize_ok _ _ _ hi, ne_eq, not_true_eq_false, if_false]
    have hlen : (bc.blocks.set i
        ({ (BTreeNode.new G NodeType.BTREE_UNALLOCATED_BLOCK ks vs bc.GetBlockSize) with
            info := { (BTreeNode.new G NodeType.BTREE_UNALLOCATED_BLOCK ks vs
                        bc.GetBlockSize).info with
                      rootnode := sbi + 1
                      freelist := if i + 1 = bc.GetNumBlocks then 0 else i + 1 } } :
          BTreeNode).stored).length = bc.blocks.length := List.length_set _ _ _
    obtain ⟨h1, h2, h3, h4⟩ := ih (i + 1)
      { bc with
        blocks := bc.blocks.set i
          ({ (BTreeNode.new G NodeType.BTREE_UNALLOCATED_BLOCK ks vs bc.GetBlockSize) with
              info := { (BTreeNode.new G NodeType.BTREE_UNALLOCATED_BLOCK ks vs
                          bc.GetBlockSize).info with
                        rootnode := sbi + 1
                        freelist := if i + 1 = bc.GetNumBlocks then 0 else i + 1 } } :
            BTreeNode).stored
        log := bc.log ++ [CacheEvent.write i] }
      (by rw [hlen]; omega)
    refine ⟨h1, h2.trans hlen, ?_, ?_⟩
    · intro m hm
      rw [h3 m (by omega)]
      exact List.getElem?_set_ne (by omega)
    · intro m hm1 hm2
      by_cases hmi : m = i
      · subst hmi
        rw [h3 m (by omega)]
        refine ⟨_, List.getElem?_set_self hi, rfl, rfl, rfl⟩
      · have := h4 m (by omega) (by rw [hlen]; exact hm2)
        rw [hlen] at this
        exact this

theorem isChain_of_cons {blocks : List BTreeNode} {x : Nat} {l : List Nat} {b : BTreeNode}
    (hx : x ≠ 0) (hb : blocks[x]? = some b)
    (hty : b.info.nodetype = NodeType.BTREE_UNALLOCATED_BLOCK)
    (h : isChain blocks b.info.freelist l = true) : isChain blocks x (x :: l) = true := by
  unfold isChain
  rw [hb]
  simp [hx, hty, h]

/-- Blocks that each point to the following one, the last to 0, are a chain. -/
theorem isChain_range (blocks : List BTreeNode) :
    ∀ (count i : Nat), 1 ≤ i → i + count = blocks.length →
      (∀ m : Nat, i ≤ m → m < blocks.length →
        ∃ b : BTreeNode, blocks[m]? = some b ∧
          b.info.nodetype = NodeType.BTREE_UNALLOCATED_BLOCK ∧
          b.info.freelist = (if m + 1 = blocks.length then 0 else m + 1) ∧ b.ptrs = []) →
      isChain blocks (if count = 0 then 0 else i) (List.range' i count) = true := by
  intro count
  induction count with
  | zero =>
    intro i _ _ _
    rfl
  | succ count ih =>
    intro i hi hlen h
    obtain ⟨b, hb, hty, hfl, _⟩ := h i (Nat.le_refl i) (by omega)
    have hrec := ih (i + 1) (by omega) (by omega)
      (fun m hm1 hm2 => h m (by omega) hm2)
    have hfl' : b.info.freelist = if count = 0 then 0 else i + 1 := by
      rw [hfl]
      by_cases hc : count = 0
      · rw [if_pos hc, if_pos (by omega)]
      · rw [if_neg hc, if_neg (by omega)]
    rw [if_neg (Nat.succ_ne_zero count), List.range'_succ]
    exact isChain_of_cons (by omega) hb hty (by rw [hfl']; exact hrec)

theorem Serialize_fst (node : BTreeNode) (bc : BufferCache) (n : Nat)
    (h : n < bc.blocks.length) : (node.Serialize bc n).1 = ERROR_T.ERROR_NOERROR := by
  rw [Serialize_ok _ _ _ h]

theorem Serialize_length (node : BTreeNode) (bc : BufferCache) (n : Nat) :
    (node.Serialize bc n).2.blocks.length = bc.blocks.length := by
  rw [Serialize_blocks, List.length_set]

/-- With `create`, on a store of at least two blocks, `Attach` gets through its writes of
the superblock and of the root, runs the freelist loop on the resulting store `X` and ends
by reading the superblock. -/
theorem Attach_create_eq (G : SlotGeometry) (t : BTreeIndex)
    (hN : 2 ≤ t.buffercache.blocks.length) (X : BufferCache)
    (hX : X =
      (({ BTreeNode.new G NodeType.BTREE_ROOT_NODE t.superblock.info.keysize
            t.superblock.info.valuesize t.buffercache.GetBlockSize with
          info := { (BTreeNode.new G NodeType.BTREE_ROOT_NODE t.superblock.info.keysize
                      t.superblock.info.valuesize t.buffercache.GetBlockSize).info with
                    rootnode := 0 + 1, freelist := 0 + 2, numkeys := 0 } } :
          BTreeNode).Serialize
        ((({ BTreeNode.new G NodeType.BTREE_SUPERBLOCK t.superblock.info.keysize
               t.superblock.info.valuesize t.buffercache.GetBlockSize with
             info := { (BTreeNode.new G NodeType.BTREE_SUPERBLOCK t.superblock.info.keysize
                         t.superblock.info.valuesize t.buffercache.GetBlockSize).info with
                       rootnode := 0 + 1, freelist := 0 + 2, numkeys := 0 } } :
             BTreeNode).Serialize
            (t.buffercache.NotifyAllocateBlock 0) 0).2.NotifyAllocateBlock (0 + 1))
        (0 + 1)).2) :
    Attach G t 0 true =
      Except.ok (attachMount
        { t with
          superblock_index := 0
          buffercache := (attachFreeLoop G t.superblock.info.keysize
            t.superblock.info.valuesize 0 (X.GetNumBlocks - (0 + 2)) (0 + 2) X).2 } 0) := by
  have h0 : 0 < (t.buffercache.NotifyAllocateBlock 0).blocks.length :=
    Nat.lt_of_lt_of_le (by decide) hN
  subst hX
  unfold Attach
  simp only []
  split
  · rename_i h
    exact absurd rfl h
  · rw [if_pos trivial]
    split
    · rename_i h
      exact absurd (Serialize_fst _ _ _ h0) h
    · split
      · rename_i h
        refine absurd (Serialize_fst _ _ _ ?_) h
        show 1 < (BTreeNode.Serialize _ _ _).2.blocks.length
        rw [Serialize_length]
        exact hN
      · split
        · rename_i h
          refine absurd (attachFreeLoop_spec _ _ _ _ _ _ _ ?_).1 h
          simp only [BufferCache.GetNumBlocks, BufferCache.NotifyAllocateBlock,
            Serialize_length]
          omega
        · rfl

/-- What `Attach(0, create = true)` does on a store of at least two blocks. -/
theorem Attach_create (G : SlotGeometry) (t : BTreeIndex)
    (hN : 2 ≤ t.buffercache.blocks.length) :
    ∃ u : BTreeIndex,
      Attach G t 0 true = Except.ok (ERROR_T.ERROR_NOERROR, u) ∧
      u.superblock_index = 0 ∧
      u.buffercache.blocks.length = t.buffercache.blocks.length ∧
      u.superblock =
        { info := { nodetype := NodeType.BTREE_SUPERBLOCK
                    keysize := t.superblock.info.keysize
                    valuesize := t.superblock.info.valuesize
                    blocksize := t.buffercache.blocksize
                    rootnode := 1, freelist := 2, numkeys := 0 }
          keys := [], vals := [], ptrs := [] } ∧
      u.buffercache.blocks[0]? = some u.superblock ∧
      u.buffercache.blocks[1]? =
        some { info := { nodetype := NodeType.BTREE_ROOT_NODE
                         keysize := t.superblock.info.keysize
                         valuesize := t.superblock.info.valuesize
                         blocksize := t.buffercache.blocksize
                         rootnode := 1, freelist := 2, numkeys := 0 }
               keys := List.replicate (G.GetNumSlotsAsInterior
                 { nodetype := NodeType.BTREE_ROOT_NODE
                   keysize := t.superblock.info.keysize
                   valuesize := t.superblock.info.valuesize
                   blocksize := t.buffercache.blocksize
                   rootnode := 0, freelist := 0, numkeys := 0 }) 0
               vals := []
               ptrs := List.replicate (G.GetNumSlotsAsInterior
                 { nodetype := NodeType.BTREE_ROOT_NODE
                   keysize := t.superblock.info.keysize
                   valuesize := t.superblock.info.valuesize
                   blocksize := t.buffercache.blocksize
                   rootnode := 0, freelist := 0, numkeys := 0 } + 1) 0 } ∧
      ∀ m : Nat, 2 ≤ m → m < t.buffercache.blocks.length →
        ∃ b : BTreeNode, u.buffercache.blocks[m]? = some b ∧
          b.info.nodetype = NodeType.BTREE_UNALLOCATED_BLOCK ∧
          b.info.freelist = (if m + 1 = t.buffercache.blocks.length then 0 else m + 1) ∧
          b.ptrs = [] := by
  obtain ⟨X, hX'⟩ : ∃ X : BufferCache, X =
      (({ BTreeNode.new G NodeType.BTREE_ROOT_NODE t.superblock.info.keysize
            t.superblock.info.valuesize t.buffercache.GetBlockSize with
          info := { (BTreeNode.new G NodeType.BTREE_ROOT_NODE t.superblock.info.keysize
                      t.superblock.info.valuesize t.buffercache.GetBlockSize).info with
                    rootnode := 0 + 1, freelist := 0 + 2, numkeys := 0 } } :
          BTreeNode).Serialize
        ((({ BTreeNode.new G NodeType.BTREE_SUPERBLOCK t.superblock.info.keysize
               t.superblock.info.valuesize t.buffercache.GetBlockSize with
             info := { (BTreeNode.new G NodeType.BTREE_SUPERBLOCK t.superblock.info.keysize
                         t.superblock.info.valuesize t.buffercache.GetBlockSize).info with
                       rootnode := 0 + 1, freelist := 0 + 2, numkeys := 0 } } :
             BTreeNode).Serialize
            (t.buffercache.NotifyAllocateBlock 0) 0).2.NotifyAllocateBlock (0 + 1))
        (0 + 1)).2 := ⟨_, rfl⟩
  have hA := Attach_create_eq G t hN X hX'
  simp only [BufferCache.GetNumBlocks, Nat.zero_add] at hA
  have hX : X.blocks = (t.buffercache.blocks.set 0
      { info := { nodetype := NodeType.BTREE_SUPERBLOCK,
                  keysize := t.superblock.info.keysize,
                  valuesize := t.superblock.info.valuesize,
                  blocksize := t.buffercache.blocksize,
                  rootnode := 1, freelist := 2, numkeys := 0 },
        keys := [], vals := [], ptrs := [] }).set 1
      { info := { nodetype := NodeType.BTREE_ROOT_NODE,
                  keysize := t.superblock.info.keysize,
                  valuesize := t.superblock.info.valuesize,
                  blocksize := t.buffercache.blocksize,
                  rootnode := 1, freelist := 2, numkeys := 0 },
        keys := List.replicate (G.GetNumSlotsAsInterior
          { nodetype := NodeType.BTREE_ROOT_NODE,
            keysize := t.superblock.info.keysize,
            valuesize := t.superblock.info.valuesize,
            blocksize := t.buffercache.blocksize,
            rootnode := 0, freelist := 0, numkeys := 0 }) 0,
        vals := [],
        ptrs := List.replicate (G.GetNumSlotsAsInterior
          { nodetype := NodeType.BTREE_ROOT_NODE,
            keysize := t.superblock.info.keysize,
            valuesize := t.superblock.info.valuesize,
            blocksize := t.buffercache.blocksize,
            rootnode := 0, freelist := 0, numkeys := 0 } + 1) 0 } := by
    rw [hX', Serialize_blocks]
    show List.set (BTreeNode.Serialize _ _ _).2.blocks _ _ = _
    rw [Serialize_blocks]
    rfl
  clear hX'
  have hlen : X.blocks.length = t.buffercache.blocks.length := by
    rw [hX, List.length_set, List.length_set]
  obtain ⟨-, l2, l3, l4⟩ := attachFreeLoop_spec G t.superblock.info.keysize
    t.superblock.info.valuesize 0 (X.blocks.length - 2) 2 X (by omega)
  have hb0 : (attachFreeLoop G t.superblock.info.keysize t.superblock.info.valuesize 0
      (X.blocks.length - 2) 2 X).2.blocks[0]? = some
        { info := { nodetype := NodeType.BTREE_SUPERBLOCK
                    keysize := t.superblock.info.keysize
                    valuesize := t.superblock.info.valuesize
                    blocksize := t.buffercache.blocksize
                    rootnode := 1, freelist := 2, numkeys := 0 }
          keys := [], vals := [], ptrs := [] } := by
    rw [l3 0 (by decide), hX, List.getElem?_set_ne (by decide),
      List.getElem?_set_self (by omega)]
  refine ⟨{ buffercache := (attachFreeLoop G t.superblock.info.keysize
              t.superblock.info.valuesize 0 (X.blocks.length - 2) 2 X).2
            superblock_index := 0
            superblock :=
              { info := { nodetype := NodeType.BTREE_SUPERBLOCK
                          keysize := t.superblock.info.keysize
                          valuesize := t.superblock.info.valuesize
                          blocksize := t.buffercache.blocksize
                          rootnode := 1, freelist := 2, numkeys := 0 }
                keys := [], vals := [], ptrs := [] } }, ?_, rfl, l2.trans hlen, rfl, hb0,
    ?_, ?_⟩
  · rw [hA]
    simp only [attachMount, BTreeNode.Unserialize, hb0]
  · rw [l3 1 (by decide), hX, List.getElem?_set_self (by rw [List.length_set]; omega)]
  · intro m hm1 hm2
    obtain ⟨b, hb1, hb2, hb3, hb4⟩ := l4 m hm1 (by omega)
    exact ⟨b, hb1, hb2, by rw [hb3, hlen], hb4⟩

/-- On a store of at least three blocks the freelist that `Attach` builds is the chain of
the blocks 2, 3, ... up to the last one. -/
theorem Attach_create_chain (G : SlotGeometry) (t : BTreeIndex)
    (hN : 3 ≤ t.buffercache.blocks.length) :
    ∃ u : BTreeIndex,
      Attach G t 0 true = Except.ok (ERROR_T.ERROR_NOERROR, u) ∧
      u.superblock_index = 0 ∧ u.superblock.info.rootnode = 1 ∧
      u.buffercache.blocks.length = t.buffercache.blocks.length ∧
      (∃ root : BTreeNode, u.buffercache.blocks[1]? = some root ∧
        root.info.nodetype = NodeType.BTREE_ROOT_NODE ∧ root.info.numkeys = 0 ∧
        ∀ p ∈ root.ptrs, p = 0) ∧
      isChain u.buffercache.blocks u.superblock.info.freelist
        (List.range' 2 (t.buffercache.blocks.length - 2)) = true := by
  obtain ⟨u, h1, h2, h3, h4, h5, h6, h7⟩ := Attach_create G t (by omega)
  refine ⟨u, h1, h2, by rw [h4], h3, ⟨_, h6, rfl, rfl, ?_⟩, ?_⟩
  · intro p hp
    exact List.eq_of_mem_replicate hp
  · have := isChain_range u.buffercache.blocks (t.buffercache.blocks.length - 2) 2
      (by decide) (by omega) (fun m hm1 hm2 => by
        rw [h3] at hm2 ⊢
        exact h7 m hm1 hm2)
    rw [if_neg (by omega)] at this
    rw [h4]
    exact this

/-! ## Depth of a tree whose nodes point back -/

/-- An interior node with a key whose first pointer has no depth has no depth. -/
theorem depthFrom_of_first_child (blocks : List BTreeNode) (n : Nat) (b : BTreeNode)
    (hb : blocks[n]? = some b) (hleaf : b.info.nodetype.isLeaf = false)
    (hk : b.info.numkeys ≠ 0) (h : Nat)
    (hc : depthFrom blocks h (b.ptrs.getD 0 0) = none) :
    depthFrom blocks (h + 1) n = none := by
  unfold depthFrom
  rw [hb]
  simp only [hleaf, hk, hc, if_false, Bool.false_eq_true]
  split <;> rfl

/-- An interior node with a key whose first pointer is its own block has no depth. -/
theorem depthFrom_self_loop (blocks : List BTreeNode) (n : Nat) (b : BTreeNode)
    (hb : blocks[n]? = some b) (hleaf : b.info.nodetype.isLeaf = false)
    (hk : b.info.numkeys ≠ 0) (hp : b.ptrs.getD 0 0 = n) :
    ∀ h : Nat, depthFrom blocks h n = none := by
  intro h
  induction h with
  | zero => rfl
  | succ h ih =>
    exact depthFrom_of_first_child blocks n b hb hleaf hk h (by rw [hp]; exact ih)

/-! ## The freelist stays apart from the tree -/

theorem Clean_suffix {l l' : List Nat} {b : BTreeNode} (hs : l' <:+ l) (h : Clean l b) :
    Clean l' b :=
  fun p hp hpl => h p hp (hs.subset hpl)

theorem Clean_new (G : SlotGeometry) (ty : NodeType) (ks vs bs : Nat) {l : List Nat}
    (h0 : 0 ∉ l) : Clean l (BTreeNode.new G ty ks vs bs) := by
  intro p hp
  have : p = 0 := by
    unfold BTreeNode.new at hp
    cases ty <;> simp only [] at hp
    · cases hp
    · cases hp
    · exact List.eq_of_mem_replicate hp
    · exact List.eq_of_mem_replicate hp
    · simpa using hp
  rw [this]
  exact h0

theorem Clean_incNumkeys {l : List Nat} {b : BTreeNode} (h : Clean l b) :
    Clean l b.incNumkeys := h

theorem Clean_SetKey {l : List Nat} {b : BTreeNode} (h : Clean l b) (o k : Nat) :
    Clean l (b.SetKey o k).2 := by
  unfold BTreeNode.SetKey
  split <;> exact h

theorem Clean_SetVal {l : List Nat} {b : BTreeNode} (h : Clean l b) (o v : Nat) :
    Clean l (b.SetVal o v).2 := by
  unfold BTreeNode.SetVal
  split <;> exact h

theorem Clean_SetPtr {l : List Nat} {b : BTreeNode} (h : Clean l b) (o : Nat) {p : Nat}
    (hp : p ∉ l) : Clean l (b.SetPtr o p).2 := by
  unfold BTreeNode.SetPtr
  split
  · intro q hq
    rcases List.mem_or_eq_of_mem_set hq with hq | hq
    · exact h q hq
    · rw [hq]; exact hp
  · exact h

theorem Clean_stored {l : List Nat} {b : BTreeNode} (h : Clean l b) : Clean l b.stored := by
  unfold BTreeNode.stored
  split
  · intro p hp; cases hp
  · intro p hp; cases hp
  · exact h

theorem GetPtr_clean {l : List Nat} {b : BTreeNode} (h : Clean l b) (h0 : 0 ∉ l) {o p : Nat}
    (hg : b.GetPtr o = Except.ok p) : p ∉ l := by
  unfold BTreeNode.GetPtr at hg
  split at hg
  · injection hg with hg
    rw [← hg, List.getD_eq_getElem?_getD]
    cases hb : b.ptrs[o]? with
    | none => exact h0
    | some q => exact h q (List.getElem?_mem hb)
  · cases hg

theorem getD_clean {l : List Nat} {b : BTreeNode} (h : Clean l b) (h0 : 0 ∉ l) (o : Nat) :
    b.ptrs.getD o 0 ∉ l := by
  rw [List.getD_eq_getElem?_getD]
  cases hb : b.ptrs[o]? with
  | none => exact h0
  | some q => exact h q (List.getElem?_mem hb)

theorem Unserialize_clean {l : List Nat} {bc : BufferCache} {n : Nat} {b : BTreeNode}
    (h : ∀ b ∈ bc.blocks, Clean l b) (hu : BTreeNode.Unserialize bc n = Except.ok b) :
    Clean l b := by
  unfold BTreeNode.Unserialize at hu
  cases hb : bc.blocks[n]? with
  | none => rw [hb] at hu; cases hu
  | some c =>
    rw [hb] at hu
    injection hu with hu
    rw [← hu]
    exact h c (List.getElem?_mem hb)

theorem FreeInv_zero {t : BTreeIndex} {l : List Nat} (h : FreeInv t l) : 0 ∉ l :=
  isChain_zero_not_mem h.2.1

/-- Writing a clean node into a block that is not free keeps the invariant. -/
theorem FreeInv_write {t : BTreeIndex} {l : List Nat} (h : FreeInv t l) {n : Nat}
    (hn : n ∉ l) {node : BTreeNode} (hc : Clean l node) :
    FreeInv { t with buffercache := (node.Serialize t.buffercache n).2 } l := by
  obtain ⟨h1, h2, h3, h4, h6, h5⟩ := h
  refine ⟨h1, ?_, h3, h4, h6, ?_⟩
  · show isChain (node.Serialize t.buffercache n).2.blocks _ l = true
    rw [Serialize_blocks]
    exact isChain_set h2 hn
  · intro b hb
    have hb' : b ∈ (node.Serialize t.buffercache n).2.blocks := hb
    rw [Serialize_blocks] at hb'
    rcases List.mem_or_eq_of_mem_set hb' with hb' | hb'
    · exact h5 b hb'
    · rw [hb']; exact Clean_stored hc

/-- What `AllocateNode` does to the invariant: on an empty freelist it returns 0 and
changes nothing; otherwise it returns the head and the rest of the chain is the freelist.
In both cases the block it returns is not free afterwards. -/
theorem AllocateNode_inv {t : BTreeIndex} {l : List Nat} (h : FreeInv t l) :
    ∃ (rc : ERROR_T) (n : Nat) (u : BTreeIndex) (l' : List Nat),
      AllocateNode t = Except.ok (rc, n, u) ∧ l' <:+ l ∧ FreeInv u l' ∧ n ∉ l' ∧
      u.superblock.info.rootnode = t.superblock.info.rootnode := by
  obtain ⟨h1, h2, h3, h4, h6, h5⟩ := h
  cases l with
  | nil =>
    exact ⟨_, 0, t, [], AllocateNode_nil h2, List.suffix_refl _, ⟨h1, h2, h3, h4, h6, h5⟩,
      List.not_mem_nil _, rfl⟩
  | cons x l =>
    obtain ⟨hx, hx0, b, hb, hty, hl⟩ := isChain_cons h2
    have h0 : 0 ∉ l := isChain_zero_not_mem hl
    have hxl : x ∉ l := (List.nodup_cons.1 h3).1
    have hsuf : l <:+ x :: l := List.suffix_cons x l
    refine ⟨ERROR_T.ERROR_NOERROR, x,
      { t with
        buffercache :=
          ((({ t.superblock with
               info := { t.superblock.info with freelist := b.info.freelist } } :
              BTreeNode).Serialize t.buffercache t.superblock_index).2).NotifyAllocateBlock x
        superblock :=
          { t.superblock with info := { t.superblock.info with freelist := b.info.freelist } } },
      l, ?_, hsuf, ⟨h1, ?_, (List.nodup_cons.1 h3).2, fun hr => h4 (hsuf.subset hr),
        Clean_suffix hsuf h6, ?_⟩,
      hxl, rfl⟩
    · simp only [AllocateNode, hx, hx0, if_false, BTreeNode.Unserialize, hb, hty, ne_eq,
        not_true_eq_false]
    · show isChain (BTreeNode.Serialize _ t.buffercache t.superblock_index).2.blocks
        b.info.freelist l = true
      rw [Serialize_blocks, h1]
      exact isChain_set hl h0
    · intro c hc
      have hc' : c ∈ (BTreeNode.Serialize
          ({ t.superblock with
             info := { t.superblock.info with freelist := b.info.freelist } } : BTreeNode)
          t.buffercache t.superblock_index).2.blocks := hc
      rw [Serialize_blocks] at hc'
      rcases List.mem_or_eq_of_mem_set hc' with hc' | hc'
      · exact Clean_suffix hsuf (h5 c hc')
      · rw [hc']
        exact Clean_stored (Clean_suffix hsuf h6)

theorem shiftLeaf_clean {l : List Nat} :
    ∀ (count i : Nat) (node r : BTreeNode), Clean l node →
      shiftLeaf count i node = Except.ok r → Clean l r := by
  intro count
  induction count with
  | zero =>
    intro i node r hc h
    injection h with h
    rw [← h]
    exact hc
  | succ n ih =>
    intro i node r hc h
    unfold shiftLeaf at h
    cases hk : node.GetKey (i - 1) with
    | error e =>
      simp only [hk, orUndefined, bind, Except.bind] at h
      cases h
    | ok k =>
      cases hv : node.GetVal (i - 1) with
      | error e =>
        simp only [hk, hv, orUndefined, bind, Except.bind] at h
        cases h
      | ok v =>
        simp only [hk, hv, orUndefined, bind, Except.bind] at h
        exact ih _ _ _ (Clean_SetVal (Clean_SetKey hc _ _) _ _) h

theorem insertLeafLoop_inv {t : BTreeIndex} {l : List Nat} (hinv : FreeInv t l)
    {Address : Nat} (hA : Address ∉ l) (key value : Nat) :
    ∀ (count offset counter : Nat) (node : BTreeNode)
      (r : Option ERROR_T × BTreeNode × BTreeIndex), Clean l node →
      insertLeafLoop t Address key value count offset counter node = Except.ok r →
      FreeInv r.2.2 l ∧ Clean l r.2.1 := by
  intro count
  induction count with
  | zero =>
    intro offset counter node r hc h
    injection h with h
    rw [← h]
    exact ⟨hinv, hc⟩
  | succ n ih =>
    intro offset counter node r hc h
    unfold insertLeafLoop at h
    cases hk : node.GetKey offset with
    | error e =>
      simp only [hk, orUndefined, bind, Except.bind] at h
      cases h
    | ok k =>
      simp only [hk, orUndefined, bind, Except.bind] at h
      split at h
      · cases hs : shiftLeaf (node.info.numkeys - 1 - offset) (node.info.numkeys - 1) node with
        | error e =>
          simp only [hs] at h
          cases h
        | ok node' =>
          simp only [hs] at h
          have hc' := Clean_SetVal (Clean_SetKey (shiftLeaf_clean _ _ _ _ hc hs) offset key)
            offset value
          split at h <;>
          · injection h with h
            rw [← h]
            exact ⟨FreeInv_write hinv hA hc', hc'⟩
      · split at h
        · injection h with h
          rw [← h]
          exact ⟨hinv, hc⟩
        · split at h
          · split at h <;>
            · injection h with h
              rw [← h]
              exact ⟨FreeInv_write hinv hA (Clean_SetVal (Clean_SetKey hc _ _) _ _),
                Clean_SetVal (Clean_SetKey hc _ _) _ _⟩
          · exact ih _ _ _ _ hc h

theorem insert_Not_Full_inv {t : BTreeIndex} {l : List Nat} (hinv : FreeInv t l)
    {Address : Nat} (hA : Address ∉ l) {Temp_Node : BTreeNode} (hc : Clean l Temp_Node)
    (key value : Nat) {r : Option ERROR_T × BTreeNode × BTreeIndex}
    (h : insert_Not_Full t Address Temp_Node key value = Except.ok r) :
    FreeInv r.2.2 l ∧ Clean l r.2.1 :=
  insertLeafLoop_inv hinv hA key value _ _ _ _ _ (Clean_incNumkeys hc) h

theorem shiftInterior_clean {l : List Nat} (h0 : 0 ∉ l) :
    ∀ (count i : Nat) (node r : BTreeNode), Clean l node →
      shiftInterior count i node = Except.ok r → Clean l r := by
  intro count
  induction count with
  | zero =>
    intro i node r hc h
    injection h with h
    rw [← h]
    exact hc
  | succ n ih =>
    intro i node r hc h
    unfold shiftInterior at h
    cases hk : node.GetKey (i - 1) with
    | error e =>
      simp only [hk, orUndefined, bind, Except.bind] at h
      cases h
    | ok k =>
      simp only [hk, orUndefined, bind, Except.bind] at h
      cases hp : (node.SetKey i k).2.GetPtr i with
      | error e =>
        simp only [hp] at h
        cases h
      | ok p =>
        simp only [hp] at h
        exact ih _ _ _
          (Clean_SetPtr (Clean_SetKey hc _ _) _ (GetPtr_clean (Clean_SetKey hc _ _) h0 hp)) h

theorem insertInteriorLoop_inv {t : BTreeIndex} {l : List Nat} (hinv : FreeInv t l)
    {Address left right : Nat} (hA : Address ∉ l) (hl : left ∉ l) (hr : right ∉ l)
    (key : Nat) :
    ∀ (count offset counter : Nat) (node : BTreeNode)
      (r : Option ERROR_T × BTreeNode × BTreeIndex), Clean l node →
      insertInteriorLoop t Address left right key count offset counter node = Except.ok r →
      FreeInv r.2.2 l ∧ Clean l r.2.1 := by
  intro count
  induction count with
  | zero =>
    intro offset counter node r hc h
    injection h with h
    rw [← h]
    exact ⟨hinv, hc⟩
  | succ n ih =>
    intro offset counter node r hc h
    unfold insertInteriorLoop at h
    cases hk : node.GetKey offset with
    | error e =>
      simp only [hk, orUndefined, bind, Except.bind] at h
      cases h
    | ok k =>
      simp only [hk, orUndefined, bind, Except.bind] at h
      split at h
      · cases hs : shiftInterior (node.info.numkeys - 1 - offset) (node.info.numkeys - 1)
            node with
        | error e =>
          simp only [hs] at h
          cases h
        | ok node' =>
          simp only [hs] at h
          have hc' := shiftInterior_clean (FreeInv_zero hinv) _ _ _ _ hc hs
          split at h <;>
          · injection h with h
            rw [← h]
            exact ⟨FreeInv_write hinv hA
                (Clean_SetPtr (Clean_SetPtr (Clean_SetKey hc' _ _) _ hl) _ hr),
              Clean_SetPtr (Clean_SetPtr (Clean_SetKey hc' _ _) _ hl) _ hr⟩
      · split at h
        · injection h with h
          rw [← h]
          exact ⟨hinv, hc⟩
        · split at h
          · split at h <;>
            · injection h with h
              rw [← h]
              exact ⟨FreeInv_write hinv hA
                  (Clean_SetPtr (Clean_SetPtr (Clean_SetKey hc _ _) _ hl) _ hr),
                Clean_SetPtr (Clean_SetPtr (Clean_SetKey hc _ _) _ hl) _ hr⟩
          · exact ih _ _ _ _ hc h

theorem insert_Not_Full_Internal_inv {t : BTreeIndex} {l : List Nat} (hinv : FreeInv t l)
    {Address left right : Nat} (hA : Address ∉ l) (hl : left ∉ l) (hr : right ∉ l)
    {Temp_Node : BTreeNode} (hc : Clean l Temp_Node) (key : Nat)
    {r : Option ERROR_T × BTreeNode × BTreeIndex}
    (h : insert_Not_Full_Internal t Address Temp_Node left right key = Except.ok r) :
    FreeInv r.2.2 l ∧ Clean l r.2.1 :=
  insertInteriorLoop_inv hinv hA hl hr key _ _ _ _ _ (Clean_incNumkeys hc) h

theorem splitLeafLoop_clean {l : List Nat} (Node : BTreeNode) (base : Nat) :
    ∀ (count offset : Nat) (dst r : BTreeNode), Clean l dst →
      splitLeafLoop Node base count offset dst = Except.ok r → Clean l r := by
  intro count
  induction count with
  | zero =>
    intro offset dst r hc h
    injection h with h
    rw [← h]
    exact hc
  | succ n ih =>
    intro offset dst r hc h
    unfold splitLeafLoop at h
    split at h
    · cases h
    · split at h
      · cases h
      · simp only [] at h
        split at h
        · cases h
        · split at h
          · cases h
          · exact ih _ _ _ (Clean_SetVal (Clean_SetKey (Clean_incNumkeys hc) _ _) _ _) h

theorem splitInteriorLoop_clean {l : List Nat} (h0 : 0 ∉ l) {Node : BTreeNode}
    (hN : Clean l Node) (base : Nat) :
    ∀ (count offset : Nat) (dst r : BTreeNode), Clean l dst →
      splitInteriorLoop Node base count offset dst = Except.ok (Except.ok r) → Clean l r := by
  intro count
  induction count with
  | zero =>
    intro offset dst r hc h
    injection h with h
    injection h with h
    rw [← h]
    exact hc
  | succ n ih =>
    intro offset dst r hc h
    unfold splitInteriorLoop at h
    split at h
    · cases h
    · split at h
      · cases h
      · rename_i p hp
        simp only [] at h
        split at h
        · cases h
        · exact ih _ _ _
            (Clean_SetPtr (Clean_SetKey (Clean_incNumkeys hc) _ _) _ (GetPtr_clean hN h0 hp)) h

/-- What a split leaves behind: the freelist is a tail of the one before and neither of the
two blocks the split returns is free. -/
theorem split_Leaf_inv (G : SlotGeometry) {t : BTreeIndex} {l : List Nat}
    (hinv : FreeInv t l) (Node : BTreeNode) {sr : SplitResult}
    (h : split_Leaf G t Node = Except.ok sr) :
    ∃ l' : List Nat, l' <:+ l ∧ FreeInv sr.index l' ∧ sr.left ∉ l' ∧ sr.right ∉ l' := by
  unfold split_Leaf at h
  obtain ⟨rc1, n1, u1, l1, hA1, hs1, hu1, hn1, -⟩ := AllocateNode_inv hinv
  rw [hA1] at h
  simp only [bind, Except.bind] at h
  have hw1 := FreeInv_write hu1 hn1
    (Clean_new G NodeType.BTREE_LEAF_NODE u1.superblock.info.keysize
      u1.superblock.info.valuesize u1.superblock.info.blocksize (FreeInv_zero hu1))
  split at h
  · injection h with h
    rw [← h]
    exact ⟨l1, hs1, hw1, hn1, FreeInv_zero hu1⟩
  · rename_i Left_Leaf hL
    have hLc : Clean l1 Left_Leaf := Unserialize_clean hw1.2.2.2.2.2 hL
    obtain ⟨rc2, n2, u2, l2, hA2, hs2, hu2, hn2, -⟩ := AllocateNode_inv hw1
    split at h
    · cases h
    · rename_i a ha
      have hEq := hA2.symm.trans ha
      injection hEq with hEq
      subst hEq
      simp only [] at h
      have hn12 : n1 ∉ l2 := fun hm => hn1 (hs2.subset hm)
      have hw2 := FreeInv_write hu2 hn2
        (Clean_new G NodeType.BTREE_LEAF_NODE u2.superblock.info.keysize
          u2.superblock.info.valuesize u2.superblock.info.blocksize (FreeInv_zero hu2))
      split at h
      · injection h with h
        rw [← h]
        exact ⟨l2, hs2.trans hs1, hw2, hn12, hn2⟩
      · rename_i Right_Leaf hR
        have hRc : Clean l2 Right_Leaf := Unserialize_clean hw2.2.2.2.2.2 hR
        split at h
        · injection h with h
          rw [← h]
          exact ⟨l2, hs2.trans hs1, hw2, hn12, hn2⟩
        · rename_i Left_Leaf' hL'
          have hLc' : Clean l2 Left_Leaf' :=
            splitLeafLoop_clean _ _ _ _ _ _ (Clean_suffix hs2 hLc) hL'
          have hw3 := FreeInv_write hw2 hn12 hLc'
          split at h
          · injection h with h
            rw [← h]
            exact ⟨l2, hs2.trans hs1, hw3, hn12, hn2⟩
          · rename_i Right_Leaf' hR'
            have hRc' : Clean l2 Right_Leaf' := splitLeafLoop_clean _ _ _ _ _ _ hRc hR'
            injection h with h
            rw [← h]
            exact ⟨l2, hs2.trans hs1, FreeInv_write hw3 hn2 hRc', hn12, hn2⟩

theorem split_Internal_Full_inv (G : SlotGeometry) {t : BTreeIndex} {l : List Nat}
    (hinv : FreeInv t l) {Node : BTreeNode} (hNode : Clean l Node) {sr : SplitResult}
    (h : split_Internal_Full G t Node = Except.ok sr) :
    ∃ l' : List Nat, l' <:+ l ∧ FreeInv sr.index l' ∧ sr.left ∉ l' ∧ sr.right ∉ l' := by
  unfold split_Internal_Full at h
  obtain ⟨rc1, n1, u1, l1, hA1, hs1, hu1, hn1, -⟩ := AllocateNode_inv hinv
  rw [hA1] at h
  simp only [bind, Except.bind] at h
  have hw1 := FreeInv_write hu1 hn1
    (Clean_new G NodeType.BTREE_INTERIOR_NODE u1.superblock.info.keysize
      u1.superblock.info.valuesize u1.superblock.info.blocksize (FreeInv_zero hu1))
  split at h
  · injection h with h
    rw [← h]
    exact ⟨l1, hs1, hw1, hn1, FreeInv_zero hu1⟩
  · rename_i Left_Internal hL
    have hLc : Clean l1 Left_Internal := Unserialize_clean hw1.2.2.2.2.2 hL
    obtain ⟨rc2, n2, u2, l2, hA2, hs2, hu2, hn2, -⟩ := AllocateNode_inv hw1
    split at h
    · cases h
    · rename_i a ha
      have hEq := hA2.symm.trans ha
      injection hEq with hEq
      subst hEq
      simp only [] at h
      have hs12 := hs2.trans hs1
      have h02 := FreeInv_zero hu2
      have hNode2 : Clean l2 Node := Clean_suffix hs12 hNode
      have hn12 : n1 ∉ l2 := fun hm => hn1 (hs2.subset hm)
      have hw2 := FreeInv_write hu2 hn2
        (Clean_new G NodeType.BTREE_INTERIOR_NODE u2.superblock.info.keysize
          u2.superblock.info.valuesize u2.superblock.info.blocksize h02)
      split at h
      · injection h with h
        rw [← h]
        exact ⟨l2, hs12, hw2, hn12, hn2⟩
      · rename_i Right_Internal hR
        have hRc : Clean l2 Right_Internal := Unserialize_clean hw2.2.2.2.2.2 hR
        cases hL' : splitInteriorLoop Node 0 (G.GetNumSlotsAsInterior Node.info / 2) 0
            Left_Internal with
        | error e =>
          simp only [hL'] at h
          cases h
        | ok v =>
          cases v with
          | error rc =>
            simp only [hL'] at h
            injection h with h
            rw [← h]
            exact ⟨l2, hs12, hw2, hn12, hn2⟩
          | ok Left_Internal' =>
            simp only [hL'] at h
            have hLc' : Clean l2 Left_Internal' :=
              splitInteriorLoop_clean h02 hNode2 _ _ _ _ _ (Clean_suffix hs2 hLc) hL'
            cases hp : Node.GetPtr (G.GetNumSlotsAsInterior Node.info / 2) with
            | error e =>
              simp only [hp, orUndefined] at h
              cases h
            | ok p =>
              simp only [hp, orUndefined] at h
              have hw3 := FreeInv_write hw2 hn12
                (Clean_SetPtr hLc' (G.GetNumSlotsAsInterior Node.info / 2)
                  (GetPtr_clean hNode2 h02 hp))
              cases hR' : splitInteriorLoop Node (G.GetNumSlotsAsInterior Node.info / 2 + 1)
                  (G.GetNumSlotsAsInterior Node.info -
                    (G.GetNumSlotsAsInterior Node.info / 2 + 1))
                  (G.GetNumSlotsAsInterior Node.info / 2 + 1) Right_Internal with
              | error e =>
                simp only [hR'] at h
                cases h
              | ok v =>
                cases v with
                | error rc =>
                  simp only [hR'] at h
                  injection h with h
                  rw [← h]
                  exact ⟨l2, hs12, hw3, hn12, hn2⟩
                | ok Right_Internal' =>
                  simp only [hR'] at h
                  have hRc' : Clean l2 Right_Internal' :=
                    splitInteriorLoop_clean h02 hNode2 _ _ _ _ _ hRc hR'
                  cases hq : Node.GetPtr (G.GetNumSlotsAsInterior Node.info) with
                  | error e =>
                    simp only [hq, orUndefined] at h
                    cases h
                  | ok q =>
                    simp only [hq, orUndefined] at h
                    injection h with h
                    rw [← h]
                    refine ⟨l2, hs12, FreeInv_write hw3 hn2 ?_, hn12, hn2⟩
                    split
                    · exact hRc'
                    · exact Clean_SetPtr hRc' _ (GetPtr_clean hNode2 h02 hq)

theorem assigned_ok {α : Type} {o : Option α} {a : α} (h : assigned o = Except.ok a) :
    o = some a := by
  cases o with
  | none => cases h
  | some b =>
    injection h with h
    rw [h]

theorem Clean_newRoot (G : SlotGeometry) (ks vs bs : Nat) {l : List Nat} (h0 : 0 ∉ l)
    (k : Nat) {left right : Nat} (hl : left ∉ l) (hr : right ∉ l) :
    Clean l (((((BTreeNode.new G NodeType.BTREE_INTERIOR_NODE ks vs bs).incNumkeys.SetKey 0
      k).2.SetPtr 0 left).2.SetPtr 1 right).2) :=
  Clean_SetPtr (Clean_SetPtr (Clean_SetKey (Clean_incNumkeys (Clean_new G _ ks vs bs h0)) _ _)
    _ hl) _ hr

/-- The upward propagation of a split keeps the invariant; the freelist it leaves is a tail
of the one it found. -/
theorem split_InternalAux_inv (G : SlotGeometry) :
    ∀ (n : Nat) (t : BTreeIndex) (l : List Nat) (pointer : List Nat) (left right key : Nat)
      (flag : Int) (r : Option ERROR_T × Int × BTreeIndex),
      FreeInv t l → (∀ p ∈ pointer, p ∉ l) → left ∉ l → right ∉ l →
      split_InternalAux G n t pointer left right key flag = Except.ok r →
      ∃ l' : List Nat, l' <:+ l ∧ FreeInv r.2.2 l' := by
  intro n
  induction n with
  | zero =>
    intro t l pointer left right key flag r hinv hptr hl hr h
    unfold split_InternalAux at h
    split at h
    · split at h <;> cases h
    · injection h with h
      rw [← h]
      exact ⟨l, List.suffix_refl l, hinv⟩
  | succ n ih =>
    intro t l pointer left right key flag r hinv hptr hl hr h
    unfold split_InternalAux at h
    split at h
    · simp only [bind, Except.bind] at h
      cases hAd : assigned pointer.getLast? with
      | error e =>
        simp only [hAd] at h
        cases h
      | ok Address =>
        simp only [hAd] at h
        have hA : Address ∉ l := hptr _ (List.mem_of_getLast?_eq_some (assigned_ok hAd))
        have hptr' : ∀ p ∈ pointer.dropLast, p ∉ l :=
          fun p hp => hptr p (List.dropLast_subset pointer hp)
        cases hU : BTreeNode.Unserialize t.buffercache Address with
        | error e =>
          simp only [hU, orUndefined] at h
          cases h
        | ok Temp_Node =>
          simp only [hU, orUndefined] at h
          have hTc : Clean l Temp_Node := Unserialize_clean hinv.2.2.2.2.2 hU
          cases hI : insert_Not_Full_Internal t Address Temp_Node left right key with
          | error e =>
            simp only [hI] at h
            split at h
            · split at h <;> cases h
            · cases h
          | ok i =>
            simp only [hI] at h
            obtain ⟨hi1, hi2⟩ := insert_Not_Full_Internal_inv hinv hA hl hr hTc key hI
            split at h
            · cases hS : split_Internal_Full G i.2.2 i.2.1 with
              | error e =>
                simp only [hS] at h
                split at h <;> cases h
              | ok sr =>
                simp only [hS] at h
                obtain ⟨l1, hs1, hsr, hsl, hsrr⟩ := split_Internal_Full_inv G hi1 hi2 hS
                cases hK : assigned sr.Key with
                | error e =>
                  simp only [hK] at h
                  split at h <;> cases h
                | ok Temp_Key =>
                  simp only [hK] at h
                  split at h
                  · cases hrec : split_InternalAux G n sr.index pointer.dropLast sr.left
                        sr.right Temp_Key flag with
                    | error e =>
                      simp only [hrec] at h
                      cases h
                    | ok r' =>
                      simp only [hrec] at h
                      injection h with h
                      rw [← h]
                      obtain ⟨l2, hs2, hr2⟩ := ih sr.index l1 pointer.dropLast sr.left
                        sr.right Temp_Key flag r' hsr
                        (fun p hp hm => hptr' p hp (hs1.subset hm)) hsl hsrr hrec
                      exact ⟨l2, hs2.trans hs1, hr2⟩
                  · injection h with h
                    rw [← h]
                    exact ⟨l1, hs1, FreeInv_write hsr hsr.2.2.2.1
                      (Clean_newRoot G _ _ _ (FreeInv_zero hsr) Temp_Key hsl hsrr)⟩
            · injection h with h
              rw [← h]
              exact ⟨l, List.suffix_refl l, hi1⟩
    · injection h with h
      rw [← h]
      exact ⟨l, List.suffix_refl l, hinv⟩

/-- The traversal in lookup mode leaves the index alone, and every block it records on its
path is the root or was read from a pointer slot, so none of them is free. -/
theorem lookup_path_clean (t : BTreeIndex) {l : List Nat}
    (hblocks : ∀ b ∈ t.buffercache.blocks, Clean l b) (h0 : 0 ∉ l)
    (hroot : t.superblock.info.rootnode ∉ l) (key : Nat) :
    ∀ (fuel node value : Nat) (pointer : List Nat)
      (r : ERROR_T × Nat × List Nat × BTreeIndex), (∀ p ∈ pointer, p ∉ l) →
      LookupOrUpdateInternal t BTreeOp.BTREE_OP_LOOKUP key fuel node value pointer =
        Except.ok r →
      (∀ p ∈ r.2.2.1, p ∉ l) ∧ r.2.2.2 = t := by
  intro fuel
  induction fuel with
  | zero =>
    intro node value pointer r _ h
    cases h
  | succ n ih =>
    intro node value pointer r hptr h
    have hptr' : ∀ p ∈ (if node = t.superblock.info.rootnode then
        pointer ++ [t.superblock.info.rootnode] else pointer), p ∉ l := by
      intro p hp
      split at hp
      · rcases List.mem_append.1 hp with hp | hp
        · exact hptr p hp
        · rw [List.mem_singleton.1 hp]
          exact hroot
      · exact hptr p hp
    unfold LookupOrUpdateInternal at h
    simp only [] at h
    cases hrd : BTreeNode.Unserialize t.buffercache node with
    | error rc =>
      simp only [hrd] at h
      injection h with h
      rw [← h]
      exact ⟨hptr', rfl⟩
    | ok b =>
      simp only [hrd] at h
      have hb : Clean l b := Unserialize_clean hblocks hrd
      have step : ∀ ptr : Nat, ptr ∉ l →
          LookupOrUpdateInternal t BTreeOp.BTREE_OP_LOOKUP key n ptr value
            ((if node = t.superblock.info.rootnode then
              pointer ++ [t.superblock.info.rootnode] else pointer) ++ [ptr]) =
            Except.ok r → (∀ p ∈ r.2.2.1, p ∉ l) ∧ r.2.2.2 = t := by
        intro ptr hp hrec
        refine ih ptr value _ r ?_ hrec
        intro p hp'
        rcases List.mem_append.1 hp' with hp' | hp'
        · exact hptr' p hp'
        · rw [List.mem_singleton.1 hp']
          exact hp
      have interior :
          (match interiorScan b key b.info.numkeys 0 with
            | Except.error rc =>
              Except.ok (rc, value,
                (if node = t.superblock.info.rootnode then
                  pointer ++ [t.superblock.info.rootnode] else pointer), t)
            | Except.ok (some offset) =>
              match b.GetPtr offset with
              | Except.error _ => Except.error Fault.undefined
              | Except.ok ptr =>
                LookupOrUpdateInternal t BTreeOp.BTREE_OP_LOOKUP key n ptr value
                  ((if node = t.superblock.info.rootnode then
                    pointer ++ [t.superblock.info.rootnode] else pointer) ++ [ptr])
            | Except.ok none =>
              if b.info.numkeys > 0 then
                match b.GetPtr b.info.numkeys with
                | Except.error _ => Except.error Fault.undefined
                | Except.ok ptr =>
                  LookupOrUpdateInternal t BTreeOp.BTREE_OP_LOOKUP key n ptr value
                    ((if node = t.superblock.info.rootnode then
                      pointer ++ [t.superblock.info.rootnode] else pointer) ++ [ptr])
              else
                Except.ok (ERROR_T.ERROR_NONEXISTENT, value,
                  (if node = t.superblock.info.rootnode then
                    pointer ++ [t.superblock.info.rootnode] else pointer), t)) =
            Except.ok r → (∀ p ∈ r.2.2.1, p ∉ l) ∧ r.2.2.2 = t := by
        intro h
        cases hs : interiorScan b key b.info.numkeys 0 with
        | error rc =>
          simp only [hs] at h
          injection h with h
          rw [← h]
          exact ⟨hptr', rfl⟩
        | ok o =>
          cases o with
          | none =>
            simp only [hs] at h
            split at h
            · cases hp : b.GetPtr b.info.numkeys with
              | error rc =>
                simp only [hp] at h
                cases h
              | ok ptr =>
                simp only [hp] at h
                exact step ptr (GetPtr_clean hb h0 hp) h
            · injection h with h
              rw [← h]
              exact ⟨hptr', rfl⟩
          | some offset =>
            simp only [hs] at h
            cases hp : b.GetPtr offset with
            | error rc =>
              simp only [hp] at h
              cases h
            | ok ptr =>
              simp only [hp] at h
              exact step ptr (GetPtr_clean hb h0 hp) h
      cases hty : b.info.nodetype with
      | BTREE_UNALLOCATED_BLOCK =>
        simp only [hty] at h
        injection h with h
        rw [← h]
        exact ⟨hptr', rfl⟩
      | BTREE_SUPERBLOCK =>
        simp only [hty] at h
        injection h with h
        rw [← h]
        exact ⟨hptr', rfl⟩
      | BTREE_ROOT_NODE =>
        simp only [hty] at h
        exact interior h
      | BTREE_INTERIOR_NODE =>
        simp only [hty] at h
        exact interior h
      | BTREE_LEAF_NODE =>
        simp only [hty] at h
        cases hs : leafScan b key b.info.numkeys 0 with
        | error rc =>
          simp only [hs] at h
          injection h with h
          rw [← h]
          exact ⟨hptr', rfl⟩
        | ok o =>
          cases o with
          | none =>
            simp only [hs] at h
            injection h with h
            rw [← h]
            exact ⟨hptr', rfl⟩
          | some offset =>
            simp only [hs, if_true] at h
            cases hv : b.GetVal offset with
            | error rc =>
              simp only [hv] at h
              injection h with h
              rw [← h]
              exact ⟨hptr', rfl⟩
            | ok v =>
              simp only [hv] at h
              injection h with h
              rw [← h]
              exact ⟨hptr', rfl⟩

theorem insertTail_inv (G : SlotGeometry) {t : BTreeIndex} {l : List Nat}
    (hinv : FreeInv t l) {pointer : List Nat} (hptr : ∀ p ∈ pointer, p ∉ l)
    (key value : Nat) {r : Option ERROR_T × BTreeIndex}
    (h : insertTail G t pointer key value = Except.ok r) :
    ∃ l' : List Nat, l' <:+ l ∧ FreeInv r.2 l' := by
  unfold insertTail at h
  simp only [bind, Except.bind] at h
  cases hAd : assigned pointer.getLast? with
  | error e =>
    simp only [hAd] at h
    cases h
  | ok Address =>
    simp only [hAd] at h
    have hA : Address ∉ l := hptr _ (List.mem_of_getLast?_eq_some (assigned_ok hAd))
    have hptr' : ∀ p ∈ pointer.dropLast, p ∉ l :=
      fun p hp => hptr p (List.dropLast_subset pointer hp)
    cases hU : BTreeNode.Unserialize t.buffercache Address with
    | error e =>
      simp only [hU, orUndefined] at h
      cases h
    | ok Temp_Node =>
      simp only [hU, orUndefined] at h
      have hTc : Clean l Temp_Node := Unserialize_clean hinv.2.2.2.2.2 hU
      cases hI : insert_Not_Full t Address Temp_Node key value with
      | error e =>
        simp only [hI] at h
        split at h <;> cases h
      | ok i =>
        simp only [hI] at h
        obtain ⟨hi1, hi2⟩ := insert_Not_Full_inv hinv hA hTc key value hI
        split at h
        · cases hS : split_Leaf G i.2.2 i.2.1 with
          | error e =>
            simp only [hS] at h
            split at h <;> cases h
          | ok sr =>
            simp only [hS] at h
            obtain ⟨l1, hs1, hsr, hsl, hsrr⟩ := split_Leaf_inv G hi1 i.2.1 hS
            cases hK : assigned sr.Key with
            | error e =>
              simp only [hK] at h
              split at h <;> cases h
            | ok Temp_Key =>
              simp only [hK] at h
              split at h
              · injection h with h
                rw [← h]
                exact ⟨l1, hs1, FreeInv_write hsr hsr.2.2.2.1
                  (Clean_newRoot G _ _ _ (FreeInv_zero hsr) Temp_Key hsl hsrr)⟩
              · cases hrec : split_Internal G sr.index pointer.dropLast sr.left sr.right
                    Temp_Key 0 with
                | error e =>
                  simp only [hrec] at h
                  cases h
                | ok r' =>
                  simp only [hrec] at h
                  injection h with h
                  rw [← h]
                  obtain ⟨l2, hs2, hr2⟩ := split_InternalAux_inv G _ sr.index l1
                    pointer.dropLast sr.left sr.right Temp_Key 0 r' hsr
                    (fun p hp hm => hptr' p hp (hs1.subset hm)) hsl hsrr hrec
                  exact ⟨l2, hs2.trans hs1, hr2⟩
        · injection h with h
          rw [← h]
          exact ⟨l, List.suffix_refl l, hi1⟩

/-- `Insert` keeps the invariant, whatever it returns; the freelist it leaves is a tail of
the one it found. -/
theorem Insert_inv (G : SlotGeometry) (fuel : Nat) {t : BTreeIndex} {l : List Nat}
    (hinv : FreeInv t l) (key value : Nat) {r : Option ERROR_T × BTreeIndex}
    (h : Insert G fuel t key value = Except.ok r) :
    ∃ l' : List Nat, l' <:+ l ∧ FreeInv r.2 l' := by
  unfold Insert at h
  cases hL : LookupOrUpdateInternal t BTreeOp.BTREE_OP_LOOKUP key fuel
      t.superblock.info.rootnode 0 [] with
  | error f =>
    simp only [hL] at h
    cases h
  | ok q =>
    simp only [hL] at h
    obtain ⟨hq1, hq2⟩ := lookup_path_clean t hinv.2.2.2.2.2 (FreeInv_zero hinv) hinv.2.2.2.1
      key fuel _ 0 [] q (fun p hp => by cases hp) hL
    rw [hq2] at h
    have same : r = (r.1, t) → ∃ l' : List Nat, l' <:+ l ∧ FreeInv r.2 l' := by
      intro hr
      rw [hr]
      exact ⟨l, List.suffix_refl l, hinv⟩
    cases hrc : q.1 with
    | ERROR_NONEXISTENT =>
      simp only [hrc] at h
      cases hU : BTreeNode.Unserialize t.buffercache t.superblock.info.rootnode with
      | error e =>
        simp only [hU] at h
        cases h
      | ok rootNode =>
        simp only [hU] at h
        have hRc : Clean l rootNode := Unserialize_clean hinv.2.2.2.2.2 hU
        have hw1 := FreeInv_write hinv hinv.2.2.2.1 hRc
        split at h
        · have hleaf : Clean l ((((BTreeNode.new G NodeType.BTREE_LEAF_NODE
              t.superblock.info.keysize t.superblock.info.valuesize
              t.superblock.info.blocksize).incNumkeys.SetKey 0 key).2.SetVal 0 value).2) :=
            Clean_SetVal (Clean_SetKey (Clean_incNumkeys
              (Clean_new G _ _ _ _ (FreeInv_zero hinv))) _ _) _ _
          have hw2 := FreeInv_write hw1 hinv.2.2.2.1 hleaf
          split at h
          · injection h with h
            rw [← h]
            exact ⟨l, List.suffix_refl l, hw2⟩
          · exact insertTail_inv G hw2 hq1 key value h
        · exact insertTail_inv G hw1 hq1 key value h
    | ERROR_NOERROR =>
      simp only [hrc] at h
      injection h with h
      exact same (by rw [← h])
    | _ =>
      simp only [hrc] at h
      injection h with h
      exact same (by rw [← h])

theorem insertAll_inv (G : SlotGeometry) (fuel : Nat) :
    ∀ (kvs : List (Nat × Nat)) (t u : BTreeIndex) (l : List Nat), FreeInv t l →
      insertAll G fuel (Except.ok t) kvs = Except.ok u →
      ∃ l' : List Nat, l' <:+ l ∧ FreeInv u l' := by
  intro kvs
  induction kvs with
  | nil =>
    intro t u l hinv h
    injection h with h
    rw [← h]
    exact ⟨l, List.suffix_refl l, hinv⟩
  | cons kv rest ih =>
    intro t u l hinv h
    unfold insertAll at h
    cases hI : Insert G fuel t kv.1 kv.2 with
    | error f =>
      simp only [hI] at h
      cases h
    | ok r =>
      simp only [hI] at h
      obtain ⟨l1, hs1, hr1⟩ := Insert_inv G fuel hinv kv.1 kv.2 hI
      obtain ⟨l2, hs2, hr2⟩ := ih r.2 u l1 hr1 h
      exact ⟨l2, hs2.trans hs1, hr2⟩

/-- Under the invariant nothing that is reached from a block that is not free is free. -/
theorem reachableFrom_not_free {blocks : List BTreeNode} {l : List Nat}
    (hblocks : ∀ b ∈ blocks, Clean l b) (h0 : 0 ∉ l) :
    ∀ (h n m : Nat), n ∉ l → reachableFrom blocks h n m = true → m ∉ l := by
  intro h
  induction h with
  | zero =>
    intro n m hn hr
    unfold reachableFrom at hr
    rw [← of_decide_eq_true hr]
    exact hn
  | succ h ih =>
    intro n m hn hr
    unfold reachableFrom at hr
    rcases Bool.or_eq_true_iff.1 hr with hr | hr
    · rw [← of_decide_eq_true hr]
      exact hn
    · cases hb : blocks[n]? with
      | none =>
        rw [hb] at hr
        cases hr
      | some b =>
        rw [hb] at hr
        simp only [Bool.and_eq_true, List.any_eq_true] at hr
        obtain ⟨-, i, -, hi⟩ := hr
        exact ih _ m (getD_clean (hblocks b (List.getElem?_mem hb)) h0 i) hi

theorem reachable_not_free {t : BTreeIndex} {l : List Nat} (hinv : FreeInv t l)
    (h m : Nat) (hr : reachable t h m = true) : m ∉ l :=
  reachableFrom_not_free hinv.2.2.2.2.2 (FreeInv_zero hinv) h _ m hinv.2.2.2.1 hr

/-- After `Attach(0, create = true)` on a store of at least three blocks the invariant
holds with the blocks from 2 on as the freelist, and the root is the only block reached
from the root. -/
theorem Attach_FreeInv (G : SlotGeometry) (t : BTreeIndex)
    (hN : 3 ≤ t.buffercache.blocks.length) :
    ∃ u : BTreeIndex,
      Attach G t 0 true = Except.ok (ERROR_T.ERROR_NOERROR, u) ∧
      FreeInv u (List.range' 2 (t.buffercache.blocks.length - 2)) ∧
      ∀ h m : Nat, reachable u h m = true ↔ m = 1 := by
  obtain ⟨u, h1, h2, h3, h4, h5, h6, h7⟩ := Attach_create G t (by omega)
  obtain ⟨u', h1', -, -, -, -, hch⟩ := Attach_create_chain G t hN
  have huu : u' = u := by
    rw [h1] at h1'
    injection h1' with h1'
    injection h1' with _ h1'
    exact h1'.symm
  subst huu
  have h0 : 0 ∉ List.range' 2 (t.buffercache.blocks.length - 2) := by
    intro hm
    have := (List.mem_range'_1.1 hm).1
    omega
  have hroot : u'.superblock.info.rootnode = 1 := by rw [h4]
  refine ⟨u', h1, ⟨h2, hch, List.nodup_range' _ _, ?_, ?_, ?_⟩, ?_⟩
  · rw [hroot]
    intro hm
    have := (List.mem_range'_1.1 hm).1
    omega
  · rw [h4]
    intro p hp
    cases hp
  · intro b hb
    obtain ⟨m, hm⟩ := List.mem_iff_getElem?.1 hb
    have hlt : m < u'.buffercache.blocks.length := by
      by_contra hc
      rw [List.getElem?_eq_none (by omega)] at hm
      cases hm
    by_cases hm0 : m = 0
    · subst hm0
      rw [h5, h4] at hm
      injection hm with hm
      rw [← hm]
      intro p hp
      cases hp
    · by_cases hm1 : m = 1
      · subst hm1
        rw [h6] at hm
        injection hm with hm
        rw [← hm]
        intro p hp
        rw [List.eq_of_mem_replicate hp]
        exact h0
      · obtain ⟨c, hc1, -, -, hc4⟩ := h7 m (by omega) (by rw [← h3]; exact hlt)
        rw [hc1] at hm
        injection hm with hm
        rw [← hm]
        intro p hp
        rw [hc4] at hp
        cases hp
  · intro h m
    unfold reachable
    rw [hroot]
    cases h with
    | zero =>
      unfold reachableFrom
      constructor
      · intro hr
        exact (of_decide_eq_true hr).symm
      · intro hm
        exact decide_eq_true hm.symm
    | succ h =>
      unfold reachableFrom
      rw [h6]
      simp only [Nat.lt_irrefl, decide_False, Bool.and_false, Bool.false_and, Bool.or_false,
        decide_eq_true_eq]
      exact eq_comm

/-- A closed set that contains a block contains all that is reached from it. -/
theorem reachableFrom_closed {blocks : List BTreeNode} {S : List Nat}
    (hS : closedSet blocks S = true) :
    ∀ (h n m : Nat), n ∈ S → reachableFrom blocks h n m = true → m ∈ S := by
  intro h
  induction h with
  | zero =>
    intro n m hn hr
    unfold reachableFrom at hr
    rw [← of_decide_eq_true hr]
    exact hn
  | succ h ih =>
    intro n m hn hr
    unfold reachableFrom at hr
    rcases Bool.or_eq_true_iff.1 hr with hr | hr
    · rw [← of_decide_eq_true hr]
      exact hn
    · cases hb : blocks[n]? with
      | none =>
        rw [hb] at hr
        cases hr
      | some b =>
        rw [hb] at hr
        simp only [Bool.and_eq_true, List.any_eq_true] at hr
        obtain ⟨hint, i, hi, hrec⟩ := hr
        have hn' := List.all_eq_true.1 hS n hn
        rw [hb] at hn'
        simp only [hint.1, hint.2, Bool.and_self, Bool.not_true, Bool.false_or,
          List.all_eq_true, decide_eq_true_eq] at hn'
        exact ih _ m (hn' i hi) hrec

/-! ## One step of the traversal -/

theorem LookupOrUpdateInternal_succ_interior {t : BTreeIndex} {op : BTreeOp}
    {key fuel n value : Nat} {pointer : List Nat} {b : BTreeNode}
    (hb : t.buffercache.blocks[n]? = some b) (hty : b.info.nodetype.isInterior = true) :
    LookupOrUpdateInternal t op key (fuel + 1) n value pointer =
      match interiorScan b key b.info.numkeys 0 with
      | Except.error rc =>
        Except.ok (rc, value,
          (if n = t.superblock.info.rootnode then pointer ++ [t.superblock.info.rootnode]
            else pointer), t)
      | Except.ok (some offset) =>
        match b.GetPtr offset with
        | Except.error _ => Except.error Fault.undefined
        | Except.ok ptr =>
          LookupOrUpdateInternal t op key fuel ptr value
            ((if n = t.superblock.info.rootnode then pointer ++ [t.superblock.info.rootnode]
              else pointer) ++ [ptr])
      | Except.ok none =>
        if b.info.numkeys > 0 then
          match b.GetPtr b.info.numkeys with
          | Except.error _ => Except.error Fault.undefined
          | Except.ok ptr =>
            LookupOrUpdateInternal t op key fuel ptr value
              ((if n = t.superblock.info.rootnode then pointer ++ [t.superblock.info.rootnode]
                else pointer) ++ [ptr])
        else
          Except.ok (ERROR_T.ERROR_NONEXISTENT, value,
            (if n = t.superblock.info.rootnode then pointer ++ [t.superblock.info.rootnode]
              else pointer), t) := by
  cases hn : b.info.nodetype with
  | BTREE_UNALLOCATED_BLOCK => rw [hn] at hty; cases hty
  | BTREE_SUPERBLOCK => rw [hn] at hty; cases hty
  | BTREE_LEAF_NODE => rw [hn] at hty; cases hty
  | BTREE_ROOT_NODE =>
    simp only [LookupOrUpdateInternal, BTreeNode.Unserialize, hb, hn]
  | BTREE_INTERIOR_NODE =>
    simp only [LookupOrUpdateInternal, BTreeNode.Unserialize, hb, hn]

theorem GetPtr_of_le {b : BTreeNode} (hty : b.info.nodetype.isInterior = true) {i : Nat}
    (h : i ≤ b.info.numkeys) : b.GetPtr i = Except.ok (b.ptrs.getD i 0) := by
  simp [BTreeNode.GetPtr, BTreeNode.ptrOk, hty, h]

/-- The descent at an interior node with a key: the traversal goes on at pointer `i`, where
`i` is the least index whose key is greater than the search key, or `numkeys` when there is
none. -/
theorem descent_step (t : BTreeIndex) (op : BTreeOp) (key fuel n value : Nat)
    (pointer : List Nat) (b : BTreeNode) (hb : t.buffercache.blocks[n]? = some b)
    (hty : b.info.nodetype.isInterior = true) (hn : 0 < b.info.numkeys) :
    ∃ i : Nat, i ≤ b.info.numkeys ∧
      (∀ j < i, ¬ key < b.keys.getD j 0) ∧
      (i < b.info.numkeys → key < b.keys.getD i 0) ∧
      LookupOrUpdateInternal t op key (fuel + 1) n value pointer =
        LookupOrUpdateInternal t op key fuel (b.ptrs.getD i 0) value
          ((if n = t.superblock.info.rootnode then pointer ++ [t.superblock.info.rootnode]
            else pointer) ++ [b.ptrs.getD i 0]) := by
  have hok : ∀ i, 0 ≤ i → i < 0 + b.info.numkeys → b.keyOk i = true :=
    fun i _ hi => keyOk_of_lt (by rw [hty]; rfl) (by omega)
  rw [LookupOrUpdateInternal_succ_interior hb hty]
  rcases interiorScan_spec b key b.info.numkeys 0 hok with ⟨i, h1, -, h3, h4, h5⟩ | ⟨h1, h2⟩
  · refine ⟨i, by omega, fun j hj => h5 j (Nat.zero_le j) hj, fun _ => h4, ?_⟩
    rw [h1]
    simp only [GetPtr_of_le hty (show i ≤ b.info.numkeys by omega)]
  · refine ⟨b.info.numkeys, le_refl _, fun j hj => h2 j (Nat.zero_le j) (by omega),
      fun h => absurd h (lt_irrefl _), ?_⟩
    rw [h1]
    simp only [gt_iff_lt, hn, if_true, GetPtr_of_le hty (le_refl b.info.numkeys)]

/-! ## The copy loops of the leaf split -/

theorem getD_set_self {l : List Nat} {i : Nat} (h : i < l.length) (a d : Nat) :
    (l.set i a).getD i d = a := by
  rw [List.getD_eq_getElem?_getD, List.getElem?_set_self h]
  rfl

theorem getD_set_ne {l : List Nat} {i j : Nat} (h : i ≠ j) (a d : Nat) :
    (l.set i a).getD j d = l.getD j d := by
  rw [List.getD_eq_getElem?_getD, List.getD_eq_getElem?_getD, List.getElem?_set_ne h]

theorem GetKey_of_lt {b : BTreeNode}
    (hty : (b.info.nodetype.isInterior || b.info.nodetype.isLeaf) = true) {i : Nat}
    (h : i < b.info.numkeys) : b.GetKey i = Except.ok (b.keys.getD i 0) := by
  unfold BTreeNode.GetKey
  rw [if_pos (keyOk_of_lt hty h)]

theorem valOk_of_lt {b : BTreeNode} (hty : b.info.nodetype = NodeType.BTREE_LEAF_NODE)
    {i : Nat} (h : i < b.info.numkeys) : b.valOk i = true := by
  simp [BTreeNode.valOk, hty, NodeType.isLeaf, h]

theorem GetVal_of_lt {b : BTreeNode} (hty : b.info.nodetype = NodeType.BTREE_LEAF_NODE)
    {i : Nat} (h : i < b.info.numkeys) : b.GetVal i = Except.ok (b.vals.getD i 0) := by
  unfold BTreeNode.GetVal
  rw [if_pos (valOk_of_lt hty h)]

theorem leaf_keyOk {b : BTreeNode} (hty : b.info.nodetype = NodeType.BTREE_LEAF_NODE)
    {i : Nat} (h : i < b.info.numkeys) : b.keyOk i = true :=
  keyOk_of_lt (by rw [hty]; rfl) h

/-- A copy loop of `split_Leaf` that starts with `offset - base` entries in the new leaf and
has room for `count` more appends the entries `offset, ..., offset + count - 1` of `Node`. -/
theorem splitLeafLoop_spec (Node : BTreeNode)
    (hNty : Node.info.nodetype = NodeType.BTREE_LEAF_NODE) (base : Nat) :
    ∀ (count offset : Nat) (dst : BTreeNode),
      offset + count ≤ Node.info.numkeys →
      dst.info.nodetype = NodeType.BTREE_LEAF_NODE → base ≤ offset →
      dst.info.numkeys = offset - base →
      offset - base + count ≤ dst.keys.length → offset - base + count ≤ dst.vals.length →
      ∃ r : BTreeNode, splitLeafLoop Node base count offset dst = Except.ok r ∧
        r.info = { dst.info with numkeys := dst.info.numkeys + count } ∧
        r.ptrs = dst.ptrs ∧ r.keys.length = dst.keys.length ∧
        r.vals.length = dst.vals.length ∧
        (∀ j, j < offset - base →
          r.keys.getD j 0 = dst.keys.getD j 0 ∧ r.vals.getD j 0 = dst.vals.getD j 0) ∧
        (∀ j, offset - base ≤ j → j < offset - base + count →
          r.keys.getD j 0 = Node.keys.getD (base + j) 0 ∧
          r.vals.getD j 0 = Node.vals.getD (base + j) 0) := by
  intro count
  induction count with
  | zero =>
    intro offset dst _ _ _ _ _ _
    exact ⟨dst, rfl, rfl, rfl, rfl, rfl, fun j _ => ⟨rfl, rfl⟩, fun j h1 h2 => by omega⟩
  | succ n ih =>
    intro offset dst hN hty hbase hnum hk hv
    have hko : (dst.incNumkeys).keyOk (offset - base) = true :=
      @leaf_keyOk dst.incNumkeys hty _ (by show offset - base < dst.info.numkeys + 1; omega)
    have hvo : ({ dst.incNumkeys with
        keys := dst.incNumkeys.keys.set (offset - base) (Node.keys.getD offset 0) } :
        BTreeNode).valOk (offset - base) = true :=
      @valOk_of_lt { dst.incNumkeys with
        keys := dst.incNumkeys.keys.set (offset - base) (Node.keys.getD offset 0) } hty _
        (by show offset - base < dst.info.numkeys + 1; omega)
    obtain ⟨r, hr1, hr2, hr3, hr4, hr5, hr6, hr7⟩ := ih (offset + 1)
      { dst.incNumkeys with
        keys := dst.keys.set (offset - base) (Node.keys.getD offset 0)
        vals := dst.vals.set (offset - base) (Node.vals.getD offset 0) }
      (by omega) hty (by omega) (by show dst.info.numkeys + 1 = offset + 1 - base; omega)
      (by simp only [List.length_set]; omega) (by simp only [List.length_set]; omega)
    refine ⟨r, ?_, ?_, hr3, ?_, ?_, ?_, ?_⟩
    · unfold splitLeafLoop
      rw [GetKey_of_lt (by rw [hNty]; rfl) (show offset < Node.info.numkeys by omega),
        GetVal_of_lt hNty (show offset < Node.info.numkeys by omega)]
      simp only [BTreeNode.SetKey, hko, if_true, ne_eq, not_true_eq_false, if_false,
        BTreeNode.SetVal, hvo]
      exact hr1
    · rw [hr2]
      show ({ dst.info with numkeys := dst.info.numkeys + 1 + n } : NodeMetadata) = _
      rw [Nat.add_assoc, Nat.add_comm 1 n]
    · rw [hr4, List.length_set]
    · rw [hr5, List.length_set]
    · intro j hj
      obtain ⟨h1, h2⟩ := hr6 j (by omega)
      rw [h1, h2]
      exact ⟨getD_set_ne (by omega) _ _, getD_set_ne (by omega) _ _⟩
    · intro j hj1 hj2
      by_cases hj : j = offset - base
      · obtain ⟨h1, h2⟩ := hr6 j (by omega)
        rw [h1, h2, hj]
        have e : base + (offset - base) = offset := by omega
        rw [e]
        exact ⟨getD_set_self (by omega) _ _, getD_set_self (by omega) _ _⟩
      · exact hr7 j (by omega) (by omega)

/-! ## A chain has no duplicates -/

theorem isChain_unique {blocks : List BTreeNode} :
    ∀ (l1 l2 : List Nat) (head : Nat), isChain blocks head l1 = true →
      isChain blocks head l2 = true → l1 = l2 := by
  intro l1
  induction l1 with
  | nil =>
    intro l2 head h1 h2
    cases l2 with
    | nil => rfl
    | cons y l2 =>
      obtain ⟨hy, hy0, -⟩ := isChain_cons h2
      have := isChain_nil.1 h1
      omega
  | cons x l1 ih =>
    intro l2 head h1 h2
    obtain ⟨hx, hx0, b, hb, -, hl⟩ := isChain_cons h1
    cases l2 with
    | nil =>
      have := isChain_nil.1 h2
      omega
    | cons y l2 =>
      obtain ⟨hy, -, c, hc, -, hl2⟩ := isChain_cons h2
      have hxy : x = y := hx.symm.trans hy
      subst hxy
      rw [hb] at hc
      injection hc with hc
      subst hc
      rw [ih l2 _ hl hl2]

theorem isChain_from_mem {blocks : List BTreeNode} :
    ∀ (l : List Nat) (head x : Nat), isChain blocks head l = true → x ∈ l →
      ∃ s : List Nat, isChain blocks x (x :: s) = true ∧ s.length < l.length := by
  intro l
  induction l with
  | nil =>
    intro head x _ hx
    cases hx
  | cons y l ih =>
    intro head x h hx
    obtain ⟨hy, hy0, b, hb, hty, hl⟩ := isChain_cons h
    by_cases hxy : x = y
    · subst hxy
      exact ⟨l, isChain_of_cons hy0 hb hty hl, Nat.lt_succ_self _⟩
    · have hx' : x ∈ l := by
        rcases List.mem_cons.1 hx with h1 | h1
        · exact absurd h1 hxy
        · exact h1
      obtain ⟨s, hs1, hs2⟩ := ih _ x hl hx'
      exact ⟨s, hs1, Nat.lt_succ_of_lt hs2⟩

theorem isChain_head_not_mem {blocks : List BTreeNode} {head x : Nat} {l : List Nat}
    (h : isChain blocks head (x :: l) = true) : x ∉ l := by
  intro hx
  obtain ⟨hhead, hx0, b, hb, hty, hl⟩ := isChain_cons h
  obtain ⟨s, hs1, hs2⟩ := isChain_from_mem l _ x hl hx
  have h1 : isChain blocks x (x :: l) = true := isChain_of_cons hx0 hb hty hl
  have := isChain_unique _ _ _ h1 hs1
  injection this with _ h2
  rw [h2] at hs2
  exact absurd hs2 (lt_irrefl _)

theorem isChain_nodup {blocks : List BTreeNode} :
    ∀ (l : List Nat) (head : Nat), isChain blocks head l = true → l.Nodup := by
  intro l
  induction l with
  | nil => intro _ _; exact List.nodup_nil
  | cons x l ih =>
    intro head h
    obtain ⟨-, -, b, -, -, hl⟩ := isChain_cons h
    exact List.nodup_cons.2 ⟨isChain_head_not_mem h, ih _ hl⟩

/-! ## The allocator, step by step -/

theorem Unserialize_Serialize (node : BTreeNode) (bc : BufferCache) (n : Nat)
    (h : n < bc.blocks.length) :
    BTreeNode.Unserialize (node.Serialize bc n).2 n = Except.ok node.stored := by
  unfold BTreeNode.Unserialize
  rw [Serialize_blocks, List.getElem?_set_self h]

theorem Serialize_getElem?_ne (node : BTreeNode) (bc : BufferCache) {n m : Nat}
    (h : n ≠ m) : (node.Serialize bc n).2.blocks[m]? = bc.blocks[m]? := by
  rw [Serialize_blocks, List.getElem?_set_ne h]

theorem Serialize_getElem?_self (node : BTreeNode) (bc : BufferCache) {n : Nat}
    (h : n < bc.blocks.length) : (node.Serialize bc n).2.blocks[n]? = some node.stored := by
  rw [Serialize_blocks, List.getElem?_set_self h]

/-- `AllocateNode` on a chain that starts with `x`, in an index whose superblock is
block 0: what is left of the index. -/
theorem AllocateNode_step {t : BTreeIndex} {x : Nat} {l : List Nat}
    (hidx : t.superblock_index = 0)
    (h : isChain t.buffercache.blocks t.superblock.info.freelist (x :: l) = true) :
    ∃ u : BTreeIndex, AllocateNode t = Except.ok (ERROR_T.ERROR_NOERROR, x, u) ∧
      u.superblock_index = 0 ∧
      isChain u.buffercache.blocks u.superblock.info.freelist l = true ∧
      u.buffercache.blocks.length = t.buffercache.blocks.length ∧
      (∀ m : Nat, m ≠ 0 → u.buffercache.blocks[m]? = t.buffercache.blocks[m]?) ∧
      u.superblock.info.keysize = t.superblock.info.keysize ∧
      u.superblock.info.valuesize = t.superblock.info.valuesize ∧
      u.superblock.info.blocksize = t.superblock.info.blocksize ∧
      u.superblock.info.rootnode = t.superblock.info.rootnode ∧
      u.buffercache.log = t.buffercache.log ++
        [CacheEvent.write 0, CacheEvent.notifyAllocate x] := by
  obtain ⟨h1, h2, b, hb, hty, hl⟩ := isChain_cons h
  have h0 : 0 ∉ l := isChain_zero_not_mem hl
  have hlen : 0 < t.buffercache.blocks.length :=
    Nat.lt_of_le_of_lt (Nat.zero_le x) (isChain_lt_length h x (List.mem_cons_self x l))
  refine ⟨{ t with
            buffercache :=
              ((({ t.superblock with
                   info := { t.superblock.info with freelist := b.info.freelist } } :
                  BTreeNode).Serialize t.buffercache t.superblock_index).2).NotifyAllocateBlock x
            superblock :=
              { t.superblock with info := { t.superblock.info with freelist := b.info.freelist } } },
    ?_, hidx, ?_, ?_, ?_, rfl, rfl, rfl, rfl, ?_⟩
  · simp only [AllocateNode, h1, h2, if_false, BTreeNode.Unserialize, hb, hty, ne_eq,
      not_true_eq_false]
  · simp only [BufferCache.NotifyAllocateBlock, Serialize_blocks, hidx]
    exact isChain_set hl h0
  · simp only [BufferCache.NotifyAllocateBlock, Serialize_length]
  · intro m hm
    simp only [BufferCache.NotifyAllocateBlock, hidx]
    exact Serialize_getElem?_ne _ _ (Ne.symm hm)
  · simp only [BufferCache.NotifyAllocateBlock, hidx, Serialize_ok _ _ _ hlen,
      List.append_assoc, List.singleton_append]

/-! ## The leaf split -/

theorem new_leaf_info (G : SlotGeometry) (ks vs bs : Nat) :
    (BTreeNode.new G NodeType.BTREE_LEAF_NODE ks vs bs).info =
      { nodetype := NodeType.BTREE_LEAF_NODE, keysize := ks, valuesize := vs, blocksize := bs,
        rootnode := 0, freelist := 0, numkeys := 0 } := rfl

theorem new_leaf_keys_length (G : SlotGeometry) (ks vs bs : Nat) :
    (BTreeNode.new G NodeType.BTREE_LEAF_NODE ks vs bs).keys.length =
      G.GetNumSlotsAsLeaf
        { nodetype := NodeType.BTREE_LEAF_NODE, keysize := ks, valuesize := vs, blocksize := bs,
          rootnode := 0, freelist := 0, numkeys := 0 } := by
  show (List.replicate _ 0).length = _
  rw [List.length_replicate]

theorem new_leaf_vals_length (G : SlotGeometry) (ks vs bs : Nat) :
    (BTreeNode.new G NodeType.BTREE_LEAF_NODE ks vs bs).vals.length =
      G.GetNumSlotsAsLeaf
        { nodetype := NodeType.BTREE_LEAF_NODE, keysize := ks, valuesize := vs, blocksize := bs,
          rootnode := 0, freelist := 0, numkeys := 0 } := by
  show (List.replicate _ 0).length = _
  rw [List.length_replicate]

/-- What `split_Leaf` does with a leaf that holds as many entries as it has slots, when the
freelist starts with the blocks `x` and `y`: the first half of the entries goes to a new
leaf in block `x`, the rest to a new leaf in block `y`, the key and value at the middle
index are handed back, and no block other than 0, `x` and `y` changes. -/
theorem split_Leaf_spec (G : SlotGeometry) (t : BTreeIndex) (Node : BTreeNode)
    (x y : Nat) (l : List Nat) (hidx : t.superblock_index = 0)
    (hch : isChain t.buffercache.blocks t.superblock.info.freelist (x :: y :: l) = true)
    (hNty : Node.info.nodetype = NodeType.BTREE_LEAF_NODE)
    (hS : Node.info.numkeys = G.GetNumSlotsAsLeaf Node.info)
    (hpos : 0 < Node.info.numkeys)
    (hcap : G.GetNumSlotsAsLeaf Node.info ≤ G.GetNumSlotsAsLeaf
      { nodetype := NodeType.BTREE_LEAF_NODE, keysize := t.superblock.info.keysize,
        valuesize := t.superblock.info.valuesize, blocksize := t.superblock.info.blocksize,
        rootnode := 0, freelist := 0, numkeys := 0 }) :
    ∃ (sr : SplitResult) (lf rt : BTreeNode),
      split_Leaf G t Node = Except.ok sr ∧
      sr.rc = none ∧ sr.left = x ∧ sr.right = y ∧
      sr.Key = some (Node.keys.getD (G.GetNumSlotsAsLeaf Node.info / 2) 0) ∧
      sr.Val = some (Node.vals.getD (G.GetNumSlotsAsLeaf Node.info / 2) 0) ∧
      sr.index.buffercache.blocks[x]? = some lf ∧
      sr.index.buffercache.blocks[y]? = some rt ∧
      lf.info.nodetype = NodeType.BTREE_LEAF_NODE ∧
      lf.info.numkeys = G.GetNumSlotsAsLeaf Node.info / 2 ∧
      rt.info.nodetype = NodeType.BTREE_LEAF_NODE ∧
      rt.info.numkeys = G.GetNumSlotsAsLeaf Node.info - G.GetNumSlotsAsLeaf Node.info / 2 ∧
      (∀ j, j < G.GetNumSlotsAsLeaf Node.info / 2 →
        lf.keys.getD j 0 = Node.keys.getD j 0 ∧ lf.vals.getD j 0 = Node.vals.getD j 0) ∧
      (∀ j, j < G.GetNumSlotsAsLeaf Node.info - G.GetNumSlotsAsLeaf Node.info / 2 →
        rt.keys.getD j 0 = Node.keys.getD (G.GetNumSlotsAsLeaf Node.info / 2 + j) 0 ∧
        rt.vals.getD j 0 = Node.vals.getD (G.GetNumSlotsAsLeaf Node.info / 2 + j) 0) ∧
      (∀ m : Nat, m ≠ 0 → m ≠ x → m ≠ y →
        sr.index.buffercache.blocks[m]? = t.buffercache.blocks[m]?) ∧
      sr.index.superblock_index = 0 ∧
      isChain sr.index.buffercache.blocks sr.index.superblock.info.freelist l = true := by
  -- the two blocks
  have hxl : x ∉ y :: l := isChain_head_not_mem hch
  have hxy : x ≠ y := fun e => hxl (by rw [e]; exact List.mem_cons_self y l)
  have hx0 : x ≠ 0 := (isChain_cons hch).2.1
  have hxlen : x < t.buffercache.blocks.length :=
    isChain_lt_length hch x (List.mem_cons_self x _)
  -- first allocation
  obtain ⟨u1, hA1, hu1i, hu1c, hu1l, hu1f, hk1, hv1, hb1, -, -⟩ := AllocateNode_step hidx hch
  have hyl : y ∉ l := isChain_head_not_mem hu1c
  have hy0 : y ≠ 0 := (isChain_cons hu1c).2.1
  have hylen : y < u1.buffercache.blocks.length :=
    isChain_lt_length hu1c y (List.mem_cons_self y _)
  have hU1 : BTreeNode.Unserialize
      ((BTreeNode.new G NodeType.BTREE_LEAF_NODE u1.superblock.info.keysize
        u1.superblock.info.valuesize u1.superblock.info.blocksize).Serialize
        u1.buffercache x).2 x =
      Except.ok (BTreeNode.new G NodeType.BTREE_LEAF_NODE u1.superblock.info.keysize
        u1.superblock.info.valuesize u1.superblock.info.blocksize) :=
    Unserialize_Serialize _ _ _ (by rw [hu1l]; exact hxlen)
  have hw1c : isChain
      ({ u1 with
         buffercache :=
          ((BTreeNode.new G NodeType.BTREE_LEAF_NODE u1.superblock.info.keysize
            u1.superblock.info.valuesize u1.superblock.info.blocksize).Serialize
            u1.buffercache x).2 } : BTreeIndex).buffercache.blocks
      u1.superblock.info.freelist (y :: l) = true := by
    show isChain (BTreeNode.Serialize _ u1.buffercache x).2.blocks _ _ = true
    rw [Serialize_blocks]
    exact isChain_set hu1c hxl
  -- second allocation
  obtain ⟨u2, hA2, hu2i, hu2c, hu2l, hu2f, hk2, hv2, hb2, -, -⟩ :=
    @AllocateNode_step
      { u1 with
        buffercache :=
          ((BTreeNode.new G NodeType.BTREE_LEAF_NODE u1.superblock.info.keysize
            u1.superblock.info.valuesize u1.superblock.info.blocksize).Serialize
            u1.buffercache x).2 } y l hu1i hw1c
  have hlen2 : u2.buffercache.blocks.length = t.buffercache.blocks.length := by
    rw [hu2l]
    show (BTreeNode.Serialize _ u1.buffercache x).2.blocks.length = _
    rw [Serialize_length, hu1l]
  have hU2 : BTreeNode.Unserialize
      ((BTreeNode.new G NodeType.BTREE_LEAF_NODE u2.superblock.info.keysize
        u2.superblock.info.valuesize u2.superblock.info.blocksize).Serialize
        u2.buffercache y).2 y =
      Except.ok (BTreeNode.new G NodeType.BTREE_LEAF_NODE u2.superblock.info.keysize
        u2.superblock.info.valuesize u2.superblock.info.blocksize) :=
    Unserialize_Serialize _ _ _ (by rw [hlen2, ← hu1l]; exact hylen)
  -- the copy loops
  have hcap1 : G.GetNumSlotsAsLeaf Node.info ≤
      (BTreeNode.new G NodeType.BTREE_LEAF_NODE u1.superblock.info.keysize
        u1.superblock.info.valuesize u1.superblock.info.blocksize).keys.length := by
    rw [new_leaf_keys_length, hk1, hv1, hb1]
    exact hcap
  have hcap1v : G.GetNumSlotsAsLeaf Node.info ≤
      (BTreeNode.new G NodeType.BTREE_LEAF_NODE u1.superblock.info.keysize
        u1.superblock.info.valuesize u1.superblock.info.blocksize).vals.length := by
    rw [new_leaf_vals_length, hk1, hv1, hb1]
    exact hcap
  have hk2' : u2.superblock.info.keysize = t.superblock.info.keysize := hk2.trans hk1
  have hv2' : u2.superblock.info.valuesize = t.superblock.info.valuesize := hv2.trans hv1
  have hb2' : u2.superblock.info.blocksize = t.superblock.info.blocksize := hb2.trans hb1
  have hcap2 : G.GetNumSlotsAsLeaf Node.info ≤
      (BTreeNode.new G NodeType.BTREE_LEAF_NODE u2.superblock.info.keysize
        u2.superblock.info.valuesize u2.superblock.info.blocksize).keys.length := by
    rw [new_leaf_keys_length, hk2', hv2', hb2']
    exact hcap
  have hcap2v : G.GetNumSlotsAsLeaf Node.info ≤
      (BTreeNode.new G NodeType.BTREE_LEAF_NODE u2.superblock.info.keysize
        u2.superblock.info.valuesize u2.superblock.info.blocksize).vals.length := by
    rw [new_leaf_vals_length, hk2', hv2', hb2']
    exact hcap
  obtain ⟨lf, hL1, hL2, -, -, -, -, hL7⟩ := splitLeafLoop_spec Node hNty 0
    (G.GetNumSlotsAsLeaf Node.info / 2) 0
    (BTreeNode.new G NodeType.BTREE_LEAF_NODE u1.superblock.info.keysize
      u1.superblock.info.valuesize u1.superblock.info.blocksize)
    (by rw [hS]; omega) rfl (Nat.le_refl 0) rfl (by omega) (by omega)
  obtain ⟨rt, hR1, hR2, -, -, -, -, hR7⟩ := splitLeafLoop_spec Node hNty
    (G.GetNumSlotsAsLeaf Node.info / 2)
    (G.GetNumSlotsAsLeaf Node.info - G.GetNumSlotsAsLeaf Node.info / 2)
    (G.GetNumSlotsAsLeaf Node.info / 2)
    (BTreeNode.new G NodeType.BTREE_LEAF_NODE u2.superblock.info.keysize
      u2.superblock.info.valuesize u2.superblock.info.blocksize)
    (by rw [hS]; omega) rfl (Nat.le_refl _)
    (by show 0 = _; omega) (by omega) (by omega)
  have hlfty : lf.info.nodetype = NodeType.BTREE_LEAF_NODE := by rw [hL2]; rfl
  have hrtty : rt.info.nodetype = NodeType.BTREE_LEAF_NODE := by rw [hR2]; rfl
  have hKey : Node.GetKey (G.GetNumSlotsAsLeaf Node.info / 2) =
      Except.ok (Node.keys.getD (G.GetNumSlotsAsLeaf Node.info / 2) 0) :=
    GetKey_of_lt (by rw [hNty]; rfl) (by rw [hS]; rw [hS] at hpos; omega)
  have hVal : Node.GetVal (G.GetNumSlotsAsLeaf Node.info / 2) =
      Except.ok (Node.vals.getD (G.GetNumSlotsAsLeaf Node.info / 2) 0) :=
    GetVal_of_lt hNty (by rw [hS]; rw [hS] at hpos; omega)
  -- the run
  have run : ∀ res, split_Leaf G t Node = res →
      res = Except.ok
        { rc := none, left := x, right := y
          Key := some (Node.keys.getD (G.GetNumSlotsAsLeaf Node.info / 2) 0)
          Val := some (Node.vals.getD (G.GetNumSlotsAsLeaf Node.info / 2) 0)
          index :=
            { u2 with
              buffercache :=
                (rt.Serialize
                  (lf.Serialize
                    ((BTreeNode.new G NodeType.BTREE_LEAF_NODE u2.superblock.info.keysize
                      u2.superblock.info.valuesize u2.superblock.info.blocksize).Serialize
                      u2.buffercache y).2 x).2 y).2 } } := by
    intro res h
    unfold split_Leaf at h
    rw [hA1] at h
    simp only [bind, Except.bind] at h
    split at h
    · rename_i rc heq
      cases hU1.symm.trans heq
    · rename_i LL hLL
      have e1 := hU1.symm.trans hLL
      injection e1 with e1
      subst e1
      split at h
      · rename_i f hf
        cases hA2.symm.trans hf
      · rename_i a ha
        have e2 := hA2.symm.trans ha
        injection e2 with e2
        subst e2
        simp only [] at h
        split at h
        · rename_i rc heq
          cases hU2.symm.trans heq
        · rename_i RR hRR
          have e3 := hU2.symm.trans hRR
          injection e3 with e3
          subst e3
          split at h
          · rename_i rc heq
            cases hL1.symm.trans heq
          · rename_i LL' hLL'
            have e4 := hL1.symm.trans hLL'
            injection e4 with e4
            subst e4
            split at h
            · rename_i rc heq
              cases hR1.symm.trans heq
            · rename_i RR' hRR'
              have e5 := hR1.symm.trans hRR'
              injection e5 with e5
              subst e5
              rw [hKey, hVal] at h
              exact h.symm
  have hrun := run _ rfl
  refine ⟨_, lf, rt, hrun, rfl, rfl, rfl, rfl, rfl, ?_, ?_, hlfty, ?_, hrtty, ?_, ?_, ?_, ?_,
    hu2i, ?_⟩
  · show (BTreeNode.Serialize rt (BTreeNode.Serialize lf _ x).2 y).2.blocks[x]? = _
    rw [Serialize_getElem?_ne _ _ (Ne.symm hxy), Serialize_getElem?_self _ _
      (by rw [Serialize_length, hlen2]; exact hxlen), stored_of_leaf hlfty]
  · show (BTreeNode.Serialize rt (BTreeNode.Serialize lf _ x).2 y).2.blocks[y]? = _
    rw [Serialize_getElem?_self _ _
      (by rw [Serialize_length, Serialize_length, hlen2, ← hu1l]; exact hylen),
      stored_of_leaf hrtty]
  · rw [hL2]
    show 0 + _ = _
    omega
  · rw [hR2]
    show 0 + _ = _
    omega
  · intro j hj
    have := hL7 j (by omega) (by omega)
    simpa using this
  · intro j hj
    exact hR7 j (by omega) (by omega)
  · intro m hm0 hmx hmy
    show (BTreeNode.Serialize rt (BTreeNode.Serialize lf (BTreeNode.Serialize _ _ y).2 x).2
      y).2.blocks[m]? = _
    rw [Serialize_getElem?_ne _ _ (Ne.symm hmy), Serialize_getElem?_ne _ _ (Ne.symm hmx),
      Serialize_getElem?_ne _ _ (Ne.symm hmy), hu2f m hm0]
    show (BTreeNode.Serialize _ u1.buffercache x).2.blocks[m]? = _
    rw [Serialize_getElem?_ne _ _ (Ne.symm hmx), hu1f m hm0]
  · show isChain (BTreeNode.Serialize rt (BTreeNode.Serialize lf (BTreeNode.Serialize _ _ y).2
      x).2 y).2.blocks _ l = true
    rw [Serialize_blocks, Serialize_blocks, Serialize_blocks]
    exact isChain_set (isChain_set (isChain_set hu2c hyl)
      (fun hm => hxl (List.mem_cons_of_mem y hm))) hyl

/-! ## Entries of the halves -/

theorem entries_length (b : BTreeNode) : (entries b).length = b.info.numkeys := by
  unfold entries
  rw [List.length_map, List.length_range]

theorem entries_getElem? (b : BTreeNode) (i : Nat) (h : i < b.info.numkeys) :
    (entries b)[i]? = some (b.keys.getD i 0, b.vals.getD i 0) := by
  unfold entries
  rw [List.getElem?_map, List.getElem?_range h]
  rfl

theorem entries_take (Node lf : BTreeNode) (n : Nat) (hn : n ≤ Node.info.numkeys)
    (hlf : lf.info.numkeys = n)
    (h : ∀ j, j < n →
      lf.keys.getD j 0 = Node.keys.getD j 0 ∧ lf.vals.getD j 0 = Node.vals.getD j 0) :
    entries lf = (entries Node).take n := by
  apply List.ext_getElem?
  intro i
  by_cases hi : i < n
  · rw [entries_getElem? lf i (by omega), List.getElem?_take_of_lt hi,
      entries_getElem? Node i (by omega), (h i hi).1, (h i hi).2]
  · rw [List.getElem?_eq_none (by rw [entries_length]; omega),
      List.getElem?_eq_none (by rw [List.length_take, entries_length]; omega)]

theorem entries_drop (Node rt : BTreeNode) (n : Nat) (hn : n ≤ Node.info.numkeys)
    (hrt : rt.info.numkeys = Node.info.numkeys - n)
    (h : ∀ j, j < Node.info.numkeys - n →
      rt.keys.getD j 0 = Node.keys.getD (n + j) 0 ∧
      rt.vals.getD j 0 = Node.vals.getD (n + j) 0) :
    entries rt = (entries Node).drop n := by
  apply List.ext_getElem?
  intro i
  rw [List.getElem?_drop]
  by_cases hi : i < Node.info.numkeys - n
  · rw [entries_getElem? rt i (by omega), entries_getElem? Node (n + i) (by omega),
      (h i hi).1, (h i hi).2]
  · rw [List.getElem?_eq_none (by rw [entries_length]; omega),
      List.getElem?_eq_none (by rw [entries_length]; omega)]

theorem keysAscending_lt {b : BTreeNode} (h : keysAscending b = true) {i j : Nat}
    (hij : i < j) (hj : j < b.info.numkeys) : b.keys.getD i 0 < b.keys.getD j 0 := by
  unfold keysAscending at h
  exact (of_decide_eq_true h) j hj i hij

/-! ## The shift loops of the insertions -/

theorem ptrOk_of_le {b : BTreeNode} (hty : b.info.nodetype.isInterior = true) {i : Nat}
    (h : i ≤ b.info.numkeys) : b.ptrOk i = true := by
  simp [BTreeNode.ptrOk, hty, h]

theorem interior_keyOk {b : BTreeNode} (hty : b.info.nodetype.isInterior = true) {i : Nat}
    (h : i < b.info.numkeys) : b.keyOk i = true :=
  keyOk_of_lt (by rw [hty]; rfl) h

theorem SetKey_of_ok {b : BTreeNode} {i : Nat} (h : b.keyOk i = true) (k : Nat) :
    (b.SetKey i k).2 = { b with keys := b.keys.set i k } := by
  unfold BTreeNode.SetKey
  rw [if_pos h]

theorem SetVal_of_ok {b : BTreeNode} {i : Nat} (h : b.valOk i = true) (v : Nat) :
    (b.SetVal i v).2 = { b with vals := b.vals.set i v } := by
  unfold BTreeNode.SetVal
  rw [if_pos h]

theorem SetPtr_of_ok {b : BTreeNode} {i : Nat} (h : b.ptrOk i = true) (p : Nat) :
    (b.SetPtr i p).2 = { b with ptrs := b.ptrs.set i p } := by
  unfold BTreeNode.SetPtr
  rw [if_pos h]

/-- The shift loop of `insert_Not_Full_Internal` run for `count` rounds from index `i`: the
keys `i - count, ..., i - 1` move one slot up, and so do the pointers
`i - count + 1, ..., i`. -/
theorem shiftInterior_spec :
    ∀ (count i : Nat) (node : BTreeNode), node.info.nodetype.isInterior = true →
      count ≤ i → i < node.info.numkeys → i < node.keys.length → i + 1 < node.ptrs.length →
      ∃ r : BTreeNode, shiftInterior count i node = Except.ok r ∧
        r.info = node.info ∧ r.vals = node.vals ∧ r.keys.length = node.keys.length ∧
        r.ptrs.length = node.ptrs.length ∧
        (∀ p, r.keys.getD p 0 =
          if i - count < p ∧ p ≤ i then node.keys.getD (p - 1) 0 else node.keys.getD p 0) ∧
        (∀ p, r.ptrs.getD p 0 =
          if i + 1 - count < p ∧ p ≤ i + 1 then node.ptrs.getD (p - 1) 0
          else node.ptrs.getD p 0) := by
  intro count
  induction count with
  | zero =>
    intro i node _ _ _ _ _
    refine ⟨node, rfl, rfl, rfl, rfl, rfl, fun p => ?_, fun p => ?_⟩
    · rw [if_neg (by omega)]
    · rw [if_neg (by omega)]
  | succ n ih =>
    intro i node hty hc hi hk hp
    have hko : node.keyOk i = true := interior_keyOk hty hi
    have hpo : ({ node with keys := node.keys.set i (node.keys.getD (i - 1) 0) } :
        BTreeNode).ptrOk (i + 1) = true :=
      @ptrOk_of_le { node with keys := node.keys.set i (node.keys.getD (i - 1) 0) } hty _
        (by show i + 1 ≤ node.info.numkeys; omega)
    obtain ⟨r, hr1, hr2, hr3, hr4, hr5, hr6, hr7⟩ := ih (i - 1)
      { node with
        keys := node.keys.set i (node.keys.getD (i - 1) 0)
        ptrs := node.ptrs.set (i + 1) (node.ptrs.getD i 0) }
      hty (by omega) (by show i - 1 < node.info.numkeys; omega)
      (by simp only [List.length_set]; omega) (by simp only [List.length_set]; omega)
    refine ⟨r, ?_, hr2, hr3, ?_, ?_, ?_, ?_⟩
    · unfold shiftInterior
      rw [GetKey_of_lt (by rw [hty]; rfl) (show i - 1 < node.info.numkeys by omega)]
      simp only [bind, Except.bind, orUndefined]
      rw [SetKey_of_ok hko,
        @GetPtr_of_le { node with keys := node.keys.set i (node.keys.getD (i - 1) 0) } hty _
          (show i ≤ node.info.numkeys by omega)]
      simp only [orUndefined]
      rw [SetPtr_of_ok hpo]
      exact hr1
    · rw [hr4, List.length_set]
    · rw [hr5, List.length_set]
    · intro p
      rw [hr6 p]
      by_cases hpi : p = i
      · subst hpi
        rw [if_neg (by omega), if_pos (by omega)]
        exact getD_set_self hk _ _
      · by_cases hin : i - 1 - n < p ∧ p ≤ i - 1
        · rw [if_pos hin, if_pos (by omega)]
          exact getD_set_ne (by omega) _ _
        · rw [if_neg hin, if_neg (by omega)]
          exact getD_set_ne (by omega) _ _
    · intro p
      rw [hr7 p]
      by_cases hpi : p = i + 1
      · subst hpi
        rw [if_neg (by omega), if_pos (by omega)]
        exact getD_set_self hp _ _
      · by_cases hin : i - 1 + 1 - n < p ∧ p ≤ i - 1 + 1
        · rw [if_pos hin, if_pos (by omega)]
          exact getD_set_ne (by omega) _ _
        · rw [if_neg hin, if_neg (by omega)]
          exact getD_set_ne (by omega) _ _

/-- The shift loop of `insert_Not_Full` run for `count` rounds from index `i`: the entries
`i - count, ..., i - 1` move one slot up. -/
theorem shiftLeaf_spec :
    ∀ (count i : Nat) (node : BTreeNode),
      node.info.nodetype = NodeType.BTREE_LEAF_NODE →
      count ≤ i → i < node.info.numkeys → i < node.keys.length → i < node.vals.length →
      ∃ r : BTreeNode, shiftLeaf count i node = Except.ok r ∧
        r.info = node.info ∧ r.ptrs = node.ptrs ∧ r.keys.length = node.keys.length ∧
        r.vals.length = node.vals.length ∧
        (∀ p, r.keys.getD p 0 =
          if i - count < p ∧ p ≤ i then node.keys.getD (p - 1) 0 else node.keys.getD p 0) ∧
        (∀ p, r.vals.getD p 0 =
          if i - count < p ∧ p ≤ i then node.vals.getD (p - 1) 0 else node.vals.getD p 0) := by
  intro count
  induction count with
  | zero =>
    intro i node _ _ _ _ _
    refine ⟨node, rfl, rfl, rfl, rfl, rfl, fun p => ?_, fun p => ?_⟩
    · rw [if_neg (by omega)]
    · rw [if_neg (by omega)]
  | succ n ih =>
    intro i node hty hc hi hk hv
    have hko : node.keyOk i = true := leaf_keyOk hty hi
    have hvo : ({ node with keys := node.keys.set i (node.keys.getD (i - 1) 0) } :
        BTreeNode).valOk i = true :=
      @valOk_of_lt { node with keys := node.keys.set i (node.keys.getD (i - 1) 0) } hty _ hi
    obtain ⟨r, hr1, hr2, hr3, hr4, hr5, hr6, hr7⟩ := ih (i - 1)
      { node with
        keys := node.keys.set i (node.keys.getD (i - 1) 0)
        vals := node.vals.set i (node.vals.getD (i - 1) 0) }
      hty (by omega) (by show i - 1 < node.info.numkeys; omega)
      (by simp only [List.length_set]; omega) (by simp only [List.length_set]; omega)
    refine ⟨r, ?_, hr2, hr3, ?_, ?_, ?_, ?_⟩
    · unfold shiftLeaf
      rw [GetKey_of_lt (by rw [hty]; rfl) (show i - 1 < node.info.numkeys by omega),
        GetVal_of_lt hty (show i - 1 < node.info.numkeys by omega)]
      simp only [bind, Except.bind, orUndefined]
      rw [SetKey_of_ok hko, SetVal_of_ok hvo]
      exact hr1
    · rw [hr4, List.length_set]
    · rw [hr5, List.length_set]
    · intro p
      rw [hr6 p]
      by_cases hpi : p = i
      · subst hpi
        rw [if_neg (by omega), if_pos (by omega)]
        exact getD_set_self hk _ _
      · by_cases hin : i - 1 - n < p ∧ p ≤ i - 1
        · rw [if_pos hin, if_pos (by omega)]
          exact getD_set_ne (by omega) _ _
        · rw [if_neg hin, if_neg (by omega)]
          exact getD_set_ne (by omega) _ _
    · intro p
      rw [hr7 p]
      by_cases hpi : p = i
      · subst hpi
        rw [if_neg (by omega), if_pos (by omega)]
        exact getD_set_self hv _ _
      · by_cases hin : i - 1 - n < p ∧ p ≤ i - 1
        · rw [if_pos hin, if_pos (by omega)]
          exact getD_set_ne (by omega) _ _
        · rw [if_neg hin, if_neg (by omega)]
          exact getD_set_ne (by omega) _ _

/-! ## The scan of `insert_Not_Full_Internal` -/

/-- The scan of `insert_Not_Full_Internal` from `offset` on a node whose last key slot is the
one just added: when the keys before index `j` are below the new key and the keys from `j`
on above it, the new key goes to index `j`, the two pointers to `j` and `j + 1`, the later
keys and pointers move one slot up, and the node is written to its block. -/
theorem insertInteriorLoop_spec (t : BTreeIndex) (Address left right m j : Nat)
    (hA : Address < t.buffercache.blocks.length) :
    ∀ (count offset : Nat) (node : BTreeNode), node.info.nodetype.isInterior = true →
      offset + count + 1 = node.info.numkeys → 1 ≤ count → offset ≤ j →
      j + 1 ≤ node.info.numkeys →
      (∀ i, i < j → node.keys.getD i 0 < m) →
      (∀ i, j ≤ i → i + 1 < node.info.numkeys → m < node.keys.getD i 0) →
      node.info.numkeys ≤ node.keys.length → node.info.numkeys + 1 ≤ node.ptrs.length →
      ∃ F : BTreeNode,
        insertInteriorLoop t Address left right m count offset offset node =
          Except.ok (none, F, { t with buffercache := (F.Serialize t.buffercache Address).2 }) ∧
        F.info = node.info ∧ F.vals = node.vals ∧
        (∀ p, F.keys.getD p 0 =
          if p < j then node.keys.getD p 0 else if p = j then m
          else if p < node.info.numkeys then node.keys.getD (p - 1) 0
          else node.keys.getD p 0) ∧
        (∀ p, F.ptrs.getD p 0 =
          if p < j then node.ptrs.getD p 0 else if p = j then left
          else if p = j + 1 then right
          else if p ≤ node.info.numkeys then node.ptrs.getD (p - 1) 0
          else node.ptrs.getD p 0) := by
  intro count
  induction count with
  | zero =>
    intro offset node _ _ h _ _ _ _ _ _
    omega
  | succ c ih =>
    intro offset node hty hnum _ hoj hj hlo hhi hk hp
    have hG : node.GetKey offset = Except.ok (node.keys.getD offset 0) :=
      GetKey_of_lt (by rw [hty]; rfl) (by omega)
    by_cases hoff : offset = j
    · -- the new key goes here
      subst hoff
      have hlt : m < node.keys.getD offset 0 := hhi offset (Nat.le_refl _) (by omega)
      obtain ⟨r, hr1, hr2, hr3, hr4, hr5, hr6, hr7⟩ :=
        shiftInterior_spec (node.info.numkeys - 1 - offset) (node.info.numkeys - 1) node hty
          (by omega) (by omega) (by omega) (by omega)
      have hko : r.keyOk offset = true :=
        interior_keyOk (by rw [hr2]; exact hty) (by rw [hr2]; omega)
      have hpo1 : ({ r with keys := r.keys.set offset m } : BTreeNode).ptrOk offset = true :=
        @ptrOk_of_le { r with keys := r.keys.set offset m } (by rw [← hr2] at hty; exact hty) _
          (by show offset ≤ r.info.numkeys; rw [hr2]; omega)
      have hpo2 : ({ r with keys := r.keys.set offset m, ptrs := r.ptrs.set offset left } :
          BTreeNode).ptrOk (offset + 1) = true :=
        @ptrOk_of_le { r with keys := r.keys.set offset m, ptrs := r.ptrs.set offset left }
          (by rw [← hr2] at hty; exact hty) _
          (by show offset + 1 ≤ r.info.numkeys; rw [hr2]; omega)
      refine ⟨{ r with keys := r.keys.set offset m
                       ptrs := (r.ptrs.set offset left).set (offset + 1) right },
        ?_, hr2, hr3, ?_, ?_⟩
      · unfold insertInteriorLoop
        rw [hG]
        simp only [bind, Except.bind, orUndefined]
        rw [if_pos hlt, hr1]
        dsimp only
        rw [SetKey_of_ok hko, SetPtr_of_ok hpo1, SetPtr_of_ok hpo2]
        rw [if_neg (by rw [Serialize_fst _ _ _ hA]; exact fun h => h rfl)]
      · intro p
        show (r.keys.set offset m).getD p 0 = _
        by_cases hpj : p = offset
        · subst hpj
          rw [if_neg (by omega), if_pos rfl]
          exact getD_set_self (by rw [hr4]; omega) _ _
        · rw [getD_set_ne (fun e => hpj e.symm), hr6 p]
          by_cases hplt : p < offset
          · rw [if_pos hplt, if_neg (by omega)]
          · rw [if_neg hplt, if_neg hpj]
            by_cases hpn : p < node.info.numkeys
            · rw [if_pos hpn, if_pos (by omega)]
            · rw [if_neg hpn, if_neg (by omega)]
      · intro p
        show ((r.ptrs.set offset left).set (offset + 1) right).getD p 0 = _
        by_cases hpj1 : p = offset + 1
        · subst hpj1
          rw [if_neg (by omega), if_neg (by omega), if_pos rfl]
          exact getD_set_self (by rw [List.length_set, hr5]; omega) _ _
        · rw [getD_set_ne (fun e => hpj1 e.symm)]
          by_cases hpj : p = offset
          · subst hpj
            rw [if_neg (by omega), if_pos rfl]
            exact getD_set_self (by rw [hr5]; omega) _ _
          · rw [getD_set_ne (fun e => hpj e.symm), hr7 p]
            by_cases hplt : p < offset
            · rw [if_pos hplt, if_neg (by omega)]
            · rw [if_neg hplt, if_neg hpj, if_neg hpj1]
              by_cases hpn : p ≤ node.info.numkeys
              · rw [if_pos hpn, if_pos (by omega)]
              · rw [if_neg hpn, if_neg (by omega)]
    · -- the key here is smaller
      have hoj' : offset < j := by omega
      have hlt : node.keys.getD offset 0 < m := hlo offset hoj'
      by_cases hc : c = 0
      · -- the last key: the new key is appended
        subst hc
        have hjn : j = node.info.numkeys - 1 := by omega
        have hko : node.keyOk (node.info.numkeys - 1) = true :=
          interior_keyOk hty (by omega)
        have hpo1 : ({ node with keys := node.keys.set (node.info.numkeys - 1) m } :
            BTreeNode).ptrOk (node.info.numkeys - 1) = true :=
          @ptrOk_of_le { node with keys := node.keys.set (node.info.numkeys - 1) m } hty _
            (by show node.info.numkeys - 1 ≤ node.info.numkeys; omega)
        have hpo2 : ({ node with keys := node.keys.set (node.info.numkeys - 1) m
                                 ptrs := node.ptrs.set (node.info.numkeys - 1) left } :
            BTreeNode).ptrOk node.info.numkeys = true :=
          @ptrOk_of_le { node with keys := node.keys.set (node.info.numkeys - 1) m
                                   ptrs := node.ptrs.set (node.info.numkeys - 1) left } hty _
            (Nat.le_refl _)
        refine ⟨{ node with
                  keys := node.keys.set (node.info.numkeys - 1) m
                  ptrs := (node.ptrs.set (node.info.numkeys - 1) left).set
                    node.info.numkeys right },
          ?_, rfl, rfl, ?_, ?_⟩
        · unfold insertInteriorLoop
          rw [hG]
          simp only [bind, Except.bind, orUndefined]
          rw [if_neg (by omega), if_neg (by omega), if_pos (by omega)]
          rw [SetKey_of_ok hko, SetPtr_of_ok hpo1, SetPtr_of_ok hpo2]
          rw [if_neg (by rw [Serialize_fst _ _ _ hA]; exact fun h => h rfl)]
        · intro p
          show (node.keys.set (node.info.numkeys - 1) m).getD p 0 = _
          by_cases hpj : p = j
          · subst hpj
            rw [if_neg (by omega), if_pos rfl, hjn]
            exact getD_set_self (by omega) _ _
          · rw [getD_set_ne (by omega)]
            by_cases hplt : p < j
            · rw [if_pos hplt]
            · rw [if_neg hplt, if_neg hpj, if_neg (by omega)]
        · intro p
          show ((node.ptrs.set (node.info.numkeys - 1) left).set node.info.numkeys
            right).getD p 0 = _
          by_cases hpj1 : p = j + 1
          · subst hpj1
            rw [if_neg (by omega), if_neg (by omega), if_pos rfl]
            have e : j + 1 = node.info.numkeys := by omega
            rw [e]
            exact getD_set_self (by rw [List.length_set]; omega) _ _
          · rw [getD_set_ne (by omega)]
            by_cases hpj : p = j
            · subst hpj
              rw [if_neg (by omega), if_pos rfl, hjn]
              exact getD_set_self (by omega) _ _
            · rw [getD_set_ne (by omega)]
              by_cases hplt : p < j
              · rw [if_pos hplt]
              · rw [if_neg hplt, if_neg hpj, if_neg hpj1, if_neg (by omega)]
      · obtain ⟨F, hF1, hF⟩ := ih (offset + 1) node hty (by omega) (by omega) (by omega) hj
          hlo hhi hk hp
        refine ⟨F, ?_, hF⟩
        unfold insertInteriorLoop
        rw [hG]
        simp only [bind, Except.bind, orUndefined]
        rw [if_neg (by omega), if_neg (by omega), if_neg (by omega)]
        exact hF1

/-! ## Lists of slots -/

theorem map_range_getElem? {α : Type} (f : Nat → α) (n p : Nat) :
    ((List.range n).map f)[p]? = if p < n then some (f p) else none := by
  rw [List.getElem?_map]
  by_cases h : p < n
  · rw [List.getElem?_range h, if_pos h]
    rfl
  · rw [List.getElem?_eq_none (by rw [List.length_range]; omega), if_neg h]
    rfl

/-- A list of slots after one value has been put in at index `j`. -/
theorem map_range_insert {α : Type} (f g : Nat → α) (n j : Nat) (m : α) (hj : j ≤ n)
    (h : ∀ p, p < n + 1 → g p = if p < j then f p else if p = j then m else f (p - 1)) :
    (List.range (n + 1)).map g =
      ((List.range n).map f).take j ++ m :: ((List.range n).map f).drop j := by
  apply List.ext_getElem?
  intro p
  have hlen : (((List.range n).map f).take j).length = j := by
    rw [List.length_take, List.length_map, List.length_range]
    omega
  rw [map_range_getElem?]
  by_cases hp : p < j
  · rw [List.getElem?_append_left (by rw [hlen]; exact hp), List.getElem?_take_of_lt hp,
      map_range_getElem?, if_pos (by omega), if_pos (by omega), h p (by omega), if_pos hp]
  · rw [List.getElem?_append_right (by rw [hlen]; omega), hlen]
    by_cases hpj : p = j
    · subst hpj
      rw [Nat.sub_self, if_pos (by omega), h p (by omega), if_neg hp, if_pos rfl,
        List.getElem?_cons_zero]
    · obtain ⟨q, hq⟩ : ∃ q, p - j = q + 1 := ⟨p - j - 1, by omega⟩
      rw [hq, List.getElem?_cons_succ, List.getElem?_drop, map_range_getElem?]
      have e : j + q = p - 1 := by omega
      rw [e]
      by_cases hpn : p < n + 1
      · rw [if_pos hpn, if_pos (by omega), h p hpn, if_neg hp, if_neg hpj]
      · rw [if_neg hpn, if_neg (by omega)]

/-- A list of slots after the value at index `j` has been replaced by two. -/
theorem map_range_replace (f g : Nat → Nat) (n j a b : Nat) (hj : j < n)
    (h : ∀ p, p < n + 1 →
      g p = if p < j then f p else if p = j then a else if p = j + 1 then b else f (p - 1)) :
    (List.range (n + 1)).map g =
      ((List.range n).map f).take j ++ a :: b :: ((List.range n).map f).drop (j + 1) := by
  apply List.ext_getElem?
  intro p
  have hlen : (((List.range n).map f).take j).length = j := by
    rw [List.length_take, List.length_map, List.length_range]
    omega
  rw [map_range_getElem?]
  by_cases hp : p < j
  · rw [List.getElem?_append_left (by rw [hlen]; exact hp), List.getElem?_take_of_lt hp,
      map_range_getElem?, if_pos (by omega), if_pos (by omega), h p (by omega), if_pos hp]
  · rw [List.getElem?_append_right (by rw [hlen]; omega), hlen]
    by_cases hpj : p = j
    · subst hpj
      rw [Nat.sub_self, if_pos (by omega), h p (by omega), if_neg hp, if_pos rfl,
        List.getElem?_cons_zero]
    · by_cases hpj1 : p = j + 1
      · subst hpj1
        have e : j + 1 - j = 0 + 1 := by omega
        rw [e, List.getElem?_cons_succ, if_pos (by omega), h (j + 1) (by omega),
          if_neg (by omega), if_neg (by omega), if_pos rfl, List.getElem?_cons_zero]
      · obtain ⟨q, hq⟩ : ∃ q, p - j = q + 1 + 1 := ⟨p - j - 2, by omega⟩
        rw [hq, List.getElem?_cons_succ, List.getElem?_cons_succ, List.getElem?_drop,
          map_range_getElem?]
        have e : j + 1 + q = p - 1 := by omega
        rw [e]
        by_cases hpn : p < n + 1
        · rw [if_pos hpn, if_pos (by omega), h p hpn, if_neg hp, if_neg hpj, if_neg hpj1]
        · rw [if_neg hpn, if_neg (by omega)]

theorem stored_of_interior {b : BTreeNode} (h : b.info.nodetype.isInterior = true) :
    b.stored = b := by
  unfold BTreeNode.stored
  cases hn : b.info.nodetype <;> rw [hn] at h <;> first | rfl | cases h

/-- What `insert_Not_Full_Internal` does with an interior node of ascending keys that has a
free slot, when the new key lies between key `j - 1` and key `j`. -/
theorem insert_Not_Full_Internal_spec (t : BTreeIndex) (Address : Nat) (b : BTreeNode)
    (left right m j : Nat) (hty : b.info.nodetype.isInterior = true)
    (hn : 1 ≤ b.info.numkeys) (hasc : keysAscending b = true) (hj : j ≤ b.info.numkeys)
    (hlo : 0 < j → b.keys.getD (j - 1) 0 < m)
    (hhi : j < b.info.numkeys → m < b.keys.getD j 0)
    (hk : b.info.numkeys + 1 ≤ b.keys.length) (hp : b.info.numkeys + 2 ≤ b.ptrs.length)
    (hA : Address < t.buffercache.blocks.length) :
    ∃ F : BTreeNode,
      insert_Not_Full_Internal t Address b left right m =
        Except.ok (none, F, { t with buffercache := (F.Serialize t.buffercache Address).2 }) ∧
      F.info = { b.info with numkeys := b.info.numkeys + 1 } ∧
      (∀ p, F.keys.getD p 0 =
        if p < j then b.keys.getD p 0 else if p = j then m
        else if p < b.info.numkeys + 1 then b.keys.getD (p - 1) 0
        else b.keys.getD p 0) ∧
      (∀ p, F.ptrs.getD p 0 =
        if p < j then b.ptrs.getD p 0 else if p = j then left
        else if p = j + 1 then right
        else if p ≤ b.info.numkeys + 1 then b.ptrs.getD (p - 1) 0
        else b.ptrs.getD p 0) := by
  have hlo2 : ∀ i, i < j → b.keys.getD i 0 < m := by
    intro i hi
    by_cases e : i = j - 1
    · rw [e]; exact hlo (by omega)
    · exact Nat.lt_trans (keysAscending_lt hasc (show i < j - 1 by omega) (by omega))
        (hlo (by omega))
  have hhi2 : ∀ i, j ≤ i → i + 1 < b.incNumkeys.info.numkeys → m < b.keys.getD i 0 := by
    intro i hi hin
    have hin2 : i < b.info.numkeys := by
      have : i + 1 < b.info.numkeys + 1 := hin
      omega
    by_cases e : i = j
    · rw [e]; exact hhi (by omega)
    · exact Nat.lt_trans (hhi (by omega)) (keysAscending_lt hasc (show j < i by omega) hin2)
  obtain ⟨F, hF1, hF2, -, hF4, hF5⟩ :=
    insertInteriorLoop_spec t Address left right m j hA (b.incNumkeys.info.numkeys - 1) 0
      b.incNumkeys hty
      (by show 0 + (b.info.numkeys + 1 - 1) + 1 = b.info.numkeys + 1; omega)
      (by show 1 ≤ b.info.numkeys + 1 - 1; omega) (Nat.zero_le _)
      (by show j + 1 ≤ b.info.numkeys + 1; omega) hlo2 hhi2 hk hp
  exact ⟨F, hF1, hF2, hF4, hF5⟩

/-! ## The recorded path -/

theorem descentPath_succ_leaf {t : BTreeIndex} {key fuel n : Nat} {b : BTreeNode}
    (hb : t.buffercache.blocks[n]? = some b) (hty : b.info.nodetype.isLeaf = true) :
    descentPath t key (fuel + 1) n = [n] := by
  have hty2 := (isLeaf_iff _).1 hty
  simp only [descentPath, BTreeNode.Unserialize, hb, hty2]

theorem descentPath_succ_interior {t : BTreeIndex} {key fuel n : Nat} {b : BTreeNode}
    (hb : t.buffercache.blocks[n]? = some b) (hty : b.info.nodetype.isInterior = true) :
    descentPath t key (fuel + 1) n =
      match interiorScan b key b.info.numkeys 0 with
      | Except.error _ => [n]
      | Except.ok (some offset) =>
        match b.GetPtr offset with
        | Except.error _ => [n]
        | Except.ok ptr => n :: descentPath t key fuel ptr
      | Except.ok none =>
        if b.info.numkeys > 0 then
          match b.GetPtr b.info.numkeys with
          | Except.error _ => [n]
          | Except.ok ptr => n :: descentPath t key fuel ptr
        else [n] := by
  cases hn : b.info.nodetype with
  | BTREE_UNALLOCATED_BLOCK => rw [hn] at hty; cases hty
  | BTREE_SUPERBLOCK => rw [hn] at hty; cases hty
  | BTREE_LEAF_NODE => rw [hn] at hty; cases hty
  | BTREE_ROOT_NODE => simp only [descentPath, BTreeNode.Unserialize, hb, hn]
  | BTREE_INTERIOR_NODE => simp only [descentPath, BTreeNode.Unserialize, hb, hn]

theorem descentPath_head (t : BTreeIndex) (key : Nat) :
    ∀ fuel node, ∃ rest, descentPath t key fuel node = node :: rest := by
  intro fuel node
  cases fuel with
  | zero => exact ⟨[], rfl⟩
  | succ f =>
    unfold descentPath
    repeat' split
    all_goals first | exact ⟨[], rfl⟩ | exact ⟨_, rfl⟩

/-- The path the traversal records: what it was given, the root block when the traversal
starts at the root, and then the blocks it descends to, provided the root block is not
among these. -/
theorem traversal_path (t : BTreeIndex) (op : BTreeOp) (key : Nat) :
    ∀ (fuel node value : Nat) (pointer : List Nat)
      (r : ERROR_T × Nat × List Nat × BTreeIndex),
      LookupOrUpdateInternal t op key fuel node value pointer = Except.ok r →
      t.superblock.info.rootnode ∉ (descentPath t key fuel node).tail →
      r.2.2.1 =
        (if node = t.superblock.info.rootnode then pointer ++ [t.superblock.info.rootnode]
          else pointer) ++ (descentPath t key fuel node).tail := by
  intro fuel
  induction fuel with
  | zero =>
    intro node value pointer r h
    cases h
  | succ f ih =>
    intro node value pointer r h hroot
    have step : ∀ ptr, descentPath t key (f + 1) node = node :: descentPath t key f ptr →
        LookupOrUpdateInternal t op key f ptr value
          ((if node = t.superblock.info.rootnode then pointer ++ [t.superblock.info.rootnode]
            else pointer) ++ [ptr]) = Except.ok r →
        r.2.2.1 =
          (if node = t.superblock.info.rootnode then pointer ++ [t.superblock.info.rootnode]
            else pointer) ++ (descentPath t key (f + 1) node).tail := by
      intro ptr hd hrec
      rw [hd] at hroot ⊢
      obtain ⟨rest, hrest⟩ := descentPath_head t key f ptr
      have hne : ptr ≠ t.superblock.info.rootnode := by
        intro e
        apply hroot
        show t.superblock.info.rootnode ∈ descentPath t key f ptr
        rw [hrest, e]
        exact List.mem_cons_self _ _
      have h2 := ih ptr value _ r hrec (by
        intro hm
        apply hroot
        show t.superblock.info.rootnode ∈ descentPath t key f ptr
        rw [hrest]
        rw [hrest] at hm
        exact List.mem_cons_of_mem _ hm)
      rw [h2, if_neg hne, hrest]
      simp
    unfold LookupOrUpdateInternal at h
    cases hrd : BTreeNode.Unserialize t.buffercache node with
    | error rc =>
      simp only [hrd] at h
      injection h with h
      subst h
      simp [descentPath, hrd]
    | ok b =>
      simp only [hrd] at h
      have hb := Unserialize_ok hrd
      cases hty : b.info.nodetype with
      | BTREE_UNALLOCATED_BLOCK =>
        simp only [hty] at h
        injection h with h
        subst h
        simp [descentPath, hrd, hty]
      | BTREE_SUPERBLOCK =>
        simp only [hty] at h
        injection h with h
        subst h
        simp [descentPath, hrd, hty]
      | BTREE_LEAF_NODE =>
        rw [descentPath_succ_leaf hb (by rw [hty]; rfl)]
        simp only [hty] at h
        split at h
        · injection h with h; subst h; simp
        · split at h
          · split at h
            · injection h with h; subst h; simp
            · injection h with h; subst h; simp
          · split at h
            · injection h with h; subst h; simp
            · injection h with h; subst h; simp
        · injection h with h; subst h; simp
      | BTREE_ROOT_NODE =>
        have hd := @descentPath_succ_interior t key f node b hb (by rw [hty]; rfl)
        simp only [hty] at h
        cases hs : interiorScan b key b.info.numkeys 0 with
        | error rc =>
          rw [hs] at h hd
          injection h with h; subst h
          rw [hd]; simp
        | ok o =>
          cases o with
          | none =>
            rw [hs] at h hd
            simp only [] at h hd
            by_cases hn : b.info.numkeys > 0
            · rw [if_pos hn] at h hd
              cases hp : b.GetPtr b.info.numkeys with
              | error rc => rw [hp] at h; cases h
              | ok ptr =>
                rw [hp] at h hd
                exact step ptr hd h
            · rw [if_neg hn] at h hd
              injection h with h; subst h
              rw [hd]; simp
          | some offset =>
            rw [hs] at h hd
            simp only [] at h hd
            cases hp : b.GetPtr offset with
            | error rc => rw [hp] at h; cases h
            | ok ptr =>
              rw [hp] at h hd
              exact step ptr hd h
      | BTREE_INTERIOR_NODE =>
        have hd := @descentPath_succ_interior t key f node b hb (by rw [hty]; rfl)
        simp only [hty] at h
        cases hs : interiorScan b key b.info.numkeys 0 with
        | error rc =>
          rw [hs] at h hd
          injection h with h; subst h
          rw [hd]; simp
        | ok o =>
          cases o with
          | none =>
            rw [hs] at h hd
            simp only [] at h hd
            by_cases hn : b.info.numkeys > 0
            · rw [if_pos hn] at h hd
              cases hp : b.GetPtr b.info.numkeys with
              | error rc => rw [hp] at h; cases h
              | ok ptr =>
                rw [hp] at h hd
                exact step ptr hd h
            · rw [if_neg hn] at h hd
              injection h with h; subst h
              rw [hd]; simp
          | some offset =>
            rw [hs] at h hd
            simp only [] at h hd
            cases hp : b.GetPtr offset with
            | error rc => rw [hp] at h; cases h
            | ok ptr =>
              rw [hp] at h hd
              exact step ptr hd h

theorem isChildOf_of_ptr {blocks : List BTreeNode} {n : Nat} {b : BTreeNode}
    (hb : blocks[n]? = some b) (hty : b.info.nodetype.isInterior = true) {i : Nat}
    (hi : i ≤ b.info.numkeys) : isChildOf blocks n (b.ptrs.getD i 0) = true := by
  unfold isChildOf
  rw [hb]
  simp only [hty, Bool.true_and, List.any_eq_true, List.mem_range, beq_iff_eq]
  exact ⟨i, by omega, rfl⟩

theorem wellFormedFrom_mono {blocks : List BTreeNode} :
    ∀ (h n : Nat) (lo hi : Option Nat), wellFormedFrom blocks h n lo hi = true →
      wellFormedFrom blocks (h + 1) n lo hi = true := by
  intro h
  induction h with
  | zero => intro n lo hi hwf; simp [wellFormedFrom] at hwf
  | succ h ih =>
    intro n lo hi hwf
    obtain ⟨b, hb, hasc, hin, hcase⟩ := wellFormedFrom_succ hwf
    rw [wellFormedFrom, hb]
    rw [wellFormedFrom, hb] at hwf
    rcases hcase with ⟨hl, hfit⟩ | ⟨hl, hty, hpos, hch⟩
    · simp only [hl, if_true] at hwf ⊢
      exact hwf
    · simp only [hl, hty, if_true, Bool.false_eq_true, if_false, Bool.and_eq_true,
        List.all_eq_true, List.mem_range] at hwf ⊢
      refine ⟨hwf.1, ?_⟩
      intro i hi
      exact ih _ _ _ (hwf.2 i hi)

/-- The descent in a subtree in search-tree order of at most `h` levels: it ends at a leaf
after fewer than `h` steps down, each block on it is a child of the one before, each block
below the first heads a subtree in search-tree order of fewer levels, and the key is in
the subtree exactly when the leaf at the end holds it. -/
theorem descentPath_wellFormed (t : BTreeIndex) (k : Nat) :
    ∀ (h n : Nat) (lo hi : Option Nat) (fuel : Nat),
      wellFormedFrom t.buffercache.blocks h n lo hi = true → h ≤ fuel →
      ∃ (rest : List Nat) (A : Nat) (leaf : BTreeNode),
        descentPath t k fuel n = n :: rest ∧ rest.length < h ∧
        (∀ x ∈ rest, ∃ h' lo' hi', h' < h ∧
          wellFormedFrom t.buffercache.blocks h' x lo' hi' = true) ∧
        rootToLeaf t.buffercache.blocks (n :: rest) = true ∧
        (n :: rest).getLast? = some A ∧ t.buffercache.blocks[A]? = some leaf ∧
        leaf.info.nodetype = NodeType.BTREE_LEAF_NODE ∧ keysAscending leaf = true ∧
        leaf.info.numkeys ≤ leaf.vals.length ∧
        (containsFrom t.buffercache.blocks k h n = true ↔
          ∃ i < leaf.info.numkeys, leaf.keys.getD i 0 = k) := by
  intro h
  induction h with
  | zero => intro n lo hi fuel hwf; simp [wellFormedFrom] at hwf
  | succ h ih =>
    intro n lo hi fuel hwf hfuel
    obtain ⟨f, rfl⟩ : ∃ f, fuel = f + 1 := ⟨fuel - 1, by omega⟩
    obtain ⟨b, hb, hasc, hin, hcase⟩ := wellFormedFrom_succ hwf
    rcases hcase with ⟨hl, hfit⟩ | ⟨hl, hty, hpos, hch⟩
    · refine ⟨[], n, b, descentPath_succ_leaf hb hl, Nat.succ_pos _, ?_, ?_, rfl, hb,
        (isLeaf_iff _).1 hl, (keysAscending_iff b).2 hasc, hfit, ?_⟩
      · intro x hx; cases hx
      · simp only [rootToLeaf, hb, hl]
      · rw [containsFrom_succ_leaf hb hl]
        simp only [decide_eq_true_eq]
    · have hok : ∀ i, 0 ≤ i → i < 0 + b.info.numkeys → b.keyOk i = true :=
        fun i _ h2 => keyOk_of_lt (by simp [hty]) (by omega)
      have hptr : ∀ i, i ≤ b.info.numkeys → b.GetPtr i = Except.ok (b.ptrs.getD i 0) := by
        intro i hi
        simp [BTreeNode.GetPtr, BTreeNode.ptrOk, hty, hi]
      have key : ∀ i, i ≤ b.info.numkeys → (i < b.info.numkeys → k < b.keys.getD i 0) →
          (∀ j, j < i → ¬ k < b.keys.getD j 0) →
          descentPath t k (f + 1) n = n :: descentPath t k f (b.ptrs.getD i 0) →
          ∃ (rest : List Nat) (A : Nat) (leaf : BTreeNode),
            descentPath t k (f + 1) n = n :: rest ∧ rest.length < h + 1 ∧
            (∀ x ∈ rest, ∃ h' lo' hi', h' < h + 1 ∧
              wellFormedFrom t.buffercache.blocks h' x lo' hi' = true) ∧
            rootToLeaf t.buffercache.blocks (n :: rest) = true ∧
            (n :: rest).getLast? = some A ∧ t.buffercache.blocks[A]? = some leaf ∧
            leaf.info.nodetype = NodeType.BTREE_LEAF_NODE ∧ keysAscending leaf = true ∧
            leaf.info.numkeys ≤ leaf.vals.length ∧
            (containsFrom t.buffercache.blocks k (h + 1) n = true ↔
              ∃ i < leaf.info.numkeys, leaf.keys.getD i 0 = k) := by
        intro i hi1 hi2 hi3 hd
        obtain ⟨rest, A, leaf, hr1, hr2, hr3, hr4, hr5, hr6, hr7, hr8, hr9, hr10⟩ :=
          ih (b.ptrs.getD i 0) _ _ f (hch i hi1) (by omega)
        have huniq : ∀ j, j ≤ b.info.numkeys →
            containsFrom t.buffercache.blocks k h (b.ptrs.getD j 0) = true → j = i :=
          fun j hj hc => child_unique hasc hi1 hi2 hi3 hj (contains_within _ _ _ _ (hch j hj) hc)
        refine ⟨b.ptrs.getD i 0 :: rest, A, leaf, by rw [hd, hr1], by
          simp only [List.length_cons]; omega, ?_, ?_, ?_, hr6, hr7, hr8, hr9, ?_⟩
        · intro x hx
          rcases List.mem_cons.1 hx with e | hx'
          · rw [e]
            exact ⟨h, _, _, Nat.lt_succ_self _, hch i hi1⟩
          · obtain ⟨h', lo', hi', hlt, hw⟩ := hr3 x hx'
            exact ⟨h', lo', hi', by omega, hw⟩
        · show (isChildOf t.buffercache.blocks n (b.ptrs.getD i 0) &&
            rootToLeaf t.buffercache.blocks (b.ptrs.getD i 0 :: rest)) = true
          rw [isChildOf_of_ptr hb hty hi1, hr4]
          rfl
        · rw [List.getLast?_cons_cons]
          exact hr5
        · rw [← hr10]
          constructor
          · intro hc
            obtain ⟨j, hj1, hj2⟩ := (containsFrom_succ_interior hb hl hty).1 hc
            have := huniq j hj1 hj2
            subst this
            exact hj2
          · intro hc
            exact (containsFrom_succ_interior hb hl hty).2 ⟨i, hi1, hc⟩
      have hd := @descentPath_succ_interior t k f n b hb hty
      rcases interiorScan_spec b k b.info.numkeys 0 hok with ⟨i, h1, _, h3, h4, h5⟩ | ⟨h1, h2⟩
      · rw [h1] at hd
        simp only [hptr i (by omega)] at hd
        exact key i (by omega) (fun _ => h4) (fun j hj => h5 j (Nat.zero_le _) hj) hd
      · rw [h1] at hd
        simp only [hpos, if_true, hptr _ (le_refl _), gt_iff_lt] at hd
        exact key _ (le_refl _) (fun hlt => absurd hlt (lt_irrefl _))
          (fun j hj => h2 j (Nat.zero_le _) (by omega)) hd

/-- The descent from the head of a subtree in search-tree order does not come back to it. -/
theorem descentPath_acyclic (t : BTreeIndex) (k : Nat) (fuel : Nat) :
    ∀ (h n : Nat) (lo hi : Option Nat),
      wellFormedFrom t.buffercache.blocks h n lo hi = true → h ≤ fuel →
      n ∉ (descentPath t k fuel n).tail := by
  intro h
  induction h using Nat.strong_induction_on with
  | _ h ih =>
    intro n lo hi hwf hfuel hmem
    obtain ⟨rest, A, leaf, hr1, hr2, hr3, -⟩ := descentPath_wellFormed t k h n lo hi fuel hwf hfuel
    rw [hr1] at hmem
    obtain ⟨h', lo', hi', hlt, hw⟩ := hr3 n hmem
    apply ih h' hlt n lo' hi' hw (by omega)
    rw [hr1]
    exact hmem

/-- The traversal from the root of a tree in search-tree order of at most `h` levels: it
returns, the index is unchanged, the path it records starts with the root block, does not
come back to it, descends from child to child and ends at a leaf, and the return code says
whether that leaf holds the key. -/
theorem traversal_wellFormed (t : BTreeIndex) (k h fuel v0 : Nat)
    (hwf : wellFormedFrom t.buffercache.blocks h t.superblock.info.rootnode none none = true)
    (hfuel : h ≤ fuel) :
    ∃ (rest : List Nat) (A : Nat) (leaf : BTreeNode) (rc : ERROR_T) (v : Nat),
      LookupOrUpdateInternal t BTreeOp.BTREE_OP_LOOKUP k fuel t.superblock.info.rootnode v0 [] =
        Except.ok (rc, v, t.superblock.info.rootnode :: rest, t) ∧
      descentPath t k fuel t.superblock.info.rootnode = t.superblock.info.rootnode :: rest ∧
      t.superblock.info.rootnode ∉ rest ∧ rest.length < h ∧
      rootToLeaf t.buffercache.blocks (t.superblock.info.rootnode :: rest) = true ∧
      (t.superblock.info.rootnode :: rest).getLast? = some A ∧
      t.buffercache.blocks[A]? = some leaf ∧
      leaf.info.nodetype = NodeType.BTREE_LEAF_NODE ∧ keysAscending leaf = true ∧
      leaf.info.numkeys ≤ leaf.vals.length ∧
      ((∃ i < leaf.info.numkeys, leaf.keys.getD i 0 = k) → rc = ERROR_T.ERROR_NOERROR) ∧
      ((∀ i < leaf.info.numkeys, leaf.keys.getD i 0 ≠ k) → rc = ERROR_T.ERROR_NONEXISTENT) := by
  obtain ⟨rest, A, leaf, hr1, hr2, -, hr4, hr5, hr6, hr7, hr8, hr9, hr10⟩ :=
    descentPath_wellFormed t k h _ _ _ fuel hwf hfuel
  have hac := descentPath_acyclic t k fuel h _ _ _ hwf hfuel
  have hloc := locate_wellFormed t k h _ _ _ fuel hwf hfuel
  have hll := lookup_locate t k fuel t.superblock.info.rootnode v0 []
  have hlocok : ∃ w, locate t k fuel t.superblock.info.rootnode = Except.ok w ∧
      ((∃ i < leaf.info.numkeys, leaf.keys.getD i 0 = k) →
        (lookupOutcome t v0 w).1 = ERROR_T.ERROR_NOERROR) ∧
      ((∀ i < leaf.info.numkeys, leaf.keys.getD i 0 ≠ k) → w = Sum.inl ERROR_T.ERROR_NONEXISTENT) := by
    cases hc : containsFrom t.buffercache.blocks k h t.superblock.info.rootnode with
    | true =>
      obtain ⟨m, offset, b, h1, h2, h3⟩ := hloc.1 hc
      refine ⟨_, h1, ?_, ?_⟩
      · intro _
        simp only [lookupOutcome, h2]
      · intro hne
        obtain ⟨i, hi1, hi2⟩ := hr10.1 hc
        exact absurd hi2 (hne i hi1)
    | false =>
      refine ⟨_, hloc.2 hc, ?_, fun _ => rfl⟩
      intro hex
      have := hr10.2 hex
      rw [hc] at this
      cases this
  obtain ⟨w, hw1, hw2, hw3⟩ := hlocok
  rw [hw1] at hll
  cases hL : LookupOrUpdateInternal t BTreeOp.BTREE_OP_LOOKUP k fuel
      t.superblock.info.rootnode v0 [] with
  | error f =>
    rw [hL] at hll
    cases hll
  | ok r =>
    rw [hL] at hll
    have hpath := traversal_path t BTreeOp.BTREE_OP_LOOKUP k fuel _ v0 [] r hL hac
    rw [if_pos rfl, hr1] at hpath
    simp only [List.nil_append, List.tail_cons, List.singleton_append] at hpath
    injection hll with hll
    obtain ⟨rc, v, p, t'⟩ := r
    simp only [Prod.mk.injEq] at hll
    obtain ⟨e1, e2, e3⟩ := hll
    simp only at hpath
    subst hpath
    subst e3
    rw [hr1] at hac
    refine ⟨rest, A, leaf, rc, v, rfl, hr1, hac, hr2, hr4, hr5, hr6, hr7, hr8, hr9, ?_, ?_⟩
    · intro hex
      rw [e1]
      exact hw2 hex
    · intro hne
      rw [e1, hw3 hne]
      rfl

/-! ## The scan of `insert_Not_Full` -/

/-- The scan of `insert_Not_Full` from `offset` on a leaf whose last slot is the one just
added: when the keys before index `j` are below the new key and the keys from `j` on above
it, the new entry goes to index `j`, the later entries move one slot up, and the leaf is
written to its block. -/
theorem insertLeafLoop_spec (t : BTreeIndex) (Address key value j : Nat)
    (hA : Address < t.buffercache.blocks.length) :
    ∀ (count offset : Nat) (node : BTreeNode),
      node.info.nodetype = NodeType.BTREE_LEAF_NODE →
      offset + count + 1 = node.info.numkeys → 1 ≤ count → offset ≤ j →
      j + 1 ≤ node.info.numkeys →
      (∀ i, i < j → node.keys.getD i 0 < key) →
      (∀ i, j ≤ i → i + 1 < node.info.numkeys → key < node.keys.getD i 0) →
      node.info.numkeys ≤ node.keys.length → node.info.numkeys ≤ node.vals.length →
      ∃ F : BTreeNode,
        insertLeafLoop t Address key value count offset offset node =
          Except.ok (none, F, { t with buffercache := (F.Serialize t.buffercache Address).2 }) ∧
        F.info = node.info ∧ F.ptrs = node.ptrs ∧
        (∀ p, F.keys.getD p 0 =
          if p < j then node.keys.getD p 0 else if p = j then key
          else if p < node.info.numkeys then node.keys.getD (p - 1) 0
          else node.keys.getD p 0) ∧
        (∀ p, F.vals.getD p 0 =
          if p < j then node.vals.getD p 0 else if p = j then value
          else if p < node.info.numkeys then node.vals.getD (p - 1) 0
          else node.vals.getD p 0) := by
  intro count
  induction count with
  | zero =>
    intro offset node _ _ h _ _ _ _ _ _
    omega
  | succ c ih =>
    intro offset node hty hnum _ hoj hj hlo hhi hk hv
    have hG : node.GetKey offset = Except.ok (node.keys.getD offset 0) :=
      GetKey_of_lt (by rw [hty]; rfl) (by omega)
    by_cases hoff : offset = j
    · subst hoff
      have hlt : key < node.keys.getD offset 0 := hhi offset (Nat.le_refl _) (by omega)
      obtain ⟨r, hr1, hr2, hr3, hr4, hr5, hr6, hr7⟩ :=
        shiftLeaf_spec (node.info.numkeys - 1 - offset) (node.info.numkeys - 1) node hty
          (by omega) (by omega) (by omega) (by omega)
      have hrty : r.info.nodetype = NodeType.BTREE_LEAF_NODE := by rw [hr2]; exact hty
      have hko : r.keyOk offset = true := leaf_keyOk hrty (by rw [hr2]; omega)
      have hvo : ({ r with keys := r.keys.set offset key } : BTreeNode).valOk offset = true :=
        @valOk_of_lt { r with keys := r.keys.set offset key } hrty _
          (by show offset < r.info.numkeys; rw [hr2]; omega)
      refine ⟨{ r with keys := r.keys.set offset key, vals := r.vals.set offset value },
        ?_, hr2, hr3, ?_, ?_⟩
      · unfold insertLeafLoop
        rw [hG]
        simp only [bind, Except.bind, orUndefined]
        rw [if_pos hlt, hr1]
        dsimp only
        rw [SetKey_of_ok hko, SetVal_of_ok hvo]
        rw [if_neg (by rw [Serialize_fst _ _ _ hA]; exact fun h => h rfl)]
      · intro p
        show (r.keys.set offset key).getD p 0 = _
        by_cases hpj : p = offset
        · subst hpj
          rw [if_neg (by omega), if_pos rfl]
          exact getD_set_self (by rw [hr4]; omega) _ _
        · rw [getD_set_ne (fun e => hpj e.symm), hr6 p]
          by_cases hplt : p < offset
          · rw [if_pos hplt, if_neg (by omega)]
          · rw [if_neg hplt, if_neg hpj]
            by_cases hpn : p < node.info.numkeys
            · rw [if_pos hpn, if_pos (by omega)]
            · rw [if_neg hpn, if_neg (by omega)]
      · intro p
        show (r.vals.set offset value).getD p 0 = _
        by_cases hpj : p = offset
        · subst hpj
          rw [if_neg (by omega), if_pos rfl]
          exact getD_set_self (by rw [hr5]; omega) _ _
        · rw [getD_set_ne (fun e => hpj e.symm), hr7 p]
          by_cases hplt : p < offset
          · rw [if_pos hplt, if_neg (by omega)]
          · rw [if_neg hplt, if_neg hpj]
            by_cases hpn : p < node.info.numkeys
            · rw [if_pos hpn, if_pos (by omega)]
            · rw [if_neg hpn, if_neg (by omega)]
    · have hoj' : offset < j := by omega
      have hlt : node.keys.getD offset 0 < key := hlo offset hoj'
      by_cases hc : c = 0
      · subst hc
        have hjn : j = node.info.numkeys - 1 := by omega
        have hko : node.keyOk (node.info.numkeys - 1) = true := leaf_keyOk hty (by omega)
        have hvo : ({ node with keys := node.keys.set (node.info.numkeys - 1) key } :
            BTreeNode).valOk (node.info.numkeys - 1) = true :=
          @valOk_of_lt { node with keys := node.keys.set (node.info.numkeys - 1) key } hty _
            (by show node.info.numkeys - 1 < node.info.numkeys; omega)
        refine ⟨{ node with
                  keys := node.keys.set (node.info.numkeys - 1) key
                  vals := node.vals.set (node.info.numkeys - 1) value },
          ?_, rfl, rfl, ?_, ?_⟩
        · unfold insertLeafLoop
          rw [hG]
          simp only [bind, Except.bind, orUndefined]
          rw [if_neg (by omega), if_neg (by omega), if_pos (by omega)]
          rw [SetKey_of_ok hko, SetVal_of_ok hvo]
          rw [if_neg (by rw [Serialize_fst _ _ _ hA]; exact fun h => h rfl)]
        · intro p
          show (node.keys.set (node.info.numkeys - 1) key).getD p 0 = _
          by_cases hpj : p = j
          · subst hpj
            rw [if_neg (by omega), if_pos rfl, hjn]
            exact getD_set_self (by omega) _ _
          · rw [getD_set_ne (by omega)]
            by_cases hplt : p < j
            · rw [if_pos hplt]
            · rw [if_neg hplt, if_neg hpj, if_neg (by omega)]
        · intro p
          show (node.vals.set (node.info.numkeys - 1) value).getD p 0 = _
          by_cases hpj : p = j
          · subst hpj
            rw [if_neg (by omega), if_pos rfl, hjn]
            exact getD_set_self (by omega) _ _
          · rw [getD_set_ne (by omega)]
            by_cases hplt : p < j
            · rw [if_pos hplt]
            · rw [if_neg hplt, if_neg hpj, if_neg (by omega)]
      · obtain ⟨F, hF1, hF⟩ := ih (offset + 1) node hty (by omega) (by omega) (by omega) hj
          hlo hhi hk hv
        refine ⟨F, ?_, hF⟩
        unfold insertLeafLoop
        rw [hG]
        simp only [bind, Except.bind, orUndefined]
        rw [if_neg (by omega), if_neg (by omega), if_neg (by omega)]
        exact hF1

/-- The sorted position of an absent key among ascending keys. -/
theorem sorted_position (b : BTreeNode) (k : Nat) (hasc : keysAscending b = true)
    (habs : ∀ i, i < b.info.numkeys → b.keys.getD i 0 ≠ k) :
    ∃ j, j ≤ b.info.numkeys ∧ (∀ i, i < j → b.keys.getD i 0 < k) ∧
      (∀ i, j ≤ i → i < b.info.numkeys → k < b.keys.getD i 0) := by
  by_cases hex : ∃ i, i < b.info.numkeys ∧ k < b.keys.getD i 0
  · refine ⟨Nat.find hex, Nat.le_of_lt (Nat.find_spec hex).1, ?_, ?_⟩
    · intro i hi
      have hnot := Nat.find_min hex hi
      have hin : i < b.info.numkeys := Nat.lt_trans hi (Nat.find_spec hex).1
      have hne := habs i hin
      have : ¬ k < b.keys.getD i 0 := fun hlt => hnot ⟨hin, hlt⟩
      omega
    · intro i hji hin
      by_cases e : i = Nat.find hex
      · rw [e]; exact (Nat.find_spec hex).2
      · exact Nat.lt_trans (Nat.find_spec hex).2
          (keysAscending_lt hasc (show Nat.find hex < i by omega) hin)
  · refine ⟨b.info.numkeys, Nat.le_refl _, ?_, fun i h1 h2 => by omega⟩
    intro i hi
    have hne := habs i hi
    have : ¬ k < b.keys.getD i 0 := fun hlt => hex ⟨i, hi, hlt⟩
    omega

/-- What `insert_Not_Full` does with a leaf of ascending keys that has a free slot, when
the keys before index `j` are below the new key and the keys from `j` on above it. -/
theorem insert_Not_Full_spec (t : BTreeIndex) (Address : Nat) (b : BTreeNode)
    (key value j : Nat) (hty : b.info.nodetype = NodeType.BTREE_LEAF_NODE)
    (hn : 1 ≤ b.info.numkeys) (hj : j ≤ b.info.numkeys)
    (hlo : ∀ i, i < j → b.keys.getD i 0 < key)
    (hhi : ∀ i, j ≤ i → i < b.info.numkeys → key < b.keys.getD i 0)
    (hk : b.info.numkeys + 1 ≤ b.keys.length) (hv : b.info.numkeys + 1 ≤ b.vals.length)
    (hA : Address < t.buffercache.blocks.length) :
    ∃ F : BTreeNode,
      insert_Not_Full t Address b key value =
        Except.ok (none, F, { t with buffercache := (F.Serialize t.buffercache Address).2 }) ∧
      F.info = { b.info with numkeys := b.info.numkeys + 1 } ∧
      (∀ p, F.keys.getD p 0 =
        if p < j then b.keys.getD p 0 else if p = j then key
        else if p < b.info.numkeys + 1 then b.keys.getD (p - 1) 0
        else b.keys.getD p 0) ∧
      (∀ p, F.vals.getD p 0 =
        if p < j then b.vals.getD p 0 else if p = j then value
        else if p < b.info.numkeys + 1 then b.vals.getD (p - 1) 0
        else b.vals.getD p 0) := by
  obtain ⟨F, hF1, hF2, -, hF4, hF5⟩ :=
    insertLeafLoop_spec t Address key value j hA (b.incNumkeys.info.numkeys - 1) 0
      b.incNumkeys hty
      (by show 0 + (b.info.numkeys + 1 - 1) + 1 = b.info.numkeys + 1; omega)
      (by show 1 ≤ b.info.numkeys + 1 - 1; omega) (Nat.zero_le _)
      (by show j + 1 ≤ b.info.numkeys + 1; omega) hlo
      (fun i h1 h2 => hhi i h1 (by
        have : i + 1 < b.info.numkeys + 1 := h2
        omega)) hk hv
  exact ⟨F, hF1, hF2, hF4, hF5⟩

/-! ## Insert below the split threshold -/

theorem Unserialize_of_getElem? {c : BufferCache} {n : Nat} {b : BTreeNode}
    (h : c.blocks[n]? = some b) : BTreeNode.Unserialize c n = Except.ok b := by
  simp only [BTreeNode.Unserialize, h]

theorem set_of_getElem? {α : Type} {l : List α} {i : Nat} {a : α} (h : l[i]? = some a) :
    l.set i a = l := by
  apply List.ext_getElem?
  intro j
  by_cases e : i = j
  · subst e
    rw [List.getElem?_set_self (List.getElem?_eq_some_iff.1 h).1, h]
  · rw [List.getElem?_set_ne e]

theorem lt_length_of_getElem? {α : Type} {l : List α} {i : Nat} {a : α} (h : l[i]? = some a) :
    i < l.length := (List.getElem?_eq_some_iff.1 h).1

/-- What `Insert` does with an absent key in a tree in search-tree order whose target leaf
stays below the split threshold: the root block is written back as it was, the leaf gets
the new entry at index `j` and is written to its block. -/
theorem Insert_spec_below (G : SlotGeometry) (fuel : Nat) (t : BTreeIndex) (k v h A : Nat)
    (leaf : BTreeNode)
    (hwf : wellFormedFrom t.buffercache.blocks h t.superblock.info.rootnode none none = true)
    (hfuel : h ≤ fuel)
    (habs : containsFrom t.buffercache.blocks k h t.superblock.info.rootnode = false)
    (hA : (descentPath t k fuel t.superblock.info.rootnode).getLast? = some A)
    (hleaf : t.buffercache.blocks[A]? = some leaf)
    (hn1 : 1 ≤ leaf.info.numkeys)
    (hn2 : leaf.info.numkeys + 1 < G.GetNumSlotsAsLeaf leaf.info)
    (hk : leaf.info.numkeys + 1 ≤ leaf.keys.length)
    (hv : leaf.info.numkeys + 1 ≤ leaf.vals.length) :
    ∃ (j : Nat) (F : BTreeNode), j ≤ leaf.info.numkeys ∧
      (∀ i, i < j → leaf.keys.getD i 0 < k) ∧
      (∀ i, j ≤ i → i < leaf.info.numkeys → k < leaf.keys.getD i 0) ∧
      keysAscending leaf = true ∧
      Insert G fuel t k v =
        Except.ok (none,
          { t with
            buffercache :=
              { t.buffercache with
                blocks := t.buffercache.blocks.set A F
                log := t.buffercache.log ++
                  [CacheEvent.write t.superblock.info.rootnode, CacheEvent.write A] } }) ∧
      F.info = { leaf.info with numkeys := leaf.info.numkeys + 1 } ∧
      F.ptrs = leaf.ptrs ∧
      (∀ p, F.keys.getD p 0 =
        if p < j then leaf.keys.getD p 0 else if p = j then k
        else if p < leaf.info.numkeys + 1 then leaf.keys.getD (p - 1) 0
        else leaf.keys.getD p 0) ∧
      (∀ p, F.vals.getD p 0 =
        if p < j then leaf.vals.getD p 0 else if p = j then v
        else if p < leaf.info.numkeys + 1 then leaf.vals.getD (p - 1) 0
        else leaf.vals.getD p 0) := by
  obtain ⟨rest, A', leaf', rc, v', hL, hd, hroot, -, hrl, hlast, hleaf', hty, hasc, -, -, hmiss⟩ :=
    traversal_wellFormed t k h fuel 0 hwf hfuel
  obtain ⟨rest2, A2, leaf2, hd2, -, -, -, hlast2, hleaf2, -, -, -, hiff⟩ :=
    descentPath_wellFormed t k h _ _ _ fuel hwf hfuel
  -- the leaf at the end of the path
  rw [hd] at hA hd2
  have hrest : rest = rest2 := List.tail_eq_of_cons_eq hd2
  subst hrest
  have eA : A = A' := by
    rw [hlast] at hA
    injection hA with e
    exact e.symm
  subst eA
  have el : leaf = leaf' := by
    rw [hleaf'] at hleaf
    injection hleaf with e
    exact e.symm
  subst el
  have eA2 : A = A2 := by
    rw [hlast] at hlast2
    injection hlast2
  subst eA2
  have el2 : leaf = leaf2 := by
    rw [hleaf] at hleaf2
    injection hleaf2
  subst el2
  have hnot : ∀ i < leaf.info.numkeys, leaf.keys.getD i 0 ≠ k := by
    intro i hi e
    have := hiff.2 ⟨i, hi, e⟩
    rw [habs] at this
    cases this
  have hrc := hmiss hnot
  subst hrc
  obtain ⟨j, hj1, hj2, hj3⟩ := sorted_position leaf k hasc hnot
  -- the root block
  obtain ⟨h0, rfl⟩ : ∃ h0, h = h0 + 1 := by
    cases h with
    | zero => simp [wellFormedFrom] at hwf
    | succ h0 => exact ⟨h0, rfl⟩
  obtain ⟨rootNode, hrb, -, -, hcase⟩ := wellFormedFrom_succ hwf
  have hAlen : A < t.buffercache.blocks.length := lt_length_of_getElem? hleaf'
  have hRlen : t.superblock.info.rootnode < t.buffercache.blocks.length :=
    lt_length_of_getElem? hrb
  have hstored : rootNode.stored = rootNode := by
    rcases hcase with ⟨hl, -⟩ | ⟨-, hi, -, -⟩
    · exact stored_of_leaf ((isLeaf_iff _).1 hl)
    · exact stored_of_interior hi
  have hrootkeys : rootNode.info.numkeys ≠ 0 := by
    rcases hcase with ⟨hl, -⟩ | ⟨hl, hi, hpos, -⟩
    · -- a root that is a leaf is the target leaf
      cases rest with
      | nil =>
        simp only [List.getLast?_singleton, Option.some.injEq] at hlast
        rw [hlast, hleaf'] at hrb
        injection hrb with e
        rw [← e]
        omega
      | cons y ys =>
        have hc : isChildOf t.buffercache.blocks t.superblock.info.rootnode y = true := by
          have := hrl
          simp only [rootToLeaf, Bool.and_eq_true] at this
          exact this.1
        unfold isChildOf at hc
        rw [hrb] at hc
        simp only [isLeaf_not_isInterior hl, Bool.false_and] at hc
        cases hc
    · omega
  have hblocks1 : (rootNode.Serialize t.buffercache t.superblock.info.rootnode).2 =
      { t.buffercache with
        log := t.buffercache.log ++ [CacheEvent.write t.superblock.info.rootnode] } := by
    rw [Serialize_ok _ _ _ hRlen, hstored, set_of_getElem? hrb]
  obtain ⟨F, hF1, hF2, hF3, hF4⟩ :=
    insert_Not_Full_spec
      { t with
        buffercache :=
          { t.buffercache with
            log := t.buffercache.log ++ [CacheEvent.write t.superblock.info.rootnode] } }
      A leaf k v j hty hn1 hj1 hj2 hj3 hk hv hAlen
  have hFty : F.info.nodetype = NodeType.BTREE_LEAF_NODE := by rw [hF2]; exact hty
  have hFptrs : F.ptrs = leaf.ptrs := by
    obtain ⟨F', hF1', -, hp, -, -⟩ :=
      insertLeafLoop_spec
        { t with
          buffercache :=
            { t.buffercache with
              log := t.buffercache.log ++ [CacheEvent.write t.superblock.info.rootnode] } }
        A k v j hAlen (leaf.incNumkeys.info.numkeys - 1) 0 leaf.incNumkeys hty
        (by show 0 + (leaf.info.numkeys + 1 - 1) + 1 = leaf.info.numkeys + 1; omega)
        (by show 1 ≤ leaf.info.numkeys + 1 - 1; omega) (Nat.zero_le _)
        (by show j + 1 ≤ leaf.info.numkeys + 1; omega) hj2
        (fun i h1 h2 => hj3 i h1 (by
          have : i + 1 < leaf.info.numkeys + 1 := h2
          omega)) hk hv
    have e := hF1.symm.trans hF1'
    injection e with e
    injection e with _ e
    injection e with e _
    rw [e]
    exact hp
  have run : ∀ res, Insert G fuel t k v = res →
      res = Except.ok (none,
        { t with
          buffercache :=
            { t.buffercache with
              blocks := t.buffercache.blocks.set A F
              log := t.buffercache.log ++
                [CacheEvent.write t.superblock.info.rootnode, CacheEvent.write A] } }) := by
    intro res hres
    unfold Insert at hres
    rw [hL] at hres
    simp only [Unserialize_of_getElem? hrb, hblocks1, decide_eq_false_iff_not, ne_eq,
      hrootkeys, not_false_eq_true, not_true_eq_false, if_false] at hres
    unfold insertTail at hres
    rw [hlast] at hres
    simp only [assigned, bind, Except.bind] at hres
    rw [Unserialize_of_getElem? (show ({ t.buffercache with
        log := t.buffercache.log ++ [CacheEvent.write t.superblock.info.rootnode] } :
        BufferCache).blocks[A]? = some leaf from hleaf')] at hres
    simp only [orUndefined] at hres
    rw [if_neg (by omega), hF1] at hres
    simp only [] at hres
    rw [← hres,
      Serialize_ok F
        { t.buffercache with
          log := t.buffercache.log ++ [CacheEvent.write t.superblock.info.rootnode] } A hAlen,
      stored_of_leaf hFty]
    simp
  exact ⟨j, F, hj1, hj2, hj3, hasc, run _ rfl, hF2, hFptrs, hF3, hF4⟩

/-- Keys stay ascending when a key is put in between its neighbours. -/
theorem keysAscending_insert {b F : BTreeNode} {k j : Nat}
    (hasc : keysAscending b = true) (hn : F.info.numkeys = b.info.numkeys + 1)
    (hj : j ≤ b.info.numkeys) (hlo : ∀ i, i < j → b.keys.getD i 0 < k)
    (hhi : ∀ i, j ≤ i → i < b.info.numkeys → k < b.keys.getD i 0)
    (hF : ∀ p, F.keys.getD p 0 =
      if p < j then b.keys.getD p 0 else if p = j then k
      else if p < b.info.numkeys + 1 then b.keys.getD (p - 1) 0
      else b.keys.getD p 0) : keysAscending F = true := by
  unfold keysAscending
  apply decide_eq_true
  intro q hq p hpq
  rw [hn] at hq
  rw [hF p, hF q]
  by_cases hq1 : q < j
  · rw [if_pos hq1, if_pos (by omega)]
    exact keysAscending_lt hasc hpq (by omega)
  · rw [if_neg hq1]
    by_cases hq2 : q = j
    · rw [if_pos hq2, if_pos (by omega)]
      exact hlo p (by omega)
    · rw [if_neg hq2, if_pos hq]
      by_cases hp1 : p < j
      · rw [if_pos hp1]
        exact keysAscending_lt hasc (by omega) (by omega)
      · rw [if_neg hp1]
        by_cases hp2 : p = j
        · rw [if_pos hp2]
          exact hhi (q - 1) (by omega) (by omega)
        · rw [if_neg hp2, if_pos (by omega)]
          exact keysAscending_lt hasc (by omega) (by omega)

theorem entries_mem {b : BTreeNode} {e : Nat × Nat} (h : e ∈ entries b) :
    ∃ i, i < b.info.numkeys ∧ e = (b.keys.getD i 0, b.vals.getD i 0) := by
  unfold entries at h
  obtain ⟨i, hi, he⟩ := List.mem_map.1 h
  exact ⟨i, List.mem_range.1 hi, he.symm⟩

/-! ## The upward propagation, one activation at a time -/

/-- The function `split_Internal` in terms of its activations. -/
theorem split_InternalAux_succ (G : SlotGeometry) (n : Nat) (t : BTreeIndex)
    (pointer : List Nat) (left right key : Nat) :
    split_InternalAux G (n + 1) t pointer left right key 0 =
      match split_InternalStep G t pointer left right key with
      | Except.error f => Except.error f
      | Except.ok (Sum.inl res) => Except.ok res
      | Except.ok (Sum.inr next) =>
        match split_InternalAux G n next.1 next.2.1 next.2.2.1 next.2.2.2.1 next.2.2.2.2 0 with
        | Except.error f => Except.error f
        | Except.ok r => Except.ok (none, r.2.1, r.2.2) := by
  conv_lhs => unfold split_InternalAux
  unfold split_InternalStep
  simp only [if_pos, bind, Except.bind]
  cases hA : assigned pointer.getLast? with
  | error f => rfl
  | ok Address =>
    simp only []
    cases hN : orUndefined (BTreeNode.Unserialize t.buffercache Address) with
    | error f => rfl
    | ok Temp_Node =>
      simp only []
      by_cases hth : Temp_Node.info.numkeys + 1 = G.GetNumSlotsAsInterior Temp_Node.info
      · simp only [if_pos hth]
        by_cases hr : Address = t.superblock.info.rootnode
        · simp only [hr, ne_eq, not_true_eq_false, if_false]
          cases hi : insert_Not_Full_Internal t t.superblock.info.rootnode Temp_Node left right
              key with
          | error f => rfl
          | ok i =>
            simp only []
            cases hs : split_Internal_Full G i.2.2 i.2.1 with
            | error f => rfl
            | ok sr =>
              simp only []
              cases hk : assigned sr.Key with
              | error f => rfl
              | ok k => rfl
        · simp only [ne_eq, hr, not_false_eq_true, if_true]
          cases hi : insert_Not_Full_Internal t Address Temp_Node left right key with
          | error f => rfl
          | ok i =>
            simp only []
            cases hs : split_Internal_Full G i.2.2 i.2.1 with
            | error f => rfl
            | ok sr =>
              simp only []
              cases hk : assigned sr.Key with
              | error f => rfl
              | ok k =>
                simp only []
                cases split_InternalAux G n sr.index pointer.dropLast sr.left sr.right k 0 <;> rfl
      · simp only [if_neg hth]
        cases hi : insert_Not_Full_Internal t Address Temp_Node left right key with
        | error f => rfl
        | ok i => rfl

theorem orUndefined_not_fuel {α : Type} (x : Except ERROR_T α) :
    orUndefined x ≠ Except.error Fault.fuel := by
  cases x <;> intro h <;> cases h

theorem assigned_not_fuel {α : Type} (x : Option α) :
    assigned x ≠ Except.error Fault.fuel := by
  cases x <;> intro h <;> cases h

theorem AllocateNode_rootnode {t : BTreeIndex} {a : ERROR_T × Nat × BTreeIndex}
    (h : AllocateNode t = Except.ok a) :
    a.2.2.superblock.info.rootnode = t.superblock.info.rootnode := by
  unfold AllocateNode at h
  simp only [] at h
  split at h
  · injection h with h
    rw [← h]
  · split at h
    · cases h
    · split at h
      · cases h
      · injection h with h
        rw [← h]

theorem AllocateNode_not_fuel (t : BTreeIndex) :
    AllocateNode t ≠ Except.error Fault.fuel := by
  intro h
  unfold AllocateNode at h
  simp only [] at h
  split at h
  · cases h
  · split at h
    · cases h
    · split at h <;> cases h

theorem shiftInterior_not_fuel :
    ∀ (count i : Nat) (node : BTreeNode),
      shiftInterior count i node ≠ Except.error Fault.fuel := by
  intro count
  induction count with
  | zero => intro i node h; cases h
  | succ n ih =>
    intro i node h
    unfold shiftInterior at h
    simp only [bind, Except.bind] at h
    cases hk : orUndefined (node.GetKey (i - 1)) with
    | error f =>
      rw [hk] at h
      injection h with h
      subst h
      exact orUndefined_not_fuel _ hk
    | ok k =>
      rw [hk] at h
      simp only [] at h
      cases hp : orUndefined ((node.SetKey i k).2.GetPtr i) with
      | error f =>
        rw [hp] at h
        injection h with h
        subst h
        exact orUndefined_not_fuel _ hp
      | ok p =>
        rw [hp] at h
        exact ih _ _ h

theorem insertInteriorLoop_run (t : BTreeIndex) (Address left right key : Nat) :
    ∀ (count offset counter : Nat) (node : BTreeNode),
      insertInteriorLoop t Address left right key count offset counter node
          ≠ Except.error Fault.fuel ∧
        ∀ r, insertInteriorLoop t Address left right key count offset counter node
            = Except.ok r →
          r.2.2.superblock = t.superblock := by
  intro count
  induction count with
  | zero =>
    intro offset counter node
    refine ⟨(fun h => by cases h), fun r h => ?_⟩
    injection h with h
    rw [← h]
  | succ n ih =>
    intro offset counter node
    unfold insertInteriorLoop
    simp only [bind, Except.bind]
    cases hk : orUndefined (node.GetKey offset) with
    | error f =>
      refine ⟨fun h => ?_, fun r h => by cases h⟩
      injection h with h
      subst h
      exact orUndefined_not_fuel _ hk
    | ok testkey =>
      simp only []
      split
      · cases hs : shiftInterior (node.info.numkeys - 1 - offset) (node.info.numkeys - 1) node with
        | error f =>
          refine ⟨fun h => ?_, fun r h => by cases h⟩
          injection h with h
          subst h
          exact shiftInterior_not_fuel _ _ _ hs
        | ok node' =>
          simp only []
          split
          · refine ⟨(fun h => by cases h), fun r h => ?_⟩
            injection h with h
            rw [← h]
          · refine ⟨(fun h => by cases h), fun r h => ?_⟩
            injection h with h
            rw [← h]
      · split
        · refine ⟨(fun h => by cases h), fun r h => ?_⟩
          injection h with h
          rw [← h]
        · split
          · split
            · refine ⟨(fun h => by cases h), fun r h => ?_⟩
              injection h with h
              rw [← h]
            · refine ⟨(fun h => by cases h), fun r h => ?_⟩
              injection h with h
              rw [← h]
          · exact ih _ _ _

theorem splitInteriorLoop_not_fuel (Node : BTreeNode) (base : Nat) :
    ∀ (count offset : Nat) (dst : BTreeNode),
      splitInteriorLoop Node base count offset dst ≠ Except.error Fault.fuel := by
  intro count
  induction count with
  | zero => intro offset dst h; cases h
  | succ n ih =>
    intro offset dst h
    unfold splitInteriorLoop at h
    split at h
    · cases h
    · split at h
      · cases h
      · simp only [] at h
        split at h
        · cases h
        · exact ih _ _ h

theorem split_Internal_Full_run (G : SlotGeometry) (t : BTreeIndex) (Node : BTreeNode) :
    split_Internal_Full G t Node ≠ Except.error Fault.fuel ∧
      ∀ sr, split_Internal_Full G t Node = Except.ok sr →
        sr.index.superblock.info.rootnode = t.superblock.info.rootnode := by
  unfold split_Internal_Full
  simp only [bind, Except.bind]
  cases hA1 : AllocateNode t with
  | error f =>
    refine ⟨fun h => ?_, fun sr h => by cases h⟩
    injection h with h
    subst h
    exact AllocateNode_not_fuel _ hA1
  | ok a1 =>
    have hr1 := AllocateNode_rootnode hA1
    simp only []
    split
    · refine ⟨(fun h => by cases h), fun sr h => ?_⟩
      injection h with h
      rw [← h]
      exact hr1
    · cases hA2 : AllocateNode
          { a1.2.2 with
            buffercache :=
              ((BTreeNode.new G NodeType.BTREE_INTERIOR_NODE a1.2.2.superblock.info.keysize
                a1.2.2.superblock.info.valuesize a1.2.2.superblock.info.blocksize).Serialize
                a1.2.2.buffercache a1.2.1).2 } with
      | error f =>
        refine ⟨fun h => ?_, fun sr h => by cases h⟩
        injection h with h
        subst h
        exact AllocateNode_not_fuel _ hA2
      | ok a2 =>
        have hr2 : a2.2.2.superblock.info.rootnode = t.superblock.info.rootnode :=
          (AllocateNode_rootnode hA2).trans hr1
        simp only []
        split
        · refine ⟨(fun h => by cases h), fun sr h => ?_⟩
          injection h with h
          rw [← h]
          exact hr2
        · rename_i _ Left_Internal _ _ Right_Internal _
          cases hL : splitInteriorLoop Node 0 (G.GetNumSlotsAsInterior Node.info / 2) 0
              Left_Internal with
          | error f =>
            refine ⟨fun h => ?_, fun sr h => by cases h⟩
            injection h with h
            subst h
            exact splitInteriorLoop_not_fuel _ _ _ _ _ hL
          | ok v =>
            cases v with
            | error rc =>
              refine ⟨(fun h => by cases h), fun sr h => ?_⟩
              injection h with h
              rw [← h]
              exact hr2
            | ok Left_Internal' =>
              simp only []
              cases hp : orUndefined (Node.GetPtr (G.GetNumSlotsAsInterior Node.info / 2)) with
              | error f =>
                refine ⟨fun h => ?_, fun sr h => by cases h⟩
                injection h with h
                subst h
                exact orUndefined_not_fuel _ hp
              | ok p =>
                simp only []
                cases hR : splitInteriorLoop Node (G.GetNumSlotsAsInterior Node.info / 2 + 1)
                    (G.GetNumSlotsAsInterior Node.info -
                      (G.GetNumSlotsAsInterior Node.info / 2 + 1))
                    (G.GetNumSlotsAsInterior Node.info / 2 + 1) Right_Internal with
                | error f =>
                  refine ⟨fun h => ?_, fun sr h => by cases h⟩
                  injection h with h
                  subst h
                  exact splitInteriorLoop_not_fuel _ _ _ _ _ hR
                | ok v =>
                  cases v with
                  | error rc =>
                    refine ⟨(fun h => by cases h), fun sr h => ?_⟩
                    injection h with h
                    rw [← h]
                    exact hr2
                  | ok Right_Internal' =>
                    simp only []
                    cases hq : orUndefined (Node.GetPtr (G.GetNumSlotsAsInterior Node.info)) with
                    | error f =>
                      refine ⟨fun h => ?_, fun sr h => by cases h⟩
                      injection h with h
                      subst h
                      exact orUndefined_not_fuel _ hq
                    | ok q =>
                      refine ⟨(fun h => by cases h), fun sr h => ?_⟩
                      injection h with h
                      rw [← h]
                      exact hr2

theorem insert_Not_Full_Internal_run (t : BTreeIndex) (Address : Nat) (Temp_Node : BTreeNode)
    (left right key : Nat) :
    insert_Not_Full_Internal t Address Temp_Node left right key ≠ Except.error Fault.fuel ∧
      ∀ r, insert_Not_Full_Internal t Address Temp_Node left right key = Except.ok r →
        r.2.2.superblock = t.superblock :=
  insertInteriorLoop_run t Address left right key _ _ _ _

/-- One activation of `split_Internal`: it reads the last element of its path; it goes on to
the recursive call exactly when the node there is at the split threshold and is not the
root, and then with the path shortened by that element and the same root. -/
theorem split_InternalStep_spec (G : SlotGeometry) (t : BTreeIndex) (pointer : List Nat)
    (left right key : Nat) :
    split_InternalStep G t pointer left right key ≠ Except.error Fault.fuel ∧
    ∀ out, split_InternalStep G t pointer left right key = Except.ok out →
      ∃ (A : Nat) (N : BTreeNode), pointer.getLast? = some A ∧
        t.buffercache.blocks[A]? = some N ∧
        match out with
        | Sum.inr next =>
          N.info.numkeys + 1 = G.GetNumSlotsAsInterior N.info ∧
          A ≠ t.superblock.info.rootnode ∧ next.2.1 = pointer.dropLast ∧
          next.1.superblock.info.rootnode = t.superblock.info.rootnode
        | Sum.inl res =>
          (N.info.numkeys + 1 ≠ G.GetNumSlotsAsInterior N.info ∨
            A = t.superblock.info.rootnode) ∧ res.2.1 = 1 := by
  unfold split_InternalStep
  simp only [bind, Except.bind]
  cases hA : assigned pointer.getLast? with
  | error f =>
    refine ⟨fun h => ?_, fun out h => by cases h⟩
    injection h with h
    subst h
    exact assigned_not_fuel _ hA
  | ok Address =>
    have hAd := assigned_ok hA
    simp only []
    cases hN : orUndefined (BTreeNode.Unserialize t.buffercache Address) with
    | error f =>
      refine ⟨fun h => ?_, fun out h => by cases h⟩
      injection h with h
      subst h
      exact orUndefined_not_fuel _ hN
    | ok Temp_Node =>
      have hb : t.buffercache.blocks[Address]? = some Temp_Node := by
        cases hu : BTreeNode.Unserialize t.buffercache Address with
        | error e => rw [hu] at hN; cases hN
        | ok b =>
          rw [hu] at hN
          injection hN with hN
          rw [← hN]
          exact Unserialize_ok hu
      simp only []
      obtain ⟨hi1, hi2⟩ := insert_Not_Full_Internal_run t Address Temp_Node left right key
      by_cases hth : Temp_Node.info.numkeys + 1 = G.GetNumSlotsAsInterior Temp_Node.info
      · simp only [if_pos hth]
        by_cases hr : Address = t.superblock.info.rootnode
        · simp only [hr, ne_eq, not_true_eq_false, if_false]
          rw [hr] at hi1 hi2
          cases hi : insert_Not_Full_Internal t t.superblock.info.rootnode Temp_Node left right
              key with
          | error f =>
            refine ⟨fun h => ?_, fun out h => by cases h⟩
            injection h with h
            subst h
            exact hi1 hi
          | ok i =>
            simp only []
            obtain ⟨hs1, hs2⟩ := split_Internal_Full_run G i.2.2 i.2.1
            cases hs : split_Internal_Full G i.2.2 i.2.1 with
            | error f =>
              refine ⟨fun h => ?_, fun out h => by cases h⟩
              injection h with h
              subst h
              exact hs1 hs
            | ok sr =>
              simp only []
              cases hk : assigned sr.Key with
              | error f =>
                refine ⟨fun h => ?_, fun out h => by cases h⟩
                injection h with h
                subst h
                exact assigned_not_fuel _ hk
              | ok k =>
                refine ⟨(fun h => by cases h), fun out h => ?_⟩
                injection h with h
                rw [← h]
                exact ⟨Address, Temp_Node, hAd, hb, Or.inr hr, rfl⟩
        · simp only [ne_eq, hr, not_false_eq_true, if_true]
          cases hi : insert_Not_Full_Internal t Address Temp_Node left right key with
          | error f =>
            refine ⟨fun h => ?_, fun out h => by cases h⟩
            injection h with h
            subst h
            exact hi1 hi
          | ok i =>
            simp only []
            obtain ⟨hs1, hs2⟩ := split_Internal_Full_run G i.2.2 i.2.1
            cases hs : split_Internal_Full G i.2.2 i.2.1 with
            | error f =>
              refine ⟨fun h => ?_, fun out h => by cases h⟩
              injection h with h
              subst h
              exact hs1 hs
            | ok sr =>
              simp only []
              cases hk : assigned sr.Key with
              | error f =>
                refine ⟨fun h => ?_, fun out h => by cases h⟩
                injection h with h
                subst h
                exact assigned_not_fuel _ hk
              | ok k =>
                refine ⟨(fun h => by cases h), fun out h => ?_⟩
                injection h with h
                rw [← h]
                refine ⟨Address, Temp_Node, hAd, hb, hth, hr, rfl, ?_⟩
                show sr.index.superblock.info.rootnode = t.superblock.info.rootnode
                rw [hs2 sr hs, hi2 i hi]
      · simp only [if_neg hth]
        cases hi : insert_Not_Full_Internal t Address Temp_Node left right key with
        | error f =>
          refine ⟨fun h => ?_, fun out h => by cases h⟩
          injection h with h
          subst h
          exact hi1 hi
        | ok i =>
          refine ⟨(fun h => by cases h), fun out h => ?_⟩
          injection h with h
          rw [← h]
          exact ⟨Address, Temp_Node, hAd, hb, Or.inl hth, rfl⟩

theorem split_InternalCalls_head (G : SlotGeometry) (n : Nat) (t : BTreeIndex)
    (pointer : List Nat) (left right key : Nat) :
    ∃ cs, split_InternalCalls G n t pointer left right key = pointer :: cs := by
  cases n with
  | zero => exact ⟨[], rfl⟩
  | succ n => exact ⟨_, rfl⟩

theorem dropLast_root {root : Nat} {p : List Nat} (hh : p.head? = some root)
    (ht : root ∉ p.tail) {A : Nat} (hl : p.getLast? = some A) (hA : A ≠ root) :
    p.dropLast.head? = some root ∧ root ∉ p.dropLast.tail ∧
      p.dropLast.length + 1 = p.length ∧ p.dropLast ≠ [] := by
  cases p with
  | nil => cases hh
  | cons x xs =>
    simp only [List.head?_cons, Option.some.injEq] at hh
    subst hh
    cases xs with
    | nil =>
      simp only [List.getLast?_singleton, Option.some.injEq] at hl
      exact absurd hl.symm hA
    | cons y ys =>
      simp only [List.dropLast_cons₂, List.head?_cons, List.tail_cons, List.length_cons,
        List.length_dropLast, ne_eq, reduceCtorEq, not_false_eq_true, and_true, true_and]
      simp only [List.tail_cons] at ht
      refine ⟨fun hm => ht (List.dropLast_subset _ hm), ?_⟩
      simp

/-- The activations of `split_Internal` on a path that starts with the root block and does
not come back to it: every activation gets a path that is not empty, each a path one
element shorter than the one before, there are no more of them than the path has
elements, and the recursion ends within that number of calls. -/
theorem split_InternalCalls_spec (G : SlotGeometry) :
    ∀ (n : Nat) (t : BTreeIndex) (pointer : List Nat) (left right key : Nat),
      pointer.head? = some t.superblock.info.rootnode →
      t.superblock.info.rootnode ∉ pointer.tail → pointer.length ≤ n →
      (∀ c ∈ split_InternalCalls G n t pointer left right key,
        c ≠ [] ∧ c <+: pointer ∧ c.head? = some t.superblock.info.rootnode) ∧
      List.Chain' (fun a b => b = a.dropLast)
        (split_InternalCalls G n t pointer left right key) ∧
      (split_InternalCalls G n t pointer left right key).length ≤ pointer.length ∧
      split_InternalAux G n t pointer left right key 0 ≠ Except.error Fault.fuel ∧
      ∀ m, split_InternalAux G (n + m) t pointer left right key 0 =
        split_InternalAux G n t pointer left right key 0 := by
  intro n
  induction n with
  | zero =>
    intro t pointer left right key hh _ hlen
    cases pointer with
    | nil => cases hh
    | cons x xs => simp at hlen
  | succ n ih =>
    intro t pointer left right key hh ht hlen
    have hne : pointer ≠ [] := by
      intro e
      rw [e] at hh
      cases hh
    obtain ⟨hnf, hstep⟩ := split_InternalStep_spec G t pointer left right key
    have hself : pointer ≠ [] ∧ pointer <+: pointer ∧
        pointer.head? = some t.superblock.info.rootnode := ⟨hne, List.prefix_refl _, hh⟩
    have hsucc : ∀ m, split_InternalAux G (n + 1 + m) t pointer left right key 0 =
        split_InternalAux G (n + m + 1) t pointer left right key 0 := by
      intro m
      rw [Nat.add_right_comm]
    cases hs : split_InternalStep G t pointer left right key with
    | error f =>
      refine ⟨?_, ?_, ?_, ?_, ?_⟩
      · intro c hc
        simp only [split_InternalCalls, hs, List.mem_singleton] at hc
        rw [hc]
        exact hself
      · simp only [split_InternalCalls, hs, List.chain'_singleton]
      · simp only [split_InternalCalls, hs, List.length_singleton]
        cases pointer with
        | nil => exact absurd rfl hne
        | cons x xs => simp
      · rw [split_InternalAux_succ, hs]
        intro h
        injection h with h
        subst h
        exact hnf hs
      · intro m
        rw [hsucc, split_InternalAux_succ, split_InternalAux_succ, hs]
    | ok out =>
      obtain ⟨A, N, hlast, hb, hout⟩ := hstep out hs
      cases out with
      | inl res =>
        refine ⟨?_, ?_, ?_, ?_, ?_⟩
        · intro c hc
          simp only [split_InternalCalls, hs, List.mem_singleton] at hc
          rw [hc]
          exact hself
        · simp only [split_InternalCalls, hs, List.chain'_singleton]
        · simp only [split_InternalCalls, hs, List.length_singleton]
          cases pointer with
          | nil => exact absurd rfl hne
          | cons x xs => simp
        · rw [split_InternalAux_succ, hs]
          intro h
          cases h
        · intro m
          rw [hsucc, split_InternalAux_succ, split_InternalAux_succ, hs]
      | inr next =>
        obtain ⟨hth, hAr, hp', hroot'⟩ := hout
        obtain ⟨h1, h2, h3, h4⟩ := dropLast_root hh ht hlast hAr
        rw [← hp'] at h1 h2 h3 h4
        rw [← hroot'] at h1 h2
        obtain ⟨i1, i2, i3, i4, i5⟩ := ih next.1 next.2.1 next.2.2.1 next.2.2.2.1 next.2.2.2.2
          h1 h2 (by omega)
        obtain ⟨cs, hcs⟩ := split_InternalCalls_head G n next.1 next.2.1 next.2.2.1
          next.2.2.2.1 next.2.2.2.2
        have hcalls : split_InternalCalls G (n + 1) t pointer left right key =
            pointer :: split_InternalCalls G n next.1 next.2.1 next.2.2.1 next.2.2.2.1
              next.2.2.2.2 := by
          simp only [split_InternalCalls, hs]
        refine ⟨?_, ?_, ?_, ?_, ?_⟩
        · intro c hc
          rw [hcalls] at hc
          rcases List.mem_cons.1 hc with e | hc'
          · rw [e]
            exact hself
          · obtain ⟨c1, c2, c3⟩ := i1 c hc'
            refine ⟨c1, ?_, by rw [c3, hroot']⟩
            rw [hp'] at c2
            exact c2.trans (List.dropLast_prefix _)
        · rw [hcalls, hcs, List.chain'_cons]
          rw [hcs] at i2
          exact ⟨hp', i2⟩
        · rw [hcalls, List.length_cons]
          omega
        · rw [split_InternalAux_succ, hs]
          simp only []
          intro h
          cases hr : split_InternalAux G n next.1 next.2.1 next.2.2.1 next.2.2.2.1
              next.2.2.2.2 0 with
          | error f =>
            rw [hr] at h
            injection h with h
            subst h
            exact i4 hr
          | ok r =>
            rw [hr] at h
            cases h
        · intro m
          rw [hsucc, split_InternalAux_succ, split_InternalAux_succ, hs]
          simp only []
          rw [i5 m]

/-! ## The root block number -/

theorem updateOutcome_superblock (t : BTreeIndex) (value : Nat) (w : ERROR_T ⊕ (Nat × Nat)) :
    (updateOutcome t value w).2.superblock = t.superblock := by
  cases w with
  | inl rc => rfl
  | inr p =>
    obtain ⟨n, offset⟩ := p
    show (match t.buffercache.blocks[n]? with
      | some b =>
        (ERROR_T.ERROR_NOERROR,
          ({ t with
            buffercache :=
              { t.buffercache with
                blocks := t.buffercache.blocks.set n { b with vals := b.vals.set offset value }
                log := t.buffercache.log ++ [CacheEvent.write n] } } : BTreeIndex))
      | none => (ERROR_T.ERROR_GENERAL, t)).2.superblock = t.superblock
    cases t.buffercache.blocks[n]? <;> rfl

theorem Update_superblock (fuel : Nat) (t : BTreeIndex) (key value : Nat)
    (r : ERROR_T × BTreeIndex) (h : Update fuel t key value = Except.ok r) :
    r.2.superblock = t.superblock := by
  rw [Update_eq_locate] at h
  split at h
  · injection h with h
    rw [← h]
    exact updateOutcome_superblock _ _ _
  · cases h

theorem lookup_index (t : BTreeIndex) (key fuel node value : Nat) (pointer : List Nat)
    (r : ERROR_T × Nat × List Nat × BTreeIndex)
    (h : LookupOrUpdateInternal t BTreeOp.BTREE_OP_LOOKUP key fuel node value pointer =
      Except.ok r) : r.2.2.2 = t := by
  have hll := lookup_locate t key fuel node value pointer
  rw [h] at hll
  cases hw : locate t key fuel node with
  | error f =>
    rw [hw] at hll
    cases hll
  | ok w =>
    rw [hw] at hll
    injection hll with hll
    simp only [Prod.mk.injEq] at hll
    exact hll.2.2

theorem DeallocateNode_rootnode {t : BTreeIndex} {n : Nat} {r : ERROR_T × BTreeIndex}
    (h : DeallocateNode t n = Except.ok r) :
    r.2.superblock.info.rootnode = t.superblock.info.rootnode := by
  unfold DeallocateNode at h
  split at h
  · cases h
  · split at h
    · cases h
    · injection h with h
      rw [← h]

theorem shiftLeaf_not_fuel :
    ∀ (count i : Nat) (node : BTreeNode),
      shiftLeaf count i node ≠ Except.error Fault.fuel := by
  intro count
  induction count with
  | zero => intro i node h; cases h
  | succ n ih =>
    intro i node h
    unfold shiftLeaf at h
    simp only [bind, Except.bind] at h
    cases hk : orUndefined (node.GetKey (i - 1)) with
    | error f =>
      rw [hk] at h
      injection h with h
      subst h
      exact orUndefined_not_fuel _ hk
    | ok k =>
      rw [hk] at h
      simp only [] at h
      cases hv : orUndefined (node.GetVal (i - 1)) with
      | error f =>
        rw [hv] at h
        injection h with h
        subst h
        exact orUndefined_not_fuel _ hv
      | ok v =>
        rw [hv] at h
        exact ih _ _ h

theorem insertLeafLoop_run (t : BTreeIndex) (Address key value : Nat) :
    ∀ (count offset counter : Nat) (node : BTreeNode),
      insertLeafLoop t Address key value count offset counter node
          ≠ Except.error Fault.fuel ∧
        ∀ r, insertLeafLoop t Address key value count offset counter node = Except.ok r →
          r.2.2.superblock = t.superblock := by
  intro count
  induction count with
  | zero =>
    intro offset counter node
    refine ⟨(fun h => by cases h), fun r h => ?_⟩
    injection h with h
    rw [← h]
  | succ n ih =>
    intro offset counter node
    unfold insertLeafLoop
    simp only [bind, Except.bind]
    cases hk : orUndefined (node.GetKey offset) with
    | error f =>
      refine ⟨fun h => ?_, fun r h => by cases h⟩
      injection h with h
      subst h
      exact orUndefined_not_fuel _ hk
    | ok testkey =>
      simp only []
      split
      · cases hs : shiftLeaf (node.info.numkeys - 1 - offset) (node.info.numkeys - 1) node with
        | error f =>
          refine ⟨fun h => ?_, fun r h => by cases h⟩
          injection h with h
          subst h
          exact shiftLeaf_not_fuel _ _ _ hs
        | ok node' =>
          simp only []
          split
          · refine ⟨(fun h => by cases h), fun r h => ?_⟩
            injection h with h
            rw [← h]
          · refine ⟨(fun h => by cases h), fun r h => ?_⟩
            injection h with h
            rw [← h]
      · split
        · refine ⟨(fun h => by cases h), fun r h => ?_⟩
          injection h with h
          rw [← h]
        · split
          · split
            · refine ⟨(fun h => by cases h), fun r h => ?_⟩
              injection h with h
              rw [← h]
            · refine ⟨(fun h => by cases h), fun r h => ?_⟩
              injection h with h
              rw [← h]
          · exact ih _ _ _

theorem insert_Not_Full_run (t : BTreeIndex) (Address : Nat) (Temp_Node : BTreeNode)
    (key value : Nat) :
    insert_Not_Full t Address Temp_Node key value ≠ Except.error Fault.fuel ∧
      ∀ r, insert_Not_Full t Address Temp_Node key value = Except.ok r →
        r.2.2.superblock = t.superblock :=
  insertLeafLoop_run t Address key value _ _ _ _

theorem split_Leaf_run (G : SlotGeometry) (t : BTreeIndex) (Node : BTreeNode) :
    split_Leaf G t Node ≠ Except.error Fault.fuel ∧
      ∀ sr, split_Leaf G t Node = Except.ok sr →
        sr.index.superblock.info.rootnode = t.superblock.info.rootnode := by
  unfold split_Leaf
  simp only [bind, Except.bind]
  cases hA1 : AllocateNode t with
  | error f =>
    refine ⟨fun h => ?_, fun sr h => by cases h⟩
    injection h with h
    subst h
    exact AllocateNode_not_fuel _ hA1
  | ok a1 =>
    have hr1 := AllocateNode_rootnode hA1
    simp only []
    split
    · refine ⟨(fun h => by cases h), fun sr h => ?_⟩
      injection h with h
      rw [← h]
      exact hr1
    · cases hA2 : AllocateNode
          { a1.2.2 with
            buffercache :=
              ((BTreeNode.new G NodeType.BTREE_LEAF_NODE a1.2.2.superblock.info.keysize
                a1.2.2.superblock.info.valuesize a1.2.2.superblock.info.blocksize).Serialize
                a1.2.2.buffercache a1.2.1).2 } with
      | error f =>
        refine ⟨fun h => ?_, fun sr h => by cases h⟩
        injection h with h
        subst h
        exact AllocateNode_not_fuel _ hA2
      | ok a2 =>
        have hr2 : a2.2.2.superblock.info.rootnode = t.superblock.info.rootnode :=
          (AllocateNode_rootnode hA2).trans hr1
        simp only []
        split
        · refine ⟨(fun h => by cases h), fun sr h => ?_⟩
          injection h with h
          rw [← h]
          exact hr2
        · split
          · refine ⟨(fun h => by cases h), fun sr h => ?_⟩
            injection h with h
            rw [← h]
            exact hr2
          · split
            · refine ⟨(fun h => by cases h), fun sr h => ?_⟩
              injection h with h
              rw [← h]
              exact hr2
            · refine ⟨(fun h => by cases h), fun sr h => ?_⟩
              injection h with h
              rw [← h]
              exact hr2

theorem SetKey_info (b : BTreeNode) (i k : Nat) : (b.SetKey i k).2.info = b.info := by
  unfold BTreeNode.SetKey
  split <;> rfl

theorem SetVal_info (b : BTreeNode) (i v : Nat) : (b.SetVal i v).2.info = b.info := by
  unfold BTreeNode.SetVal
  split <;> rfl

theorem SetPtr_info (b : BTreeNode) (i p : Nat) : (b.SetPtr i p).2.info = b.info := by
  unfold BTreeNode.SetPtr
  split <;> rfl

/-- The node a root split writes: an interior node with one key. -/
theorem newRoot_info (G : SlotGeometry) (ks vs bs k left right : Nat) :
    (((((BTreeNode.new G NodeType.BTREE_INTERIOR_NODE ks vs bs).incNumkeys.SetKey 0
        k).2.SetPtr 0 left).2.SetPtr 1 right).2).info =
      { nodetype := NodeType.BTREE_INTERIOR_NODE, keysize := ks, valuesize := vs,
        blocksize := bs, rootnode := 0, freelist := 0, numkeys := 1 } := by
  rw [SetPtr_info, SetPtr_info, SetKey_info]
  rfl

/-- One activation of `split_Internal` keeps the root block number, and when it finds the
root at the split threshold it ends with the write of the new root into the root's block. -/
theorem split_InternalStep_root (G : SlotGeometry) (t : BTreeIndex) (pointer : List Nat)
    (left right key : Nat)
    (out : (Option ERROR_T × Int × BTreeIndex) ⊕ (BTreeIndex × List Nat × Nat × Nat × Nat)) :
    split_InternalStep G t pointer left right key = Except.ok out →
    match out with
    | Sum.inr next => next.1.superblock.info.rootnode = t.superblock.info.rootnode
    | Sum.inl res =>
      res.2.2.superblock.info.rootnode = t.superblock.info.rootnode ∧
      ∀ N : BTreeNode, pointer.getLast? = some t.superblock.info.rootnode →
        t.buffercache.blocks[t.superblock.info.rootnode]? = some N →
        N.info.numkeys + 1 = G.GetNumSlotsAsInterior N.info →
        ∃ (New_Root : BTreeNode) (bc : BufferCache),
          New_Root.info.nodetype = NodeType.BTREE_INTERIOR_NODE ∧
          New_Root.info.numkeys = 1 ∧
          res.2.2.buffercache = (New_Root.Serialize bc t.superblock.info.rootnode).2 := by
  intro h
  unfold split_InternalStep at h
  simp only [bind, Except.bind] at h
  cases hA : assigned pointer.getLast? with
  | error f => rw [hA] at h; cases h
  | ok Address =>
    have hAd := assigned_ok hA
    rw [hA] at h
    simp only [] at h
    cases hN : orUndefined (BTreeNode.Unserialize t.buffercache Address) with
    | error f => rw [hN] at h; cases h
    | ok Temp_Node =>
      have hb : t.buffercache.blocks[Address]? = some Temp_Node := by
        cases hu : BTreeNode.Unserialize t.buffercache Address with
        | error e => rw [hu] at hN; cases hN
        | ok b =>
          rw [hu] at hN
          injection hN with hN
          rw [← hN]
          exact Unserialize_ok hu
      rw [hN] at h
      simp only [] at h
      obtain ⟨-, hi2⟩ := insert_Not_Full_Internal_run t Address Temp_Node left right key
      by_cases hth : Temp_Node.info.numkeys + 1 = G.GetNumSlotsAsInterior Temp_Node.info
      · simp only [if_pos hth] at h
        cases hi : insert_Not_Full_Internal t Address Temp_Node left right key with
        | error f =>
          rw [hi] at h
          split at h <;> cases h
        | ok i =>
          rw [hi] at h
          simp only [] at h
          obtain ⟨-, hs2⟩ := split_Internal_Full_run G i.2.2 i.2.1
          cases hs : split_Internal_Full G i.2.2 i.2.1 with
          | error f =>
            rw [hs] at h
            split at h <;> cases h
          | ok sr =>
            rw [hs] at h
            simp only [] at h
            have hroot : sr.index.superblock.info.rootnode = t.superblock.info.rootnode := by
              rw [hs2 sr hs, hi2 i hi]
            cases hk : assigned sr.Key with
            | error f =>
              rw [hk] at h
              split at h <;> cases h
            | ok k =>
              rw [hk] at h
              simp only [] at h
              by_cases hr : Address = t.superblock.info.rootnode
              · simp only [hr, ne_eq, not_true_eq_false, if_false] at h
                injection h with h
                subst h
                refine ⟨hroot, fun N _ _ _ =>
                  ⟨((((BTreeNode.new G NodeType.BTREE_INTERIOR_NODE
                      sr.index.superblock.info.keysize sr.index.superblock.info.valuesize
                      sr.index.superblock.info.blocksize).incNumkeys.SetKey 0 k).2.SetPtr 0
                      sr.left).2.SetPtr 1 sr.right).2, sr.index.buffercache, ?_, ?_, ?_⟩⟩
                · rw [newRoot_info]
                · rw [newRoot_info]
                · rw [← hroot]
              · simp only [ne_eq, hr, not_false_eq_true, if_true] at h
                injection h with h
                subst h
                exact hroot
      · simp only [if_neg hth] at h
        cases hi : insert_Not_Full_Internal t Address Temp_Node left right key with
        | error f => rw [hi] at h; cases h
        | ok i =>
          rw [hi] at h
          injection h with h
          subst h
          refine ⟨by show i.2.2.superblock.info.rootnode = _; rw [hi2 i hi], ?_⟩
          intro N hlast hN' hth'
          rw [hAd] at hlast
          injection hlast with hlast
          rw [hlast] at hb
          rw [hb] at hN'
          injection hN' with hN'
          rw [hN'] at hth
          exact absurd hth' hth

/-- The root block number is the same after `split_Internal`. -/
theorem split_InternalAux_rootnode (G : SlotGeometry) :
    ∀ (n : Nat) (t : BTreeIndex) (pointer : List Nat) (left right key : Nat)
      (r : Option ERROR_T × Int × BTreeIndex),
      split_InternalAux G n t pointer left right key 0 = Except.ok r →
      r.2.2.superblock.info.rootnode = t.superblock.info.rootnode := by
  intro n
  induction n with
  | zero =>
    intro t pointer left right key r h
    unfold split_InternalAux at h
    rw [if_pos rfl] at h
    split at h <;> cases h
  | succ n ih =>
    intro t pointer left right key r h
    rw [split_InternalAux_succ] at h
    cases hs : split_InternalStep G t pointer left right key with
    | error f => rw [hs] at h; cases h
    | ok out =>
      have hstep := split_InternalStep_root G t pointer left right key out hs
      rw [hs] at h
      cases out with
      | inl res =>
        simp only [] at h
        injection h with h
        rw [← h]
        exact hstep.1
      | inr next =>
        simp only [] at h hstep
        cases hr : split_InternalAux G n next.1 next.2.1 next.2.2.1 next.2.2.2.1
            next.2.2.2.2 0 with
        | error f => rw [hr] at h; cases h
        | ok r' =>
          rw [hr] at h
          injection h with h
          rw [← h]
          show r'.2.2.superblock.info.rootnode = _
          rw [ih _ _ _ _ _ _ hr, hstep]

/-- The block `if(initBlock) { ... }` of `Insert` keeps the root block number, and when the
leaf it inserts into is the root at its split threshold it ends with the write of the new
root into the root's block. -/
theorem insertTail_root (G : SlotGeometry) (t : BTreeIndex) (pointer : List Nat)
    (key value : Nat) (r : Option ERROR_T × BTreeIndex)
    (h : insertTail G t pointer key value = Except.ok r) :
    r.2.superblock.info.rootnode = t.superblock.info.rootnode ∧
    ∀ N : BTreeNode, pointer.getLast? = some t.superblock.info.rootnode →
      t.buffercache.blocks[t.superblock.info.rootnode]? = some N →
      N.info.numkeys + 1 = G.GetNumSlotsAsLeaf N.info →
      ∃ (New_Root : BTreeNode) (bc : BufferCache),
        New_Root.info.nodetype = NodeType.BTREE_INTERIOR_NODE ∧
        New_Root.info.numkeys = 1 ∧
        r.2.buffercache = (New_Root.Serialize bc t.superblock.info.rootnode).2 := by
  unfold insertTail at h
  simp only [bind, Except.bind] at h
  cases hA : assigned pointer.getLast? with
  | error f => rw [hA] at h; cases h
  | ok Address =>
    have hAd := assigned_ok hA
    rw [hA] at h
    simp only [] at h
    cases hN : orUndefined (BTreeNode.Unserialize t.buffercache Address) with
    | error f => rw [hN] at h; cases h
    | ok Temp_Node =>
      have hb : t.buffercache.blocks[Address]? = some Temp_Node := by
        cases hu : BTreeNode.Unserialize t.buffercache Address with
        | error e => rw [hu] at hN; cases hN
        | ok b =>
          rw [hu] at hN
          injection hN with hN
          rw [← hN]
          exact Unserialize_ok hu
      rw [hN] at h
      simp only [] at h
      obtain ⟨-, hi2⟩ := insert_Not_Full_run t Address Temp_Node key value
      by_cases hth : Temp_Node.info.numkeys + 1 = G.GetNumSlotsAsLeaf Temp_Node.info
      · simp only [if_pos hth] at h
        cases hi : insert_Not_Full t Address Temp_Node key value with
        | error f => rw [hi] at h; cases h
        | ok i =>
          rw [hi] at h
          simp only [] at h
          have hisb : i.2.2.superblock.info.rootnode = t.superblock.info.rootnode := by
            rw [hi2 i hi]
          obtain ⟨-, hs2⟩ := split_Leaf_run G i.2.2 i.2.1
          cases hs : split_Leaf G i.2.2 i.2.1 with
          | error f =>
            rw [hs] at h
            split at h <;> cases h
          | ok sr =>
            rw [hs] at h
            simp only [] at h
            have hroot : sr.index.superblock.info.rootnode = t.superblock.info.rootnode := by
              rw [hs2 sr hs, hisb]
            cases hk : assigned sr.Key with
            | error f =>
              rw [hk] at h
              split at h <;> cases h
            | ok k =>
              rw [hk] at h
              simp only [] at h
              by_cases hr : Address = i.2.2.superblock.info.rootnode
              · simp only [hr, if_true] at h
                injection h with h
                subst h
                refine ⟨hroot, fun N _ _ _ =>
                  ⟨((((BTreeNode.new G NodeType.BTREE_INTERIOR_NODE
                      sr.index.superblock.info.keysize sr.index.superblock.info.valuesize
                      sr.index.superblock.info.blocksize).incNumkeys.SetKey 0 k).2.SetPtr 0
                      sr.left).2.SetPtr 1 sr.right).2, sr.index.buffercache, ?_, ?_, ?_⟩⟩
                · rw [newRoot_info]
                · rw [newRoot_info]
                · rw [← hroot]
              · simp only [hr, if_false] at h
                cases hrec : split_Internal G sr.index pointer.dropLast sr.left sr.right k 0 with
                | error f => rw [hrec] at h; cases h
                | ok r' =>
                  rw [hrec] at h
                  injection h with h
                  subst h
                  refine ⟨?_, ?_⟩
                  · show r'.2.2.superblock.info.rootnode = _
                    rw [split_InternalAux_rootnode G _ _ _ _ _ _ _ hrec, hroot]
                  · intro N hlast _ _
                    rw [hAd] at hlast
                    injection hlast with hlast
                    exact absurd (hlast.trans hisb.symm) hr
      · simp only [if_neg hth] at h
        cases hi : insert_Not_Full t Address Temp_Node key value with
        | error f => rw [hi] at h; cases h
        | ok i =>
          rw [hi] at h
          injection h with h
          subst h
          refine ⟨by show i.2.2.superblock.info.rootnode = _; rw [hi2 i hi], ?_⟩
          intro N hlast hN' hth'
          rw [hAd] at hlast
          injection hlast with hlast
          rw [hlast] at hb
          rw [hb] at hN'
          injection hN' with hN'
          rw [hN'] at hth
          exact absurd hth' hth

/-- The root block number is the same after `Insert`, whatever it returns. -/
theorem Insert_rootnode (G : SlotGeometry) (fuel : Nat) (t : BTreeIndex) (key value : Nat)
    (r : Option ERROR_T × BTreeIndex) (h : Insert G fuel t key value = Except.ok r) :
    r.2.superblock.info.rootnode = t.superblock.info.rootnode := by
  unfold Insert at h
  cases hL : LookupOrUpdateInternal t BTreeOp.BTREE_OP_LOOKUP key fuel
      t.superblock.info.rootnode 0 [] with
  | error f =>
    simp only [hL] at h
    cases h
  | ok q =>
    simp only [hL] at h
    have hq2 := lookup_index t key fuel _ 0 [] q hL
    rw [hq2] at h
    cases hrc : q.1 with
    | ERROR_NONEXISTENT =>
      simp only [hrc] at h
      cases hU : BTreeNode.Unserialize t.buffercache t.superblock.info.rootnode with
      | error e =>
        simp only [hU] at h
        cases h
      | ok rootNode =>
        simp only [hU] at h
        split at h
        · split at h
          · injection h with h
            rw [← h]
          · exact (insertTail_root G _ _ key value r h).1
        · exact (insertTail_root G _ _ key value r h).1
    | ERROR_NOERROR =>
      simp only [hrc] at h
      injection h with h
      rw [← h]
    | _ =>
      simp only [hrc] at h
      injection h with h
      rw [← h]

/-- The root block number is the same after a run of `Insert` calls. -/
theorem insertAll_rootnode (G : SlotGeometry) (fuel : Nat) :
    ∀ (kvs : List (Nat × Nat)) (t u : BTreeIndex),
      insertAll G fuel (Except.ok t) kvs = Except.ok u →
      u.superblock.info.rootnode = t.superblock.info.rootnode := by
  intro kvs
  induction kvs with
  | nil =>
    intro t u h
    injection h with h
    rw [← h]
  | cons kv rest ih =>
    intro t u h
    unfold insertAll at h
    cases hI : Insert G fuel t kv.1 kv.2 with
    | error f =>
      simp only [hI] at h
      cases h
    | ok r =>
      simp only [hI] at h
      rw [ih r.2 u h, Insert_rootnode G fuel t kv.1 kv.2 r hI]

/-! ## The slot accesses stay within `numkeys` -/

theorem inRange_key {b : BTreeNode} {i : Nat} (h : i < b.info.numkeys) :
    (Access.mk b Slot.key i).inRange = true := by
  simp [Access.inRange, h]

theorem inRange_val {b : BTreeNode} {i : Nat} (h : i < b.info.numkeys) :
    (Access.mk b Slot.val i).inRange = true := by
  simp [Access.inRange, h]

theorem inRange_ptr {b : BTreeNode} {i : Nat} (h : i ≤ b.info.numkeys) :
    (Access.mk b Slot.ptr i).inRange = true := by
  simp [Access.inRange, h]

/-- Within its bound, a call on a node that has the kind of slot asked for is accepted. -/
theorem accepted_of_inRange (a : Access) (h : a.inRange = true) (ht : a.typed = true) :
    a.accepted = true := by
  obtain ⟨b, s, i⟩ := a
  cases s
  · simp only [Access.inRange, Access.typed, Access.accepted, BTreeNode.keyOk] at *
    rw [ht, h]; rfl
  · simp only [Access.inRange, Access.typed, Access.accepted, BTreeNode.valOk] at *
    rw [ht, h]; rfl
  · simp only [Access.inRange, Access.typed, Access.accepted, BTreeNode.ptrOk] at *
    rw [ht] at h
    simp only [Bool.not_true, Bool.false_or] at h
    rw [ht, h]; rfl

theorem interiorScan_some_lt (b : BTreeNode) (key : Nat) :
    ∀ (count offset j : Nat), interiorScan b key count offset = Except.ok (some j) →
      j < offset + count := by
  intro count
  induction count with
  | zero => intro offset j h; simp [interiorScan] at h
  | succ n ih =>
    intro offset j h
    unfold interiorScan at h
    split at h
    · cases h
    · split at h
      · cases h; omega
      · have := ih _ _ h; omega

theorem interiorScanAccesses_inRange (b : BTreeNode) (key : Nat) :
    ∀ (count offset : Nat), offset + count ≤ b.info.numkeys →
      ∀ a ∈ interiorScanAccesses b key count offset, a.inRange = true := by
  intro count
  induction count with
  | zero => intro offset _ a ha; simp [interiorScanAccesses] at ha
  | succ n ih =>
    intro offset hle a ha
    unfold interiorScanAccesses at ha
    rcases List.mem_cons.1 ha with rfl | ha
    · exact inRange_key (by omega)
    · split at ha
      · cases ha
      · split at ha
        · cases ha
        · exact ih (offset + 1) (by omega) a ha

theorem leafScanAccesses_inRange (b : BTreeNode) (key : Nat) :
    ∀ (count offset : Nat), offset + count ≤ b.info.numkeys →
      ∀ a ∈ leafScanAccesses b key count offset, a.inRange = true := by
  intro count
  induction count with
  | zero => intro offset _ a ha; simp [leafScanAccesses] at ha
  | succ n ih =>
    intro offset hle a ha
    unfold leafScanAccesses at ha
    rcases List.mem_cons.1 ha with rfl | ha
    · exact inRange_key (by omega)
    · split at ha
      · cases ha
      · split at ha
        · cases ha
        · exact ih (offset + 1) (by omega) a ha

theorem LookupOrUpdateInternalAccesses_inRange (t : BTreeIndex) (key : Nat) :
    ∀ (fuel node : Nat), ∀ a ∈ LookupOrUpdateInternalAccesses t key fuel node,
      a.inRange = true := by
  intro fuel
  induction fuel with
  | zero => intro node a ha; simp [LookupOrUpdateInternalAccesses] at ha
  | succ n ih =>
    intro node a ha
    unfold LookupOrUpdateInternalAccesses at ha
    split at ha
    · cases ha
    · rename_i b _
      split at ha
      · rcases List.mem_append.1 ha with ha | ha
        · exact interiorScanAccesses_inRange b key _ 0 (by omega) a ha
        · split at ha
          · cases ha
          · rename_i offset hs
            have hlt := interiorScan_some_lt b key _ _ _ hs
            rcases List.mem_cons.1 ha with rfl | ha
            · exact inRange_ptr (by omega)
            · split at ha
              · cases ha
              · exact ih _ a ha
          · split at ha
            · rcases List.mem_cons.1 ha with rfl | ha
              · exact inRange_ptr (Nat.le_refl _)
              · split at ha
                · cases ha
                · exact ih _ a ha
            · cases ha
      · rcases List.mem_append.1 ha with ha | ha
        · exact interiorScanAccesses_inRange b key _ 0 (by omega) a ha
        · split at ha
          · cases ha
          · rename_i offset hs
            have hlt := interiorScan_some_lt b key _ _ _ hs
            rcases List.mem_cons.1 ha with rfl | ha
            · exact inRange_ptr (by omega)
            · split at ha
              · cases ha
              · exact ih _ a ha
          · split at ha
            · rcases List.mem_cons.1 ha with rfl | ha
              · exact inRange_ptr (Nat.le_refl _)
              · split at ha
                · cases ha
                · exact ih _ a ha
            · cases ha
      · rcases List.mem_append.1 ha with ha | ha
        · exact leafScanAccesses_inRange b key _ 0 (by omega) a ha
        · split at ha
          · cases ha
          · rename_i offset hs
            have hlt := (leafScan_some b key _ _ _ hs).2.1
            rcases List.mem_singleton.1 ha with rfl
            exact inRange_val (by omega)
          · cases ha
      · cases ha
theorem shiftLeaf_info :
    ∀ (count i : Nat) (node r : BTreeNode), shiftLeaf count i node = Except.ok r →
      r.info = node.info := by
  intro count
  induction count with
  | zero => intro i node r h; cases h; rfl
  | succ n ih =>
    intro i node r h
    unfold shiftLeaf at h
    simp only [bind, Except.bind] at h
    cases hk : orUndefined (node.GetKey (i - 1)) with
    | error e => rw [hk] at h; cases h
    | ok k =>
      rw [hk] at h
      simp only at h
      cases hv : orUndefined (node.GetVal (i - 1)) with
      | error e => rw [hv] at h; cases h
      | ok v =>
        rw [hv] at h
        simp only at h
        rw [ih _ _ _ h, SetVal_info, SetKey_info]

theorem shiftLeafAccesses_inRange :
    ∀ (count i : Nat) (node : BTreeNode), i < node.info.numkeys →
      ∀ a ∈ shiftLeafAccesses count i node, a.inRange = true := by
  intro count
  induction count with
  | zero => intro i node _ a ha; simp [shiftLeafAccesses] at ha
  | succ n ih =>
    intro i node hi a ha
    unfold shiftLeafAccesses at ha
    rcases List.mem_cons.1 ha with rfl | ha
    · exact inRange_key (by omega)
    · split at ha
      · cases ha
      · rcases List.mem_cons.1 ha with rfl | ha
        · exact inRange_val (by omega)
        · split at ha
          · cases ha
          · rcases List.mem_cons.1 ha with rfl | ha
            · exact inRange_key hi
            · rcases List.mem_cons.1 ha with rfl | ha
              · exact inRange_val (by rw [SetKey_info]; exact hi)
              · exact ih _ _ (by rw [SetVal_info, SetKey_info]; omega) a ha

theorem insertLeafLoop_info (t : BTreeIndex) (Address key value : Nat) :
    ∀ (count offset counter : Nat) (node : BTreeNode)
      (r : Option ERROR_T × BTreeNode × BTreeIndex),
      insertLeafLoop t Address key value count offset counter node = Except.ok r →
        r.2.1.info = node.info := by
  intro count
  induction count with
  | zero => intro offset counter node r h; cases h; rfl
  | succ n ih =>
    intro offset counter node r h
    unfold insertLeafLoop at h
    simp only [bind, Except.bind] at h
    cases hk : orUndefined (node.GetKey offset) with
    | error e => rw [hk] at h; cases h
    | ok k =>
      rw [hk] at h
      simp only at h
      split at h
      · cases hs : shiftLeaf (node.info.numkeys - 1 - offset) (node.info.numkeys - 1) node with
        | error e => rw [hs] at h; cases h
        | ok m =>
          rw [hs] at h
          simp only at h
          have hm := shiftLeaf_info _ _ _ _ hs
          split at h <;> cases h <;> simp only [SetVal_info, SetKey_info, hm]
      · split at h
        · cases h; rfl
        · split at h
          · split at h <;> cases h <;> simp only [SetVal_info, SetKey_info]
          · exact ih _ _ _ _ h

theorem insert_Not_Full_info (t : BTreeIndex) (Address : Nat) (Temp_Node : BTreeNode)
    (key value : Nat) (r : Option ERROR_T × BTreeNode × BTreeIndex)
    (h : insert_Not_Full t Address Temp_Node key value = Except.ok r) :
    r.2.1.info = Temp_Node.incNumkeys.info :=
  insertLeafLoop_info t Address key value _ _ _ _ r h

theorem insertLeafLoopAccesses_inRange (key value : Nat) :
    ∀ (count offset counter : Nat) (node : BTreeNode), offset + count < node.info.numkeys →
      ∀ a ∈ insertLeafLoopAccesses key value count offset counter node, a.inRange = true := by
  intro count
  induction count with
  | zero => intro offset counter node _ a ha; simp [insertLeafLoopAccesses] at ha
  | succ n ih =>
    intro offset counter node hlt a ha
    unfold insertLeafLoopAccesses at ha
    rcases List.mem_cons.1 ha with rfl | ha
    · exact inRange_key (by omega)
    · split at ha
      · cases ha
      · split at ha
        · rcases List.mem_append.1 ha with ha | ha
          · exact shiftLeafAccesses_inRange _ _ _ (by omega) a ha
          · split at ha
            · cases ha
            · rename_i m hs
              have hm := shiftLeaf_info _ _ _ _ hs
              rcases List.mem_cons.1 ha with rfl | ha
              · exact inRange_key (by rw [hm]; omega)
              · rcases List.mem_singleton.1 ha with rfl
                exact inRange_val (by rw [SetKey_info, hm]; omega)
        · split at ha
          · cases ha
          · simp only at ha
            split at ha
            · rcases List.mem_cons.1 ha with rfl | ha
              · exact inRange_key (by omega)
              · rcases List.mem_singleton.1 ha with rfl
                exact inRange_val (by rw [SetKey_info]; omega)
            · exact ih _ _ _ (by omega) a ha

theorem insert_Not_FullAccesses_inRange (Temp_Node : BTreeNode) (key value : Nat) :
    ∀ a ∈ insert_Not_FullAccesses Temp_Node key value, a.inRange = true := by
  intro a ha
  unfold insert_Not_FullAccesses at ha
  refine insertLeafLoopAccesses_inRange key value _ _ _ _ ?_ a ha
  simp only [BTreeNode.incNumkeys]
  omega
theorem shiftInterior_info :
    ∀ (count i : Nat) (node r : BTreeNode), shiftInterior count i node = Except.ok r →
      r.info = node.info := by
  intro count
  induction count with
  | zero => intro i node r h; cases h; rfl
  | succ n ih =>
    intro i node r h
    unfold shiftInterior at h
    simp only [bind, Except.bind] at h
    cases hk : orUndefined (node.GetKey (i - 1)) with
    | error e => rw [hk] at h; cases h
    | ok k =>
      rw [hk] at h
      simp only at h
      cases hv : orUndefined ((node.SetKey i k).2.GetPtr i) with
      | error e => rw [hv] at h; cases h
      | ok v =>
        rw [hv] at h
        simp only at h
        rw [ih _ _ _ h, SetPtr_info, SetKey_info]

theorem shiftInteriorAccesses_inRange :
    ∀ (count i : Nat) (node : BTreeNode), i < node.info.numkeys →
      ∀ a ∈ shiftInteriorAccesses count i node, a.inRange = true := by
  intro count
  induction count with
  | zero => intro i node _ a ha; simp [shiftInteriorAccesses] at ha
  | succ n ih =>
    intro i node hi a ha
    unfold shiftInteriorAccesses at ha
    rcases List.mem_cons.1 ha with rfl | ha
    · exact inRange_key (by omega)
    · split at ha
      · cases ha
      · rcases List.mem_cons.1 ha with rfl | ha
        · exact inRange_key hi
        · rcases List.mem_cons.1 ha with rfl | ha
          · exact inRange_ptr (by rw [SetKey_info]; omega)
          · split at ha
            · cases ha
            · rcases List.mem_cons.1 ha with rfl | ha
              · exact inRange_ptr (by rw [SetKey_info]; omega)
              · exact ih _ _ (by rw [SetPtr_info, SetKey_info]; omega) a ha

theorem insertInteriorLoop_info (t : BTreeIndex) (Address left right key : Nat) :
    ∀ (count offset counter : Nat) (node : BTreeNode)
      (r : Option ERROR_T × BTreeNode × BTreeIndex),
      insertInteriorLoop t Address left right key count offset counter node = Except.ok r →
        r.2.1.info = node.info := by
  intro count
  induction count with
  | zero => intro offset counter node r h; cases h; rfl
  | succ n ih =>
    intro offset counter node r h
    unfold insertInteriorLoop at h
    simp only [bind, Except.bind] at h
    cases hk : orUndefined (node.GetKey offset) with
    | error e => rw [hk] at h; cases h
    | ok k =>
      rw [hk] at h
      simp only at h
      split at h
      · cases hs : shiftInterior (node.info.numkeys - 1 - offset) (node.info.numkeys - 1)
            node with
        | error e => rw [hs] at h; cases h
        | ok m =>
          rw [hs] at h
          simp only at h
          have hm := shiftInterior_info _ _ _ _ hs
          split at h <;> cases h <;> simp only [SetPtr_info, SetKey_info, hm]
      · split at h
        · cases h; rfl
        · split at h
          · split at h <;> cases h <;> simp only [SetPtr_info, SetKey_info]
          · exact ih _ _ _ _ h

theorem insert_Not_Full_Internal_info (t : BTreeIndex) (Address : Nat) (Temp_Node : BTreeNode)
    (left right key : Nat) (r : Option ERROR_T × BTreeNode × BTreeIndex)
    (h : insert_Not_Full_Internal t Address Temp_Node left right key = Except.ok r) :
    r.2.1.info = Temp_Node.incNumkeys.info :=
  insertInteriorLoop_info t Address left right key _ _ _ _ r h

theorem insertInteriorLoopAccesses_inRange (left right key : Nat) :
    ∀ (count offset counter : Nat) (node : BTreeNode), offset + count < node.info.numkeys →
      ∀ a ∈ insertInteriorLoopAccesses left right key count offset counter node,
        a.inRange = true := by
  intro count
  induction count with
  | zero => intro offset counter node _ a ha; simp [insertInteriorLoopAccesses] at ha
  | succ n ih =>
    intro offset counter node hlt a ha
    unfold insertInteriorLoopAccesses at ha
    rcases List.mem_cons.1 ha with rfl | ha
    · exact inRange_key (by omega)
    · split at ha
      · cases ha
      · split at ha
        · rcases List.mem_append.1 ha with ha | ha
          · exact shiftInteriorAccesses_inRange _ _ _ (by omega) a ha
          · split at ha
            · cases ha
            · rename_i m hs
              have hm := shiftInterior_info _ _ _ _ hs
              rcases List.mem_cons.1 ha with rfl | ha
              · exact inRange_key (by rw [hm]; omega)
              · rcases List.mem_cons.1 ha with rfl | ha
                · exact inRange_ptr (by rw [SetKey_info, hm]; omega)
                · rcases List.mem_singleton.1 ha with rfl
                  exact inRange_ptr (by rw [SetPtr_info, SetKey_info, hm]; omega)
        · split at ha
          · cases ha
          · simp only at ha
            split at ha
            · rcases List.mem_cons.1 ha with rfl | ha
              · exact inRange_key (by omega)
              · rcases List.mem_cons.1 ha with rfl | ha
                · exact inRange_ptr (by rw [SetKey_info]; omega)
                · rcases List.mem_singleton.1 ha with rfl
                  exact inRange_ptr (by rw [SetPtr_info, SetKey_info])
            · exact ih _ _ _ (by omega) a ha

theorem insert_Not_Full_InternalAccesses_inRange (Temp_Node : BTreeNode)
    (left right key : Nat) :
    ∀ a ∈ insert_Not_Full_InternalAccesses Temp_Node left right key, a.inRange = true := by
  intro a ha
  unfold insert_Not_Full_InternalAccesses at ha
  refine insertInteriorLoopAccesses_inRange left right key _ _ _ _ ?_ a ha
  simp only [BTreeNode.incNumkeys]
  omega
/-- A node read back from the block it was just written to has the header that was
written. -/
theorem Unserialize_after_Serialize (node : BTreeNode) (bc : BufferCache) (n : Nat)
    (x : BTreeNode) (h : BTreeNode.Unserialize (node.Serialize bc n).2 n = Except.ok x) :
    x.info = node.info := by
  by_cases hn : n < bc.blocks.length
  · rw [Unserialize_Serialize node bc n hn] at h
    cases h
    exact stored_info node
  · unfold BTreeNode.Serialize at h
    rw [if_neg hn] at h
    unfold BTreeNode.Unserialize at h
    rw [List.getElem?_eq_none (Nat.le_of_not_lt hn)] at h
    cases h

theorem splitLeafLoop_numkeys (Node : BTreeNode) (base : Nat) :
    ∀ (count offset : Nat) (dst r : BTreeNode),
      splitLeafLoop Node base count offset dst = Except.ok r →
        r.info.numkeys = dst.info.numkeys + count := by
  intro count
  induction count with
  | zero => intro offset dst r h; cases h; rfl
  | succ n ih =>
    intro offset dst r h
    unfold splitLeafLoop at h
    split at h
    · cases h
    · split at h
      · cases h
      · simp only at h
        split at h
        · cases h
        · split at h
          · cases h
          · rw [ih _ _ _ h, SetVal_info, SetKey_info]
            simp only [BTreeNode.incNumkeys]
            omega

theorem splitLeafLoopAccesses_inRange (Node : BTreeNode) (base : Nat) :
    ∀ (count offset : Nat) (dst : BTreeNode), offset + count ≤ Node.info.numkeys →
      offset - base ≤ dst.info.numkeys →
      ∀ a ∈ splitLeafLoopAccesses Node base count offset dst, a.inRange = true := by
  intro count
  induction count with
  | zero => intro offset dst _ _ a ha; simp [splitLeafLoopAccesses] at ha
  | succ n ih =>
    intro offset dst hle hd a ha
    unfold splitLeafLoopAccesses at ha
    rcases List.mem_cons.1 ha with rfl | ha
    · exact inRange_key (by omega)
    · split at ha
      · cases ha
      · rcases List.mem_cons.1 ha with rfl | ha
        · exact inRange_val (by omega)
        · split at ha
          · cases ha
          · simp only at ha
            rcases List.mem_cons.1 ha with rfl | ha
            · exact inRange_key (by simp only [BTreeNode.incNumkeys]; omega)
            · split at ha
              · cases ha
              · rcases List.mem_cons.1 ha with rfl | ha
                · exact inRange_val (by rw [SetKey_info]; simp only [BTreeNode.incNumkeys]; omega)
                · split at ha
                  · cases ha
                  · refine ih _ _ (by omega) ?_ a ha
                    rw [SetVal_info, SetKey_info]
                    simp only [BTreeNode.incNumkeys]
                    omega

theorem split_LeafAccesses_inRange (G : SlotGeometry) (t : BTreeIndex) (Node : BTreeNode)
    (hS : G.GetNumSlotsAsLeaf Node.info = Node.info.numkeys) (h1 : 1 ≤ Node.info.numkeys) :
    ∀ a ∈ split_LeafAccesses G t Node, a.inRange = true := by
  intro a ha
  unfold split_LeafAccesses at ha
  split at ha
  · cases ha
  · dsimp only at ha
    split at ha
    · cases ha
    · rename_i Left_Leaf hL
      have hLn := Unserialize_after_Serialize _ _ _ _ hL
      split at ha
      · cases ha
      · split at ha
        · cases ha
        · rename_i Right_Leaf hR
          have hRn := Unserialize_after_Serialize _ _ _ _ hR
          rw [hS] at ha
          rcases List.mem_append.1 ha with ha | ha
          · exact splitLeafLoopAccesses_inRange Node 0 _ _ _ (by omega) (by omega) a ha
          · split at ha
            · cases ha
            · rcases List.mem_append.1 ha with ha | ha
              · exact splitLeafLoopAccesses_inRange Node _ _ _ _ (by omega) (by omega) a ha
              · split at ha
                · cases ha
                · rcases List.mem_cons.1 ha with rfl | ha
                  · exact inRange_key (by omega)
                  · rcases List.mem_singleton.1 ha with rfl
                    exact inRange_val (by omega)

theorem splitInteriorLoop_numkeys (Node : BTreeNode) (base : Nat) :
    ∀ (count offset : Nat) (dst r : BTreeNode),
      splitInteriorLoop Node base count offset dst = Except.ok (Except.ok r) →
        r.info.numkeys = dst.info.numkeys + count := by
  intro count
  induction count with
  | zero => intro offset dst r h; cases h; rfl
  | succ n ih =>
    intro offset dst r h
    unfold splitInteriorLoop at h
    split at h
    · cases h
    · split at h
      · cases h
      · simp only at h
        split at h
        · cases h
        · rw [ih _ _ _ h, SetPtr_info, SetKey_info]
          simp only [BTreeNode.incNumkeys]
          omega

theorem splitInteriorLoopAccesses_inRange (Node : BTreeNode) (base : Nat) :
    ∀ (count offset : Nat) (dst : BTreeNode), offset + count ≤ Node.info.numkeys →
      offset - base ≤ dst.info.numkeys →
      ∀ a ∈ splitInteriorLoopAccesses Node base count offset dst, a.inRange = true := by
  intro count
  induction count with
  | zero => intro offset dst _ _ a ha; simp [splitInteriorLoopAccesses] at ha
  | succ n ih =>
    intro offset dst hle hd a ha
    unfold splitInteriorLoopAccesses at ha
    rcases List.mem_cons.1 ha with rfl | ha
    · exact inRange_key (by omega)
    · split at ha
      · cases ha
      · rcases List.mem_cons.1 ha with rfl | ha
        · exact inRange_ptr (by omega)
        · split at ha
          · cases ha
          · simp only at ha
            rcases List.mem_cons.1 ha with rfl | ha
            · exact inRange_key (by simp only [BTreeNode.incNumkeys]; omega)
            · rcases List.mem_cons.1 ha with rfl | ha
              · exact inRange_ptr (by rw [SetKey_info]; simp only [BTreeNode.incNumkeys]; omega)
              · split at ha
                · cases ha
                · refine ih _ _ (by omega) ?_ a ha
                  rw [SetPtr_info, SetKey_info]
                  simp only [BTreeNode.incNumkeys]
                  omega

theorem split_Internal_FullAccesses_inRange (G : SlotGeometry) (t : BTreeIndex)
    (Node : BTreeNode) (hS : G.GetNumSlotsAsInterior Node.info = Node.info.numkeys)
    (h2 : 2 ≤ Node.info.numkeys) :
    ∀ a ∈ split_Internal_FullAccesses G t Node, a.inRange = true := by
  intro a ha
  unfold split_Internal_FullAccesses at ha
  split at ha
  · cases ha
  · dsimp only at ha
    split at ha
    · cases ha
    · rename_i Left_Internal hL
      have hLn := Unserialize_after_Serialize _ _ _ _ hL
      split at ha
      · cases ha
      · split at ha
        · cases ha
        · rename_i Right_Internal hR
          have hRn := Unserialize_after_Serialize _ _ _ _ hR
          rw [hS] at ha
          rcases List.mem_append.1 ha with ha | ha
          · exact splitInteriorLoopAccesses_inRange Node 0 _ _ _ (by omega) (by omega) a ha
          · split at ha
            · cases ha
            · cases ha
            · rename_i L hLoop
              have hLk := splitInteriorLoop_numkeys _ _ _ _ _ _ hLoop
              rw [hLn] at hLk
              rcases List.mem_cons.1 ha with rfl | ha
              · exact inRange_ptr (by omega)
              · split at ha
                · cases ha
                · rcases List.mem_cons.1 ha with rfl | ha
                  · refine inRange_ptr ?_
                    rw [hLk]
                    show Node.info.numkeys / 2 ≤ 0 + Node.info.numkeys / 2
                    omega
                  · rcases List.mem_append.1 ha with ha | ha
                    · exact splitInteriorLoopAccesses_inRange Node _ _ _ _ (by omega)
                        (by omega) a ha
                    · split at ha
                      · cases ha
                      · cases ha
                      · rename_i R hRoop
                        have hRk := splitInteriorLoop_numkeys _ _ _ _ _ _ hRoop
                        rw [hRn] at hRk
                        rcases List.mem_cons.1 ha with rfl | ha
                        · exact inRange_ptr (Nat.le_refl _)
                        · split at ha
                          · cases ha
                          · rcases List.mem_cons.1 ha with rfl | ha
                            · refine inRange_ptr ?_
                              rw [hRk, if_neg (by omega)]
                              show Node.info.numkeys / 2 - 1 ≤
                                0 + (Node.info.numkeys - (Node.info.numkeys / 2 + 1))
                              omega
                            · rcases List.mem_singleton.1 ha with rfl
                              exact inRange_key (by omega)

theorem newRootAccesses_inRange (G : SlotGeometry) (t : BTreeIndex) (Temp_Key left : Nat) :
    ∀ a ∈ newRootAccesses G t Temp_Key left, a.inRange = true := by
  intro a ha
  unfold newRootAccesses at ha
  simp only at ha
  rcases List.mem_cons.1 ha with rfl | ha
  · exact inRange_key (by simp [BTreeNode.incNumkeys])
  · rcases List.mem_cons.1 ha with rfl | ha
    · exact inRange_ptr (by rw [SetKey_info]; simp [BTreeNode.incNumkeys])
    · rcases List.mem_singleton.1 ha with rfl
      exact inRange_ptr (by rw [SetPtr_info, SetKey_info]; simp [BTreeNode.incNumkeys])
theorem split_InternalAuxAccesses_inRange (G : SlotGeometry)
    (hI : ∀ (info : NodeMetadata) (n : Nat),
      G.GetNumSlotsAsInterior { info with numkeys := n } = G.GetNumSlotsAsInterior info)
    (hI1 : ∀ info : NodeMetadata, G.GetNumSlotsAsInterior info ≠ 1) :
    ∀ (n : Nat) (t : BTreeIndex) (pointer : List Nat) (left right key : Nat) (flag : Int),
      ∀ a ∈ split_InternalAuxAccesses G n t pointer left right key flag, a.inRange = true := by
  intro n
  induction n with
  | zero => intro t pointer left right key flag a ha; simp [split_InternalAuxAccesses] at ha
  | succ n ih =>
    intro t pointer left right key flag a ha
    unfold split_InternalAuxAccesses at ha
    split at ha
    · split at ha
      · cases ha
      · dsimp only at ha
        split at ha
        · cases ha
        · rename_i Temp_Node _
          split at ha
          · rename_i hth
            rcases List.mem_append.1 ha with ha | ha
            · exact insert_Not_Full_InternalAccesses_inRange _ _ _ _ a ha
            · split at ha
              · cases ha
              · rename_i i hi
                have hinfo := insert_Not_Full_Internal_info _ _ _ _ _ _ _ hi
                have hnum : i.2.1.info.numkeys = Temp_Node.info.numkeys + 1 := by
                  rw [hinfo]; rfl
                have hS : G.GetNumSlotsAsInterior i.2.1.info = i.2.1.info.numkeys := by
                  rw [hnum, hinfo, hth]
                  exact hI Temp_Node.info (Temp_Node.info.numkeys + 1)
                have h2 : 2 ≤ i.2.1.info.numkeys := by
                  have := hI1 Temp_Node.info
                  omega
                rcases List.mem_append.1 ha with ha | ha
                · exact split_Internal_FullAccesses_inRange G _ _ hS h2 a ha
                · split at ha
                  · cases ha
                  · split at ha
                    · cases ha
                    · split at ha
                      · exact ih _ _ _ _ _ _ a ha
                      · exact newRootAccesses_inRange _ _ _ _ a ha
          · exact insert_Not_Full_InternalAccesses_inRange _ _ _ _ a ha
    · cases ha

theorem insertTailAccesses_inRange (G : SlotGeometry)
    (hL : ∀ (info : NodeMetadata) (n : Nat),
      G.GetNumSlotsAsLeaf { info with numkeys := n } = G.GetNumSlotsAsLeaf info)
    (hI : ∀ (info : NodeMetadata) (n : Nat),
      G.GetNumSlotsAsInterior { info with numkeys := n } = G.GetNumSlotsAsInterior info)
    (hI1 : ∀ info : NodeMetadata, G.GetNumSlotsAsInterior info ≠ 1)
    (t : BTreeIndex) (pointer : List Nat) (key value : Nat) :
    ∀ a ∈ insertTailAccesses G t pointer key value, a.inRange = true := by
  intro a ha
  unfold insertTailAccesses at ha
  split at ha
  · cases ha
  · dsimp only at ha
    split at ha
    · cases ha
    · rename_i Temp_Node _
      split at ha
      · rename_i hth
        rcases List.mem_append.1 ha with ha | ha
        · exact insert_Not_FullAccesses_inRange _ _ _ a ha
        · split at ha
          · cases ha
          · rename_i i hi
            have hinfo := insert_Not_Full_info _ _ _ _ _ _ hi
            have hnum : i.2.1.info.numkeys = Temp_Node.info.numkeys + 1 := by
              rw [hinfo]; rfl
            have hS : G.GetNumSlotsAsLeaf i.2.1.info = i.2.1.info.numkeys := by
              rw [hnum, hinfo, hth]
              exact hL Temp_Node.info (Temp_Node.info.numkeys + 1)
            rcases List.mem_append.1 ha with ha | ha
            · exact split_LeafAccesses_inRange G _ _ hS (by omega) a ha
            · split at ha
              · cases ha
              · split at ha
                · cases ha
                · split at ha
                  · exact newRootAccesses_inRange _ _ _ _ a ha
                  · exact split_InternalAuxAccesses_inRange G hI hI1 _ _ _ _ _ _ _ a ha
      · exact insert_Not_FullAccesses_inRange _ _ _ a ha

theorem InsertAccesses_inRange (G : SlotGeometry)
    (hL : ∀ (info : NodeMetadata) (n : Nat),
      G.GetNumSlotsAsLeaf { info with numkeys := n } = G.GetNumSlotsAsLeaf info)
    (hI : ∀ (info : NodeMetadata) (n : Nat),
      G.GetNumSlotsAsInterior { info with numkeys := n } = G.GetNumSlotsAsInterior info)
    (hI1 : ∀ info : NodeMetadata, G.GetNumSlotsAsInterior info ≠ 1)
    (fuel : Nat) (t : BTreeIndex) (key value : Nat) :
    ∀ a ∈ InsertAccesses G fuel t key value, a.inRange = true := by
  intro a ha
  unfold InsertAccesses at ha
  rcases List.mem_append.1 ha with ha | ha
  · exact LookupOrUpdateInternalAccesses_inRange t key _ _ a ha
  · split at ha
    · cases ha
    · dsimp only at ha
      split at ha
      · split at ha
        · cases ha
        · split at ha
          · rcases List.mem_cons.1 ha with rfl | ha
            · exact inRange_key (by simp [BTreeNode.incNumkeys])
            · rcases List.mem_cons.1 ha with rfl | ha
              · exact inRange_val (by rw [SetKey_info]; simp [BTreeNode.incNumkeys])
              · split at ha
                · cases ha
                · exact insertTailAccesses_inRange G hL hI hI1 _ _ _ _ a ha
          · exact insertTailAccesses_inRange G hL hI hI1 _ _ _ _ a ha
      · cases ha

theorem withinBounds_of_inRange (l : List Access) (h : ∀ a ∈ l, a.inRange = true) :
    withinBounds l = true := by
  unfold withinBounds
  rw [List.all_eq_true]
  intro a ha
  have h1 := h a ha
  rw [h1, Bool.true_and]
  cases ht : a.typed
  · rfl
  · rw [accepted_of_inRange a h1 ht]; rfl
theorem interiorScanAccesses_node (b : BTreeNode) (key : Nat) :
    ∀ (count offset : Nat), ∀ a ∈ interiorScanAccesses b key count offset,
      a.node = b ∧ a.slot = Slot.key := by
  intro count
  induction count with
  | zero => intro offset a ha; simp [interiorScanAccesses] at ha
  | succ n ih =>
    intro offset a ha
    unfold interiorScanAccesses at ha
    rcases List.mem_cons.1 ha with rfl | ha
    · exact ⟨rfl, rfl⟩
    · split at ha
      · cases ha
      · split at ha
        · cases ha
        · exact ih _ a ha

theorem leafScanAccesses_node (b : BTreeNode) (key : Nat) :
    ∀ (count offset : Nat), ∀ a ∈ leafScanAccesses b key count offset,
      a.node = b ∧ a.slot = Slot.key := by
  intro count
  induction count with
  | zero => intro offset a ha; simp [leafScanAccesses] at ha
  | succ n ih =>
    intro offset a ha
    unfold leafScanAccesses at ha
    rcases List.mem_cons.1 ha with rfl | ha
    · exact ⟨rfl, rfl⟩
    · split at ha
      · cases ha
      · split at ha
        · cases ha
        · exact ih _ a ha

theorem typed_key_of_interior {a : Access} {b : BTreeNode}
    (h : a.node = b ∧ a.slot = Slot.key) (hb : b.info.nodetype.isInterior = true) :
    a.typed = true := by
  obtain ⟨n, s, i⟩ := a
  obtain ⟨h1, h2⟩ := h
  simp only at h1 h2
  subst h1 h2
  simp [Access.typed, hb]

theorem typed_key_of_leaf {a : Access} {b : BTreeNode}
    (h : a.node = b ∧ a.slot = Slot.key) (hb : b.info.nodetype.isLeaf = true) :
    a.typed = true := by
  obtain ⟨n, s, i⟩ := a
  obtain ⟨h1, h2⟩ := h
  simp only at h1 h2
  subst h1 h2
  simp [Access.typed, hb]

/-- The traversal calls the accessors inside the branch of the switch on the node type, so
every call is made on a node that has the kind of slot asked for. -/
theorem LookupOrUpdateInternalAccesses_typed (t : BTreeIndex) (key : Nat) :
    ∀ (fuel node : Nat), ∀ a ∈ LookupOrUpdateInternalAccesses t key fuel node,
      a.typed = true := by
  intro fuel
  induction fuel with
  | zero => intro node a ha; simp [LookupOrUpdateInternalAccesses] at ha
  | succ n ih =>
    intro node a ha
    unfold LookupOrUpdateInternalAccesses at ha
    split at ha
    · cases ha
    · rename_i b _
      split at ha
      · rename_i hty
        have hb : b.info.nodetype.isInterior = true := by rw [hty]; rfl
        rcases List.mem_append.1 ha with ha | ha
        · exact typed_key_of_interior (interiorScanAccesses_node b key _ _ a ha) hb
        · split at ha
          · cases ha
          · rcases List.mem_cons.1 ha with rfl | ha
            · exact hb
            · split at ha
              · cases ha
              · exact ih _ a ha
          · split at ha
            · rcases List.mem_cons.1 ha with rfl | ha
              · exact hb
              · split at ha
                · cases ha
                · exact ih _ a ha
            · cases ha
      · rename_i hty
        have hb : b.info.nodetype.isInterior = true := by rw [hty]; rfl
        rcases List.mem_append.1 ha with ha | ha
        · exact typed_key_of_interior (interiorScanAccesses_node b key _ _ a ha) hb
        · split at ha
          · cases ha
          · rcases List.mem_cons.1 ha with rfl | ha
            · exact hb
            · split at ha
              · cases ha
              · exact ih _ a ha
          · split at ha
            · rcases List.mem_cons.1 ha with rfl | ha
              · exact hb
              · split at ha
                · cases ha
                · exact ih _ a ha
            · cases ha
      · rename_i hty
        have hb : b.info.nodetype.isLeaf = true := by rw [hty]; rfl
        rcases List.mem_append.1 ha with ha | ha
        · exact typed_key_of_leaf (leafScanAccesses_node b key _ _ a ha) hb
        · split at ha
          · cases ha
          · rcases List.mem_singleton.1 ha with rfl
            exact hb
          · cases ha
      · cases ha

theorem LookupOrUpdateInternalAccesses_accepted (t : BTreeIndex) (key fuel node : Nat) :
    (LookupOrUpdateInternalAccesses t key fuel node).all Access.accepted = true := by
  rw [List.all_eq_true]
  intro a ha
  exact accepted_of_inRange a (LookupOrUpdateInternalAccesses_inRange t key fuel node a ha)
    (LookupOrUpdateInternalAccesses_typed t key fuel node a ha)

/-! ## Interior nodes of one slot -/

theorem interiorOnlyAtRoot_Serialize {bc : BufferCache} (node : BTreeNode) (n : Nat)
    (h : interiorOnlyAtRoot bc) (hn : n = 1 ∨ node.info.nodetype.isInterior = false) :
    interiorOnlyAtRoot (node.Serialize bc n).2 := by
  intro m b hm hb
  by_cases e : n = m
  · subst e
    have hlt : n < bc.blocks.length := by
      have := lt_length_of_getElem? hb
      rw [Serialize_length] at this
      exact this
    rw [Serialize_getElem?_self node bc hlt] at hb
    cases hb
    rw [stored_info]
    rcases hn with hn | hn
    · exact absurd hn hm
    · exact hn
  · rw [Serialize_getElem?_ne node bc e] at hb
    exact h m b hm hb

theorem OneLevel_write {t : BTreeIndex} (node : BTreeNode) (n : Nat) (h : OneLevel t)
    (hn : n = 1 ∨ node.info.nodetype.isInterior = false) :
    OneLevel { t with buffercache := (node.Serialize t.buffercache n).2 } :=
  ⟨h.1, h.2.1, h.2.2.1, interiorOnlyAtRoot_Serialize node n h.2.2.2 hn⟩

/-- `AllocateNode` keeps the shape, leaves block 1 alone, and does not hand out block 1
while that block holds a node. -/
theorem AllocateNode_OneLevel {t : BTreeIndex} {a : ERROR_T × Nat × BTreeIndex}
    (h : AllocateNode t = Except.ok a) (hF : OneLevel t) :
    OneLevel a.2.2 ∧ a.2.2.buffercache.blocks[1]? = t.buffercache.blocks[1]? ∧
      ∀ b : BTreeNode, t.buffercache.blocks[1]? = some b →
        b.info.nodetype ≠ NodeType.BTREE_UNALLOCATED_BLOCK → a.2.1 ≠ 1 := by
  unfold AllocateNode at h
  simp only at h
  split at h
  · rename_i h0
    cases h
    exact ⟨hF, rfl, fun _ _ _ => by simp only [h0]; decide⟩
  · split at h
    · cases h
    · rename_i node hnode
      split at h
      · cases h
      · rename_i hty
        cases h
        refine ⟨⟨hF.1, hF.2.1, hF.2.2.1, ?_⟩, ?_, ?_⟩
        · exact interiorOnlyAtRoot_Serialize _ _ hF.2.2.2 (Or.inr hF.2.2.1)
        · show (BTreeNode.Serialize _ t.buffercache t.superblock_index).2.blocks[1]? = _
          rw [hF.1]
          exact Serialize_getElem?_ne _ _ (by decide)
        · intro b hb hbt h1
          simp only at h1
          rw [h1] at hnode
          have := Unserialize_ok hnode
          rw [hb] at this
          cases this
          exact hbt (by simpa using hty)

theorem insertLeafLoop_shape (t : BTreeIndex) (Address key value : Nat) :
    ∀ (count offset counter : Nat) (node : BTreeNode)
      (r : Option ERROR_T × BTreeNode × BTreeIndex),
      insertLeafLoop t Address key value count offset counter node = Except.ok r →
        r.2.2 = t ∨ ∃ m : BTreeNode, m.info = node.info ∧
          r.2.2 = { t with buffercache := (m.Serialize t.buffercache Address).2 } := by
  intro count
  induction count with
  | zero => intro offset counter node r h; cases h; exact Or.inl rfl
  | succ n ih =>
    intro offset counter node r h
    unfold insertLeafLoop at h
    simp only [bind, Except.bind] at h
    cases hk : orUndefined (node.GetKey offset) with
    | error e => rw [hk] at h; cases h
    | ok k =>
      rw [hk] at h
      simp only at h
      split at h
      · cases hs : shiftLeaf (node.info.numkeys - 1 - offset) (node.info.numkeys - 1) node with
        | error e => rw [hs] at h; cases h
        | ok m =>
          rw [hs] at h
          simp only at h
          have hm := shiftLeaf_info _ _ _ _ hs
          split at h <;> cases h <;>
            exact Or.inr ⟨_, by simp only [SetVal_info, SetKey_info, hm], rfl⟩
      · split at h
        · cases h; exact Or.inl rfl
        · split at h
          · split at h <;> cases h <;>
              exact Or.inr ⟨_, by simp only [SetVal_info, SetKey_info], rfl⟩
          · exact ih _ _ _ _ h

theorem insertInteriorLoop_shape (t : BTreeIndex) (Address left right key : Nat) :
    ∀ (count offset counter : Nat) (node : BTreeNode)
      (r : Option ERROR_T × BTreeNode × BTreeIndex),
      insertInteriorLoop t Address left right key count offset counter node = Except.ok r →
        r.2.2 = t ∨ ∃ m : BTreeNode, m.info = node.info ∧
          r.2.2 = { t with buffercache := (m.Serialize t.buffercache Address).2 } := by
  intro count
  induction count with
  | zero => intro offset counter node r h; cases h; exact Or.inl rfl
  | succ n ih =>
    intro offset counter node r h
    unfold insertInteriorLoop at h
    simp only [bind, Except.bind] at h
    cases hk : orUndefined (node.GetKey offset) with
    | error e => rw [hk] at h; cases h
    | ok k =>
      rw [hk] at h
      simp only at h
      split at h
      · cases hs : shiftInterior (node.info.numkeys - 1 - offset) (node.info.numkeys - 1)
            node with
        | error e => rw [hs] at h; cases h
        | ok m =>
          rw [hs] at h
          simp only at h
          have hm := shiftInterior_info _ _ _ _ hs
          split at h <;> cases h <;>
            exact Or.inr ⟨_, by simp only [SetPtr_info, SetKey_info, hm], rfl⟩
      · split at h
        · cases h; exact Or.inl rfl
        · split at h
          · split at h <;> cases h <;>
              exact Or.inr ⟨_, by simp only [SetPtr_info, SetKey_info], rfl⟩
          · exact ih _ _ _ _ h

/-- `insert_Not_Full` keeps the shape when the node it writes back is not interior or goes
to block 1, and leaves block 1 alone when it writes elsewhere. -/
theorem insert_Not_Full_OneLevel {t : BTreeIndex} {Address key value : Nat}
    {Temp_Node : BTreeNode} {r : Option ERROR_T × BTreeNode × BTreeIndex}
    (h : insert_Not_Full t Address Temp_Node key value = Except.ok r) (hF : OneLevel t)
    (hA : Address = 1 ∨ Temp_Node.info.nodetype.isInterior = false) :
    OneLevel r.2.2 ∧
      (Address ≠ 1 → r.2.2.buffercache.blocks[1]? = t.buffercache.blocks[1]?) := by
  rcases insertLeafLoop_shape t Address key value _ _ _ _ r h with e | ⟨m, hm, e⟩
  · rw [e]; exact ⟨hF, fun _ => rfl⟩
  · rw [e]
    refine ⟨OneLevel_write m Address hF ?_, fun hne => Serialize_getElem?_ne _ _ hne⟩
    rcases hA with hA | hA
    · exact Or.inl hA
    · right; rw [hm]; exact hA

theorem insert_Not_Full_Internal_OneLevel {t : BTreeIndex} {left right key : Nat}
    {Temp_Node : BTreeNode} {r : Option ERROR_T × BTreeNode × BTreeIndex}
    (h : insert_Not_Full_Internal t 1 Temp_Node left right key = Except.ok r)
    (hF : OneLevel t) : OneLevel r.2.2 := by
  rcases insertInteriorLoop_shape t 1 left right key _ _ _ _ r h with e | ⟨m, _, e⟩
  · rw [e]; exact hF
  · rw [e]; exact OneLevel_write m 1 hF (Or.inl rfl)
theorem splitLeafLoop_nodetype (Node : BTreeNode) (base : Nat) :
    ∀ (count offset : Nat) (dst r : BTreeNode),
      splitLeafLoop Node base count offset dst = Except.ok r →
        r.info.nodetype = dst.info.nodetype := by
  intro count
  induction count with
  | zero => intro offset dst r h; cases h; rfl
  | succ n ih =>
    intro offset dst r h
    unfold splitLeafLoop at h
    split at h
    · cases h
    · split at h
      · cases h
      · simp only at h
        split at h
        · cases h
        · split at h
          · cases h
          · rw [ih _ _ _ h, SetVal_info, SetKey_info]
            rfl

/-- `split_Leaf` keeps the shape, and leaves block 1 alone while that block holds a node. -/
theorem split_Leaf_OneLevel (G : SlotGeometry) (t : BTreeIndex) (Node : BTreeNode)
    (sr : SplitResult) (h : split_Leaf G t Node = Except.ok sr) (hF : OneLevel t) :
    OneLevel sr.index ∧
      ∀ b : BTreeNode, t.buffercache.blocks[1]? = some b →
        b.info.nodetype ≠ NodeType.BTREE_UNALLOCATED_BLOCK →
        sr.index.buffercache.blocks[1]? = some b := by
  unfold split_Leaf at h
  simp only [bind, Except.bind] at h
  cases hA1 : AllocateNode t with
  | error f => rw [hA1] at h; cases h
  | ok a1 =>
    rw [hA1] at h
    obtain ⟨hF1, hK1, hN1⟩ := AllocateNode_OneLevel hA1 hF
    have hF1w := OneLevel_write
      (BTreeNode.new G NodeType.BTREE_LEAF_NODE a1.2.2.superblock.info.keysize
        a1.2.2.superblock.info.valuesize a1.2.2.superblock.info.blocksize) a1.2.1 hF1
      (Or.inr rfl)
    have hW1 : ∀ b : BTreeNode, t.buffercache.blocks[1]? = some b →
        b.info.nodetype ≠ NodeType.BTREE_UNALLOCATED_BLOCK →
        ((BTreeNode.new G NodeType.BTREE_LEAF_NODE a1.2.2.superblock.info.keysize
          a1.2.2.superblock.info.valuesize a1.2.2.superblock.info.blocksize).Serialize
          a1.2.2.buffercache a1.2.1).2.blocks[1]? = some b := by
      intro b hb hbt
      rw [Serialize_getElem?_ne _ _ (hN1 b hb hbt), hK1, hb]
    simp only [] at h
    split at h
    · cases h
      exact ⟨hF1w, hW1⟩
    · rename_i Left_Leaf hL
      have hLi := Unserialize_after_Serialize _ _ _ _ hL
      cases hA2 : AllocateNode
          { a1.2.2 with
            buffercache :=
              ((BTreeNode.new G NodeType.BTREE_LEAF_NODE a1.2.2.superblock.info.keysize
                a1.2.2.superblock.info.valuesize a1.2.2.superblock.info.blocksize).Serialize
                a1.2.2.buffercache a1.2.1).2 } with
      | error f => rw [hA2] at h; cases h
      | ok a2 =>
        rw [hA2] at h
        obtain ⟨hF2, hK2, hN2⟩ := AllocateNode_OneLevel hA2 hF1w
        have hF2w := OneLevel_write
          (BTreeNode.new G NodeType.BTREE_LEAF_NODE a2.2.2.superblock.info.keysize
            a2.2.2.superblock.info.valuesize a2.2.2.superblock.info.blocksize) a2.2.1 hF2
          (Or.inr rfl)
        have hW2 : ∀ b : BTreeNode, t.buffercache.blocks[1]? = some b →
            b.info.nodetype ≠ NodeType.BTREE_UNALLOCATED_BLOCK →
            ((BTreeNode.new G NodeType.BTREE_LEAF_NODE a2.2.2.superblock.info.keysize
              a2.2.2.superblock.info.valuesize a2.2.2.superblock.info.blocksize).Serialize
              a2.2.2.buffercache a2.2.1).2.blocks[1]? = some b := by
          intro b hb hbt
          rw [Serialize_getElem?_ne _ _ (hN2 b (hW1 b hb hbt) hbt), hK2]
          exact hW1 b hb hbt
        simp only [] at h
        split at h
        · cases h
          exact ⟨hF2w, hW2⟩
        · rename_i Right_Leaf hR
          have hRi := Unserialize_after_Serialize _ _ _ _ hR
          split at h
          · cases h
            exact ⟨hF2w, hW2⟩
          · rename_i L hLoop
            have hLt : L.info.nodetype.isInterior = false := by
              rw [splitLeafLoop_nodetype _ _ _ _ _ _ hLoop, hLi]; rfl
            have hF3 := OneLevel_write L a1.2.1 hF2w (Or.inr hLt)
            have hW3 : ∀ b : BTreeNode, t.buffercache.blocks[1]? = some b →
                b.info.nodetype ≠ NodeType.BTREE_UNALLOCATED_BLOCK →
                (L.Serialize
                  ((BTreeNode.new G NodeType.BTREE_LEAF_NODE a2.2.2.superblock.info.keysize
                    a2.2.2.superblock.info.valuesize
                    a2.2.2.superblock.info.blocksize).Serialize
                    a2.2.2.buffercache a2.2.1).2 a1.2.1).2.blocks[1]? = some b := by
              intro b hb hbt
              rw [Serialize_getElem?_ne _ _ (hN1 b hb hbt)]
              exact hW2 b hb hbt
            split at h
            · cases h
              exact ⟨hF3, hW3⟩
            · rename_i R hRoop
              have hRt : R.info.nodetype.isInterior = false := by
                rw [splitLeafLoop_nodetype _ _ _ _ _ _ hRoop, hRi]; rfl
              cases h
              refine ⟨OneLevel_write R a2.2.1 hF3 (Or.inr hRt), ?_⟩
              intro b hb hbt
              show (R.Serialize _ a2.2.1).2.blocks[1]? = some b
              rw [Serialize_getElem?_ne _ _ (hN2 b (hW1 b hb hbt) hbt)]
              exact hW3 b hb hbt
/-- At a block that holds no root or interior node the traversal goes no further: the path
it returns is the path it was given, with the root pushed if that block is the root. -/
theorem traversal_stops (t : BTreeIndex) (op : BTreeOp) (key : Nat) :
    ∀ (fuel n value : Nat) (pointer : List Nat) (r : ERROR_T × Nat × List Nat × BTreeIndex),
      (∀ b : BTreeNode, t.buffercache.blocks[n]? = some b →
        b.info.nodetype.isInterior = false) →
      LookupOrUpdateInternal t op key fuel n value pointer = Except.ok r →
      r.2.2.1 =
        (if n = t.superblock.info.rootnode then pointer ++ [t.superblock.info.rootnode]
          else pointer) := by
  intro fuel n value pointer r hn h
  cases fuel with
  | zero => cases h
  | succ f =>
    unfold LookupOrUpdateInternal at h
    simp only at h
    split at h
    · cases h; rfl
    · rename_i b hb
      have hb' := hn b (Unserialize_ok hb)
      split at h
      · rename_i hty; rw [hty] at hb'; cases hb'
      · rename_i hty; rw [hty] at hb'; cases hb'
      · split at h
        · cases h; rfl
        · split at h
          · split at h <;> cases h <;> rfl
          · split at h <;> cases h <;> rfl
        · cases h; rfl
      · cases h; rfl

theorem dropLast_ones {l : List Nat} (h : ∀ x ∈ l.dropLast, x = 1) :
    ∀ x ∈ (1 :: 1 :: l).dropLast, x = 1 := by
  intro x hx
  cases l with
  | nil => simp at hx; exact hx
  | cons c l =>
    simp only [List.dropLast_cons₂, List.mem_cons] at hx
    rcases hx with hx | hx | hx
    · exact hx
    · exact hx
    · exact h x hx

/-- When only block 1 holds a root or interior node, every block on the path that a
traversal from the root records, the last one apart, is block 1, and if there is such a
block the root holds a key. -/
theorem traversal_OneLevel (t : BTreeIndex) (op : BTreeOp) (key : Nat)
    (hroot : t.superblock.info.rootnode = 1) (hP : interiorOnlyAtRoot t.buffercache) :
    ∀ (fuel value : Nat) (pointer : List Nat) (r : ERROR_T × Nat × List Nat × BTreeIndex),
      LookupOrUpdateInternal t op key fuel 1 value pointer = Except.ok r →
      ∃ l : List Nat, r.2.2.1 = pointer ++ l ∧ (∀ x ∈ l.dropLast, x = 1) ∧
        (l.dropLast ≠ [] → ∃ b : BTreeNode, t.buffercache.blocks[1]? = some b ∧
          b.info.nodetype.isInterior = true ∧ b.info.numkeys ≠ 0) := by
  intro fuel
  induction fuel with
  | zero => intro value pointer r h; cases h
  | succ f ih =>
    intro value pointer r h
    have stop : (∀ b : BTreeNode, t.buffercache.blocks[1]? = some b →
        b.info.nodetype.isInterior = false) →
        ∃ l : List Nat, r.2.2.1 = pointer ++ l ∧ (∀ x ∈ l.dropLast, x = 1) ∧
          (l.dropLast ≠ [] → ∃ b : BTreeNode, t.buffercache.blocks[1]? = some b ∧
            b.info.nodetype.isInterior = true ∧ b.info.numkeys ≠ 0) := by
      intro hn
      have := traversal_stops t op key _ _ _ _ _ hn h
      rw [hroot, if_pos rfl] at this
      exact ⟨[1], this, fun x hx => by simp at hx, fun hne => absurd rfl hne⟩
    have hcases : t.buffercache.blocks[1]? = none ∨
        ∃ b : BTreeNode, t.buffercache.blocks[1]? = some b := by
      cases t.buffercache.blocks[1]? with
      | none => exact Or.inl rfl
      | some b => exact Or.inr ⟨b, rfl⟩
    rcases hcases with hb1 | ⟨b, hb1⟩
    · exact stop (fun b hb => by rw [hb1] at hb; cases hb)
    · cases hty : b.info.nodetype.isInterior with
      | false => exact stop (fun c hc => by rw [hb1] at hc; cases hc; exact hty)
      | true =>
        have descend : 0 < b.info.numkeys → ∀ ptr : Nat,
            LookupOrUpdateInternal t op key f ptr value ((pointer ++ [1]) ++ [ptr]) =
              Except.ok r →
            ∃ l : List Nat, r.2.2.1 = pointer ++ l ∧ (∀ x ∈ l.dropLast, x = 1) ∧
              (l.dropLast ≠ [] → ∃ b : BTreeNode, t.buffercache.blocks[1]? = some b ∧
                b.info.nodetype.isInterior = true ∧ b.info.numkeys ≠ 0) := by
          intro hpos ptr hrec
          by_cases hp : ptr = 1
          · subst hp
            obtain ⟨l, hl1, hl2, _⟩ := ih _ _ _ hrec
            refine ⟨1 :: 1 :: l, ?_, dropLast_ones hl2, fun _ => ⟨b, hb1, hty, by omega⟩⟩
            rw [hl1]
            simp
          · have := traversal_stops t op key _ _ _ _ _ (fun c hc => hP ptr c hp hc) hrec
            rw [hroot, if_neg hp] at this
            refine ⟨[1, ptr], ?_, ?_, fun _ => ⟨b, hb1, hty, by omega⟩⟩
            · rw [this]; simp
            · intro x hx
              simp at hx
              exact hx
        rw [LookupOrUpdateInternal_succ_interior hb1 hty, hroot, if_pos rfl] at h
        split at h
        · cases h
          exact ⟨[1], rfl, fun x hx => by simp at hx, fun hne => absurd rfl hne⟩
        · rename_i offset hs
          have hlt := interiorScan_some_lt b key _ _ _ hs
          split at h
          · cases h
          · exact descend (by omega) _ h
        · split at h
          · rename_i hpos
            split at h
            · cases h
            · exact descend hpos _ h
          · cases h
            exact ⟨[1], rfl, fun x hx => by simp at hx, fun hne => absurd rfl hne⟩
/-- With one interior slot, `split_Internal` on a parent that holds a key only inserts into
the parent; when the parent is block 1 the shape is kept. -/
theorem split_InternalAux_OneLevel (leaf : Nat) :
    ∀ (n : Nat) (t : BTreeIndex) (pointer : List Nat) (left right key : Nat)
      (res : Option ERROR_T × Int × BTreeIndex),
      split_InternalAux (geometry leaf 1) n t pointer left right key 0 = Except.ok res →
      OneLevel t →
      (∀ p : Nat, pointer.getLast? = some p →
        p = 1 ∧ ∃ b : BTreeNode, t.buffercache.blocks[1]? = some b ∧ b.info.numkeys ≠ 0) →
      OneLevel res.2.2 := by
  intro n t pointer left right key res h hF hp
  cases n with
  | zero =>
    unfold split_InternalAux at h
    rw [if_pos rfl] at h
    split at h <;> cases h
  | succ n =>
    unfold split_InternalAux at h
    rw [if_pos rfl] at h
    simp only [bind, Except.bind] at h
    cases hg : pointer.getLast? with
    | none => rw [hg] at h; cases h
    | some A =>
      obtain ⟨hA, b, hb, hbn⟩ := hp A hg
      subst hA
      rw [hg] at h
      simp only [assigned, Unserialize_of_getElem? hb, orUndefined] at h
      rw [if_neg (by show ¬ b.info.numkeys + 1 = 1; omega)] at h
      cases hi : insert_Not_Full_Internal t 1 b left right key with
      | error e => rw [hi] at h; cases h
      | ok i =>
        rw [hi] at h
        cases h
        exact insert_Not_Full_Internal_OneLevel hi hF

theorem split_InternalAuxAccesses_inRange_one (leaf : Nat) :
    ∀ (n : Nat) (t : BTreeIndex) (pointer : List Nat) (left right key : Nat) (flag : Int),
      (∀ (p : Nat) (T : BTreeNode), pointer.getLast? = some p →
        BTreeNode.Unserialize t.buffercache p = Except.ok T → T.info.numkeys ≠ 0) →
      ∀ a ∈ split_InternalAuxAccesses (geometry leaf 1) n t pointer left right key flag,
        a.inRange = true := by
  intro n t pointer left right key flag hp a ha
  cases n with
  | zero => simp [split_InternalAuxAccesses] at ha
  | succ n =>
    unfold split_InternalAuxAccesses at ha
    split at ha
    · split at ha
      · cases ha
      · rename_i A hg
        dsimp only at ha
        split at ha
        · cases ha
        · rename_i T hT
          have hn := hp A T hg hT
          rw [if_neg (by show ¬ T.info.numkeys + 1 = 1; omega)] at ha
          exact insert_Not_Full_InternalAccesses_inRange _ _ _ _ a ha
    · cases ha
theorem isInterior_ne_unallocated {b : BTreeNode} (h : b.info.nodetype.isInterior = true) :
    b.info.nodetype ≠ NodeType.BTREE_UNALLOCATED_BLOCK := by
  intro e
  rw [e] at h
  cases h

/-- With one interior slot the closing block of `Insert` keeps the shape, when the blocks
recorded before the last one are block 1 and block 1 holds an interior node with a key. -/
theorem insertTail_OneLevel (leaf : Nat) (t : BTreeIndex) (pointer : List Nat)
    (key value : Nat) (r : Option ERROR_T × BTreeIndex)
    (h : insertTail (geometry leaf 1) t pointer key value = Except.ok r) (hF : OneLevel t)
    (hp : ∀ p : Nat, pointer.dropLast.getLast? = some p →
      p = 1 ∧ ∃ b : BTreeNode, t.buffercache.blocks[1]? = some b ∧
        b.info.nodetype.isInterior = true ∧ b.info.numkeys ≠ 0) :
    OneLevel r.2 := by
  unfold insertTail at h
  simp only [bind, Except.bind] at h
  cases hg : pointer.getLast? with
  | none => rw [hg] at h; cases h
  | some A =>
    rw [hg] at h
    simp only [assigned] at h
    cases hU : BTreeNode.Unserialize t.buffercache A with
    | error e => rw [hU] at h; cases h
    | ok TN =>
      rw [hU] at h
      simp only [orUndefined] at h
      have hTN : A = 1 ∨ TN.info.nodetype.isInterior = false := by
        by_cases hA : A = 1
        · exact Or.inl hA
        · exact Or.inr (hF.2.2.2 A TN hA (Unserialize_ok hU))
      cases hi : insert_Not_Full t A TN key value with
      | error e =>
        rw [hi] at h
        split at h <;> cases h
      | ok i =>
        rw [hi] at h
        obtain ⟨hFi, hKi⟩ := insert_Not_Full_OneLevel hi hF hTN
        simp only at h
        split at h
        · split at h
          · cases hs : split_Leaf (geometry leaf 1) i.2.2 i.2.1 with
            | error e => rw [hs] at h; cases h
            | ok sr =>
              rw [hs] at h
              have hFs := (split_Leaf_OneLevel _ _ _ _ hs hFi).1
              simp only at h
              cases hk : sr.Key with
              | none => rw [hk] at h; cases h
              | some k =>
                rw [hk] at h
                cases h
                exact OneLevel_write _ _ hFs (Or.inl hFs.2.1)
          · rename_i hAr
            cases hs : split_Leaf (geometry leaf 1) i.2.2 i.2.1 with
            | error e => rw [hs] at h; cases h
            | ok sr =>
              rw [hs] at h
              obtain ⟨hFs, hKs⟩ := split_Leaf_OneLevel _ _ _ _ hs hFi
              simp only at h
              cases hk : sr.Key with
              | none => rw [hk] at h; cases h
              | some k =>
                rw [hk] at h
                simp only at h
                cases hx : split_Internal (geometry leaf 1) sr.index pointer.dropLast sr.left
                    sr.right k 0 with
                | error e => rw [hx] at h; cases h
                | ok x =>
                  rw [hx] at h
                  cases h
                  have hA1 : A ≠ 1 := by rw [← hFi.2.1]; exact hAr
                  refine split_InternalAux_OneLevel leaf _ _ _ _ _ _ _ hx hFs ?_
                  intro p hpl
                  obtain ⟨hp1, b, hb, hbi, hbn⟩ := hp p hpl
                  refine ⟨hp1, b, ?_, hbn⟩
                  apply hKs b _ (isInterior_ne_unallocated hbi)
                  rw [hKi hA1]
                  exact hb
        · cases h
          exact hFi

theorem insertTailAccesses_inRange_one (leaf : Nat) (t : BTreeIndex) (pointer : List Nat)
    (key value : Nat) (hF : OneLevel t)
    (hp : ∀ p : Nat, pointer.dropLast.getLast? = some p →
      p = 1 ∧ ∃ b : BTreeNode, t.buffercache.blocks[1]? = some b ∧
        b.info.nodetype.isInterior = true ∧ b.info.numkeys ≠ 0) :
    ∀ a ∈ insertTailAccesses (geometry leaf 1) t pointer key value, a.inRange = true := by
  intro a ha
  unfold insertTailAccesses at ha
  split at ha
  · cases ha
  · rename_i A hg
    dsimp only at ha
    split at ha
    · cases ha
    · rename_i TN hU
      have hTN : A = 1 ∨ TN.info.nodetype.isInterior = false := by
        by_cases hA : A = 1
        · exact Or.inl hA
        · exact Or.inr (hF.2.2.2 A TN hA (Unserialize_ok hU))
      split at ha
      · rename_i hth
        rcases List.mem_append.1 ha with ha | ha
        · exact insert_Not_FullAccesses_inRange _ _ _ a ha
        · split at ha
          · cases ha
          · rename_i i hi
            obtain ⟨hFi, hKi⟩ := insert_Not_Full_OneLevel hi hF hTN
            have hinfo := insert_Not_Full_info _ _ _ _ _ _ hi
            have hnum : i.2.1.info.numkeys = TN.info.numkeys + 1 := by
              rw [hinfo]; rfl
            have hS : (geometry leaf 1).GetNumSlotsAsLeaf i.2.1.info = i.2.1.info.numkeys := by
              rw [hnum]; exact hth.symm
            rcases List.mem_append.1 ha with ha | ha
            · exact split_LeafAccesses_inRange _ _ _ hS (by omega) a ha
            · split at ha
              · cases ha
              · rename_i sr hs
                obtain ⟨hFs, hKs⟩ := split_Leaf_OneLevel _ _ _ _ hs hFi
                split at ha
                · cases ha
                · split at ha
                  · exact newRootAccesses_inRange _ _ _ _ a ha
                  · rename_i hAr
                    have hA1 : A ≠ 1 := by rw [← hFi.2.1]; exact hAr
                    refine split_InternalAuxAccesses_inRange_one leaf _ _ _ _ _ _ _ ?_ a ha
                    intro p T hpl hT
                    obtain ⟨hp1, b, hb, hbi, hbn⟩ := hp p hpl
                    subst hp1
                    have hb' : sr.index.buffercache.blocks[1]? = some b := by
                      apply hKs b _ (isInterior_ne_unallocated hbi)
                      rw [hKi hA1]
                      exact hb
                    have := Unserialize_ok hT
                    rw [hb'] at this
                    cases this
                    exact hbn
      · exact insert_Not_FullAccesses_inRange _ _ _ a ha
/-- What the traversal of `Insert` records, in a state of the shape `OneLevel`: the blocks
before the last one are block 1, and if there is one, block 1 holds an interior node with a
key. -/
theorem Insert_path_OneLevel (t : BTreeIndex) (key fuel : Nat)
    (r : ERROR_T × Nat × List Nat × BTreeIndex) (hF : OneLevel t)
    (h : LookupOrUpdateInternal t BTreeOp.BTREE_OP_LOOKUP key fuel t.superblock.info.rootnode
      0 [] = Except.ok r) :
    r.2.2.2 = t ∧
      ∀ p : Nat, r.2.2.1.dropLast.getLast? = some p →
        p = 1 ∧ ∃ b : BTreeNode, t.buffercache.blocks[1]? = some b ∧
          b.info.nodetype.isInterior = true ∧ b.info.numkeys ≠ 0 := by
  refine ⟨lookup_index _ _ _ _ _ _ _ h, ?_⟩
  rw [hF.2.1] at h
  obtain ⟨l, hl1, hl2, hl3⟩ := traversal_OneLevel t _ key hF.2.1 hF.2.2.2 _ _ _ _ h
  rw [hl1, List.nil_append]
  intro p hp
  have hmem : p ∈ l.dropLast := List.mem_of_getLast?_eq_some hp
  exact ⟨hl2 p hmem, hl3 (List.ne_nil_of_mem hmem)⟩

theorem Insert_OneLevel (leaf fuel : Nat) (t : BTreeIndex) (key value : Nat)
    (r : Option ERROR_T × BTreeIndex)
    (h : Insert (geometry leaf 1) fuel t key value = Except.ok r) (hF : OneLevel t) :
    OneLevel r.2 := by
  unfold Insert at h
  cases hl : LookupOrUpdateInternal t BTreeOp.BTREE_OP_LOOKUP key fuel
      t.superblock.info.rootnode 0 [] with
  | error e => rw [hl] at h; cases h
  | ok r0 =>
    rw [hl] at h
    obtain ⟨ht, hp⟩ := Insert_path_OneLevel t key fuel r0 hF hl
    simp only at h
    rw [ht] at h
    split at h
    · cases h; exact hF
    · split at h
      · cases h
      · rename_i rootNode hroot
        rw [hF.2.1] at hroot
        have hrb := Unserialize_ok hroot
        have hF1 := OneLevel_write rootNode t.superblock.info.rootnode hF (Or.inl hF.2.1)
        split at h
        · rename_i hinit
          have hn0 : rootNode.info.numkeys = 0 := by simpa using hinit
          have hF2 := OneLevel_write
            ((((BTreeNode.new (geometry leaf 1) NodeType.BTREE_LEAF_NODE
              t.superblock.info.keysize t.superblock.info.valuesize
              t.superblock.info.blocksize).incNumkeys.SetKey 0 key).2).SetVal 0 value).2
            t.superblock.info.rootnode hF1 (Or.inl hF.2.1)
          split at h
          · cases h; exact hF2
          · refine insertTail_OneLevel leaf _ _ _ _ _ h hF2 ?_
            intro p hpl
            obtain ⟨_, b, hb, _, hbn⟩ := hp p hpl
            rw [hrb] at hb
            cases hb
            exact absurd hn0 hbn
        · refine insertTail_OneLevel leaf _ _ _ _ _ h hF1 ?_
          intro p hpl
          obtain ⟨hp1, b, hb, hbi, hbn⟩ := hp p hpl
          refine ⟨hp1, b, ?_, hbi, hbn⟩
          rw [hrb] at hb
          cases hb
          show (rootNode.Serialize t.buffercache t.superblock.info.rootnode).2.blocks[1]? = _
          rw [hF.2.1, Serialize_getElem?_self _ _ (lt_length_of_getElem? hrb),
            stored_of_interior hbi]
    · cases h; exact hF

theorem InsertAccesses_inRange_one (leaf fuel : Nat) (t : BTreeIndex) (key value : Nat)
    (hF : OneLevel t) :
    ∀ a ∈ InsertAccesses (geometry leaf 1) fuel t key value, a.inRange = true := by
  intro a ha
  unfold InsertAccesses at ha
  rcases List.mem_append.1 ha with ha | ha
  · exact LookupOrUpdateInternalAccesses_inRange t key _ _ a ha
  · split at ha
    · cases ha
    · rename_i r0 hl
      obtain ⟨ht, hp⟩ := Insert_path_OneLevel t key fuel r0 hF hl
      dsimp only at ha
      rw [ht] at ha
      split at ha
      · split at ha
        · cases ha
        · rename_i rootNode hroot
          rw [hF.2.1] at hroot
          have hrb := Unserialize_ok hroot
          have hF1 := OneLevel_write rootNode t.superblock.info.rootnode hF (Or.inl hF.2.1)
          split at ha
          · rename_i hn0
            rcases List.mem_cons.1 ha with rfl | ha
            · exact inRange_key (by simp [BTreeNode.incNumkeys])
            · rcases List.mem_cons.1 ha with rfl | ha
              · exact inRange_val (by rw [SetKey_info]; simp [BTreeNode.incNumkeys])
              · split at ha
                · cases ha
                · have hF2 := OneLevel_write
                    ((((BTreeNode.new (geometry leaf 1) NodeType.BTREE_LEAF_NODE
                      t.superblock.info.keysize t.superblock.info.valuesize
                      t.superblock.info.blocksize).incNumkeys.SetKey 0 key).2).SetVal 0
                      value).2
                    t.superblock.info.rootnode hF1 (Or.inl hF.2.1)
                  refine insertTailAccesses_inRange_one leaf _ _ _ _ hF2 ?_ a ha
                  intro p hpl
                  obtain ⟨_, b, hb, _, hbn⟩ := hp p hpl
                  rw [hrb] at hb
                  cases hb
                  exact absurd hn0 hbn
          · refine insertTailAccesses_inRange_one leaf _ _ _ _ hF1 ?_ a ha
            intro p hpl
            obtain ⟨hp1, b, hb, hbi, hbn⟩ := hp p hpl
            refine ⟨hp1, b, ?_, hbi, hbn⟩
            rw [hrb] at hb
            cases hb
            show (rootNode.Serialize t.buffercache t.superblock.info.rootnode).2.blocks[1]? = _
            rw [hF.2.1, Serialize_getElem?_self _ _ (lt_length_of_getElem? hrb),
              stored_of_interior hbi]
      · cases ha

theorem insertAll_OneLevel (leaf fuel : Nat) :
    ∀ (kvs : List (Nat × Nat)) (t u : BTreeIndex),
      insertAll (geometry leaf 1) fuel (Except.ok t) kvs = Except.ok u → OneLevel t →
      OneLevel u := by
  intro kvs
  induction kvs with
  | nil => intro t u h hF; cases h; exact hF
  | cons kv rest ih =>
    intro t u h hF
    unfold insertAll at h
    split at h
    · exact ih _ _ h (Insert_OneLevel leaf fuel t kv.1 kv.2 _ (by assumption) hF)
    · cases h
/-- `Attach` with `create` succeeds only on a store of at least two blocks. -/
theorem Attach_create_length (G : SlotGeometry) (t u : BTreeIndex)
    (h : Attach G t 0 true = Except.ok (ERROR_T.ERROR_NOERROR, u)) :
    2 ≤ t.buffercache.blocks.length := by
  by_contra hlt
  have hgen : ∀ (node : BTreeNode) (bc : BufferCache) (n : Nat),
      ¬ n < bc.blocks.length → (node.Serialize bc n).1 ≠ ERROR_T.ERROR_NOERROR := by
    intro node bc n hn
    unfold BTreeNode.Serialize
    rw [if_neg hn]
    intro e
    cases e
  unfold Attach at h
  simp only [ne_eq, not_true_eq_false, if_false, if_true] at h
  split at h
  · rename_i h1
    exact h1 (congrArg Prod.fst (Except.ok.inj h))
  · split at h
    · rename_i h2
      exact h2 (congrArg Prod.fst (Except.ok.inj h))
    · rename_i h2
      apply h2
      apply hgen
      show ¬ 0 + 1 < (BTreeNode.Serialize _ (t.buffercache.NotifyAllocateBlock 0) 0).2.blocks.length
      rw [Serialize_length]
      show ¬ 0 + 1 < t.buffercache.blocks.length
      omega

theorem Attach_OneLevel (G : SlotGeometry) (t u : BTreeIndex)
    (h : Attach G t 0 true = Except.ok (ERROR_T.ERROR_NOERROR, u)) : OneLevel u := by
  have hN := Attach_create_length G t u h
  obtain ⟨u', hA, hidx, hlen, hsb, hb0, _, hrest⟩ := Attach_create G t hN
  rw [hA] at h
  cases h
  refine ⟨hidx, by rw [hsb], by rw [hsb]; rfl, ?_⟩
  intro m b hm hb
  have hml : m < t.buffercache.blocks.length := by
    rw [← hlen]; exact lt_length_of_getElem? hb
  rcases Nat.lt_or_ge m 2 with h2 | h2
  · have hm0 : m = 0 := by omega
    subst hm0
    rw [hb0] at hb
    cases hb
    rw [hsb]
    rfl
  · obtain ⟨c, hc, hct, _⟩ := hrest m h2 hml
    rw [hc] at hb
    cases hb
    rw [hct]
    rfl

/-! ## The slot accesses are made on nodes of the right type -/

theorem typed_key_leaf {b : BTreeNode} {i : Nat} (h : b.info.nodetype.isLeaf = true) :
    (Access.mk b Slot.key i).typed = true := by
  simp [Access.typed, h]

theorem typed_val_leaf {b : BTreeNode} {i : Nat} (h : b.info.nodetype.isLeaf = true) :
    (Access.mk b Slot.val i).typed = true := by
  simp [Access.typed, h]

theorem typed_key_interior {b : BTreeNode} {i : Nat}
    (h : b.info.nodetype.isInterior = true) : (Access.mk b Slot.key i).typed = true := by
  simp [Access.typed, h]

theorem typed_ptr_interior {b : BTreeNode} {i : Nat}
    (h : b.info.nodetype.isInterior = true) : (Access.mk b Slot.ptr i).typed = true := by
  simp [Access.typed, h]

theorem shiftLeafAccesses_typed :
    ∀ (count i : Nat) (node : BTreeNode), node.info.nodetype.isLeaf = true →
      ∀ a ∈ shiftLeafAccesses count i node, a.typed = true := by
  intro count
  induction count with
  | zero => intro i node _ a ha; simp [shiftLeafAccesses] at ha
  | succ n ih =>
    intro i node hl a ha
    unfold shiftLeafAccesses at ha
    rcases List.mem_cons.1 ha with rfl | ha
    · exact typed_key_leaf hl
    · split at ha
      · cases ha
      · rcases List.mem_cons.1 ha with rfl | ha
        · exact typed_val_leaf hl
        · split at ha
          · cases ha
          · rcases List.mem_cons.1 ha with rfl | ha
            · exact typed_key_leaf hl
            · rcases List.mem_cons.1 ha with rfl | ha
              · exact typed_val_leaf (by rw [SetKey_info]; exact hl)
              · exact ih _ _ (by rw [SetVal_info, SetKey_info]; exact hl) a ha

theorem insertLeafLoopAccesses_typed (key value : Nat) :
    ∀ (count offset counter : Nat) (node : BTreeNode), node.info.nodetype.isLeaf = true →
      ∀ a ∈ insertLeafLoopAccesses key value count offset counter node, a.typed = true := by
  intro count
  induction count with
  | zero => intro offset counter node _ a ha; simp [insertLeafLoopAccesses] at ha
  | succ n ih =>
    intro offset counter node hl a ha
    unfold insertLeafLoopAccesses at ha
    rcases List.mem_cons.1 ha with rfl | ha
    · exact typed_key_leaf hl
    · split at ha
      · cases ha
      · split at ha
        · rcases List.mem_append.1 ha with ha | ha
          · exact shiftLeafAccesses_typed _ _ _ hl a ha
          · split at ha
            · cases ha
            · rename_i m hs
              have hm := shiftLeaf_info _ _ _ _ hs
              rcases List.mem_cons.1 ha with rfl | ha
              · exact typed_key_leaf (by rw [hm]; exact hl)
              · rcases List.mem_singleton.1 ha with rfl
                exact typed_val_leaf (by rw [SetKey_info, hm]; exact hl)
        · split at ha
          · cases ha
          · simp only at ha
            split at ha
            · rcases List.mem_cons.1 ha with rfl | ha
              · exact typed_key_leaf hl
              · rcases List.mem_singleton.1 ha with rfl
                exact typed_val_leaf (by rw [SetKey_info]; exact hl)
            · exact ih _ _ _ hl a ha

/-- The calls of `insert_Not_Full` are made on a leaf, or there is none. -/
theorem insert_Not_FullAccesses_typed (Temp_Node : BTreeNode) (key value : Nat)
    (h : Temp_Node.info.nodetype.isLeaf = true ∨ Temp_Node.info.numkeys = 0) :
    ∀ a ∈ insert_Not_FullAccesses Temp_Node key value, a.typed = true := by
  intro a ha
  unfold insert_Not_FullAccesses at ha
  rcases h with h | h
  · exact insertLeafLoopAccesses_typed key value _ _ _ Temp_Node.incNumkeys h a ha
  · simp only [BTreeNode.incNumkeys, h] at ha
    simp [insertLeafLoopAccesses] at ha

theorem shiftInteriorAccesses_typed :
    ∀ (count i : Nat) (node : BTreeNode), node.info.nodetype.isInterior = true →
      ∀ a ∈ shiftInteriorAccesses count i node, a.typed = true := by
  intro count
  induction count with
  | zero => intro i node _ a ha; simp [shiftInteriorAccesses] at ha
  | succ n ih =>
    intro i node hl a ha
    unfold shiftInteriorAccesses at ha
    rcases List.mem_cons.1 ha with rfl | ha
    · exact typed_key_interior hl
    · split at ha
      · cases ha
      · rcases List.mem_cons.1 ha with rfl | ha
        · exact typed_key_interior hl
        · rcases List.mem_cons.1 ha with rfl | ha
          · exact typed_ptr_interior (by rw [SetKey_info]; exact hl)
          · split at ha
            · cases ha
            · rcases List.mem_cons.1 ha with rfl | ha
              · exact typed_ptr_interior (by rw [SetKey_info]; exact hl)
              · exact ih _ _ (by rw [SetPtr_info, SetKey_info]; exact hl) a ha

theorem insertInteriorLoopAccesses_typed (left right key : Nat) :
    ∀ (count offset counter : Nat) (node : BTreeNode),
      node.info.nodetype.isInterior = true →
      ∀ a ∈ insertInteriorLoopAccesses left right key count offset counter node,
        a.typed = true := by
  intro count
  induction count with
  | zero => intro offset counter node _ a ha; simp [insertInteriorLoopAccesses] at ha
  | succ n ih =>
    intro offset counter node hl a ha
    unfold insertInteriorLoopAccesses at ha
    rcases List.mem_cons.1 ha with rfl | ha
    · exact typed_key_interior hl
    · split at ha
      · cases ha
      · split at ha
        · rcases List.mem_append.1 ha with ha | ha
          · exact shiftInteriorAccesses_typed _ _ _ hl a ha
          · split at ha
            · cases ha
            · rename_i m hs
              have hm := shiftInterior_info _ _ _ _ hs
              rcases List.mem_cons.1 ha with rfl | ha
              · exact typed_key_interior (by rw [hm]; exact hl)
              · rcases List.mem_cons.1 ha with rfl | ha
                · exact typed_ptr_interior (by rw [SetKey_info, hm]; exact hl)
                · rcases List.mem_singleton.1 ha with rfl
                  exact typed_ptr_interior (by rw [SetPtr_info, SetKey_info, hm]; exact hl)
        · split at ha
          · cases ha
          · simp only at ha
            split at ha
            · rcases List.mem_cons.1 ha with rfl | ha
              · exact typed_key_interior hl
              · rcases List.mem_cons.1 ha with rfl | ha
                · exact typed_ptr_interior (by rw [SetKey_info]; exact hl)
                · rcases List.mem_singleton.1 ha with rfl
                  exact typed_ptr_interior (by rw [SetPtr_info, SetKey_info]; exact hl)
            · exact ih _ _ _ hl a ha

theorem insert_Not_Full_InternalAccesses_typed (Temp_Node : BTreeNode)
    (left right key : Nat) (h : Temp_Node.info.nodetype.isInterior = true) :
    ∀ a ∈ insert_Not_Full_InternalAccesses Temp_Node left right key, a.typed = true := by
  intro a ha
  unfold insert_Not_Full_InternalAccesses at ha
  exact insertInteriorLoopAccesses_typed left right key _ _ _ Temp_Node.incNumkeys h a ha

theorem splitLeafLoopAccesses_typed (Node : BTreeNode) (base : Nat)
    (hN : Node.info.nodetype.isLeaf = true) :
    ∀ (count offset : Nat) (dst : BTreeNode), dst.info.nodetype.isLeaf = true →
      ∀ a ∈ splitLeafLoopAccesses Node base count offset dst, a.typed = true := by
  intro count
  induction count with
  | zero => intro offset dst _ a ha; simp [splitLeafLoopAccesses] at ha
  | succ n ih =>
    intro offset dst hd a ha
    unfold splitLeafLoopAccesses at ha
    rcases List.mem_cons.1 ha with rfl | ha
    · exact typed_key_leaf hN
    · split at ha
      · cases ha
      · rcases List.mem_cons.1 ha with rfl | ha
        · exact typed_val_leaf hN
        · split at ha
          · cases ha
          · simp only at ha
            rcases List.mem_cons.1 ha with rfl | ha
            · exact typed_key_leaf hd
            · split at ha
              · cases ha
              · rcases List.mem_cons.1 ha with rfl | ha
                · exact typed_val_leaf (by rw [SetKey_info]; exact hd)
                · split at ha
                  · cases ha
                  · exact ih _ _ (by rw [SetVal_info, SetKey_info]; exact hd) a ha

theorem split_LeafAccesses_typed (G : SlotGeometry) (t : BTreeIndex) (Node : BTreeNode)
    (hN : Node.info.nodetype.isLeaf = true) :
    ∀ a ∈ split_LeafAccesses G t Node, a.typed = true := by
  intro a ha
  unfold split_LeafAccesses at ha
  split at ha
  · cases ha
  · dsimp only at ha
    split at ha
    · cases ha
    · rename_i Left_Leaf hL
      have hLn : Left_Leaf.info.nodetype.isLeaf = true := by
        rw [Unserialize_after_Serialize _ _ _ _ hL]; rfl
      split at ha
      · cases ha
      · split at ha
        · cases ha
        · rename_i Right_Leaf hR
          have hRn : Right_Leaf.info.nodetype.isLeaf = true := by
            rw [Unserialize_after_Serialize _ _ _ _ hR]; rfl
          rcases List.mem_append.1 ha with ha | ha
          · exact splitLeafLoopAccesses_typed Node 0 hN _ _ _ hLn a ha
          · split at ha
            · cases ha
            · rcases List.mem_append.1 ha with ha | ha
              · exact splitLeafLoopAccesses_typed Node _ hN _ _ _ hRn a ha
              · split at ha
                · cases ha
                · rcases List.mem_cons.1 ha with rfl | ha
                  · exact typed_key_leaf hN
                  · rcases List.mem_singleton.1 ha with rfl
                    exact typed_val_leaf hN

theorem splitInteriorLoop_nodetype (Node : BTreeNode) (base : Nat) :
    ∀ (count offset : Nat) (dst r : BTreeNode),
      splitInteriorLoop Node base count offset dst = Except.ok (Except.ok r) →
        r.info.nodetype = dst.info.nodetype := by
  intro count
  induction count with
  | zero => intro offset dst r h; cases h; rfl
  | succ n ih =>
    intro offset dst r h
    unfold splitInteriorLoop at h
    split at h
    · cases h
    · split at h
      · cases h
      · simp only at h
        split at h
        · cases h
        · rw [ih _ _ _ h, SetPtr_info, SetKey_info]
          rfl

theorem splitInteriorLoopAccesses_typed (Node : BTreeNode) (base : Nat)
    (hN : Node.info.nodetype.isInterior = true) :
    ∀ (count offset : Nat) (dst : BTreeNode), dst.info.nodetype.isInterior = true →
      ∀ a ∈ splitInteriorLoopAccesses Node base count offset dst, a.typed = true := by
  intro count
  induction count with
  | zero => intro offset dst _ a ha; simp [splitInteriorLoopAccesses] at ha
  | succ n ih =>
    intro offset dst hd a ha
    unfold splitInteriorLoopAccesses at ha
    rcases List.mem_cons.1 ha with rfl | ha
    · exact typed_key_interior hN
    · split at ha
      · cases ha
      · rcases List.mem_cons.1 ha with rfl | ha
        · exact typed_ptr_interior hN
        · split at ha
          · cases ha
          · simp only at ha
            rcases List.mem_cons.1 ha with rfl | ha
            · exact typed_key_interior hd
            · rcases List.mem_cons.1 ha with rfl | ha
              · exact typed_ptr_interior (by rw [SetKey_info]; exact hd)
              · split at ha
                · cases ha
                · exact ih _ _ (by rw [SetPtr_info, SetKey_info]; exact hd) a ha

theorem split_Internal_FullAccesses_typed (G : SlotGeometry) (t : BTreeIndex)
    (Node : BTreeNode) (hN : Node.info.nodetype.isInterior = true) :
    ∀ a ∈ split_Internal_FullAccesses G t Node, a.typed = true := by
  intro a ha
  unfold split_Internal_FullAccesses at ha
  split at ha
  · cases ha
  · dsimp only at ha
    split at ha
    · cases ha
    · rename_i Left_Internal hL
      have hLn : Left_Internal.info.nodetype.isInterior = true := by
        rw [Unserialize_after_Serialize _ _ _ _ hL]; rfl
      split at ha
      · cases ha
      · split at ha
        · cases ha
        · rename_i Right_Internal hR
          have hRn : Right_Internal.info.nodetype.isInterior = true := by
            rw [Unserialize_after_Serialize _ _ _ _ hR]; rfl
          rcases List.mem_append.1 ha with ha | ha
          · exact splitInteriorLoopAccesses_typed Node 0 hN _ _ _ hLn a ha
          · split at ha
            · cases ha
            · cases ha
            · rename_i L hLoop
              have hLt : L.info.nodetype.isInterior = true := by
                rw [splitInteriorLoop_nodetype _ _ _ _ _ _ hLoop]; exact hLn
              rcases List.mem_cons.1 ha with rfl | ha
              · exact typed_ptr_interior hN
              · split at ha
                · cases ha
                · rcases List.mem_cons.1 ha with rfl | ha
                  · exact typed_ptr_interior hLt
                  · rcases List.mem_append.1 ha with ha | ha
                    · exact splitInteriorLoopAccesses_typed Node _ hN _ _ _ hRn a ha
                    · split at ha
                      · cases ha
                      · cases ha
                      · rename_i R hRoop
                        have hRt : R.info.nodetype.isInterior = true := by
                          rw [splitInteriorLoop_nodetype _ _ _ _ _ _ hRoop]; exact hRn
                        rcases List.mem_cons.1 ha with rfl | ha
                        · exact typed_ptr_interior hN
                        · split at ha
                          · cases ha
                          · rcases List.mem_cons.1 ha with rfl | ha
                            · exact typed_ptr_interior hRt
                            · rcases List.mem_singleton.1 ha with rfl
                              exact typed_key_interior hN

theorem newRootAccesses_typed (G : SlotGeometry) (t : BTreeIndex) (Temp_Key left : Nat) :
    ∀ a ∈ newRootAccesses G t Temp_Key left, a.typed = true := by
  intro a ha
  unfold newRootAccesses at ha
  simp only at ha
  rcases List.mem_cons.1 ha with rfl | ha
  · exact typed_key_interior rfl
  · rcases List.mem_cons.1 ha with rfl | ha
    · exact typed_ptr_interior (by rw [SetKey_info]; rfl)
    · rcases List.mem_singleton.1 ha with rfl
      exact typed_ptr_interior (by rw [SetPtr_info, SetKey_info]; rfl)

/-- What `AllocateNode` does to the store: it writes only the superblock's block, and the
block it hands out is block 0 (no space) or a block tagged unallocated. -/
theorem AllocateNode_store {t : BTreeIndex} {a : ERROR_T × Nat × BTreeIndex}
    (h : AllocateNode t = Except.ok a) :
    a.2.2.superblock_index = t.superblock_index ∧
      (∀ m : Nat, m ≠ t.superblock_index →
        a.2.2.buffercache.blocks[m]? = t.buffercache.blocks[m]?) ∧
      (a.2.1 = 0 ∨ ∃ b : BTreeNode, t.buffercache.blocks[a.2.1]? = some b ∧
        b.info.nodetype = NodeType.BTREE_UNALLOCATED_BLOCK) := by
  unfold AllocateNode at h
  simp only at h
  split at h
  · rename_i h0
    cases h
    exact ⟨rfl, fun _ _ => rfl, Or.inl h0⟩
  · split at h
    · cases h
    · rename_i node hnode
      split at h
      · cases h
      · rename_i hty
        cases h
        refine ⟨rfl, fun m hm => ?_, Or.inr ⟨node, Unserialize_ok hnode, by simpa using hty⟩⟩
        show (BTreeNode.Serialize _ t.buffercache t.superblock_index).2.blocks[m]? = _
        exact Serialize_getElem?_ne _ _ (fun e => hm e.symm)

/-- A block other than block 0 that holds a root or interior node is not touched by the
allocation and the first write of a split. -/
theorem allocate_write_keeps {t : BTreeIndex} {a : ERROR_T × Nat × BTreeIndex}
    (h : AllocateNode t = Except.ok a) (hidx : t.superblock_index = 0) (node : BTreeNode)
    {m : Nat} {b : BTreeNode} (hm : m ≠ 0) (hb : t.buffercache.blocks[m]? = some b)
    (hbi : b.info.nodetype.isInterior = true) :
    a.2.1 ≠ m ∧ (node.Serialize a.2.2.buffercache a.2.1).2.blocks[m]? = some b := by
  obtain ⟨_, hK, hN⟩ := AllocateNode_store h
  have hne : a.2.1 ≠ m := by
    rcases hN with h0 | ⟨c, hc, hct⟩
    · rw [h0]; exact fun e => hm e.symm
    · intro e
      rw [e, hb] at hc
      cases hc
      rw [hct] at hbi
      cases hbi
  refine ⟨hne, ?_⟩
  rw [Serialize_getElem?_ne _ _ hne, hK m (by rw [hidx]; exact hm), hb]

/-- `split_Leaf` leaves every block other than block 0 that holds a root or interior node
as it is. -/
theorem split_Leaf_keeps (G : SlotGeometry) (t : BTreeIndex) (Node : BTreeNode)
    (sr : SplitResult) (h : split_Leaf G t Node = Except.ok sr)
    (hidx : t.superblock_index = 0) :
    sr.index.superblock_index = 0 ∧
      ∀ (m : Nat) (b : BTreeNode), m ≠ 0 → t.buffercache.blocks[m]? = some b →
        b.info.nodetype.isInterior = true → sr.index.buffercache.blocks[m]? = some b := by
  unfold split_Leaf at h
  simp only [bind, Except.bind] at h
  cases hA1 : AllocateNode t with
  | error f => rw [hA1] at h; cases h
  | ok a1 =>
    rw [hA1] at h
    have hi1 : a1.2.2.superblock_index = 0 := (AllocateNode_store hA1).1.trans hidx
    have hW1 := fun (m : Nat) (b : BTreeNode) (hm : m ≠ 0)
      (hb : t.buffercache.blocks[m]? = some b) (hbi : b.info.nodetype.isInterior = true) =>
      allocate_write_keeps hA1 hidx
        (BTreeNode.new G NodeType.BTREE_LEAF_NODE a1.2.2.superblock.info.keysize
          a1.2.2.superblock.info.valuesize a1.2.2.superblock.info.blocksize) hm hb hbi
    simp only [] at h
    split at h
    · cases h
      exact ⟨hi1, fun m b hm hb hbi => (hW1 m b hm hb hbi).2⟩
    · cases hA2 : AllocateNode
          { a1.2.2 with
            buffercache :=
              ((BTreeNode.new G NodeType.BTREE_LEAF_NODE a1.2.2.superblock.info.keysize
                a1.2.2.superblock.info.valuesize a1.2.2.superblock.info.blocksize).Serialize
                a1.2.2.buffercache a1.2.1).2 } with
      | error f => rw [hA2] at h; cases h
      | ok a2 =>
        rw [hA2] at h
        have hi2 : a2.2.2.superblock_index = 0 := (AllocateNode_store hA2).1.trans hi1
        have hW2 := fun (m : Nat) (b : BTreeNode) (hm : m ≠ 0)
          (hb : t.buffercache.blocks[m]? = some b)
          (hbi : b.info.nodetype.isInterior = true) =>
          allocate_write_keeps hA2 hi1
            (BTreeNode.new G NodeType.BTREE_LEAF_NODE a2.2.2.superblock.info.keysize
              a2.2.2.superblock.info.valuesize a2.2.2.superblock.info.blocksize) hm
            (hW1 m b hm hb hbi).2 hbi
        simp only [] at h
        split at h
        · cases h
          exact ⟨hi2, fun m b hm hb hbi => (hW2 m b hm hb hbi).2⟩
        · split at h
          · cases h
            exact ⟨hi2, fun m b hm hb hbi => (hW2 m b hm hb hbi).2⟩
          · rename_i L _
            split at h
            · cases h
              refine ⟨hi2, fun m b hm hb hbi => ?_⟩
              show (L.Serialize _ a1.2.1).2.blocks[m]? = some b
              rw [Serialize_getElem?_ne _ _ (hW1 m b hm hb hbi).1]
              exact (hW2 m b hm hb hbi).2
            · rename_i R _
              cases h
              refine ⟨hi2, fun m b hm hb hbi => ?_⟩
              show (R.Serialize (L.Serialize _ a1.2.1).2 a2.2.1).2.blocks[m]? = some b
              rw [Serialize_getElem?_ne _ _ (hW2 m b hm hb hbi).1,
                Serialize_getElem?_ne _ _ (hW1 m b hm hb hbi).1]
              exact (hW2 m b hm hb hbi).2

/-- `split_Internal_Full` leaves every block other than block 0 that holds a root or interior
node as it is. -/
theorem split_Internal_Full_keeps (G : SlotGeometry) (t : BTreeIndex) (Node : BTreeNode)
    (sr : SplitResult) (h : split_Internal_Full G t Node = Except.ok sr)
    (hidx : t.superblock_index = 0) :
    sr.index.superblock_index = 0 ∧
      ∀ (m : Nat) (b : BTreeNode), m ≠ 0 → t.buffercache.blocks[m]? = some b →
        b.info.nodetype.isInterior = true → sr.index.buffercache.blocks[m]? = some b := by
  unfold split_Internal_Full at h
  simp only [bind, Except.bind] at h
  cases hA1 : AllocateNode t with
  | error f => rw [hA1] at h; cases h
  | ok a1 =>
    rw [hA1] at h
    have hi1 : a1.2.2.superblock_index = 0 := (AllocateNode_store hA1).1.trans hidx
    have hW1 := fun (m : Nat) (b : BTreeNode) (hm : m ≠ 0)
      (hb : t.buffercache.blocks[m]? = some b) (hbi : b.info.nodetype.isInterior = true) =>
      allocate_write_keeps hA1 hidx
        (BTreeNode.new G NodeType.BTREE_INTERIOR_NODE a1.2.2.superblock.info.keysize
          a1.2.2.superblock.info.valuesize a1.2.2.superblock.info.blocksize) hm hb hbi
    simp only [] at h
    split at h
    · cases h
      exact ⟨hi1, fun m b hm hb hbi => (hW1 m b hm hb hbi).2⟩
    · cases hA2 : AllocateNode
          { a1.2.2 with
            buffercache :=
              ((BTreeNode.new G NodeType.BTREE_INTERIOR_NODE a1.2.2.superblock.info.keysize
                a1.2.2.superblock.info.valuesize a1.2.2.superblock.info.blocksize).Serialize
                a1.2.2.buffercache a1.2.1).2 } with
      | error f => rw [hA2] at h; cases h
      | ok a2 =>
        rw [hA2] at h
        have hi2 : a2.2.2.superblock_index = 0 := (AllocateNode_store hA2).1.trans hi1
        have hW2 := fun (m : Nat) (b : BTreeNode) (hm : m ≠ 0)
          (hb : t.buffercache.blocks[m]? = some b)
          (hbi : b.info.nodetype.isInterior = true) =>
          allocate_write_keeps hA2 hi1
            (BTreeNode.new G NodeType.BTREE_INTERIOR_NODE a2.2.2.superblock.info.keysize
              a2.2.2.superblock.info.valuesize a2.2.2.superblock.info.blocksize) hm
            (hW1 m b hm hb hbi).2 hbi
        simp only [] at h
        split at h
        · cases h
          exact ⟨hi2, fun m b hm hb hbi => (hW2 m b hm hb hbi).2⟩
        · split at h
          · cases h
          · split at h
            · cases h
              exact ⟨hi2, fun m b hm hb hbi => (hW2 m b hm hb hbi).2⟩
            · split at h
              · cases h
              · split at h
                · cases h
                · split at h
                  · cases h
                    refine ⟨hi2, fun m b hm hb hbi => ?_⟩
                    show (BTreeNode.Serialize _ _ a1.2.1).2.blocks[m]? = some b
                    rw [Serialize_getElem?_ne _ _ (hW1 m b hm hb hbi).1]
                    exact (hW2 m b hm hb hbi).2
                  · split at h
                    · cases h
                    · cases h
                      refine ⟨hi2, fun m b hm hb hbi => ?_⟩
                      show (BTreeNode.Serialize _ (BTreeNode.Serialize _ _ a1.2.1).2
                        a2.2.1).2.blocks[m]? = some b
                      rw [Serialize_getElem?_ne _ _ (hW2 m b hm hb hbi).1,
                        Serialize_getElem?_ne _ _ (hW1 m b hm hb hbi).1]
                      exact (hW2 m b hm hb hbi).2

theorem dropLast_mem_cons {p a : Nat} {l : List Nat} (h : p ∈ (a :: l).dropLast) :
    l ≠ [] ∧ (p = a ∨ p ∈ l.dropLast) := by
  cases l with
  | nil => simp at h
  | cons c l =>
    rw [List.dropLast_cons₂] at h
    exact ⟨by simp, List.mem_cons.1 h⟩

/-- The path a traversal records: what it appends to the path it was given are the blocks it
went on to, preceded by the root when it starts there.  Every block it left again holds a
root or interior node with a key, and when it ends with `ERROR_NONEXISTENT` the last block
holds a leaf or a node without a key. -/
theorem traversal_blocks (t : BTreeIndex) (op : BTreeOp) (key : Nat) :
    ∀ (fuel node value : Nat) (pointer : List Nat) (r : ERROR_T × Nat × List Nat × BTreeIndex),
      LookupOrUpdateInternal t op key fuel node value pointer = Except.ok r →
      ∃ l : List Nat,
        r.2.2.1 =
          (if node = t.superblock.info.rootnode then pointer ++ [t.superblock.info.rootnode]
            else pointer) ++ l ∧
        (∀ p ∈ l.dropLast, p = t.superblock.info.rootnode ∨ descendedAt t.buffercache p) ∧
        (l ≠ [] → descendedAt t.buffercache node) ∧
        (r.1 = ERROR_T.ERROR_NONEXISTENT →
          ∃ A : Nat, (node :: l).getLast? = some A ∧ endsAt t.buffercache A) := by
  intro fuel
  induction fuel with
  | zero => intro node value pointer r h; cases h
  | succ f ih =>
    intro node value pointer r h
    have stop : ∀ rc : ERROR_T, ∀ u : BTreeIndex,
        r = (rc, value,
          (if node = t.superblock.info.rootnode then pointer ++ [t.superblock.info.rootnode]
            else pointer), u) →
        (rc = ERROR_T.ERROR_NONEXISTENT → endsAt t.buffercache node) →
        ∃ l : List Nat,
          r.2.2.1 =
            (if node = t.superblock.info.rootnode
              then pointer ++ [t.superblock.info.rootnode] else pointer) ++ l ∧
          (∀ p ∈ l.dropLast, p = t.superblock.info.rootnode ∨ descendedAt t.buffercache p) ∧
          (l ≠ [] → descendedAt t.buffercache node) ∧
          (r.1 = ERROR_T.ERROR_NONEXISTENT →
            ∃ A : Nat, (node :: l).getLast? = some A ∧ endsAt t.buffercache A) := by
      intro rc u hr hend
      subst hr
      exact ⟨[], (List.append_nil _).symm, fun p hp => by simp at hp,
        fun hne => absurd rfl hne, fun hrc => ⟨node, rfl, hend hrc⟩⟩
    have descend : descendedAt t.buffercache node → ∀ ptr : Nat,
        LookupOrUpdateInternal t op key f ptr value
          ((if node = t.superblock.info.rootnode
            then pointer ++ [t.superblock.info.rootnode] else pointer) ++ [ptr]) =
          Except.ok r →
        ∃ l : List Nat,
          r.2.2.1 =
            (if node = t.superblock.info.rootnode
              then pointer ++ [t.superblock.info.rootnode] else pointer) ++ l ∧
          (∀ p ∈ l.dropLast, p = t.superblock.info.rootnode ∨ descendedAt t.buffercache p) ∧
          (l ≠ [] → descendedAt t.buffercache node) ∧
          (r.1 = ERROR_T.ERROR_NONEXISTENT →
            ∃ A : Nat, (node :: l).getLast? = some A ∧ endsAt t.buffercache A) := by
      intro hnode ptr hrec
      obtain ⟨l, hl1, hl2, hl3, hl4⟩ := ih _ _ _ _ hrec
      by_cases hp : ptr = t.superblock.info.rootnode
      · rw [if_pos hp] at hl1
        refine ⟨ptr :: t.superblock.info.rootnode :: l, ?_, ?_, fun _ => hnode, ?_⟩
        · rw [hl1]; simp
        · intro p hpm
          obtain ⟨_, h1 | h1⟩ := dropLast_mem_cons hpm
          · exact Or.inl (h1.trans hp)
          · obtain ⟨_, h2 | h2⟩ := dropLast_mem_cons h1
            · exact Or.inl h2
            · exact hl2 p h2
        · intro hrc
          obtain ⟨A, hA, hAe⟩ := hl4 hrc
          refine ⟨A, ?_, hAe⟩
          rw [List.getLast?_cons_cons, List.getLast?_cons_cons, ← hp]
          exact hA
      · rw [if_neg hp] at hl1
        refine ⟨ptr :: l, ?_, ?_, fun _ => hnode, ?_⟩
        · rw [hl1]; simp
        · intro p hpm
          obtain ⟨hne, h1 | h1⟩ := dropLast_mem_cons hpm
          · rw [h1]; exact Or.inr (hl3 hne)
          · exact hl2 p h1
        · intro hrc
          obtain ⟨A, hA, hAe⟩ := hl4 hrc
          exact ⟨A, by rw [List.getLast?_cons_cons]; exact hA, hAe⟩
    unfold LookupOrUpdateInternal at h
    simp only at h
    split at h
    · rename_i rc hU
      cases h
      refine stop _ _ rfl (fun hrc => ?_)
      rw [Unserialize_error hU] at hrc
      cases hrc
    · rename_i b hb
      have hb' := Unserialize_ok hb
      have interior : b.info.nodetype.isInterior = true →
          (match interiorScan b key b.info.numkeys 0 with
            | Except.error rc =>
              Except.ok (rc, value,
                (if node = t.superblock.info.rootnode
                  then pointer ++ [t.superblock.info.rootnode] else pointer), t)
            | Except.ok (some offset) =>
              match b.GetPtr offset with
              | Except.error _ => Except.error Fault.undefined
              | Except.ok ptr =>
                LookupOrUpdateInternal t op key f ptr value
                  ((if node = t.superblock.info.rootnode
                    then pointer ++ [t.superblock.info.rootnode] else pointer) ++ [ptr])
            | Except.ok none =>
              if b.info.numkeys > 0 then
                match b.GetPtr b.info.numkeys with
                | Except.error _ => Except.error Fault.undefined
                | Except.ok ptr =>
                  LookupOrUpdateInternal t op key f ptr value
                    ((if node = t.superblock.info.rootnode
                      then pointer ++ [t.superblock.info.rootnode] else pointer) ++ [ptr])
              else Except.ok (ERROR_T.ERROR_NONEXISTENT, value,
                (if node = t.superblock.info.rootnode
                  then pointer ++ [t.superblock.info.rootnode] else pointer), t)) =
            Except.ok r →
          ∃ l : List Nat,
            r.2.2.1 =
              (if node = t.superblock.info.rootnode
                then pointer ++ [t.superblock.info.rootnode] else pointer) ++ l ∧
            (∀ p ∈ l.dropLast,
              p = t.superblock.info.rootnode ∨ descendedAt t.buffercache p) ∧
            (l ≠ [] → descendedAt t.buffercache node) ∧
            (r.1 = ERROR_T.ERROR_NONEXISTENT →
              ∃ A : Nat, (node :: l).getLast? = some A ∧ endsAt t.buffercache A) := by
        intro hty h
        split at h
        · rename_i rc hs
          cases h
          refine stop _ _ rfl (fun hrc => ?_)
          rw [interiorScan_error b key _ _ _ hs] at hrc
          cases hrc
        · rename_i offset hs
          have hlt := interiorScan_some_lt b key _ _ _ hs
          split at h
          · cases h
          · exact descend ⟨b, hb', hty, by omega⟩ _ h
        · split at h
          · rename_i hpos
            split at h
            · cases h
            · exact descend ⟨b, hb', hty, hpos⟩ _ h
          · rename_i hpos
            cases h
            exact stop _ _ rfl (fun _ => ⟨b, hb', Or.inr ⟨hty, by omega⟩⟩)
      have leaf : ∀ rc : ERROR_T, ∀ u : BTreeIndex, b.info.nodetype.isLeaf = true →
          ∃ l : List Nat,
            ((rc, value,
              (if node = t.superblock.info.rootnode
                then pointer ++ [t.superblock.info.rootnode] else pointer), u) :
              ERROR_T × Nat × List Nat × BTreeIndex).2.2.1 =
              (if node = t.superblock.info.rootnode
                then pointer ++ [t.superblock.info.rootnode] else pointer) ++ l ∧
            (∀ p ∈ l.dropLast,
              p = t.superblock.info.rootnode ∨ descendedAt t.buffercache p) ∧
            (l ≠ [] → descendedAt t.buffercache node) ∧
            (rc = ERROR_T.ERROR_NONEXISTENT →
              ∃ A : Nat, (node :: l).getLast? = some A ∧ endsAt t.buffercache A) := by
        intro rc u hl
        exact ⟨[], (List.append_nil _).symm, fun p hp => by simp at hp,
          fun hne => absurd rfl hne, fun _ => ⟨node, rfl, b, hb', Or.inl hl⟩⟩
      split at h
      · rename_i hty
        exact interior (by rw [hty]; rfl) h
      · rename_i hty
        exact interior (by rw [hty]; rfl) h
      · rename_i hty
        have hl : b.info.nodetype.isLeaf = true := by rw [hty]; rfl
        split at h
        · cases h; exact leaf _ _ hl
        · split at h
          · split at h <;> cases h <;> exact leaf _ _ hl
          · split at h <;> cases h <;> exact leaf _ _ hl
        · cases h; exact leaf _ _ hl
      · cases h
        exact stop _ _ rfl (fun hrc => by cases hrc)

/-- A write of a root or interior node keeps every block that holds such a node a block
that holds such a node. -/
theorem interior_write_keeps {bc : BufferCache} (node : BTreeNode) (A : Nat)
    (hn : node.info.nodetype.isInterior = true) {p : Nat}
    (hp : ∃ b : BTreeNode, bc.blocks[p]? = some b ∧ b.info.nodetype.isInterior = true) :
    ∃ b : BTreeNode, (node.Serialize bc A).2.blocks[p]? = some b ∧
      b.info.nodetype.isInterior = true := by
  obtain ⟨b, hb, hbi⟩ := hp
  by_cases e : A = p
  · subst e
    refine ⟨node.stored, Serialize_getElem?_self _ _ (lt_length_of_getElem? hb), ?_⟩
    rw [stored_info]
    exact hn
  · exact ⟨b, by rw [Serialize_getElem?_ne _ _ e]; exact hb, hbi⟩

theorem insert_Not_Full_Internal_keeps {t : BTreeIndex} {A left right key : Nat}
    {Temp_Node : BTreeNode} {r : Option ERROR_T × BTreeNode × BTreeIndex}
    (h : insert_Not_Full_Internal t A Temp_Node left right key = Except.ok r)
    (hT : Temp_Node.info.nodetype.isInterior = true) :
    r.2.2.superblock_index = t.superblock_index ∧
      ∀ p : Nat,
        (∃ b : BTreeNode, t.buffercache.blocks[p]? = some b ∧
          b.info.nodetype.isInterior = true) →
        ∃ b : BTreeNode, r.2.2.buffercache.blocks[p]? = some b ∧
          b.info.nodetype.isInterior = true := by
  rcases insertInteriorLoop_shape t A left right key _ _ _ _ r h with e | ⟨m, hm, e⟩
  · rw [e]; exact ⟨rfl, fun _ hp => hp⟩
  · rw [e]
    exact ⟨rfl, fun p hp => interior_write_keeps m A (by rw [hm]; exact hT) hp⟩

/-- `insert_Not_Full` writes the node back to the block it was read from, so a block that
holds a root or interior node still holds one. -/
theorem insert_Not_Full_keeps {t : BTreeIndex} {A key value : Nat}
    {Temp_Node : BTreeNode} {r : Option ERROR_T × BTreeNode × BTreeIndex}
    (h : insert_Not_Full t A Temp_Node key value = Except.ok r)
    (hT : t.buffercache.blocks[A]? = some Temp_Node) :
    r.2.2.superblock_index = t.superblock_index ∧
      ∀ p : Nat,
        (∃ b : BTreeNode, t.buffercache.blocks[p]? = some b ∧
          b.info.nodetype.isInterior = true) →
        ∃ b : BTreeNode, r.2.2.buffercache.blocks[p]? = some b ∧
          b.info.nodetype.isInterior = true := by
  rcases insertLeafLoop_shape t A key value _ _ _ _ r h with e | ⟨m, hm, e⟩
  · rw [e]; exact ⟨rfl, fun _ hp => hp⟩
  · rw [e]
    refine ⟨rfl, fun p hp => ?_⟩
    obtain ⟨b, hb, hbi⟩ := hp
    by_cases e : A = p
    · subst e
      rw [hT] at hb
      cases hb
      exact interior_write_keeps m A (by rw [hm]; exact hbi) ⟨Temp_Node, hT, hbi⟩
    · exact ⟨b, by
        show (m.Serialize t.buffercache A).2.blocks[p]? = some b
        rw [Serialize_getElem?_ne _ _ e]; exact hb, hbi⟩

/-- The calls of `split_Internal` are made on root or interior nodes, when the superblock
is block 0 and every block of the recorded path is another block that holds such a node. -/
theorem split_InternalAuxAccesses_typed (G : SlotGeometry) :
    ∀ (n : Nat) (t : BTreeIndex) (pointer : List Nat) (left right key : Nat) (flag : Int),
      t.superblock_index = 0 →
      (∀ p ∈ pointer, p ≠ 0 ∧ ∃ b : BTreeNode, t.buffercache.blocks[p]? = some b ∧
        b.info.nodetype.isInterior = true) →
      ∀ a ∈ split_InternalAuxAccesses G n t pointer left right key flag, a.typed = true := by
  intro n
  induction n with
  | zero =>
    intro t pointer left right key flag _ _ a ha
    simp [split_InternalAuxAccesses] at ha
  | succ n ih =>
    intro t pointer left right key flag hidx hQ a ha
    unfold split_InternalAuxAccesses at ha
    split at ha
    · split at ha
      · cases ha
      · rename_i A hg
        obtain ⟨_, b, hb, hbi⟩ := hQ A (List.mem_of_getLast?_eq_some hg)
        dsimp only at ha
        split at ha
        · cases ha
        · rename_i T hT
          have hTb := Unserialize_ok hT
          rw [hb] at hTb
          cases hTb
          split at ha
          · rcases List.mem_append.1 ha with ha | ha
            · exact insert_Not_Full_InternalAccesses_typed _ _ _ _ hbi a ha
            · split at ha
              · cases ha
              · rename_i i hi
                have hii : i.2.1.info.nodetype.isInterior = true := by
                  rw [insert_Not_Full_Internal_info _ _ _ _ _ _ _ hi]; exact hbi
                obtain ⟨hi0, hik⟩ := insert_Not_Full_Internal_keeps hi hbi
                rcases List.mem_append.1 ha with ha | ha
                · exact split_Internal_FullAccesses_typed G _ _ hii a ha
                · split at ha
                  · cases ha
                  · rename_i sr hs
                    obtain ⟨hs0, hsk⟩ :=
                      split_Internal_Full_keeps G _ _ _ hs (hi0.trans hidx)
                    split at ha
                    · cases ha
                    · split at ha
                      · refine ih _ _ _ _ _ _ hs0 ?_ a ha
                        intro p hp
                        obtain ⟨hp0, hpb⟩ := hQ p (List.mem_of_mem_dropLast hp)
                        obtain ⟨c, hc, hci⟩ := hik p hpb
                        exact ⟨hp0, c, hsk p c hp0 hc hci, hci⟩
                      · exact newRootAccesses_typed _ _ _ _ a ha
          · exact insert_Not_Full_InternalAccesses_typed _ _ _ _ hbi a ha
    · cases ha

theorem isLeaf_eq {b : BTreeNode} (h : b.info.nodetype.isLeaf = true) :
    b.info.nodetype = NodeType.BTREE_LEAF_NODE := by
  cases hn : b.info.nodetype <;> rw [hn] at h <;> first | rfl | cases h

/-- The calls of the closing block of `Insert` are made on nodes of the right type, when a
leaf has more than one slot or none, the superblock is block 0, the blocks recorded before
the last one are other blocks that hold root or interior nodes, and the last one holds a
leaf or a node without a key. -/
theorem insertTailAccesses_typed (G : SlotGeometry)
    (hL1 : ∀ info : NodeMetadata, G.GetNumSlotsAsLeaf info ≠ 1)
    (t : BTreeIndex) (pointer : List Nat) (key value : Nat)
    (hidx : t.superblock_index = 0)
    (hQ : ∀ p ∈ pointer.dropLast, p ≠ 0 ∧ ∃ b : BTreeNode,
      t.buffercache.blocks[p]? = some b ∧ b.info.nodetype.isInterior = true)
    (hE : ∀ A : Nat, pointer.getLast? = some A → endsAt t.buffercache A) :
    ∀ a ∈ insertTailAccesses G t pointer key value, a.typed = true := by
  intro a ha
  unfold insertTailAccesses at ha
  split at ha
  · cases ha
  · rename_i A hg
    obtain ⟨b, hb, hbe⟩ := hE A hg
    dsimp only at ha
    split at ha
    · cases ha
    · rename_i T hT
      have hTb := Unserialize_ok hT
      rw [hb] at hTb
      cases hTb
      split at ha
      · rename_i hth
        have hbl : b.info.nodetype.isLeaf = true := by
          rcases hbe with hbl | ⟨_, hb0⟩
          · exact hbl
          · rw [hb0] at hth
            exact absurd hth.symm (hL1 b.info)
        rcases List.mem_append.1 ha with ha | ha
        · exact insert_Not_FullAccesses_typed _ _ _ (Or.inl hbl) a ha
        · split at ha
          · cases ha
          · rename_i i hi
            have hil : i.2.1.info.nodetype.isLeaf = true := by
              rw [insert_Not_Full_info _ _ _ _ _ _ hi]; exact hbl
            obtain ⟨hi0, hik⟩ := insert_Not_Full_keeps hi hb
            rcases List.mem_append.1 ha with ha | ha
            · exact split_LeafAccesses_typed G _ _ hil a ha
            · split at ha
              · cases ha
              · rename_i sr hs
                obtain ⟨hs0, hsk⟩ := split_Leaf_keeps G _ _ _ hs (hi0.trans hidx)
                split at ha
                · cases ha
                · split at ha
                  · exact newRootAccesses_typed _ _ _ _ a ha
                  · refine split_InternalAuxAccesses_typed G _ _ _ _ _ _ _ hs0 ?_ a ha
                    intro p hp
                    obtain ⟨hp0, hpb⟩ := hQ p hp
                    obtain ⟨c, hc, hci⟩ := hik p hpb
                    exact ⟨hp0, c, hsk p c hp0 hc hci, hci⟩
      · refine insert_Not_FullAccesses_typed _ _ _ ?_ a ha
        rcases hbe with hbl | ⟨_, hb0⟩
        · exact Or.inl hbl
        · exact Or.inr hb0

/-- Writing the root back as it was read keeps every block that holds a tree node. -/
theorem writeback_keeps {t : BTreeIndex} {root : Nat} {rootNode : BTreeNode}
    (hroot : t.buffercache.blocks[root]? = some rootNode) {p : Nat} {b : BTreeNode}
    (hb : t.buffercache.blocks[p]? = some b)
    (hty : b.info.nodetype.isInterior = true ∨ b.info.nodetype.isLeaf = true) :
    (rootNode.Serialize t.buffercache root).2.blocks[p]? = some b := by
  by_cases e : root = p
  · subst e
    rw [hroot] at hb
    cases hb
    rw [Serialize_getElem?_self _ _ (lt_length_of_getElem? hroot)]
    rcases hty with h | h
    · rw [stored_of_interior h]
    · rw [stored_of_leaf (isLeaf_eq h)]
  · rw [Serialize_getElem?_ne _ _ e]
    exact hb

/-- The calls of `Insert` are made on nodes of the right type, when a leaf has more than one
slot or none and block 0 is the superblock's block and holds a node tagged as superblock. -/
theorem InsertAccesses_typed (G : SlotGeometry)
    (hL1 : ∀ info : NodeMetadata, G.GetNumSlotsAsLeaf info ≠ 1)
    (fuel : Nat) (t : BTreeIndex) (key value : Nat) (hidx : t.superblock_index = 0)
    (hsb : ∃ sb : BTreeNode, t.buffercache.blocks[0]? = some sb ∧
      sb.info.nodetype = NodeType.BTREE_SUPERBLOCK) :
    ∀ a ∈ InsertAccesses G fuel t key value, a.typed = true := by
  intro a ha
  unfold InsertAccesses at ha
  rcases List.mem_append.1 ha with ha | ha
  · exact LookupOrUpdateInternalAccesses_typed t key _ _ a ha
  · split at ha
    · cases ha
    · rename_i r0 hl
      have ht := lookup_index _ _ _ _ _ _ _ hl
      obtain ⟨l, hl1, hl2, hl3, hl4⟩ := traversal_blocks t _ key _ _ _ _ _ hl
      rw [if_pos rfl, List.nil_append] at hl1
      have hpath : r0.2.2.1 = t.superblock.info.rootnode :: l := hl1
      have hdesc : ∀ p ∈ (t.superblock.info.rootnode :: l).dropLast,
          descendedAt t.buffercache p := by
        intro p hp
        obtain ⟨hne, h1 | h1⟩ := dropLast_mem_cons hp
        · rw [h1]; exact hl3 hne
        · rcases hl2 p h1 with h2 | h2
          · rw [h2]; exact hl3 hne
          · exact h2
      have hQ : ∀ p ∈ (t.superblock.info.rootnode :: l).dropLast,
          p ≠ 0 ∧ ∃ b : BTreeNode, t.buffercache.blocks[p]? = some b ∧
            b.info.nodetype.isInterior = true := by
        intro p hp
        obtain ⟨b, hb, hbi, _⟩ := hdesc p hp
        refine ⟨?_, b, hb, hbi⟩
        intro e
        obtain ⟨sb, hsb1, hsb2⟩ := hsb
        rw [e, hsb1] at hb
        cases hb
        rw [hsb2] at hbi
        cases hbi
      dsimp only at ha
      rw [ht, hpath] at ha
      split at ha
      · rename_i hrc
        obtain ⟨A, hA, hAe⟩ := hl4 hrc
        split at ha
        · cases ha
        · rename_i rootNode hroot
          have hrb := Unserialize_ok hroot
          split at ha
          · rename_i hn0
            have hlnil : l = [] := by
              by_contra hne
              obtain ⟨b, hb, _, hpos⟩ := hl3 hne
              rw [hrb] at hb
              cases hb
              omega
            subst hlnil
            rcases List.mem_cons.1 ha with rfl | ha
            · exact typed_key_leaf rfl
            · rcases List.mem_cons.1 ha with rfl | ha
              · exact typed_val_leaf (by rw [SetKey_info]; rfl)
              · split at ha
                · cases ha
                · refine insertTailAccesses_typed G hL1 _ _ _ _ (by exact hidx) ?_ ?_ a ha
                  · intro p hp
                    simp at hp
                  · intro A' hA'
                    simp only [List.getLast?_singleton, Option.some.injEq] at hA'
                    subst hA'
                    refine ⟨_, Serialize_getElem?_self _ _ ?_, Or.inl ?_⟩
                    · rw [Serialize_length]; exact lt_length_of_getElem? hrb
                    · rw [stored_info, SetVal_info, SetKey_info]; rfl
          · refine insertTailAccesses_typed G hL1 _ _ _ _ (by exact hidx) ?_ ?_ a ha
            · intro p hp
              obtain ⟨hp0, b, hb, hbi⟩ := hQ p hp
              exact ⟨hp0, b, writeback_keeps hrb hb (Or.inl hbi), hbi⟩
            · intro A' hA'
              rw [hA] at hA'
              cases hA'
              obtain ⟨b, hb, hbe⟩ := hAe
              refine ⟨b, writeback_keeps hrb hb ?_, hbe⟩
              rcases hbe with h | ⟨h, _⟩
              · exact Or.inr h
              · exact Or.inl h
      · cases ha

/-- With an intact superblock every accessor call of `Insert` is accepted. -/
theorem InsertAccesses_accepted (G : SlotGeometry)
    (hL : ∀ (info : NodeMetadata) (n : Nat),
      G.GetNumSlotsAsLeaf { info with numkeys := n } = G.GetNumSlotsAsLeaf info)
    (hI : ∀ (info : NodeMetadata) (n : Nat),
      G.GetNumSlotsAsInterior { info with numkeys := n } = G.GetNumSlotsAsInterior info)
    (hL1 : ∀ info : NodeMetadata, G.GetNumSlotsAsLeaf info ≠ 1)
    (hI1 : ∀ info : NodeMetadata, G.GetNumSlotsAsInterior info ≠ 1)
    (fuel : Nat) (t : BTreeIndex) (key value : Nat) (hidx : t.superblock_index = 0)
    (hsb : ∃ sb : BTreeNode, t.buffercache.blocks[0]? = some sb ∧
      sb.info.nodetype = NodeType.BTREE_SUPERBLOCK) :
    (InsertAccesses G fuel t key value).all Access.accepted = true := by
  rw [List.all_eq_true]
  intro a ha
  exact accepted_of_inRange a (InsertAccesses_inRange G hL hI hI1 fuel t key value a ha)
    (InsertAccesses_typed G hL1 fuel t key value hidx hsb a ha)

theorem split_InternalAux_index (G : SlotGeometry) :
    ∀ (n : Nat) (t : BTreeIndex) (pointer : List Nat) (left right key : Nat) (flag : Int)
      (res : Option ERROR_T × Int × BTreeIndex),
      split_InternalAux G n t pointer left right key flag = Except.ok res →
      t.superblock_index = 0 → res.2.2.superblock_index = 0 := by
  intro n
  induction n with
  | zero =>
    intro t pointer left right key flag res h hidx
    unfold split_InternalAux at h
    split at h
    · split at h <;> cases h
    · cases h; exact hidx
  | succ n ih =>
    intro t pointer left right key flag res h hidx
    unfold split_InternalAux at h
    split at h
    · simp only [bind, Except.bind] at h
      cases hg : pointer.getLast? with
      | none => rw [hg] at h; cases h
      | some A =>
        rw [hg] at h
        simp only [assigned] at h
        cases hU : BTreeNode.Unserialize t.buffercache A with
        | error e => rw [hU] at h; cases h
        | ok TN =>
          rw [hU] at h
          simp only [orUndefined] at h
          cases hi : insert_Not_Full_Internal t A TN left right key with
          | error e =>
            rw [hi] at h
            split at h
            · split at h <;> cases h
            · cases h
          | ok i =>
            rw [hi] at h
            have hi0 : i.2.2.superblock_index = 0 := by
              rcases insertInteriorLoop_shape t A left right key _ _ _ _ i hi with
                e | ⟨m, _, e⟩ <;> rw [e] <;> exact hidx
            simp only at h
            split at h
            · cases hs : split_Internal_Full G i.2.2 i.2.1 with
              | error e =>
                rw [hs] at h
                split at h <;> cases h
              | ok sr =>
                rw [hs] at h
                have hs0 := (split_Internal_Full_keeps G _ _ _ hs hi0).1
                simp only at h
                cases hk : sr.Key with
                | none =>
                  rw [hk] at h
                  split at h <;> cases h
                | some k =>
                  rw [hk] at h
                  simp only at h
                  split at h
                  · cases hx : split_InternalAux G n sr.index pointer.dropLast sr.left
                        sr.right k flag with
                    | error e => rw [hx] at h; cases h
                    | ok x =>
                      rw [hx] at h
                      cases h
                      exact ih _ _ _ _ _ _ x hx hs0
                  · cases h
                    exact hs0
            · cases h
              exact hi0
    · cases h; exact hidx

theorem insertTail_index (G : SlotGeometry) (t : BTreeIndex) (pointer : List Nat)
    (key value : Nat) (r : Option ERROR_T × BTreeIndex)
    (h : insertTail G t pointer key value = Except.ok r) (hidx : t.superblock_index = 0) :
    r.2.superblock_index = 0 := by
  unfold insertTail at h
  simp only [bind, Except.bind] at h
  cases hg : pointer.getLast? with
  | none => rw [hg] at h; cases h
  | some A =>
    rw [hg] at h
    simp only [assigned] at h
    cases hU : BTreeNode.Unserialize t.buffercache A with
    | error e => rw [hU] at h; cases h
    | ok TN =>
      rw [hU] at h
      simp only [orUndefined] at h
      cases hi : insert_Not_Full t A TN key value with
      | error e =>
        rw [hi] at h
        split at h <;> cases h
      | ok i =>
        rw [hi] at h
        have hi0 : i.2.2.superblock_index = 0 := by
          rcases insertLeafLoop_shape t A key value _ _ _ _ i hi with
            e | ⟨m, _, e⟩ <;> rw [e] <;> exact hidx
        simp only at h
        split at h
        · cases hs : split_Leaf G i.2.2 i.2.1 with
          | error e =>
            rw [hs] at h
            split at h <;> cases h
          | ok sr =>
            rw [hs] at h
            have hs0 := (split_Leaf_keeps G _ _ _ hs hi0).1
            simp only at h
            cases hk : sr.Key with
            | none =>
              rw [hk] at h
              split at h <;> cases h
            | some k =>
              rw [hk] at h
              simp only at h
              split at h
              · cases h
                exact hs0
              · cases hx : split_Internal G sr.index pointer.dropLast sr.left sr.right k 0 with
                | error e => rw [hx] at h; cases h
                | ok x =>
                  rw [hx] at h
                  cases h
                  exact split_InternalAux_index G _ _ _ _ _ _ _ _ hx hs0
        · cases h
          exact hi0

theorem Insert_index (G : SlotGeometry) (fuel : Nat) (t : BTreeIndex) (key value : Nat)
    (r : Option ERROR_T × BTreeIndex) (h : Insert G fuel t key value = Except.ok r)
    (hidx : t.superblock_index = 0) : r.2.superblock_index = 0 := by
  unfold Insert at h
  cases hl : LookupOrUpdateInternal t BTreeOp.BTREE_OP_LOOKUP key fuel
      t.superblock.info.rootnode 0 [] with
  | error e => rw [hl] at h; cases h
  | ok r0 =>
    rw [hl] at h
    have ht := lookup_index _ _ _ _ _ _ _ hl
    simp only at h
    rw [ht] at h
    split at h
    · cases h; exact hidx
    · split at h
      · cases h
      · split at h
        · split at h
          · cases h; exact hidx
          · exact insertTail_index G _ _ _ _ _ h hidx
        · exact insertTail_index G _ _ _ _ _ h hidx
    · cases h; exact hidx

theorem insertAll_index (G : SlotGeometry) (fuel : Nat) :
    ∀ (kvs : List (Nat × Nat)) (t u : BTreeIndex),
      insertAll G fuel (Except.ok t) kvs = Except.ok u → t.superblock_index = 0 →
      u.superblock_index = 0 := by
  intro kvs
  induction kvs with
  | nil => intro t u h hidx; cases h; exact hidx
  | cons kv rest ih =>
    intro t u h hidx
    unfold insertAll at h
    split at h
    · exact ih _ _ h (Insert_index G fuel t kv.1 kv.2 _ (by assumption) hidx)
    · cases h

theorem Attach_index (G : SlotGeometry) (t : BTreeIndex) (create : Bool)
    (r : ERROR_T × BTreeIndex) (h : Attach G t 0 create = Except.ok r) :
    r.2.superblock_index = 0 := by
  unfold Attach at h
  simp only [ne_eq, not_true_eq_false, if_false] at h
  have hm : ∀ u : BTreeIndex, u.superblock_index = 0 →
      (attachMount u 0).2.superblock_index = 0 := by
    intro u hu
    unfold attachMount
    split <;> exact hu
  split at h
  · split at h
    · cases h; rfl
    · split at h
      · cases h; rfl
      · split at h
        · cases h; rfl
        · cases h; exact hm _ rfl
  · cases h; exact hm _ rfl

/-! ## The claims -/

/-- Claim C1, at a failing input.  Leaves and interior nodes have 3 slots; 10, 20, 30, 40, 25
have been inserted into a fresh index and six blocks are free.  `Insert(27, 270)` runs to its
end without an error code, taking four blocks for the split of a leaf and of the root, and the
`Lookup(27)` that follows reports `ERROR_NONEXISTENT`: `split_Internal_Full` stores the last
child pointer at offset `S/2 - 1` of the right node, over the pointer to the leaf that
received 27. -/
theorem insert_then_lookup_misses_key :
    insertAll (geometry 3 3) 8 (created (geometry 3 3) 12)
        [(10, 100), (20, 200), (30, 300), (40, 400), (25, 250)] = Except.ok oddTree ∧
      Lookup 8 oddTree 27 0 = Except.ok (ERROR_T.ERROR_NONEXISTENT, 0) ∧
      oddTree.superblock.info.freelist = 6 ∧
      ∃ u : BTreeIndex,
        Insert (geometry 3 3) 8 oddTree 27 270 = Except.ok (none, u) ∧
        u.superblock.info.freelist = 10 ∧
        Lookup 8 u 27 0 = Except.ok (ERROR_T.ERROR_NONEXISTENT, 0) :=
  ⟨rfl, rfl, rfl, _, rfl, rfl, rfl⟩

/-- Where the traversal finds the key, `Insert` returns `ERROR_INSERT` and the index it
leaves is the index it was given: the same blocks, the same record of writes and the same
in-memory superblock.  This holds in every state in which `Lookup` succeeds, and so on every
well-formed tree of at most `h` levels that contains the key, with a recursion budget
above `h`. -/
theorem Insert_existing_key_fails_unchanged (G : SlotGeometry) (fuel : Nat) (t : BTreeIndex)
    (k v : Nat) :
    (∀ v0 vOld : Nat, Lookup fuel t k v0 = Except.ok (ERROR_T.ERROR_NOERROR, vOld) →
      Insert G fuel t k v = Except.ok (some ERROR_T.ERROR_INSERT, t)) ∧
    (∀ h : Nat, wellFormed t h = true → h < fuel → containsKey t h k = true →
      Insert G fuel t k v = Except.ok (some ERROR_T.ERROR_INSERT, t)) := by
  refine ⟨fun v0 vOld hl => Insert_of_Lookup_found G fuel t k v v0 vOld hl, ?_⟩
  intro h hwf hfuel hc
  obtain ⟨_, _, _, _, _, _, hl⟩ := Lookup_of_contains t k h fuel 0 hwf hfuel hc
  exact Insert_of_Lookup_found G fuel t k v 0 _ hl

/-- The same at a concrete index: key 2 is present in the tree holding 1, 2, 3, which is
well-formed. -/
theorem Insert_existing_key_fails_unchanged_witness :
    Lookup 8 smallTree 2 0 = Except.ok (ERROR_T.ERROR_NOERROR, 20) ∧
      wellFormed smallTree 2 = true ∧ 2 < 8 ∧ containsKey smallTree 2 2 = true ∧
      Insert (geometry 3 4) 8 smallTree 2 99 =
        Except.ok (some ERROR_T.ERROR_INSERT, smallTree) :=
  ⟨rfl, by decide, by decide, by decide,
    (Insert_existing_key_fails_unchanged (geometry 3 4) 8 smallTree 2 99).2 2 (by decide)
      (by decide) (by decide)⟩

/-- Claim C3, at a failing input.  In the index of claim C1 key 25 is found with value 250;
after the insertion of the absent key 27, which completes without an error code,
`Lookup(25)` reports `ERROR_NONEXISTENT`. -/
theorem insert_loses_other_entry :
    Lookup 8 oddTree 25 0 = Except.ok (ERROR_T.ERROR_NOERROR, 250) ∧
      Lookup 8 oddTree 27 0 = Except.ok (ERROR_T.ERROR_NONEXISTENT, 0) ∧
      ∃ u : BTreeIndex,
        Insert (geometry 3 3) 8 oddTree 27 270 = Except.ok (none, u) ∧
        Lookup 8 u 25 0 = Except.ok (ERROR_T.ERROR_NONEXISTENT, 0) :=
  ⟨rfl, rfl, _, rfl, rfl⟩

/-- Claim C4, at a failing input.  After the six insertions 10, 20, 30, 40, 25, 27 of distinct
keys the sorted key/value display prints the pairs of 10, 20, 30 and 40 and then twice the
complaint about a node of type superblock; the pairs of 25 and 27 are missing. -/
theorem display_omits_inserted_pairs :
    insertAll (geometry 3 3) 8 (created (geometry 3 3) 12)
        [(10, 100), (20, 200), (30, 300), (40, 400), (25, 250), (27, 270)] =
        Except.ok oddTreeAfter ∧
      Display 8 oddTreeAfter [] BTreeDisplayType.BTREE_SORTED_KEYVAL =
        Except.ok (ERROR_T.ERROR_NOERROR,
          [Tok.str "(", Tok.key 10, Tok.str ",", Tok.val 100, Tok.str ")\n",
           Tok.str "(", Tok.key 20, Tok.str ",", Tok.val 200, Tok.str ")\n",
           Tok.str "(", Tok.key 30, Tok.str ",", Tok.val 300, Tok.str ")\n",
           Tok.str "(", Tok.key 40, Tok.str ",", Tok.val 400, Tok.str ")\n",
           Tok.str "Unsupported Node Type ", Tok.tag NodeType.BTREE_SUPERBLOCK,
           Tok.str "Unsupported Node Type ", Tok.tag NodeType.BTREE_SUPERBLOCK]) :=
  ⟨rfl, rfl⟩

/-- Claim C5, at a failing input.  With 3-slot leaves and interior nodes, after inserting
1, 2, 3, 4, 5 into a fresh index `Lookup(3)` reports `ERROR_NONEXISTENT` although 3 was
inserted; on the fresh index itself `Lookup` reports `ERROR_NONEXISTENT`, as the claim says. -/
theorem lookup_not_found_for_inserted_key :
    insertAll (geometry 3 3) 8 (created (geometry 3 3) 12)
        [(1, 10), (2, 20), (3, 30), (4, 40), (5, 50)] = Except.ok ascendingTree ∧
      Lookup 8 ascendingTree 3 0 = Except.ok (ERROR_T.ERROR_NONEXISTENT, 0) ∧
      Lookup 8 (indexOf (created (geometry 3 3) 12)) 3 0 =
        Except.ok (ERROR_T.ERROR_NONEXISTENT, 0) :=
  ⟨rfl, rfl, rfl⟩

/-- Claim C6, at a failing input.  The target leaf holds 2 keys of 3 slots, its split
threshold, and the freelist head is 0.  `Insert(4, 40)` does not return `ERROR_NOSPACE`: it
reaches the end of the function without a return code, and block 0, which held the
superblock, now holds a leaf: `split_Leaf` drops the code of `AllocateNode` and writes the new
leaves to the block number 0 it was left with. -/
theorem insert_without_space_overwrites_superblock :
    insertAll (geometry 3 4) 8 (created (geometry 3 4) 4) [(1, 10), (2, 20), (3, 30)] =
        Except.ok fullTree ∧
      fullTree.superblock.info.freelist = 0 ∧
      AllocateNode fullTree = Except.ok (ERROR_T.ERROR_NOSPACE, 0, fullTree) ∧
      (fullTree.buffercache.blocks[0]?).map (fun b => b.info.nodetype) =
        some NodeType.BTREE_SUPERBLOCK ∧
      ∃ u : BTreeIndex,
        Insert (geometry 3 4) 8 fullTree 4 40 = Except.ok (none, u) ∧
        (u.buffercache.blocks[0]?).map (fun b => (b.info.nodetype, b.info.numkeys, b.keys)) =
          some (NodeType.BTREE_LEAF_NODE, 2, [3, 4, 0]) :=
  ⟨rfl, rfl, rfl, rfl, _, rfl, rfl⟩

/-- Claim C7: on a well-formed tree of at most `h` levels that contains `k`, with a recursion
budget above `h`, `Update(k, v)` returns `ERROR_NOERROR`; a following `Lookup(k)` returns
`v`; `Lookup` of every other key returns what it returned before; the one block written is
a leaf `n` that holds `k` at some slot, and it differs from before in that value slot alone;
the in-memory superblock is unchanged, and so are the header (with the freelist links), the
keys and the pointers of every block. -/
theorem Update_overwrites_in_place (fuel h : Nat) (t : BTreeIndex) (k v v0 : Nat)
    (hwf : wellFormed t h = true) (hfuel : h < fuel) (hc : containsKey t h k = true) :
    ∃ (u : BTreeIndex) (n offset : Nat) (b : BTreeNode),
      Update fuel t k v = Except.ok (ERROR_T.ERROR_NOERROR, u) ∧
      Lookup fuel u k v0 = Except.ok (ERROR_T.ERROR_NOERROR, v) ∧
      (∀ k' x : Nat, k' ≠ k → Lookup fuel u k' x = Lookup fuel t k' x) ∧
      t.buffercache.blocks[n]? = some b ∧ b.info.nodetype = NodeType.BTREE_LEAF_NODE ∧
      offset < b.info.numkeys ∧ b.keys.getD offset 0 = k ∧
      u.buffercache.blocks = t.buffercache.blocks.set n { b with vals := b.vals.set offset v } ∧
      u.buffercache.log = t.buffercache.log ++ [CacheEvent.write n] ∧
      u.superblock = t.superblock ∧ u.superblock_index = t.superblock_index ∧
      u.buffercache.blocks.map BTreeNode.shape = t.buffercache.blocks.map BTreeNode.shape := by
  obtain ⟨m, offset, b, hloc, hb, hlen, _⟩ := Lookup_of_contains t k h fuel v0 hwf hfuel hc
  exact Update_of_located fuel t k v v0 m offset b hloc hb hlen

/-- Claim C7 at a concrete index: key 3 of the tree holding 1, 2, 3 is updated to 99. -/
theorem Update_overwrites_in_place_witness :
    wellFormed smallTree 2 = true ∧ 2 < 8 ∧ containsKey smallTree 2 3 = true ∧
    ∃ (u : BTreeIndex) (n offset : Nat) (b : BTreeNode),
      Update 8 smallTree 3 99 = Except.ok (ERROR_T.ERROR_NOERROR, u) ∧
      Lookup 8 u 3 0 = Except.ok (ERROR_T.ERROR_NOERROR, 99) ∧
      (∀ k' x : Nat, k' ≠ 3 → Lookup 8 u k' x = Lookup 8 smallTree k' x) ∧
      smallTree.buffercache.blocks[n]? = some b ∧
      b.info.nodetype = NodeType.BTREE_LEAF_NODE ∧
      offset < b.info.numkeys ∧ b.keys.getD offset 0 = 3 ∧
      u.buffercache.blocks =
        smallTree.buffercache.blocks.set n { b with vals := b.vals.set offset 99 } ∧
      u.buffercache.log = smallTree.buffercache.log ++ [CacheEvent.write n] ∧
      u.superblock = smallTree.superblock ∧
      u.superblock_index = smallTree.superblock_index ∧
      u.buffercache.blocks.map BTreeNode.shape =
        smallTree.buffercache.blocks.map BTreeNode.shape :=
  ⟨by decide, by decide, by decide,
    Update_overwrites_in_place 8 2 smallTree 3 99 0 (by decide) (by decide) (by decide)⟩

/-- Claim C8: on a well-formed tree of at most `h` levels that does not contain `k`, with a
recursion budget above `h`, `Update(k, v)` returns `ERROR_NONEXISTENT` and leaves the index
it was given: no block is written and the superblock is unchanged. -/
theorem Update_absent_key_not_found (fuel h : Nat) (t : BTreeIndex) (k v : Nat)
    (hwf : wellFormed t h = true) (hfuel : h < fuel) (hc : containsKey t h k = false) :
    Update fuel t k v = Except.ok (ERROR_T.ERROR_NONEXISTENT, t) :=
  Update_of_Lookup_missing fuel t k v 0 0 (Lookup_of_not_contains t k h fuel 0 hwf hfuel hc)

/-- Claim C8 at a concrete index: key 7 is absent from the tree holding 1, 2, 3. -/
theorem Update_absent_key_not_found_witness :
    wellFormed smallTree 2 = true ∧ 2 < 8 ∧ containsKey smallTree 2 7 = false ∧
      Update 8 smallTree 7 70 = Except.ok (ERROR_T.ERROR_NONEXISTENT, smallTree) :=
  ⟨by decide, by decide, by decide,
    Update_absent_key_not_found 8 2 smallTree 7 70 (by decide) (by decide) (by decide)⟩

/-- Claim C9: for every index and key, `Delete` returns `ERROR_UNIMPL` and the index is the
one it was given. -/
theorem Delete_unimplemented (t : BTreeIndex) (key : Nat) :
    Delete t key = (ERROR_T.ERROR_UNIMPL, t) := rfl

/-- Claim C10: with freelist head 0, `AllocateNode` returns `ERROR_NOSPACE` and the index is
unchanged.  With a head `h` that is not 0, whose block is tagged unallocated, in an index
whose superblock has a block in the store, it returns `ERROR_NOERROR` and `h`; the freelist
head becomes the next-pointer stored in block `h`, the superblock is written to its block,
no other block changes, and the store is notified of the allocation of `h`. -/
theorem AllocateNode_pops_head (t : BTreeIndex) :
    (t.superblock.info.freelist = 0 →
      AllocateNode t = Except.ok (ERROR_T.ERROR_NOSPACE, 0, t)) ∧
    (∀ node : BTreeNode, t.superblock.info.freelist ≠ 0 →
      t.buffercache.blocks[t.superblock.info.freelist]? = some node →
      node.info.nodetype = NodeType.BTREE_UNALLOCATED_BLOCK →
      t.superblock_index < t.buffercache.blocks.length →
      AllocateNode t = Except.ok (ERROR_T.ERROR_NOERROR, t.superblock.info.freelist,
        { t with
          superblock :=
            { t.superblock with info := { t.superblock.info with freelist := node.info.freelist } }
          buffercache :=
            { t.buffercache with
              blocks := t.buffercache.blocks.set t.superblock_index
                ({ t.superblock with
                   info := { t.superblock.info with freelist := node.info.freelist } } :
                  BTreeNode).stored
              log := t.buffercache.log ++
                [CacheEvent.write t.superblock_index,
                 CacheEvent.notifyAllocate t.superblock.info.freelist] } })) := by
  constructor
  · intro h
    simp [AllocateNode, h]
  · intro node h0 hb hty hidx
    simp [AllocateNode, h0, BTreeNode.Unserialize, hb, hty, BTreeNode.Serialize, hidx,
      BufferCache.NotifyAllocateBlock]

/-- Claim C10 at two concrete indexes: one whose freelist is exhausted, and one whose
freelist head is block 4 with next-pointer 5. -/
theorem AllocateNode_pops_head_witness :
    (fullTree.superblock.info.freelist = 0 ∧
      AllocateNode fullTree = Except.ok (ERROR_T.ERROR_NOSPACE, 0, fullTree)) ∧
    (smallTree.superblock.info.freelist = 4 ∧
      (smallTree.buffercache.blocks[4]?).map (fun b => (b.info.nodetype, b.info.freelist)) =
        some (NodeType.BTREE_UNALLOCATED_BLOCK, 5) ∧
      ∃ u : BTreeIndex, AllocateNode smallTree = Except.ok (ERROR_T.ERROR_NOERROR, 4, u) ∧
        u.superblock.info.freelist = 5 ∧
        u.buffercache.blocks = smallTree.buffercache.blocks.set 0 u.superblock ∧
        u.buffercache.log = smallTree.buffercache.log ++
          [CacheEvent.write 0, CacheEvent.notifyAllocate 4]) :=
  ⟨⟨rfl, (AllocateNode_pops_head fullTree).1 rfl⟩, rfl, rfl, _,
    (AllocateNode_pops_head smallTree).2
      { info := { nodetype := NodeType.BTREE_UNALLOCATED_BLOCK, keysize := 4, valuesize := 4,
                  blocksize := 64, rootnode := 1, freelist := 5, numkeys := 0 }
        keys := [], vals := [], ptrs := [] }
      (by decide) rfl rfl (by decide), rfl, rfl, rfl⟩

/-- Claim C11, as stated, fails for the superblock's own block: block 0 of the tree holding
1, 2, 3 is tagged superblock, so it is not tagged unallocated, and after `DeallocateNode(0)`
it is still tagged superblock, because the superblock is written over the freed node; the
freelist head is then the null sentinel 0. -/
theorem DeallocateNode_of_superblock_block :
    (smallTree.buffercache.blocks[0]?).map (fun b => b.info.nodetype) =
        some NodeType.BTREE_SUPERBLOCK ∧
      smallTree.superblock.info.freelist = 4 ∧
      ∃ u : BTreeIndex,
        DeallocateNode smallTree 0 = Except.ok (ERROR_T.ERROR_NOERROR, u) ∧
        (u.buffercache.blocks[0]?).map (fun b => b.info.nodetype) =
          some NodeType.BTREE_SUPERBLOCK ∧
        u.superblock.info.freelist = 0 :=
  ⟨rfl, rfl, _, rfl, rfl, rfl⟩

/-- Claim C11, amended: for every block `n` of the store other than the superblock's own
block that is not tagged unallocated, in an index whose superblock has a block in the store,
`DeallocateNode(n)` returns `ERROR_NOERROR`; afterwards block `n` is tagged unallocated,
holds a header only and its next-pointer is the previous freelist head; the freelist head of
the in-memory superblock is `n` and that superblock is what its block holds; every other
block is as before, the two writes are the only ones, and the store is notified. -/
theorem DeallocateNode_prepends (t : BTreeIndex) (n : Nat) (node : BTreeNode)
    (hn : t.buffercache.blocks[n]? = some node)
    (hty : node.info.nodetype ≠ NodeType.BTREE_UNALLOCATED_BLOCK)
    (hne : n ≠ t.superblock_index)
    (hidx : t.superblock_index < t.buffercache.blocks.length) :
    ∃ u : BTreeIndex,
      DeallocateNode t n = Except.ok (ERROR_T.ERROR_NOERROR, u) ∧
      u.buffercache.blocks[n]? =
        some { info := { node.info with nodetype := NodeType.BTREE_UNALLOCATED_BLOCK
                                        freelist := t.superblock.info.freelist }
               keys := [], vals := [], ptrs := [] } ∧
      u.superblock = { t.superblock with info := { t.superblock.info with freelist := n } } ∧
      u.superblock.info.freelist = n ∧
      u.buffercache.blocks[t.superblock_index]? = some u.superblock.stored ∧
      u.superblock_index = t.superblock_index ∧
      (∀ m : Nat, m ≠ n → m ≠ t.superblock_index →
        u.buffercache.blocks[m]? = t.buffercache.blocks[m]?) ∧
      u.buffercache.log = t.buffercache.log ++
        [CacheEvent.write n, CacheEvent.write t.superblock_index,
         CacheEvent.notifyDeallocate n] := by
  have hlen : n < t.buffercache.blocks.length := by
    by_contra hc
    rw [List.getElem?_eq_none (by omega)] at hn
    cases hn
  refine ⟨{ t with
            buffercache :=
              ((({ t.superblock with info := { t.superblock.info with freelist := n } } :
                  BTreeNode).Serialize
                (({ node with
                    info := { node.info with nodetype := NodeType.BTREE_UNALLOCATED_BLOCK
                                             freelist := t.superblock.info.freelist } } :
                  BTreeNode).Serialize t.buffercache n).2
                t.superblock_index).2).NotifyDeallocateBlock n
            superblock :=
              { t.superblock with info := { t.superblock.info with freelist := n } } },
    ?_, ?_, rfl, rfl, ?_, rfl, ?_, ?_⟩
  · simp only [DeallocateNode, BTreeNode.Unserialize, hn, hty, if_false]
  · simp only [BufferCache.NotifyDeallocateBlock, Serialize_blocks]
    rw [List.getElem?_set_ne (Ne.symm hne), List.getElem?_set_self hlen]
    simp [BTreeNode.stored]
  · simp only [BufferCache.NotifyDeallocateBlock, Serialize_blocks]
    rw [List.getElem?_set_self (by rw [List.length_set]; exact hidx)]
  · intro m hm1 hm2
    simp only [BufferCache.NotifyDeallocateBlock, Serialize_blocks]
    rw [List.getElem?_set_ne (Ne.symm hm2), List.getElem?_set_ne (Ne.symm hm1)]
  · simp [BufferCache.NotifyDeallocateBlock, BTreeNode.Serialize, hlen, hidx]

/-- Claim C11 (amended) at a concrete index: the leaf in block 2 of the tree holding 1, 2, 3
is given back while the freelist head is 4. -/
theorem DeallocateNode_prepends_witness :
    smallTree.buffercache.blocks[2]? =
        some { info := { nodetype := NodeType.BTREE_LEAF_NODE, keysize := 4, valuesize := 4,
                         blocksize := 64, rootnode := 0, freelist := 0, numkeys := 1 }
               keys := [1, 0, 0], vals := [10, 0, 0], ptrs := [0] } ∧
      NodeType.BTREE_LEAF_NODE ≠ NodeType.BTREE_UNALLOCATED_BLOCK ∧
      2 ≠ smallTree.superblock_index ∧
      smallTree.superblock_index < smallTree.buffercache.blocks.length ∧
      smallTree.superblock.info.freelist = 4 ∧
      ∃ u : BTreeIndex,
        DeallocateNode smallTree 2 = Except.ok (ERROR_T.ERROR_NOERROR, u) ∧
        (u.buffercache.blocks[2]?).map (fun b => (b.info.nodetype, b.info.freelist)) =
          some (NodeType.BTREE_UNALLOCATED_BLOCK, 4) ∧
        u.superblock.info.freelist = 2 ∧
        u.buffercache.blocks[0]? = some u.superblock.stored ∧
        u.buffercache.log = smallTree.buffercache.log ++
          [CacheEvent.write 2, CacheEvent.write 0, CacheEvent.notifyDeallocate 2] :=
  ⟨rfl, by decide, by decide, by decide, rfl,
    Exists.imp
      (fun u hu =>
        ⟨hu.1, by rw [hu.2.1]; rfl, hu.2.2.2.1, hu.2.2.2.2.1, hu.2.2.2.2.2.2.2⟩)
      (DeallocateNode_prepends smallTree 2
        { info := { nodetype := NodeType.BTREE_LEAF_NODE, keysize := 4, valuesize := 4,
                    blocksize := 64, rootnode := 0, freelist := 0, numkeys := 1 }
          keys := [1, 0, 0], vals := [10, 0, 0], ptrs := [0] }
        rfl (by decide) (by decide) (by decide))⟩

/-- Claim C12: start from a state in which the freelist is a chain of unallocated blocks
without duplicates that ends at 0, and in which the allocated blocks are distinct and not
free.  Let a client run any sequence of `AllocateNode` calls, `DeallocateNode` calls on
blocks that are allocated at that moment, and writes of nodes into such blocks.  Then the
run can only stop early on the assertion of `DeallocateNode` (the block was never written
and is still tagged unallocated); in every state it reaches, the freelist is again such a
chain; and the next `AllocateNode` either reports `ERROR_NOSPACE` on an empty chain or
returns the head of the chain, a block that is on the freelist and is not allocated at that
moment, leaving the rest of the chain as the freelist. -/
theorem allocator_no_double_use (s : AllocState) (l : List Nat) (hinv : AllocInv s l)
    (ops : List AllocOp) :
    (∀ f : Fault, allocRun s ops = Except.error f → f = Fault.assertion) ∧
    (∀ s' : AllocState, allocRun s ops = Except.ok (some s') →
      ∃ l' : List Nat, AllocInv s' l' ∧
        ((l' = [] ∧ AllocateNode s'.index = Except.ok (ERROR_T.ERROR_NOSPACE, 0, s'.index)) ∨
          ∃ x l'' u, l' = x :: l'' ∧
            AllocateNode s'.index = Except.ok (ERROR_T.ERROR_NOERROR, x, u) ∧
            x ∉ s'.live ∧ AllocInv { index := u, live := x :: s'.live } l'')) := by
  have h := allocRun_inv ops s l hinv
  constructor
  · intro f hf
    rw [hf] at h
    exact h
  · intro s' hs
    rw [hs] at h
    obtain ⟨l', hinv'⟩ := h
    exact ⟨l', hinv', allocate_step hinv'⟩

/-- Claim C12 at a concrete state: in the tree holding 1, 2, 3 the blocks 1, 2, 3 are
allocated and 4, 5, 6, 7 are free.  The client allocates (block 4), writes a leaf into it,
gives back 4 and then 2, and allocates twice (blocks 2 and 4). -/
theorem allocator_no_double_use_witness :
    AllocInv { index := smallTree, live := [1, 2, 3] } [4, 5, 6, 7] ∧
      ((allocRun { index := smallTree, live := [1, 2, 3] }
          [AllocOp.allocate,
           AllocOp.use 4 (BTreeNode.new (geometry 3 4) NodeType.BTREE_LEAF_NODE 4 4 64),
           AllocOp.deallocate 4, AllocOp.deallocate 2, AllocOp.allocate,
           AllocOp.allocate]).toOption.join.map fun s => s.live) = some [4, 2, 1, 3] ∧
      ∀ s' : AllocState,
        allocRun { index := smallTree, live := [1, 2, 3] }
          [AllocOp.allocate,
           AllocOp.use 4 (BTreeNode.new (geometry 3 4) NodeType.BTREE_LEAF_NODE 4 4 64),
           AllocOp.deallocate 4, AllocOp.deallocate 2, AllocOp.allocate,
           AllocOp.allocate] = Except.ok (some s') →
        ∃ l' : List Nat, AllocInv s' l' ∧
          ((l' = [] ∧
              AllocateNode s'.index = Except.ok (ERROR_T.ERROR_NOSPACE, 0, s'.index)) ∨
            ∃ x l'' u, l' = x :: l'' ∧
              AllocateNode s'.index = Except.ok (ERROR_T.ERROR_NOERROR, x, u) ∧
              x ∉ s'.live ∧ AllocInv { index := u, live := x :: s'.live } l'') :=
  have hinv : AllocInv { index := smallTree, live := [1, 2, 3] } [4, 5, 6, 7] :=
    ⟨rfl, by decide, by decide, by decide, by decide⟩
  ⟨hinv, rfl, (allocator_no_double_use _ _ hinv _).2⟩

/-- Claim C13 fails on a store of two blocks: `Attach(0, create = true)` succeeds and leaves
the freelist head at 2, a block the store does not have, so the freelist is not the empty
chain and `AllocateNode`, instead of reporting `ERROR_NOSPACE`, goes on to read block 2. -/
theorem Attach_two_blocks_freelist_dangles :
    ∃ u : BTreeIndex,
      Attach (geometry 3 4) (BTreeIndex.new 4 4 (blankStore 2)) 0 true =
        Except.ok (ERROR_T.ERROR_NOERROR, u) ∧
      u.buffercache.GetNumBlocks = 2 ∧
      u.superblock.info.freelist = 2 ∧
      u.buffercache.blocks[2]? = none ∧
      isChain u.buffercache.blocks u.superblock.info.freelist [] = false ∧
      AllocateNode u = Except.error Fault.undefined :=
  ⟨_, rfl, rfl, rfl, rfl, rfl, rfl⟩

/-- Claim C14, as stated, fails: after `Attach(0, create = true)` on a blank store of four
blocks the root in block 1 is of type `BTREE_ROOT_NODE`, not a leaf. -/
theorem Attach_root_is_not_a_leaf :
    ∃ u : BTreeIndex,
      Attach (geometry 3 4) (BTreeIndex.new 4 4 (blankStore 4)) 0 true =
        Except.ok (ERROR_T.ERROR_NOERROR, u) ∧
      (u.buffercache.blocks[1]?).map (fun b => b.info.nodetype) =
        some NodeType.BTREE_ROOT_NODE ∧
      (u.buffercache.blocks[1]?).map (fun b => b.info.nodetype) ≠
        some NodeType.BTREE_LEAF_NODE :=
  ⟨_, rfl, rfl, by decide⟩

/-- Claim C14, amended: on every store of at least two blocks `Attach(0, create = true)`
returns `ERROR_NOERROR`; afterwards block 0 holds a superblock whose rootnode field is 1,
block 1 holds the root as an empty node (numkeys = 0) of type `BTREE_ROOT_NODE`, and the
in-memory superblock equals the one written to block 0. -/
theorem Attach_lays_out_reserved_blocks (G : SlotGeometry) (t : BTreeIndex)
    (hN : 2 ≤ t.buffercache.GetNumBlocks) :
    ∃ (u : BTreeIndex) (sb root : BTreeNode),
      Attach G t 0 true = Except.ok (ERROR_T.ERROR_NOERROR, u) ∧
      u.buffercache.blocks[0]? = some sb ∧
      sb.info.nodetype = NodeType.BTREE_SUPERBLOCK ∧ sb.info.rootnode = 1 ∧
      u.buffercache.blocks[1]? = some root ∧
      root.info.nodetype = NodeType.BTREE_ROOT_NODE ∧ root.info.numkeys = 0 ∧
      u.superblock = sb := by
  obtain ⟨u, h1, -, -, h4, h5, h6, -⟩ := Attach_create G t hN
  exact ⟨u, _, _, h1, h5, by rw [h4], by rw [h4], h6, rfl, rfl, rfl⟩

/-- Claim C14 (amended) on a blank store of two blocks. -/
theorem Attach_lays_out_reserved_blocks_witness :
    2 ≤ (BTreeIndex.new 4 4 (blankStore 2)).buffercache.GetNumBlocks ∧
      ∃ (u : BTreeIndex) (sb root : BTreeNode),
        Attach (geometry 3 4) (BTreeIndex.new 4 4 (blankStore 2)) 0 true =
          Except.ok (ERROR_T.ERROR_NOERROR, u) ∧
        u.buffercache.blocks[0]? = some sb ∧
        sb.info.nodetype = NodeType.BTREE_SUPERBLOCK ∧ sb.info.rootnode = 1 ∧
        u.buffercache.blocks[1]? = some root ∧
        root.info.nodetype = NodeType.BTREE_ROOT_NODE ∧ root.info.numkeys = 0 ∧
        u.superblock = sb :=
  ⟨by decide, Attach_lays_out_reserved_blocks (geometry 3 4) (BTreeIndex.new 4 4 (blankStore 2))
    (by decide)⟩

/-- Claim C15 fails for leaves of two slots.  The first `Insert` into the fresh index
already splits: it takes the blocks 2 and 3 and turns the root into an interior node with
one key and two children.  The second `Insert` splits again, taking the blocks 4 and 5, and
leaves a root with two keys and three children. -/
theorem leaf_of_two_slots_splits_on_first_insert :
    ∃ t0 t1 t2 : BTreeIndex,
      created (geometry 2 4) 8 = Except.ok t0 ∧
      t0.superblock.info.freelist = 2 ∧
      Insert (geometry 2 4) 8 t0 10 100 = Except.ok (none, t1) ∧
      t1.superblock.info.freelist = 4 ∧
      (t1.buffercache.blocks[1]?).map (fun b => (b.info.nodetype, b.info.numkeys, b.ptrs)) =
        some (NodeType.BTREE_INTERIOR_NODE, 1, [2, 3, 0, 0, 0]) ∧
      Insert (geometry 2 4) 8 t1 20 200 = Except.ok (none, t2) ∧
      t2.superblock.info.freelist = 6 ∧
      (t2.buffercache.blocks[1]?).map (fun b => (b.info.nodetype, b.info.numkeys, b.ptrs)) =
        some (NodeType.BTREE_INTERIOR_NODE, 2, [2, 4, 5, 0, 0]) :=
  ⟨_, _, _, rfl, rfl, rfl, rfl, rfl, rfl, rfl, rfl⟩

/-- Claim C16 fails when a split finds no free block.  With nodes of 3 slots on a store of
3 blocks, after 10, 20, 30, 40 the tree has depth 2, the freelist is empty and the root
holds 2 keys.  `Insert(50, 500)` runs to its end without an error code and splits the leaf
and the root; `AllocateNode` reports `ERROR_NOSPACE` each time, the splits ignore it and
write all four new nodes to block 0.  Afterwards every pointer of the root and of block 0 is
0 and block 0 is an interior node: no path from the root reaches a leaf, so the tree has no
depth, where the claim has depth 3. -/
theorem root_split_without_space_has_no_depth :
    insertAll (geometry 3 3) 8 (created (geometry 3 3) 3)
        [(10, 100), (20, 200), (30, 300), (40, 400)] = Except.ok crampedTree ∧
      depth crampedTree 8 = some 2 ∧
      crampedTree.superblock.info.freelist = 0 ∧
      (crampedTree.buffercache.blocks[1]?).map
          (fun b => (b.info.nodetype, b.info.numkeys, b.ptrs)) =
        some (NodeType.BTREE_INTERIOR_NODE, 2, [2, 0, 0, 0]) ∧
      ∃ u : BTreeIndex,
        Insert (geometry 3 3) 8 crampedTree 50 500 = Except.ok (none, u) ∧
        u.superblock.info.rootnode = 1 ∧
        (u.buffercache.blocks[1]?).map (fun b => (b.info.nodetype, b.info.numkeys, b.ptrs)) =
          some (NodeType.BTREE_INTERIOR_NODE, 1, [0, 0, 0, 0]) ∧
        (u.buffercache.blocks[0]?).map (fun b => (b.info.nodetype, b.info.numkeys, b.ptrs)) =
          some (NodeType.BTREE_INTERIOR_NODE, 1, [0, 0, 0, 0]) ∧
        ∀ h : Nat, depth u h = none := by
  refine ⟨rfl, by decide, rfl, rfl, _, rfl, rfl, rfl, rfl, ?_⟩
  intro h
  cases h with
  | zero => rfl
  | succ h =>
    refine depthFrom_of_first_child _ 1 ?b ?hb ?h1 ?h2 h ?h3
    case hb => exact rfl
    case h1 => exact rfl
    case h2 => decide
    case h3 =>
      refine depthFrom_self_loop _ 0 ?c ?hc ?h4 ?h5 ?h6 h
      case hc => exact rfl
      case h4 => exact rfl
      case h5 => decide
      case h6 => exact rfl

/-- Claim C17 fails for interior nodes of 3 slots.  The tree holding 10, 20, 30, 40, 25 is
in search-tree order; `Insert(27, 270)` splits a leaf and the root.  Afterwards pointer 1 of
the root leads to block 9, an interior node whose only key is 30 and whose pointer 0 leads
to the leaf in block 5, which holds 30 and 40: keys under pointer 0 that are not below key 0.
The tree is no longer in search-tree order. -/
theorem insert_breaks_search_tree_order :
    wellFormed oddTree 2 = true ∧
      Insert (geometry 3 3) 8 oddTree 27 270 = Except.ok (none, oddTreeAfter) ∧
      (oddTreeAfter.buffercache.blocks[1]?).map
          (fun b => (b.info.nodetype, b.info.numkeys, b.keys, b.ptrs)) =
        some (NodeType.BTREE_INTERIOR_NODE, 1, [25, 0, 0], [8, 9, 0, 0]) ∧
      (oddTreeAfter.buffercache.blocks[9]?).map
          (fun b => (b.info.nodetype, b.info.numkeys, b.keys, b.ptrs)) =
        some (NodeType.BTREE_INTERIOR_NODE, 1, [30, 0, 0], [5, 0, 0, 0]) ∧
      (oddTreeAfter.buffercache.blocks[5]?).map
          (fun b => (b.info.nodetype, b.info.numkeys, b.keys)) =
        some (NodeType.BTREE_LEAF_NODE, 2, [30, 40, 0]) ∧
      wellFormed oddTreeAfter 3 = false :=
  ⟨by decide, rfl, rfl, rfl, rfl, by decide⟩

/-- Claim C18 fails for interior nodes of 3 slots.  After the insertions 10, 20, 30, 40, 25,
27 pointer 1 of the root leads to block 9, an interior node with one key, so with the
pointer slots 0 and 1; its slot 1 was never set and refers to block 0, which holds the
superblock. -/
theorem insert_leaves_pointer_to_superblock :
    insertAll (geometry 3 3) 8 (created (geometry 3 3) 12)
        [(10, 100), (20, 200), (30, 300), (40, 400), (25, 250), (27, 270)] =
        Except.ok oddTreeAfter ∧
      oddTreeAfter.superblock.info.rootnode = 1 ∧
      (oddTreeAfter.buffercache.blocks[1]?).map (fun b => b.GetPtr 1) =
        some (Except.ok 9) ∧
      (oddTreeAfter.buffercache.blocks[9]?).map
          (fun b => (b.info.nodetype, b.info.numkeys, b.GetPtr 1)) =
        some (NodeType.BTREE_INTERIOR_NODE, 1, Except.ok 0) ∧
      (oddTreeAfter.buffercache.blocks[0]?).map (fun b => b.info.nodetype) =
        some NodeType.BTREE_SUPERBLOCK :=
  ⟨rfl, rfl, rfl, rfl, rfl⟩

/-- Claim C20 fails on the tree built by `Attach(0, create = true)` and no `Insert`: its
root is a node of type `BTREE_ROOT_NODE` without keys, for which `SanityCheck` writes a
diagnostic and returns `ERROR_NONEXISTENT`. -/
theorem SanityCheck_rejects_fresh_tree :
    ∃ t : BTreeIndex,
      created (geometry 3 4) 8 = Except.ok t ∧
      SanityCheck 8 t =
        Except.ok (ERROR_T.ERROR_NONEXISTENT,
          ["The keys on this interior node are nonexistent."]) :=
  ⟨_, rfl, rfl⟩

/-- Claim C19, as stated, fails: a split never gives the block of the node it replaces
back.  In the tree holding 10, 20, 30, 40, 25 the freelist is the chain 6, 7, ..., 11 and
the blocks reached from the root are 1, 2, 4 and 5; block 3, the leaf that was split, is
neither free nor reached from the root. -/
theorem split_leaves_block_neither_free_nor_live :
    insertAll (geometry 3 3) 8 (created (geometry 3 3) 12)
        [(10, 100), (20, 200), (30, 300), (40, 400), (25, 250)] = Except.ok oddTree ∧
      isChain oddTree.buffercache.blocks oddTree.superblock.info.freelist
        [6, 7, 8, 9, 10, 11] = true ∧
      3 ∉ [6, 7, 8, 9, 10, 11] ∧
      (oddTree.buffercache.blocks[3]?).map (fun b => b.info.nodetype) =
        some NodeType.BTREE_LEAF_NODE ∧
      ∀ h : Nat, reachable oddTree h 3 = false := by
  refine ⟨rfl, by decide, by decide, rfl, ?_⟩
  intro h
  cases hr : reachable oddTree h 3 with
  | false => rfl
  | true =>
    have hS : closedSet oddTree.buffercache.blocks [1, 2, 4, 5] = true := by decide
    exact absurd (reachableFrom_closed hS h 1 3 (by decide) hr) (by decide)

/-- Claim C19, amended.  On a store of `N ≥ 3` blocks, after `Attach(0, create = true)` the
freelist is the chain of the blocks 2, ..., N-1, the root in block 1 is the only block
reached from the root, and so every block other than the superblock is in exactly one of
the two sets.  After any further sequence of completed `Insert` calls the freelist is a
chain without duplicates that is a tail of the chain 2, ..., N-1, and no block reached from
the root is on it: the two sets stay disjoint.  (They need not cover the store: `Insert`
gives no block back.) -/
theorem freelist_disjoint_from_tree (G : SlotGeometry) (t t0 u : BTreeIndex) (fuel : Nat)
    (kvs : List (Nat × Nat)) (hN : 3 ≤ t.buffercache.GetNumBlocks)
    (hA : Attach G t 0 true = Except.ok (ERROR_T.ERROR_NOERROR, t0))
    (hI : insertAll G fuel (Except.ok t0) kvs = Except.ok u) :
    (isChain t0.buffercache.blocks t0.superblock.info.freelist
        (List.range' 2 (t.buffercache.GetNumBlocks - 2)) = true ∧
      (∀ h m : Nat, reachable t0 h m = true ↔ m = 1) ∧
      ∀ m : Nat, 1 ≤ m → m < t.buffercache.GetNumBlocks →
        (m ∈ List.range' 2 (t.buffercache.GetNumBlocks - 2) ↔
          ¬ ∃ h : Nat, reachable t0 h m = true)) ∧
    ∃ l : List Nat,
      l <:+ List.range' 2 (t.buffercache.GetNumBlocks - 2) ∧
      isChain u.buffercache.blocks u.superblock.info.freelist l = true ∧ l.Nodup ∧
      ∀ h m : Nat, reachable u h m = true → m ∉ l := by
  obtain ⟨t0', hA', hinv, hreach⟩ := Attach_FreeInv G t hN
  have ht0 : t0' = t0 := by
    rw [hA] at hA'
    injection hA' with hA'
    injection hA' with _ hA'
    exact hA'.symm
  subst ht0
  obtain ⟨l, hs, hu⟩ := insertAll_inv G fuel kvs t0' u _ hinv hI
  refine ⟨⟨hinv.2.1, hreach, ?_⟩, l, hs, hu.2.1, hu.2.2.1, fun h m => reachable_not_free hu h m⟩
  intro m hm1 hm2
  unfold BufferCache.GetNumBlocks at hm2 ⊢
  rw [List.mem_range'_1]
  constructor
  · rintro ⟨h2, -⟩ ⟨h, hr⟩
    have := (hreach h m).1 hr
    omega
  · intro hne
    have : m ≠ 1 := fun h1 => hne ⟨0, (hreach 0 m).2 h1⟩
    omega

/-- Claim C19 (amended) on the tree holding 10, 20, 30, 40, 25 in a store of 12 blocks. -/
theorem freelist_disjoint_from_tree_witness :
    3 ≤ (BTreeIndex.new 4 4 (blankStore 12)).buffercache.GetNumBlocks ∧
      Attach (geometry 3 3) (BTreeIndex.new 4 4 (blankStore 12)) 0 true =
        Except.ok (ERROR_T.ERROR_NOERROR, indexOf (created (geometry 3 3) 12)) ∧
      insertAll (geometry 3 3) 8 (Except.ok (indexOf (created (geometry 3 3) 12)))
        [(10, 100), (20, 200), (30, 300), (40, 400), (25, 250)] = Except.ok oddTree ∧
      ∃ l : List Nat,
        l <:+ List.range' 2
          ((BTreeIndex.new 4 4 (blankStore 12)).buffercache.GetNumBlocks - 2) ∧
        isChain oddTree.buffercache.blocks oddTree.superblock.info.freelist l = true ∧
        l.Nodup ∧ ∀ h m : Nat, reachable oddTree h m = true → m ∉ l :=
  ⟨by decide, rfl, rfl,
    (freelist_disjoint_from_tree (geometry 3 3) (BTreeIndex.new 4 4 (blankStore 12))
      (indexOf (created (geometry 3 3) 12)) oddTree 8
      [(10, 100), (20, 200), (30, 300), (40, 400), (25, 250)] (by decide) rfl rfl).2⟩

/-- Claim C21 fails on a tree whose second leaf is out of order.  In the tree holding 1, 2, 3
the leaf in block 3 is reached through pointer 1 of the root; with its keys set to 3, 2 it
has an adjacent pair that is not ascending.  `SanityCheck` returns `ERROR_NOERROR` and
writes nothing: `SanityWalk` returns from inside the first iteration of its loop over an
interior node, so it only ever follows pointer 0. -/
theorem SanityCheck_misses_second_leaf :
    unsortedTree.superblock.info.rootnode = 1 ∧
      (unsortedTree.buffercache.blocks[1]?).map (fun b => (b.info.numkeys, b.GetPtr 1)) =
        some (1, Except.ok 3) ∧
      reachable unsortedTree 1 3 = true ∧
      (unsortedTree.buffercache.blocks[3]?).map
          (fun b => (b.info.nodetype, b.info.numkeys, b.GetKey 0, b.GetKey 1)) =
        some (NodeType.BTREE_LEAF_NODE, 2, Except.ok 3, Except.ok 2) ∧
      (unsortedTree.buffercache.blocks[3]?).map keysAscending = some false ∧
      SanityCheck 8 unsortedTree = Except.ok (ERROR_T.ERROR_NOERROR, []) :=
  ⟨rfl, rfl, by decide, rfl, by decide, rfl⟩

/-- Claim C22 fails for interior nodes of 3 slots.  In the tree left by the insertions 10,
20, 30, 40, 25, 27 the leaf in block 5 holds 30 and 40 under pointer 0 of block 9, whose key
is 30.  `Insert(29, 290)` completes: it puts 29 into that leaf, writes it back with 3 keys
and splits it, but `insert_Not_Full_Internal` finds the promoted key 30 already in block 9
and leaves the block as it is.  Block 5 is still the child, a reachable leaf that holds
`GetNumSlotsAsLeaf()` = 3 keys. -/
theorem insert_leaves_full_leaf_in_tree :
    ∃ u : BTreeIndex,
      Insert (geometry 3 3) 8 oddTreeAfter 29 290 = Except.ok (none, u) ∧
      u.superblock.info.rootnode = 1 ∧
      (u.buffercache.blocks[1]?).map (fun b => (b.info.numkeys, b.GetPtr 1)) =
        some (1, Except.ok 9) ∧
      (u.buffercache.blocks[9]?).map
          (fun b => (b.info.nodetype, b.info.numkeys, b.GetKey 0, b.GetPtr 0)) =
        some (NodeType.BTREE_INTERIOR_NODE, 1, Except.ok 30, Except.ok 5) ∧
      reachable u 2 5 = true ∧
      (u.buffercache.blocks[5]?).map (fun b => (b.info.nodetype, b.info.numkeys, b.keys)) =
        some (NodeType.BTREE_LEAF_NODE, 3, [29, 30, 40]) ∧
      (geometry 3 3).GetNumSlotsAsLeaf blankBlock.info = 3 := by
  refine ⟨_, rfl, rfl, rfl, rfl, ?_, rfl, rfl⟩
  decide

/-- Claim C25 fails for an odd slot count.  `split_Internal_Full` is given an interior node
of 3 slots with the keys 20, 30, 50 and the child pointers 2, 4, 5, 3, and six free blocks.
The left node gets the key 20 with the pointers 2 and 4 and the promoted key is 30, but the
right node gets the key 50 with the pointers 3 and 0: the child 5 is lost and the last
pointer slot in use is left unset. -/
theorem split_Internal_Full_loses_child :
    ∃ sr : SplitResult,
      split_Internal_Full (geometry 3 3) oddTree fullInterior = Except.ok sr ∧
      sr.rc = none ∧ sr.left = 6 ∧ sr.right = 7 ∧ sr.Key = some 30 ∧
      (sr.index.buffercache.blocks[6]?).map (fun b => (b.info.numkeys, b.keys, b.ptrs)) =
        some (1, [20, 0, 0], [2, 4, 0, 0]) ∧
      (sr.index.buffercache.blocks[7]?).map (fun b => (b.info.numkeys, b.keys, b.ptrs)) =
        some (1, [50, 0, 0], [3, 0, 0, 0]) :=
  ⟨_, rfl, rfl, rfl, rfl, rfl, rfl, rfl⟩

/-- Claim C28 fails for leaves of two slots.  The first `Insert` into a fresh index writes
the root block twice, then goes on into the general path, where the root leaf is at its
split threshold: it takes the blocks 2 and 3 from the freelist, writes them, and writes an
interior node into the root block. -/
theorem first_insert_splits_leaf_of_two_slots :
    ∃ t u : BTreeIndex,
      created (geometry 2 3) 6 = Except.ok t ∧
      emptyRoot t = true ∧
      Insert (geometry 2 3) 8 t 7 70 = Except.ok (none, u) ∧
      (u.buffercache.blocks[1]?).map (fun b => (b.info.nodetype, b.info.numkeys, b.ptrs)) =
        some (NodeType.BTREE_INTERIOR_NODE, 1, [2, 3, 0, 0]) ∧
      u.superblock.info.freelist = 4 ∧
      u.buffercache.log = t.buffercache.log ++
        [CacheEvent.write 1, CacheEvent.write 1,
         CacheEvent.write 0, CacheEvent.notifyAllocate 2, CacheEvent.write 2,
         CacheEvent.write 0, CacheEvent.notifyAllocate 3, CacheEvent.write 3,
         CacheEvent.write 2, CacheEvent.write 3, CacheEvent.write 1] :=
  ⟨_, _, rfl, rfl, rfl, rfl, rfl, rfl⟩

/-- Claim C23: at every interior or root node with at least one key the traversal that
`Lookup`, `Update` and `Insert` share goes on at the child in pointer slot `i`, where `i` is
the least index with `key < key[i]`, and `i = numkeys`, the trailing pointer, when no key is
greater; that pointer is what it appends to the recorded path.  A search key equal to
`key[j]` is never sent through slot `j`, and on a node whose keys are ascending it is sent
through a slot to the right of `j`. -/
theorem descent_rule (t : BTreeIndex) (op : BTreeOp) (key fuel n value : Nat)
    (pointer : List Nat) (b : BTreeNode) (hb : t.buffercache.blocks[n]? = some b)
    (hty : b.info.nodetype.isInterior = true) (hn : 0 < b.info.numkeys) :
    ∃ i : Nat, i ≤ b.info.numkeys ∧
      (∀ j < i, ¬ key < b.keys.getD j 0) ∧
      (i < b.info.numkeys → key < b.keys.getD i 0) ∧
      LookupOrUpdateInternal t op key (fuel + 1) n value pointer =
        LookupOrUpdateInternal t op key fuel (b.ptrs.getD i 0) value
          ((if n = t.superblock.info.rootnode then pointer ++ [t.superblock.info.rootnode]
            else pointer) ++ [b.ptrs.getD i 0]) ∧
      (∀ j < b.info.numkeys, key = b.keys.getD j 0 → i ≠ j) ∧
      (keysAscending b = true → ∀ j < b.info.numkeys, key = b.keys.getD j 0 → j < i) := by
  obtain ⟨i, h1, h2, h3, h4⟩ := descent_step t op key fuel n value pointer b hb hty hn
  have hne : ∀ j < b.info.numkeys, key = b.keys.getD j 0 → i ≠ j := by
    intro j hj hk hij
    subst hij
    have := h3 hj
    omega
  refine ⟨i, h1, h2, h3, h4, hne, ?_⟩
  intro hasc j hj hk
  by_contra hc
  have hij : i < j := by
    have := hne j hj hk
    omega
  have h5 := (keysAscending_iff b).1 hasc j hj i hij
  have h6 := h3 (by omega)
  omega

/-- Claim C23 at the root of the tree holding 1, 2, 3, whose only key is 2: the search for 2
goes on at pointer 1, the trailing pointer. -/
theorem descent_rule_witness :
    smallTree.buffercache.blocks[1]? =
        some { info := { nodetype := NodeType.BTREE_INTERIOR_NODE, keysize := 4,
                         valuesize := 4, blocksize := 64, rootnode := 0, freelist := 0,
                         numkeys := 1 }
               keys := [2, 0, 0, 0], vals := [], ptrs := [2, 3, 0, 0, 0] } ∧
      ∃ i : Nat, i ≤ 1 ∧ (∀ j < 1, 2 = ([2, 0, 0, 0] : List Nat).getD j 0 → j < i) ∧
        LookupOrUpdateInternal smallTree BTreeOp.BTREE_OP_LOOKUP 2 (7 + 1) 1 0 [] =
          LookupOrUpdateInternal smallTree BTreeOp.BTREE_OP_LOOKUP 2 7
            (([2, 3, 0, 0, 0] : List Nat).getD i 0) 0
            ([1] ++ [([2, 3, 0, 0, 0] : List Nat).getD i 0]) :=
  ⟨rfl,
    Exists.imp
      (fun i hi => ⟨hi.1, hi.2.2.2.2.2 (by decide), hi.2.2.2.1⟩)
      (descent_rule smallTree BTreeOp.BTREE_OP_LOOKUP 2 7 1 0 []
        { info := { nodetype := NodeType.BTREE_INTERIOR_NODE, keysize := 4, valuesize := 4,
                    blocksize := 64, rootnode := 0, freelist := 0, numkeys := 1 }
          keys := [2, 0, 0, 0], vals := [], ptrs := [2, 3, 0, 0, 0] }
        rfl rfl (by decide))⟩

/-- A pointer call on a node that is no longer interior.  In the tree left by 38, 8, 13, 15,
1, 27 on a store of 8 blocks the freelist is empty and block 0, once the superblock, holds an
interior node on the path to the leaf in block 7: the tree is not well-formed.
`Insert(10, 100)` records the path 1, 0, 7 and splits that leaf; `split_Leaf` ignores
`ERROR_NOSPACE` and writes both halves to block 0.  `split_Internal` then reads block 0 as
the parent: it is a leaf now, and `split_Internal_Full` calls `GetPtr(1)` on it.  The offset
is below `numkeys`, but a leaf has no pointer slot 1 and the accessor refuses the call; the
value it was to deliver is used all the same. -/
theorem split_without_space_reads_bad_slot :
    spentTree.superblock.info.freelist = 0 ∧
      (spentTree.buffercache.blocks[0]?).map (fun b => (b.info.nodetype, b.info.numkeys)) =
        some (NodeType.BTREE_INTERIOR_NODE, 1) ∧
      (LookupOrUpdateInternal spentTree BTreeOp.BTREE_OP_LOOKUP 10 8 1 0 []).map
          (fun r => (r.1, r.2.2.1)) = Except.ok (ERROR_T.ERROR_NONEXISTENT, [1, 0, 7]) ∧
      ∃ (leaf : BTreeNode) (i : Option ERROR_T × BTreeNode × BTreeIndex) (sr : SplitResult)
        (parent : BTreeNode) (j : Option ERROR_T × BTreeNode × BTreeIndex),
        BTreeNode.Unserialize spentTree.buffercache 7 = Except.ok leaf ∧
        insert_Not_Full spentTree 7 leaf 10 100 = Except.ok i ∧
        split_Leaf (geometry 3 3) i.2.2 i.2.1 = Except.ok sr ∧
        sr.left = 0 ∧ sr.right = 0 ∧ sr.Key = some 27 ∧
        BTreeNode.Unserialize sr.index.buffercache 0 = Except.ok parent ∧
        parent.info.nodetype = NodeType.BTREE_LEAF_NODE ∧ parent.info.numkeys = 2 ∧
        insert_Not_Full_Internal sr.index 0 parent 0 0 27 = Except.ok j ∧
        j.2.1.info.numkeys = 3 ∧
        j.2.1.GetPtr 1 = Except.error ERROR_T.ERROR_INSANE ∧
        split_Internal_Full (geometry 3 3) j.2.2 j.2.1 = Except.error Fault.undefined ∧
        Insert (geometry 3 3) 8 spentTree 10 100 = Except.error Fault.undefined :=
  ⟨rfl, rfl, rfl, _, _, _, _, _, rfl, rfl, rfl, rfl, rfl, rfl, rfl, rfl, rfl, rfl, rfl, rfl,
    rfl, rfl⟩

/-- Claim C24: `split_Leaf` on a leaf with ascending keys that holds as many entries as a leaf
has slots, S of them with S at least 1, when the freelist holds at least two blocks and
a new leaf has room for S entries: the call returns, the block of the left result holds a
leaf with the first S / 2 entries, the block of the right result a leaf with the other
S - S / 2 entries, left followed by right is the list of entries before the split, and the
key handed up is the key at index S / 2, the first key of the right leaf and greater than
every key of the left leaf. -/
theorem split_Leaf_distributes (G : SlotGeometry) (t : BTreeIndex) (Node : BTreeNode)
    (x y : Nat) (l : List Nat) (hidx : t.superblock_index = 0)
    (hch : isChain t.buffercache.blocks t.superblock.info.freelist (x :: y :: l) = true)
    (hNty : Node.info.nodetype = NodeType.BTREE_LEAF_NODE)
    (hS : Node.info.numkeys = G.GetNumSlotsAsLeaf Node.info)
    (hpos : 0 < Node.info.numkeys)
    (hcap : G.GetNumSlotsAsLeaf Node.info ≤ G.GetNumSlotsAsLeaf
      { nodetype := NodeType.BTREE_LEAF_NODE, keysize := t.superblock.info.keysize,
        valuesize := t.superblock.info.valuesize, blocksize := t.superblock.info.blocksize,
        rootnode := 0, freelist := 0, numkeys := 0 })
    (hasc : keysAscending Node = true) :
    ∃ (sr : SplitResult) (lf rt : BTreeNode),
      split_Leaf G t Node = Except.ok sr ∧
      sr.index.buffercache.blocks[sr.left]? = some lf ∧
      sr.index.buffercache.blocks[sr.right]? = some rt ∧
      lf.info.nodetype = NodeType.BTREE_LEAF_NODE ∧
      rt.info.nodetype = NodeType.BTREE_LEAF_NODE ∧
      entries lf = (entries Node).take (G.GetNumSlotsAsLeaf Node.info / 2) ∧
      entries rt = (entries Node).drop (G.GetNumSlotsAsLeaf Node.info / 2) ∧
      (entries lf).length = G.GetNumSlotsAsLeaf Node.info / 2 ∧
      (entries rt).length =
        G.GetNumSlotsAsLeaf Node.info - G.GetNumSlotsAsLeaf Node.info / 2 ∧
      entries lf ++ entries rt = entries Node ∧
      sr.Key = some (Node.keys.getD (G.GetNumSlotsAsLeaf Node.info / 2) 0) ∧
      sr.Val = some (Node.vals.getD (G.GetNumSlotsAsLeaf Node.info / 2) 0) ∧
      (entries rt).head? =
        some (Node.keys.getD (G.GetNumSlotsAsLeaf Node.info / 2) 0,
          Node.vals.getD (G.GetNumSlotsAsLeaf Node.info / 2) 0) ∧
      ∀ e ∈ entries lf, e.1 < Node.keys.getD (G.GetNumSlotsAsLeaf Node.info / 2) 0 := by
  obtain ⟨sr, lf, rt, hrun, -, hl, hr, hK, hV, hbx, hby, hlt, hln, hrt, hrn, hlk, hrk, -, -, -⟩ :=
    split_Leaf_spec G t Node x y l hidx hch hNty hS hpos hcap
  have hhalf : G.GetNumSlotsAsLeaf Node.info / 2 ≤ Node.info.numkeys := by
    rw [hS]; omega
  have hlt' : G.GetNumSlotsAsLeaf Node.info / 2 < Node.info.numkeys := by
    rw [hS]; rw [hS] at hpos; omega
  have hT : entries lf = (entries Node).take (G.GetNumSlotsAsLeaf Node.info / 2) :=
    entries_take Node lf _ hhalf hln hlk
  have hD : entries rt = (entries Node).drop (G.GetNumSlotsAsLeaf Node.info / 2) :=
    entries_drop Node rt _ hhalf (by rw [hrn, ← hS])
      (fun j hj => hrk j (by omega))
  refine ⟨sr, lf, rt, hrun, by rw [hl]; exact hbx, by rw [hr]; exact hby, hlt, hrt, hT, hD,
    by rw [entries_length, hln], by rw [entries_length, hrn], by rw [hT, hD, List.take_append_drop],
    hK, hV, ?_, ?_⟩
  · rw [hD, List.head?_drop, entries_getElem? Node _ hlt']
  · intro e he
    rw [hT] at he
    obtain ⟨i, hi, hie⟩ := List.getElem_of_mem he
    rw [List.length_take, entries_length] at hi
    have hi' : i < G.GetNumSlotsAsLeaf Node.info / 2 := by omega
    have hsome : ((entries Node).take (G.GetNumSlotsAsLeaf Node.info / 2))[i]? = some e := by
      rw [List.getElem?_eq_getElem, hie]
    rw [List.getElem?_take_of_lt hi', entries_getElem? Node i (by omega)] at hsome
    injection hsome with hsome
    rw [← hsome]
    exact keysAscending_lt hasc hi' hlt'

/-- Claim C24 at a concrete input: the leaf 5, 6, 7 is split in the tree holding 1, 2, 3,
whose free blocks are 4, 5, 6, 7; the left leaf is written to block 4 with the entry of 5,
the right leaf to block 5 with the entries of 6 and 7, and 6 is handed up. -/
theorem split_Leaf_distributes_witness :
    isChain smallTree.buffercache.blocks smallTree.superblock.info.freelist [4, 5, 6, 7] = true ∧
    keysAscending fullLeaf = true ∧
    (split_Leaf (geometry 3 4) smallTree fullLeaf).toOption.map
        (fun sr => (sr.left, sr.right, sr.Key, sr.Val,
          (sr.index.buffercache.blocks[sr.left]?).map entries,
          (sr.index.buffercache.blocks[sr.right]?).map entries)) =
      some (4, 5, some 6, some 60, some [(5, 50)], some [(6, 60), (7, 70)]) ∧
    ∃ (sr : SplitResult) (lf rt : BTreeNode),
      split_Leaf (geometry 3 4) smallTree fullLeaf = Except.ok sr ∧
      sr.index.buffercache.blocks[sr.left]? = some lf ∧
      sr.index.buffercache.blocks[sr.right]? = some rt ∧
      lf.info.nodetype = NodeType.BTREE_LEAF_NODE ∧
      rt.info.nodetype = NodeType.BTREE_LEAF_NODE ∧
      entries lf = (entries fullLeaf).take (3 / 2) ∧
      entries rt = (entries fullLeaf).drop (3 / 2) ∧
      (entries lf).length = 3 / 2 ∧
      (entries rt).length = 3 - 3 / 2 ∧
      entries lf ++ entries rt = entries fullLeaf ∧
      sr.Key = some (fullLeaf.keys.getD (3 / 2) 0) ∧
      sr.Val = some (fullLeaf.vals.getD (3 / 2) 0) ∧
      (entries rt).head? =
        some (fullLeaf.keys.getD (3 / 2) 0, fullLeaf.vals.getD (3 / 2) 0) ∧
      ∀ e ∈ entries lf, e.1 < fullLeaf.keys.getD (3 / 2) 0 :=
  ⟨by decide, by decide, rfl,
    split_Leaf_distributes (geometry 3 4) smallTree fullLeaf 4 5 [6, 7] rfl (by decide) rfl rfl
      (by decide) (Nat.le_refl 3) (by decide)⟩

/-- Claim C26: `insert_Not_Full_Internal` on an interior node with n keys, n at least 1 and the
keys ascending, that has a free key slot and a free pointer slot, with a new key lying
between key `j - 1` and key `j`: the call returns without an error code, the node has the
n + 1 ascending keys of before with the new key at index `j`, pointer `j` is the new left
child and pointer `j + 1` the new right child, the other pointers are the old ones in
their order without the old pointer `j`, and the node is written to its own block. -/
theorem insert_Not_Full_Internal_places_split (t : BTreeIndex) (Address : Nat) (b : BTreeNode)
    (left right m j : Nat) (hty : b.info.nodetype.isInterior = true)
    (hn : 1 ≤ b.info.numkeys) (hasc : keysAscending b = true) (hj : j ≤ b.info.numkeys)
    (hlo : 0 < j → b.keys.getD (j - 1) 0 < m)
    (hhi : j < b.info.numkeys → m < b.keys.getD j 0)
    (hk : b.info.numkeys + 1 ≤ b.keys.length) (hp : b.info.numkeys + 2 ≤ b.ptrs.length)
    (hA : Address < t.buffercache.blocks.length) :
    ∃ F : BTreeNode,
      insert_Not_Full_Internal t Address b left right m =
        Except.ok (none, F,
          { t with
            buffercache :=
              { t.buffercache with
                blocks := t.buffercache.blocks.set Address F
                log := t.buffercache.log ++ [CacheEvent.write Address] } }) ∧
      F.info = { b.info with numkeys := b.info.numkeys + 1 } ∧
      keysAscending F = true ∧
      keyList F = (keyList b).take j ++ m :: (keyList b).drop j ∧
      (keyList F)[j]? = some m ∧
      pointerList F = (pointerList b).take j ++ left :: right :: (pointerList b).drop (j + 1) ∧
      (pointerList F)[j]? = some left ∧ (pointerList F)[j + 1]? = some right := by
  obtain ⟨F, hF1, hF2, hF3, hF4⟩ :=
    insert_Not_Full_Internal_spec t Address b left right m j hty hn hasc hj hlo hhi hk hp hA
  have hFn : F.info.numkeys = b.info.numkeys + 1 := by rw [hF2]
  have hFty : F.info.nodetype.isInterior = true := by rw [hF2]; exact hty
  have hlo2 : ∀ i, i < j → b.keys.getD i 0 < m := by
    intro i hi
    by_cases e : i = j - 1
    · rw [e]; exact hlo (by omega)
    · exact Nat.lt_trans (keysAscending_lt hasc (show i < j - 1 by omega) (by omega))
        (hlo (by omega))
  have hhi2 : ∀ i, j ≤ i → i < b.info.numkeys → m < b.keys.getD i 0 := by
    intro i hi hin
    by_cases e : i = j
    · rw [e]; exact hhi (by omega)
    · exact Nat.lt_trans (hhi (by omega)) (keysAscending_lt hasc (show j < i by omega) hin)
  have hkeys : keyList F = (keyList b).take j ++ m :: (keyList b).drop j := by
    unfold keyList
    rw [hFn]
    apply map_range_insert _ _ _ _ _ hj
    intro p hp'
    rw [hF3 p]
    by_cases h1 : p < j
    · rw [if_pos h1, if_pos h1]
    · rw [if_neg h1, if_neg h1]
      by_cases h2 : p = j
      · rw [if_pos h2, if_pos h2]
      · rw [if_neg h2, if_neg h2, if_pos hp']
  have hptrs : pointerList F =
      (pointerList b).take j ++ left :: right :: (pointerList b).drop (j + 1) := by
    unfold pointerList
    rw [hFn]
    apply map_range_replace _ _ _ _ _ _ (show j < b.info.numkeys + 1 by omega)
    intro p hp'
    rw [hF4 p]
    by_cases h1 : p < j
    · rw [if_pos h1, if_pos h1]
    · rw [if_neg h1, if_neg h1]
      by_cases h2 : p = j
      · rw [if_pos h2, if_pos h2]
      · rw [if_neg h2, if_neg h2]
        by_cases h3 : p = j + 1
        · rw [if_pos h3, if_pos h3]
        · rw [if_neg h3, if_neg h3, if_pos (by omega)]
  refine ⟨F, ?_, hF2, ?_, hkeys, ?_, hptrs, ?_, ?_⟩
  · rw [hF1, Serialize_ok _ _ _ hA, stored_of_interior hFty]
  · unfold keysAscending
    apply decide_eq_true
    intro q hq p hpq
    rw [hFn] at hq
    rw [hF3 p, hF3 q]
    by_cases hq1 : q < j
    · rw [if_pos hq1, if_pos (by omega)]
      exact keysAscending_lt hasc hpq (by omega)
    · rw [if_neg hq1]
      by_cases hq2 : q = j
      · rw [if_pos hq2, if_pos (by omega)]
        exact hlo2 p (by omega)
      · rw [if_neg hq2, if_pos hq]
        by_cases hp1 : p < j
        · rw [if_pos hp1]
          exact keysAscending_lt hasc (by omega) (by omega)
        · rw [if_neg hp1]
          by_cases hp2 : p = j
          · rw [if_pos hp2]
            exact hhi2 (q - 1) (by omega) (by omega)
          · rw [if_neg hp2, if_pos (by omega)]
            exact keysAscending_lt hasc (by omega) (by omega)
  · unfold keyList
    rw [map_range_getElem?, if_pos (by omega), hF3 j, if_neg (by omega), if_pos rfl]
  · unfold pointerList
    rw [map_range_getElem?, if_pos (by omega), hF4 j, if_neg (by omega), if_pos rfl]
  · unfold pointerList
    rw [map_range_getElem?, if_pos (by omega), hF4 (j + 1), if_neg (by omega),
      if_neg (by omega), if_pos rfl]

/-- Claim C26 at a concrete input: the node with keys 20, 40 over the children 2, 3, 4 takes
the key 30 with the children 5 and 6 in place of child 3, and is written to block 1. -/
theorem insert_Not_Full_Internal_places_split_witness :
    keysAscending roomyInterior = true ∧
    (insert_Not_Full_Internal smallTree 1 roomyInterior 5 6 30).toOption.map
        (fun r => (r.1, keyList r.2.1, pointerList r.2.1,
          (r.2.2.buffercache.blocks[1]?).map keyList)) =
      some (none, [20, 30, 40], [2, 5, 6, 4], some [20, 30, 40]) ∧
    ∃ F : BTreeNode,
      insert_Not_Full_Internal smallTree 1 roomyInterior 5 6 30 =
        Except.ok (none, F,
          { smallTree with
            buffercache :=
              { smallTree.buffercache with
                blocks := smallTree.buffercache.blocks.set 1 F
                log := smallTree.buffercache.log ++ [CacheEvent.write 1] } }) ∧
      F.info = { roomyInterior.info with numkeys := roomyInterior.info.numkeys + 1 } ∧
      keysAscending F = true ∧
      keyList F = (keyList roomyInterior).take 1 ++ 30 :: (keyList roomyInterior).drop 1 ∧
      (keyList F)[1]? = some 30 ∧
      pointerList F =
        (pointerList roomyInterior).take 1 ++ 5 :: 6 :: (pointerList roomyInterior).drop (1 + 1) ∧
      (pointerList F)[1]? = some 5 ∧ (pointerList F)[1 + 1]? = some 6 :=
  ⟨by decide, rfl,
    insert_Not_Full_Internal_places_split smallTree 1 roomyInterior 5 6 30 1 rfl (by decide)
      (by decide) (by decide) (fun _ => by decide) (fun _ => by decide) (by decide) (by decide)
      (by decide)⟩

/-- Claim C27 does not hold as stated: `Insert` writes the root block back before anything
else.  In the tree holding 1, 2, 3 (leaves of 3 slots) the key 0 is absent and its target
leaf, block 2, holds one key; `Insert(0, 5)` writes block 1, the root, and then block 2. -/
theorem Insert_writes_root_block_too :
    wellFormedFrom smallTree.buffercache.blocks 2 smallTree.superblock.info.rootnode none none
      = true ∧
    containsFrom smallTree.buffercache.blocks 0 2 smallTree.superblock.info.rootnode = false ∧
    descentPath smallTree 0 8 smallTree.superblock.info.rootnode = [1, 2] ∧
    (smallTree.buffercache.blocks[2]?).map (fun b => (b.info.nodetype, entries b)) =
      some (NodeType.BTREE_LEAF_NODE, [(1, 10)]) ∧
    (Insert (geometry 3 4) 8 smallTree 0 5).toOption.map
        (fun r => (r.1, r.2.buffercache.log, (r.2.buffercache.blocks[2]?).map entries)) =
      some (none,
        smallTree.buffercache.log ++ [CacheEvent.write 1, CacheEvent.write 2],
        some [(0, 5), (1, 10)]) := by
  refine ⟨by decide, by decide, by decide, by decide, ?_⟩
  decide

/-- Claim C27, amended: in a tree in search-tree order whose target leaf for the absent key `k`
holds n keys, with n at least 1 and n + 1 below the number of leaf slots, and has room for
one more entry, `Insert(k, v)` returns without an error code after two writes, the root
block, written back as it was, and the leaf's block.  The leaf then holds n + 1 ascending
keys, the old entries with `(k, v)` at its sorted position `j` and the later entries after
it, and no other block has changed. -/
theorem Insert_below_split_threshold (G : SlotGeometry) (fuel : Nat) (t : BTreeIndex)
    (k v h A : Nat) (leaf : BTreeNode)
    (hwf : wellFormedFrom t.buffercache.blocks h t.superblock.info.rootnode none none = true)
    (hfuel : h ≤ fuel)
    (habs : containsFrom t.buffercache.blocks k h t.superblock.info.rootnode = false)
    (hA : (descentPath t k fuel t.superblock.info.rootnode).getLast? = some A)
    (hleaf : t.buffercache.blocks[A]? = some leaf)
    (hn1 : 1 ≤ leaf.info.numkeys)
    (hn2 : leaf.info.numkeys + 1 < G.GetNumSlotsAsLeaf leaf.info)
    (hk : leaf.info.numkeys + 1 ≤ leaf.keys.length)
    (hv : leaf.info.numkeys + 1 ≤ leaf.vals.length) :
    ∃ (j : Nat) (F : BTreeNode),
      Insert G fuel t k v =
        Except.ok (none,
          { t with
            buffercache :=
              { t.buffercache with
                blocks := t.buffercache.blocks.set A F
                log := t.buffercache.log ++
                  [CacheEvent.write t.superblock.info.rootnode, CacheEvent.write A] } }) ∧
      F.info = { leaf.info with numkeys := leaf.info.numkeys + 1 } ∧
      F.ptrs = leaf.ptrs ∧
      keysAscending F = true ∧
      entries F = (entries leaf).take j ++ (k, v) :: (entries leaf).drop j ∧
      (∀ e ∈ (entries leaf).take j, e.1 < k) ∧ (∀ e ∈ (entries leaf).drop j, k < e.1) := by
  obtain ⟨j, F, hj1, hj2, hj3, hasc, hrun, hF2, hFp, hF3, hF4⟩ :=
    Insert_spec_below G fuel t k v h A leaf hwf hfuel habs hA hleaf hn1 hn2 hk hv
  have hFn : F.info.numkeys = leaf.info.numkeys + 1 := by rw [hF2]
  refine ⟨j, F, hrun, hF2, hFp, keysAscending_insert hasc hFn hj1 hj2 hj3 hF3, ?_, ?_, ?_⟩
  · unfold entries
    rw [hFn]
    apply map_range_insert _ _ _ _ _ hj1
    intro p hp
    rw [hF3 p, hF4 p]
    by_cases h1 : p < j
    · rw [if_pos h1, if_pos h1, if_pos h1]
    · rw [if_neg h1, if_neg h1, if_neg h1]
      by_cases h2 : p = j
      · rw [if_pos h2, if_pos h2, if_pos h2]
      · rw [if_neg h2, if_neg h2, if_neg h2, if_pos hp, if_pos hp]
  · intro e he
    obtain ⟨i, hi, hie⟩ := List.getElem_of_mem he
    rw [List.length_take, entries_length] at hi
    have hi' : i < j := by omega
    have hsome : ((entries leaf).take j)[i]? = some e := by
      rw [List.getElem?_eq_getElem, hie]
    rw [List.getElem?_take_of_lt hi', entries_getElem? leaf i (by omega)] at hsome
    injection hsome with hsome
    rw [← hsome]
    exact hj2 i hi'
  · intro e he
    obtain ⟨i, hi, hie⟩ := List.getElem_of_mem he
    rw [List.length_drop, entries_length] at hi
    have hsome : ((entries leaf).drop j)[i]? = some e := by
      rw [List.getElem?_eq_getElem, hie]
    rw [List.getElem?_drop, entries_getElem? leaf (j + i) (by omega)] at hsome
    injection hsome with hsome
    rw [← hsome]
    exact hj3 (j + i) (by omega) (by omega)

/-- Claim C27, amended, at a concrete input: the key 0 goes into the tree holding 1, 2, 3
with leaves of 3 slots; its target leaf is block 2 with the key 1. -/
theorem Insert_below_split_threshold_witness :
    ∃ (j : Nat) (F : BTreeNode),
      Insert (geometry 3 4) 8 smallTree 0 5 =
        Except.ok (none,
          { smallTree with
            buffercache :=
              { smallTree.buffercache with
                blocks := smallTree.buffercache.blocks.set 2 F
                log := smallTree.buffercache.log ++
                  [CacheEvent.write smallTree.superblock.info.rootnode, CacheEvent.write 2] } }) ∧
      F.info =
        { (smallTree.buffercache.blocks.getD 2 blankBlock).info with
          numkeys := (smallTree.buffercache.blocks.getD 2 blankBlock).info.numkeys + 1 } ∧
      F.ptrs = (smallTree.buffercache.blocks.getD 2 blankBlock).ptrs ∧
      keysAscending F = true ∧
      entries F =
        (entries (smallTree.buffercache.blocks.getD 2 blankBlock)).take j ++
          (0, 5) :: (entries (smallTree.buffercache.blocks.getD 2 blankBlock)).drop j ∧
      (∀ e ∈ (entries (smallTree.buffercache.blocks.getD 2 blankBlock)).take j, e.1 < 0) ∧
      (∀ e ∈ (entries (smallTree.buffercache.blocks.getD 2 blankBlock)).drop j, 0 < e.1) :=
  Insert_below_split_threshold (geometry 3 4) 8 smallTree 0 5 2 2
    (smallTree.buffercache.blocks.getD 2 blankBlock) (by decide) (by decide) (by decide)
    (by decide) (by decide) (by decide) (by decide) (by decide) (by decide)

/-- Claim C29: in a tree in search-tree order of at most `h` levels the traversal for a key
returns with the path it recorded, which starts with the root block, does not come back to
it, goes from each block to one of its children and ends at a leaf, the only leaf that can
hold the key.  A call of `split_Internal` is its first activation followed by the
recursive call, if there is one; an activation reads the last element of its path and goes
on to the recursive call exactly when the node there is at the split threshold and is not
the root, with the path shortened by that element.  On the recorded path without its leaf,
which is what `Insert` passes when the leaf is not the root, every activation gets a path
that is not empty, a prefix of the recorded one and one element shorter than the one
before, and the recursion ends within as many calls as that path has elements. -/
theorem split_propagation_on_recorded_path (G : SlotGeometry) (t : BTreeIndex)
    (k h fuel : Nat)
    (hwf : wellFormedFrom t.buffercache.blocks h t.superblock.info.rootnode none none = true)
    (hfuel : h ≤ fuel) :
    ∃ (rest : List Nat) (A : Nat) (leaf : BTreeNode) (rc : ERROR_T) (v : Nat),
      LookupOrUpdateInternal t BTreeOp.BTREE_OP_LOOKUP k fuel t.superblock.info.rootnode 0 [] =
        Except.ok (rc, v, t.superblock.info.rootnode :: rest, t) ∧
      t.superblock.info.rootnode ∉ rest ∧
      rootToLeaf t.buffercache.blocks (t.superblock.info.rootnode :: rest) = true ∧
      (t.superblock.info.rootnode :: rest).getLast? = some A ∧
      t.buffercache.blocks[A]? = some leaf ∧
      leaf.info.nodetype = NodeType.BTREE_LEAF_NODE ∧
      (containsFrom t.buffercache.blocks k h t.superblock.info.rootnode = true ↔
        ∃ i < leaf.info.numkeys, leaf.keys.getD i 0 = k) ∧
      (∀ (n : Nat) (u : BTreeIndex) (p : List Nat) (l r key : Nat),
        split_InternalAux G (n + 1) u p l r key 0 =
          match split_InternalStep G u p l r key with
          | Except.error f => Except.error f
          | Except.ok (Sum.inl res) => Except.ok res
          | Except.ok (Sum.inr next) =>
            match split_InternalAux G n next.1 next.2.1 next.2.2.1 next.2.2.2.1
                next.2.2.2.2 0 with
            | Except.error f => Except.error f
            | Except.ok r => Except.ok (none, r.2.1, r.2.2)) ∧
      (∀ (u : BTreeIndex) (p : List Nat) (l r key : Nat)
          (out : (Option ERROR_T × Int × BTreeIndex) ⊕ (BTreeIndex × List Nat × Nat × Nat × Nat)),
        split_InternalStep G u p l r key = Except.ok out →
        ∃ (B : Nat) (N : BTreeNode), p.getLast? = some B ∧
          u.buffercache.blocks[B]? = some N ∧
          match out with
          | Sum.inr next =>
            N.info.numkeys + 1 = G.GetNumSlotsAsInterior N.info ∧
            B ≠ u.superblock.info.rootnode ∧ next.2.1 = p.dropLast ∧
            next.1.superblock.info.rootnode = u.superblock.info.rootnode
          | Sum.inl res =>
            (N.info.numkeys + 1 ≠ G.GetNumSlotsAsInterior N.info ∨
              B = u.superblock.info.rootnode) ∧ res.2.1 = 1) ∧
      ∀ (u : BTreeIndex) (l r key : Nat),
        u.superblock.info.rootnode = t.superblock.info.rootnode →
        A ≠ t.superblock.info.rootnode →
        (∀ c ∈ split_InternalCalls G (t.superblock.info.rootnode :: rest).dropLast.length u
            (t.superblock.info.rootnode :: rest).dropLast l r key,
          c ≠ [] ∧ c <+: (t.superblock.info.rootnode :: rest).dropLast) ∧
        List.Chain' (fun a b => b = a.dropLast)
          (split_InternalCalls G (t.superblock.info.rootnode :: rest).dropLast.length u
            (t.superblock.info.rootnode :: rest).dropLast l r key) ∧
        (split_InternalCalls G (t.superblock.info.rootnode :: rest).dropLast.length u
            (t.superblock.info.rootnode :: rest).dropLast l r key).length ≤
          (t.superblock.info.rootnode :: rest).dropLast.length ∧
        split_Internal G u (t.superblock.info.rootnode :: rest).dropLast l r key 0 ≠
          Except.error Fault.fuel ∧
        ∀ m, split_InternalAux G ((t.superblock.info.rootnode :: rest).dropLast.length + m) u
            (t.superblock.info.rootnode :: rest).dropLast l r key 0 =
          split_Internal G u (t.superblock.info.rootnode :: rest).dropLast l r key 0 := by
  obtain ⟨rest, A, leaf, rc, v, hL, hd, hroot, -, hrl, hlast, hleaf, hty, -, -, -, -⟩ :=
    traversal_wellFormed t k h fuel 0 hwf hfuel
  obtain ⟨rest2, A2, leaf2, hd2, -, -, -, hlast2, hleaf2, -, -, -, hiff⟩ :=
    descentPath_wellFormed t k h _ _ _ fuel hwf hfuel
  rw [hd] at hd2
  have hrest : rest = rest2 := List.tail_eq_of_cons_eq hd2
  subst hrest
  have eA : A = A2 := by
    rw [hlast] at hlast2
    injection hlast2
  subst eA
  have el : leaf = leaf2 := by
    rw [hleaf] at hleaf2
    injection hleaf2
  subst el
  refine ⟨rest, A, leaf, rc, v, hL, hroot, hrl, hlast, hleaf, hty, hiff,
    fun n u p l r key => split_InternalAux_succ G n u p l r key,
    fun u p l r key out => (split_InternalStep_spec G u p l r key).2 out, ?_⟩
  intro u l r key hu hA
  obtain ⟨h1, h2, -, -⟩ := @dropLast_root t.superblock.info.rootnode
    (t.superblock.info.rootnode :: rest) rfl hroot A hlast hA
  obtain ⟨c1, c2, c3, c4, c5⟩ := split_InternalCalls_spec G _ u
    (t.superblock.info.rootnode :: rest).dropLast l r key (by rw [hu]; exact h1)
    (by rw [hu]; exact h2) (Nat.le_refl _)
  exact ⟨fun c hc => ⟨(c1 c hc).1, (c1 c hc).2.1⟩, c2, c3, c4, c5⟩

/-- Claim C29 at a concrete input: the tree of three levels holding 1, ..., 8 and the key 9. -/
theorem split_propagation_on_recorded_path_witness :
    wellFormedFrom tallTree.buffercache.blocks 3 tallTree.superblock.info.rootnode none none
      = true ∧
    descentPath tallTree 9 8 tallTree.superblock.info.rootnode = [1, 11, 15] ∧
    split_InternalCalls (geometry 3 4) 2 tallTree [1, 11] 16 17 8 = [[1, 11], [1]] ∧
    ∃ (rest : List Nat) (A : Nat) (leaf : BTreeNode) (rc : ERROR_T) (v : Nat),
      LookupOrUpdateInternal tallTree BTreeOp.BTREE_OP_LOOKUP 9 8 tallTree.superblock.info.rootnode 0 [] =
        Except.ok (rc, v, tallTree.superblock.info.rootnode :: rest, tallTree) ∧
      tallTree.superblock.info.rootnode ∉ rest ∧
      rootToLeaf tallTree.buffercache.blocks (tallTree.superblock.info.rootnode :: rest) = true ∧
      (tallTree.superblock.info.rootnode :: rest).getLast? = some A ∧
      tallTree.buffercache.blocks[A]? = some leaf ∧
      leaf.info.nodetype = NodeType.BTREE_LEAF_NODE ∧
      (containsFrom tallTree.buffercache.blocks 9 3 tallTree.superblock.info.rootnode = true ↔
        ∃ i < leaf.info.numkeys, leaf.keys.getD i 0 = 9) ∧
      (∀ (n : Nat) (u : BTreeIndex) (p : List Nat) (l r key : Nat),
        split_InternalAux (geometry 3 4) (n + 1) u p l r key 0 =
          match split_InternalStep (geometry 3 4) u p l r key with
          | Except.error f => Except.error f
          | Except.ok (Sum.inl res) => Except.ok res
          | Except.ok (Sum.inr next) =>
            match split_InternalAux (geometry 3 4) n next.1 next.2.1 next.2.2.1 next.2.2.2.1
                next.2.2.2.2 0 with
            | Except.error f => Except.error f
            | Except.ok r => Except.ok (none, r.2.1, r.2.2)) ∧
      (∀ (u : BTreeIndex) (p : List Nat) (l r key : Nat)
          (out : (Option ERROR_T × Int × BTreeIndex) ⊕ (BTreeIndex × List Nat × Nat × Nat × Nat)),
        split_InternalStep (geometry 3 4) u p l r key = Except.ok out →
        ∃ (B : Nat) (N : BTreeNode), p.getLast? = some B ∧
          u.buffercache.blocks[B]? = some N ∧
          match out with
          | Sum.inr next =>
            N.info.numkeys + 1 = (geometry 3 4).GetNumSlotsAsInterior N.info ∧
            B ≠ u.superblock.info.rootnode ∧ next.2.1 = p.dropLast ∧
            next.1.superblock.info.rootnode = u.superblock.info.rootnode
          | Sum.inl res =>
            (N.info.numkeys + 1 ≠ (geometry 3 4).GetNumSlotsAsInterior N.info ∨
              B = u.superblock.info.rootnode) ∧ res.2.1 = 1) ∧
      ∀ (u : BTreeIndex) (l r key : Nat),
        u.superblock.info.rootnode = tallTree.superblock.info.rootnode →
        A ≠ tallTree.superblock.info.rootnode →
        (∀ c ∈ split_InternalCalls (geometry 3 4) (tallTree.superblock.info.rootnode :: rest).dropLast.length u
            (tallTree.superblock.info.rootnode :: rest).dropLast l r key,
          c ≠ [] ∧ c <+: (tallTree.superblock.info.rootnode :: rest).dropLast) ∧
        List.Chain' (fun a b => b = a.dropLast)
          (split_InternalCalls (geometry 3 4) (tallTree.superblock.info.rootnode :: rest).dropLast.length u
            (tallTree.superblock.info.rootnode :: rest).dropLast l r key) ∧
        (split_InternalCalls (geometry 3 4) (tallTree.superblock.info.rootnode :: rest).dropLast.length u
            (tallTree.superblock.info.rootnode :: rest).dropLast l r key).length ≤
          (tallTree.superblock.info.rootnode :: rest).dropLast.length ∧
        split_Internal (geometry 3 4) u (tallTree.superblock.info.rootnode :: rest).dropLast l r key 0 ≠
          Except.error Fault.fuel ∧
        ∀ m, split_InternalAux (geometry 3 4) ((tallTree.superblock.info.rootnode :: rest).dropLast.length + m) u
            (tallTree.superblock.info.rootnode :: rest).dropLast l r key 0 =
          split_Internal (geometry 3 4) u (tallTree.superblock.info.rootnode :: rest).dropLast l r key 0 :=
  ⟨by decide, by decide, by decide,
    split_propagation_on_recorded_path (geometry 3 4) tallTree 9 3 8 (by decide) (by decide)⟩

/-- Claim C31, as stated, fails for the superblock's own block: block 0 of the tree holding
1, 2, 3 is tagged superblock, so it is not tagged unallocated, and `DeallocateNode(0)`
returns `ERROR_NOERROR` while the freelist head is 4.  The head is then 0, the null
sentinel, and the `AllocateNode` that follows returns `ERROR_NOSPACE` with block number 0
and leaves the head at 0. -/
theorem DeallocateNode_zero_then_AllocateNode_finds_no_space :
    (smallTree.buffercache.blocks[0]?).map (fun b => b.info.nodetype) =
        some NodeType.BTREE_SUPERBLOCK ∧
      smallTree.superblock.info.freelist = 4 ∧
      ∃ u : BTreeIndex,
        DeallocateNode smallTree 0 = Except.ok (ERROR_T.ERROR_NOERROR, u) ∧
        AllocateNode u = Except.ok (ERROR_T.ERROR_NOSPACE, 0, u) ∧
        u.superblock.info.freelist = 0 :=
  ⟨rfl, rfl, _, rfl, rfl, rfl⟩

/-- Claim C31, amended: for every block `n` of the store other than block 0 and the
superblock's own block that is not tagged unallocated, in an index whose superblock has a
block in the store, `DeallocateNode(n)` returns `ERROR_NOERROR` and the `AllocateNode` that
follows returns `ERROR_NOERROR` with block number `n`; afterwards the in-memory superblock,
its freelist head included, is what it was before the `DeallocateNode`, and that superblock
is what its block holds; block `n` still holds the unallocated header that points to that
head. -/
theorem DeallocateNode_then_AllocateNode (t : BTreeIndex) (n : Nat) (node : BTreeNode)
    (hn : t.buffercache.blocks[n]? = some node)
    (hty : node.info.nodetype ≠ NodeType.BTREE_UNALLOCATED_BLOCK)
    (hn0 : n ≠ 0) (hne : n ≠ t.superblock_index)
    (hidx : t.superblock_index < t.buffercache.blocks.length) :
    ∃ u w : BTreeIndex,
      DeallocateNode t n = Except.ok (ERROR_T.ERROR_NOERROR, u) ∧
      AllocateNode u = Except.ok (ERROR_T.ERROR_NOERROR, n, w) ∧
      w.superblock.info.freelist = t.superblock.info.freelist ∧
      w.superblock = t.superblock ∧
      w.superblock_index = t.superblock_index ∧
      w.buffercache.blocks[t.superblock_index]? = some t.superblock.stored ∧
      w.buffercache.blocks[n]? =
        some { info := { node.info with nodetype := NodeType.BTREE_UNALLOCATED_BLOCK
                                        freelist := t.superblock.info.freelist }
               keys := [], vals := [], ptrs := [] } ∧
      (∀ m : Nat, m ≠ n → m ≠ t.superblock_index →
        w.buffercache.blocks[m]? = t.buffercache.blocks[m]?) ∧
      w.buffercache.log = t.buffercache.log ++
        [CacheEvent.write n, CacheEvent.write t.superblock_index,
         CacheEvent.notifyDeallocate n, CacheEvent.write t.superblock_index,
         CacheEvent.notifyAllocate n] := by
  have hlen : n < t.buffercache.blocks.length := by
    by_contra hc
    rw [List.getElem?_eq_none (by omega)] at hn
    cases hn
  have hfreed : (((({ t.superblock with info := { t.superblock.info with freelist := n } } :
        BTreeNode).Serialize
      (({ node with
          info := { node.info with nodetype := NodeType.BTREE_UNALLOCATED_BLOCK
                                   freelist := t.superblock.info.freelist } } :
        BTreeNode).Serialize t.buffercache n).2
      t.superblock_index).2).NotifyDeallocateBlock n).blocks[n]? =
      some { info := { node.info with nodetype := NodeType.BTREE_UNALLOCATED_BLOCK
                                      freelist := t.superblock.info.freelist }
             keys := [], vals := [], ptrs := [] } := by
    simp only [BufferCache.NotifyDeallocateBlock, Serialize_blocks]
    rw [List.getElem?_set_ne (Ne.symm hne), List.getElem?_set_self hlen]
    simp [BTreeNode.stored]
  have hsb : ({ ({ t.superblock with info := { t.superblock.info with freelist := n } } :
        BTreeNode) with
      info := { ({ t.superblock with info := { t.superblock.info with freelist := n } } :
        BTreeNode).info with freelist := t.superblock.info.freelist } } : BTreeNode) =
      t.superblock := rfl
  refine ⟨{ t with
            buffercache :=
              ((({ t.superblock with info := { t.superblock.info with freelist := n } } :
                  BTreeNode).Serialize
                (({ node with
                    info := { node.info with nodetype := NodeType.BTREE_UNALLOCATED_BLOCK
                                             freelist := t.superblock.info.freelist } } :
                  BTreeNode).Serialize t.buffercache n).2
                t.superblock_index).2).NotifyDeallocateBlock n
            superblock :=
              { t.superblock with info := { t.superblock.info with freelist := n } } },
    { t with
      buffercache :=
        ((t.superblock.Serialize
          (((({ t.superblock with info := { t.superblock.info with freelist := n } } :
              BTreeNode).Serialize
            (({ node with
                info := { node.info with nodetype := NodeType.BTREE_UNALLOCATED_BLOCK
                                         freelist := t.superblock.info.freelist } } :
              BTreeNode).Serialize t.buffercache n).2
            t.superblock_index).2).NotifyDeallocateBlock n)
          t.superblock_index).2).NotifyAllocateBlock n },
    ?_, ?_, rfl, rfl, rfl, ?_, ?_, ?_, ?_⟩
  · simp only [DeallocateNode, BTreeNode.Unserialize, hn, hty, if_false]
  · unfold AllocateNode
    simp only [if_neg hn0, BTreeNode.Unserialize, hfreed, ne_eq, not_true_eq_false, if_false,
      hsb]
  · simp only [BufferCache.NotifyAllocateBlock, BufferCache.NotifyDeallocateBlock,
      Serialize_blocks]
    rw [List.getElem?_set_self (by simp only [List.length_set]; exact hidx)]
  · simp only [BufferCache.NotifyAllocateBlock, Serialize_blocks]
    rw [List.getElem?_set_ne (Ne.symm hne)]
    exact hfreed
  · intro m hm1 hm2
    simp only [BufferCache.NotifyAllocateBlock, BufferCache.NotifyDeallocateBlock,
      Serialize_blocks]
    rw [List.getElem?_set_ne (Ne.symm hm2), List.getElem?_set_ne (Ne.symm hm2),
      List.getElem?_set_ne (Ne.symm hm1)]
  · simp [BufferCache.NotifyAllocateBlock, BufferCache.NotifyDeallocateBlock,
      BTreeNode.Serialize, hlen, hidx]

/-- Claim C31 (amended) at a concrete index: the leaf in block 2 of the tree holding 1, 2, 3
is given back while the freelist head is 4, and handed out again. -/
theorem DeallocateNode_then_AllocateNode_witness :
    smallTree.superblock.info.freelist = 4 ∧
      ∃ u w : BTreeIndex,
        DeallocateNode smallTree 2 = Except.ok (ERROR_T.ERROR_NOERROR, u) ∧
        AllocateNode u = Except.ok (ERROR_T.ERROR_NOERROR, 2, w) ∧
        w.superblock.info.freelist = 4 :=
  ⟨rfl,
    Exists.imp
      (fun _ hu => Exists.imp (fun _ hw => ⟨hw.1, hw.2.1, hw.2.2.1⟩) hu)
      (DeallocateNode_then_AllocateNode smallTree 2
        { info := { nodetype := NodeType.BTREE_LEAF_NODE, keysize := 4, valuesize := 4,
                    blocksize := 64, rootnode := 0, freelist := 0, numkeys := 1 }
          keys := [1, 0, 0], vals := [10, 0, 0], ptrs := [0] }
        rfl (by decide) (by decide) (by decide) (by decide))⟩

/-- Claim C32 fails when the freelist is exhausted.  In the tree holding 1, 2, 3 on a store
of 4 blocks the freelist is empty and the leaf in block 3 is at its split threshold.
`Insert(4, 40)` runs to its end like every other insert: it writes the root and the leaf,
splits the leaf (the four writes of `split_Leaf`, all to block 0, the number that the
failed `AllocateNode` left in place) and puts the promoted key 3 into the root.  One node
was split and no block was taken from the freelist: the store was not notified of any
allocation and the freelist is as empty as before. -/
theorem split_without_space_takes_no_block :
    fullTree.superblock.info.freelist = 0 ∧
      isChain fullTree.buffercache.blocks fullTree.superblock.info.freelist [] = true ∧
      (fullTree.buffercache.blocks[1]?).map (fun b => (b.info.numkeys, b.keys, b.ptrs)) =
        some (1, [2, 0, 0, 0], [2, 3, 0, 0, 0]) ∧
      (fullTree.buffercache.blocks[3]?).map
          (fun b => (b.info.nodetype, b.info.numkeys, b.keys)) =
        some (NodeType.BTREE_LEAF_NODE, 2, [2, 3, 0]) ∧
      ∃ u : BTreeIndex,
        Insert (geometry 3 4) 8 fullTree 4 40 = Except.ok (none, u) ∧
        u.buffercache.log = fullTree.buffercache.log ++
          [CacheEvent.write 1, CacheEvent.write 3, CacheEvent.write 0, CacheEvent.write 0,
           CacheEvent.write 0, CacheEvent.write 0, CacheEvent.write 1] ∧
        (u.buffercache.blocks[3]?).map (fun b => (b.info.numkeys, b.keys)) =
          some (3, [2, 3, 4]) ∧
        (u.buffercache.blocks[1]?).map (fun b => (b.info.numkeys, b.keys, b.ptrs)) =
          some (2, [2, 3, 0, 0], [2, 0, 0, 0, 0]) ∧
        (u.buffercache.blocks[0]?).map
            (fun b => (b.info.nodetype, b.info.numkeys, b.keys)) =
          some (NodeType.BTREE_LEAF_NODE, 2, [3, 4, 0]) ∧
        u.superblock.info.freelist = 0 ∧
        isChain u.buffercache.blocks u.superblock.info.freelist [] = true :=
  ⟨rfl, rfl, rfl, rfl, _, rfl, rfl, rfl, rfl, rfl, rfl, rfl⟩

/-- Claim C33: the root block number in the superblock is the same after `Insert`, `Update`,
`Delete`, `AllocateNode` and `DeallocateNode`, whatever they return, and the traversal that
`Lookup` runs hands back the index as it was.  After `Attach(0, create)` on a store of at
least two blocks the root block number is 1, and it is 1 after every run of inserts that
follows.  A root split is done in place: when the leaf `Insert` inserts into is the root at
its split threshold, and when `split_Internal` finds the root at its split threshold, the
call ends with the write of an interior node with one key into the root's block. -/
theorem rootnode_is_stable (G : SlotGeometry) (fuel : Nat) (t : BTreeIndex)
    (key value n : Nat) :
    (∀ r, Insert G fuel t key value = Except.ok r →
      r.2.superblock.info.rootnode = t.superblock.info.rootnode) ∧
    (∀ r, Update fuel t key value = Except.ok r →
      r.2.superblock.info.rootnode = t.superblock.info.rootnode) ∧
    (Delete t key).2 = t ∧
    (∀ node v pointer r,
      LookupOrUpdateInternal t BTreeOp.BTREE_OP_LOOKUP key fuel node v pointer = Except.ok r →
      r.2.2.2 = t) ∧
    (∀ r, AllocateNode t = Except.ok r →
      r.2.2.superblock.info.rootnode = t.superblock.info.rootnode) ∧
    (∀ r, DeallocateNode t n = Except.ok r →
      r.2.superblock.info.rootnode = t.superblock.info.rootnode) ∧
    (2 ≤ t.buffercache.blocks.length →
      ∃ a : BTreeIndex, Attach G t 0 true = Except.ok (ERROR_T.ERROR_NOERROR, a) ∧
        a.superblock.info.rootnode = 1 ∧
        ∀ (kvs : List (Nat × Nat)) (u : BTreeIndex),
          insertAll G fuel (Except.ok a) kvs = Except.ok u →
          u.superblock.info.rootnode = 1) ∧
    (∀ (pointer : List Nat) (r : Option ERROR_T × BTreeIndex) (N : BTreeNode),
      insertTail G t pointer key value = Except.ok r →
      pointer.getLast? = some t.superblock.info.rootnode →
      t.buffercache.blocks[t.superblock.info.rootnode]? = some N →
      N.info.numkeys + 1 = G.GetNumSlotsAsLeaf N.info →
      r.2.superblock.info.rootnode = t.superblock.info.rootnode ∧
      ∃ (New_Root : BTreeNode) (bc : BufferCache),
        New_Root.info.nodetype = NodeType.BTREE_INTERIOR_NODE ∧ New_Root.info.numkeys = 1 ∧
        r.2.buffercache = (New_Root.Serialize bc t.superblock.info.rootnode).2) ∧
    (∀ (pointer : List Nat) (left right : Nat) (r : Option ERROR_T × Int × BTreeIndex)
        (N : BTreeNode),
      split_Internal G t pointer left right key 0 = Except.ok r →
      pointer.getLast? = some t.superblock.info.rootnode →
      t.buffercache.blocks[t.superblock.info.rootnode]? = some N →
      N.info.numkeys + 1 = G.GetNumSlotsAsInterior N.info →
      r.2.2.superblock.info.rootnode = t.superblock.info.rootnode ∧
      ∃ (New_Root : BTreeNode) (bc : BufferCache),
        New_Root.info.nodetype = NodeType.BTREE_INTERIOR_NODE ∧ New_Root.info.numkeys = 1 ∧
        r.2.2.buffercache = (New_Root.Serialize bc t.superblock.info.rootnode).2) := by
  refine ⟨Insert_rootnode G fuel t key value, ?_, rfl,
    fun node v pointer r h => lookup_index t key fuel node v pointer r h,
    fun r h => AllocateNode_rootnode h, fun r h => DeallocateNode_rootnode h, ?_, ?_, ?_⟩
  · intro r h
    rw [Update_superblock fuel t key value r h]
  · intro hN
    obtain ⟨a, ha, -, -, hsb, -⟩ := Attach_create G t hN
    have hroot : a.superblock.info.rootnode = 1 := by rw [hsb]
    refine ⟨a, ha, hroot, fun kvs u h => ?_⟩
    rw [insertAll_rootnode G fuel kvs a u h, hroot]
  · intro pointer r N h hlast hb hth
    obtain ⟨h1, h2⟩ := insertTail_root G t pointer key value r h
    exact ⟨h1, h2 N hlast hb hth⟩
  · intro pointer left right r N h hlast hb hth
    refine ⟨split_InternalAux_rootnode G _ t pointer left right key r h, ?_⟩
    have hlen : ∃ m, pointer.length = m + 1 := by
      cases pointer with
      | nil => cases hlast
      | cons x xs => exact ⟨xs.length, rfl⟩
    obtain ⟨m, hm⟩ := hlen
    unfold split_Internal at h
    rw [hm, split_InternalAux_succ] at h
    cases hs : split_InternalStep G t pointer left right key with
    | error f => rw [hs] at h; cases h
    | ok out =>
      have hstep := split_InternalStep_root G t pointer left right key out hs
      obtain ⟨A, N', hA, -, hout⟩ := (split_InternalStep_spec G t pointer left right key).2 out hs
      rw [hs] at h
      cases out with
      | inl res =>
        simp only [] at h hstep
        injection h with h
        subst h
        exact hstep.2 N hlast hb hth
      | inr next =>
        simp only [] at hout
        rw [hlast] at hA
        injection hA with hA
        exact absurd hA.symm hout.2.1

/-- Claim C33 at a concrete input: the insert of 27 splits the root of the tree holding 10,
20, 30, 40, 25; the root block number is 1 before and after, and block 1 holds the new
root. -/
theorem rootnode_is_stable_witness :
    oddTree.superblock.info.rootnode = 1 ∧
    Insert (geometry 3 3) 8 oddTree 27 270 = Except.ok (none, oddTreeAfter) ∧
    oddTreeAfter.superblock.info.rootnode = oddTree.superblock.info.rootnode ∧
    (oddTree.buffercache.blocks[1]?).map (fun b => (b.info.numkeys, b.ptrs)) =
      some (2, [2, 4, 5, 0]) ∧
    (oddTreeAfter.buffercache.blocks[1]?).map (fun b => (b.info.numkeys, b.ptrs)) =
      some (1, [8, 9, 0, 0]) :=
  ⟨rfl, rfl,
    (rootnode_is_stable (geometry 3 3) 8 oddTree 27 270 2).1 (none, oddTreeAfter) rfl,
    rfl, rfl⟩

/-- Claim C2 fails on trees that `Insert` itself has built.  With leaves and interior nodes of
3 slots, after the insertions of 1, 2, 3, 4, 5 key 3 was inserted and never removed, yet
`Lookup(3)` reports `ERROR_NONEXISTENT`, and `Insert(3, 999)` does not return `ERROR_INSERT`:
it reaches the end of the function without a return code, takes the last two free blocks and
writes the pair `(3, 999)` into block 10.  Key 4 sits in a leaf that is reachable from the
root; `Lookup(4)` reports `ERROR_INSANE` and `Insert(4, 999)` returns no code either, leaving
the index as it was.  With leaves of 2 slots, after the single insertion of `(10, 100)` key 10
sits in a leaf reachable from the root, `Lookup(10)` reports `ERROR_NONEXISTENT`, and
`Insert(10, 999)` returns no code, takes the blocks 4 and 5 and writes `(10, 999)` into
block 5, which becomes a third child of the root. -/
theorem Insert_of_present_key_accepted :
    (insertAll (geometry 3 3) 8 (created (geometry 3 3) 12)
        [(1, 10), (2, 20), (3, 30), (4, 40), (5, 50)] = Except.ok ascendingTree ∧
      Lookup 8 ascendingTree 3 0 = Except.ok (ERROR_T.ERROR_NONEXISTENT, 0) ∧
      ascendingTree.superblock.info.freelist = 10 ∧
      (∃ u : BTreeIndex,
        Insert (geometry 3 3) 8 ascendingTree 3 999 = Except.ok (none, u) ∧
        u.superblock.info.freelist = 0 ∧
        (u.buffercache.blocks[10]?).map
            (fun b => (b.info.nodetype, b.info.numkeys, b.keys, b.vals)) =
          some (NodeType.BTREE_LEAF_NODE, 1, [3, 0, 0], [999, 0, 0]) ∧
        u.buffercache.blocks ≠ ascendingTree.buffercache.blocks) ∧
      containsKey ascendingTree 3 4 = true ∧
      Lookup 8 ascendingTree 4 0 = Except.ok (ERROR_T.ERROR_INSANE, 0) ∧
      Insert (geometry 3 3) 8 ascendingTree 4 999 = Except.ok (none, ascendingTree)) ∧
    ∃ t u : BTreeIndex,
      insertAll (geometry 2 4) 8 (created (geometry 2 4) 8) [(10, 100)] = Except.ok t ∧
      containsKey t 2 10 = true ∧
      Lookup 8 t 10 0 = Except.ok (ERROR_T.ERROR_NONEXISTENT, 0) ∧
      t.superblock.info.freelist = 4 ∧
      Insert (geometry 2 4) 8 t 10 999 = Except.ok (none, u) ∧
      u.superblock.info.freelist = 6 ∧
      (u.buffercache.blocks[5]?).map
          (fun b => (b.info.nodetype, b.info.numkeys, b.keys, b.vals)) =
        some (NodeType.BTREE_LEAF_NODE, 1, [10, 0], [999, 0]) ∧
      (u.buffercache.blocks[1]?).map (fun b => (b.info.nodetype, b.info.numkeys, b.ptrs)) =
        some (NodeType.BTREE_INTERIOR_NODE, 2, [2, 4, 5, 0, 0]) :=
  ⟨⟨rfl, rfl, rfl, ⟨_, rfl, rfl, rfl, by decide⟩, rfl, rfl, rfl⟩,
    _, _, rfl, rfl, rfl, rfl, rfl, rfl, rfl, rfl⟩

/-- Claim C30: in every tree reached from `Attach(0, create)` by a sequence of `Insert`
calls, for all slot counts, every `GetKey`, `GetVal`, `SetKey` and `SetVal` call that
`Lookup`, `Update` and `Insert` make, the calls of `insert_Not_Full`,
`insert_Not_Full_Internal`, `split_Leaf` and `split_Internal_Full` included, uses an offset
below `numkeys` of the node at that moment, and every `GetPtr` and `SetPtr` call on a root or
interior node uses an offset of at most `numkeys`; a call on a node that has the kind of slot
asked for is therefore accepted by the accessor, and in `Lookup` and `Update` that is every
call.  Where block 0 of the reached tree still holds its superblock and neither slot count is
1, every call of `Insert` is made on a node that has the kind of slot asked for, so every one
is accepted.  The bounds of `Insert` hold moreover in every state of the index, reached that
way or not, when the slot counts do not depend on `numkeys` and the number of interior slots
is other than 1. -/
theorem accessor_offsets_in_range (leaf interior fuel : Nat) (blank first t : BTreeIndex)
    (kvs : List (Nat × Nat))
    (hAttach : Attach (geometry leaf interior) blank 0 true =
      Except.ok (ERROR_T.ERROR_NOERROR, first))
    (hInserts : insertAll (geometry leaf interior) fuel (Except.ok first) kvs = Except.ok t)
    (budget key value : Nat) :
    (withinBounds (LookupAccesses budget t key) = true ∧
      (LookupAccesses budget t key).all Access.accepted = true) ∧
    (withinBounds (UpdateAccesses budget t key) = true ∧
      (UpdateAccesses budget t key).all Access.accepted = true) ∧
    withinBounds (InsertAccesses (geometry leaf interior) budget t key value) = true ∧
    (leaf ≠ 1 → interior ≠ 1 →
      (t.buffercache.blocks[0]?).map (fun b => b.info.nodetype) =
        some NodeType.BTREE_SUPERBLOCK →
      (InsertAccesses (geometry leaf interior) budget t key value).all Access.accepted = true) ∧
    ∀ (G : SlotGeometry) (s : BTreeIndex),
      (∀ (info : NodeMetadata) (n : Nat),
        G.GetNumSlotsAsLeaf { info with numkeys := n } = G.GetNumSlotsAsLeaf info) →
      (∀ (info : NodeMetadata) (n : Nat),
        G.GetNumSlotsAsInterior { info with numkeys := n } = G.GetNumSlotsAsInterior info) →
      (∀ info : NodeMetadata, G.GetNumSlotsAsInterior info ≠ 1) →
      withinBounds (InsertAccesses G budget s key value) = true := by
  refine ⟨⟨withinBounds_of_inRange _ (LookupOrUpdateInternalAccesses_inRange t key _ _),
      LookupOrUpdateInternalAccesses_accepted t key _ _⟩,
    ⟨withinBounds_of_inRange _ (LookupOrUpdateInternalAccesses_inRange t key _ _),
      LookupOrUpdateInternalAccesses_accepted t key _ _⟩, ?_,
    fun hl1 hi1 hsb =>
      InsertAccesses_accepted (geometry leaf interior) (fun _ _ => rfl) (fun _ _ => rfl)
        (fun _ => hl1) (fun _ => hi1) budget t key value
        (insertAll_index _ fuel kvs first t hInserts
          (Attach_index _ blank true _ hAttach))
        (by
          cases hb : t.buffercache.blocks[0]? with
          | none => rw [hb] at hsb; cases hsb
          | some sb => rw [hb] at hsb; exact ⟨sb, rfl, Option.some.inj hsb⟩),
    fun G s hL hI hI1 =>
      withinBounds_of_inRange _ (InsertAccesses_inRange G hL hI hI1 budget s key value)⟩
  by_cases h1 : interior = 1
  · subst h1
    exact withinBounds_of_inRange _
      (InsertAccesses_inRange_one leaf budget t key value
        (insertAll_OneLevel leaf fuel kvs first t hInserts
          (Attach_OneLevel _ blank first hAttach)))
  · exact withinBounds_of_inRange _
      (InsertAccesses_inRange (geometry leaf interior) (fun _ _ => rfl) (fun _ _ => rfl)
        (fun _ => h1) budget t key value)

/-- Claim C30 at concrete indexes.  With nodes of 3 slots on a store of 12 blocks, in the
well-formed tree holding 10, 20, 30, 40, 25, whose block 0 holds the superblock, the
traversal for 27 makes 5 accessor calls and the insertion of 27, which splits a leaf and the
root, makes 48, all of them accepted.  With a single interior slot, the insertion of 4 after
1, 2, 3 splits a leaf and makes 26 calls, all of them accepted. -/
theorem accessor_offsets_in_range_witness :
    (Attach (geometry 3 3) (BTreeIndex.new 4 4 (blankStore 12)) 0 true =
        Except.ok (ERROR_T.ERROR_NOERROR, indexOf (created (geometry 3 3) 12)) ∧
      insertAll (geometry 3 3) 8 (Except.ok (indexOf (created (geometry 3 3) 12)))
          [(10, 100), (20, 200), (30, 300), (40, 400), (25, 250)] = Except.ok oddTree ∧
      wellFormed oddTree 3 = true ∧
      (oddTree.buffercache.blocks[0]?).map (fun b => b.info.nodetype) =
        some NodeType.BTREE_SUPERBLOCK ∧
      (LookupAccesses 8 oddTree 27).length = 5 ∧
      (InsertAccesses (geometry 3 3) 8 oddTree 27 270).length = 48 ∧
      (InsertAccesses (geometry 3 3) 8 oddTree 27 270).all Access.accepted = true ∧
      (withinBounds (LookupAccesses 8 oddTree 27) = true ∧
        (LookupAccesses 8 oddTree 27).all Access.accepted = true) ∧
      (withinBounds (UpdateAccesses 8 oddTree 27) = true ∧
        (UpdateAccesses 8 oddTree 27).all Access.accepted = true) ∧
      withinBounds (InsertAccesses (geometry 3 3) 8 oddTree 27 270) = true) ∧
    (Attach (geometry 3 1) (BTreeIndex.new 4 4 (blankStore 8)) 0 true =
        Except.ok (ERROR_T.ERROR_NOERROR, indexOf (created (geometry 3 1) 8)) ∧
      insertAll (geometry 3 1) 8 (Except.ok (indexOf (created (geometry 3 1) 8)))
          [(1, 10), (2, 20), (3, 30)] =
        Except.ok (indexOf (insertAll (geometry 3 1) 8 (created (geometry 3 1) 8)
          [(1, 10), (2, 20), (3, 30)])) ∧
      (InsertAccesses (geometry 3 1) 8
        (indexOf (insertAll (geometry 3 1) 8 (created (geometry 3 1) 8)
          [(1, 10), (2, 20), (3, 30)])) 4 40).length = 26 ∧
      (InsertAccesses (geometry 3 1) 8
        (indexOf (insertAll (geometry 3 1) 8 (created (geometry 3 1) 8)
          [(1, 10), (2, 20), (3, 30)])) 4 40).all Access.accepted = true ∧
      withinBounds (InsertAccesses (geometry 3 1) 8
        (indexOf (insertAll (geometry 3 1) 8 (created (geometry 3 1) 8)
          [(1, 10), (2, 20), (3, 30)])) 4 40) = true) :=
  have h := accessor_offsets_in_range 3 3 8 (BTreeIndex.new 4 4 (blankStore 12))
    (indexOf (created (geometry 3 3) 12)) oddTree
    [(10, 100), (20, 200), (30, 300), (40, 400), (25, 250)] rfl rfl 8 27 270
  ⟨⟨rfl, rfl, by decide, rfl, by decide, by decide,
      h.2.2.2.1 (by decide) (by decide) rfl, h.1, h.2.1, h.2.2.1⟩,
    rfl, rfl, by decide, by decide,
    (accessor_offsets_in_range 3 1 8 (BTreeIndex.new 4 4 (blankStore 8))
      (indexOf (created (geometry 3 1) 8))
      (indexOf (insertAll (geometry 3 1) 8 (created (geometry 3 1) 8)
        [(1, 10), (2, 20), (3, 30)]))
      [(1, 10), (2, 20), (3, 30)] rfl rfl 8 4 40).2.2.1⟩

end BTreeLab
